import Mathlib

/-!
# Calendar module of the map dashboard: embedding and verified properties

The development follows `src/script_100_percent_working.js`, the calendar part
(`getMonday`, `renderSidebar`, `renderHeader`, `renderMain`, `renderWeekView`,
`renderMonthView`, `renderEvents`, `openEventModal`, `openQuickEventAdder`,
`saveCalendarEvents`, `loadCalendarEvents`) in the namespace `Calendar`, the
data overlay loader (`showDataPoints`) and the command box in the namespace
`Overlay`, the leadership chart (`renderLeaderBubbleMap`) in the namespace
`OrgChart` and the country selection handlers in the namespace `Selection`.

## Modelling conventions

* A JavaScript `Date` is represented by its local day number: the number of
  days between 1970-01-01 and the local calendar day of the instant.  Every
  `Date` the calendar stores is built by `new Date(y, m, d)` (local midnight)
  and moved with `setDate`, which keeps the local time of day, so the day
  number determines the instant.  The calendar arithmetic is the one of
  ECMA-262 (`DayFromYear`, `YearFromTime`, `MonthFromTime`, `DateFromTime`,
  `WeekDay`, `MakeDay`), including the two-digit-year rule of the `Date`
  constructor.  Day numbers are unbounded integers: the limit of
  8.64e15 ms on time values is outside the embedding.
* The local time zone is a fixed offset `tz`, the value of
  `getTimezoneOffset()` in minutes (UTC minus local time).
* The DOM is represented by the data the code writes into it: a grid is the
  list of its cells in document order, a cell carries its `data-*`
  attributes and its chips.  For the month view the markup of a chip is
  also kept as text and parsed by an embedding of the HTML parser
  (`parseMarkup`), which gives the elements the document holds.
* `localStorage` is the entry stored under `'calendarEvents'` together with
  a flag saying whether `setItem` succeeds; `JSON.parse` is a parameter.
* The event form is submitted through the constraint validation of the
  browser (`submitEventForm`).
* The numbers of the leadership chart are doubles, kept as the rationals
  they denote, with the rounding of IEEE 754 (`roundDouble`).
-/

namespace Calendar

set_option maxRecDepth 1000000

/-! ## Dates (ECMA-262 day arithmetic) -/

/-- `DaysInYear(y)` of ECMA-262. -/
def daysInYear (y : Int) : Int :=
  if y % 4 ≠ 0 then 365
  else if y % 100 ≠ 0 then 366
  else if y % 400 ≠ 0 then 365
  else 366

/-- `DayFromYear(y)` of ECMA-262: day number of the first day of year `y`. -/
def dayFromYear (y : Int) : Int :=
  365 * (y - 1970) + (y - 1969) / 4 - (y - 1901) / 100 + (y - 1601) / 400

/-- `InLeapYear`, as the number 0 or 1. -/
def leapDays (y : Int) : Int :=
  if daysInYear y = 366 then 1 else 0

/-- `YearFromTime`: the largest year whose first day is not after day `d`.
The year is estimated from the mean year length and corrected by one. -/
def yearFromDay (d : Int) : Int :=
  let y := 1970 + (400 * d) / 146097
  if dayFromYear (y + 1) ≤ d then y + 1
  else if d < dayFromYear y then y - 1
  else y

/-- `DayWithinYear` of ECMA-262. -/
def dayWithinYear (d : Int) : Int :=
  d - dayFromYear (yearFromDay d)

/-- Day within the year on which month `m` (0..11) starts, for a year with
`l` leap days: the thresholds of `MonthFromTime`. -/
def monthStart (m : Int) (l : Int) : Int :=
  if m = 0 then 0
  else if m = 1 then 31
  else if m = 2 then 59 + l
  else if m = 3 then 90 + l
  else if m = 4 then 120 + l
  else if m = 5 then 151 + l
  else if m = 6 then 181 + l
  else if m = 7 then 212 + l
  else if m = 8 then 243 + l
  else if m = 9 then 273 + l
  else if m = 10 then 304 + l
  else 334 + l

/-- `MonthFromTime` on a day within the year. -/
def monthOfYearDay (w : Int) (l : Int) : Int :=
  if w < 31 then 0
  else if w < 59 + l then 1
  else if w < 90 + l then 2
  else if w < 120 + l then 3
  else if w < 151 + l then 4
  else if w < 181 + l then 5
  else if w < 212 + l then 6
  else if w < 243 + l then 7
  else if w < 273 + l then 8
  else if w < 304 + l then 9
  else if w < 334 + l then 10
  else 11

/-- `Date.prototype.getFullYear`. -/
def getFullYear (d : Int) : Int := yearFromDay d

/-- `Date.prototype.getMonth` (0 = January). -/
def getMonth (d : Int) : Int :=
  monthOfYearDay (dayWithinYear d) (leapDays (yearFromDay d))

/-- `Date.prototype.getDate`: `DateFromTime`. -/
def getDate (d : Int) : Int :=
  dayWithinYear d - monthStart (getMonth d) (leapDays (yearFromDay d)) + 1

/-- `Date.prototype.getDay`: `WeekDay`, 0 = Sunday; 1970-01-01 is a Thursday. -/
def getDay (d : Int) : Int := (d + 4) % 7

/-- `MakeDay(year, month, date)` of ECMA-262. -/
def makeDay (year month date : Int) : Int :=
  let ym := year + month / 12
  let mn := month % 12
  dayFromYear ym + monthStart mn (leapDays ym) + date - 1

/-- The year rule of the `Date` constructor: years 0 to 99 stand for 1900 to
1999. -/
def fullYear (year : Int) : Int :=
  if 0 ≤ year ∧ year ≤ 99 then 1900 + year else year

/-- The constructor `new Date(year, month, date)`, as a local day number. -/
def newDate (year month date : Int) : Int :=
  makeDay (fullYear year) month date

/-- `Date.prototype.setDate(date)`, returning the new value of the Date. -/
def setDate (d : Int) (date : Int) : Int :=
  makeDay (yearFromDay d) (getMonth d) date

/-- Source: `getMonday(d)`. -/
def getMonday (d : Int) : Int :=
  let day := getDay d
  let diff := getDate d - day + (if day = 0 then -6 else 1)
  setDate d diff

/-- Source: `getToday()`, from the local day number of the current instant. -/
structure Today where
  year : Int
  month : Int
  day : Int
deriving DecidableEq, Repr

/-- Source: `getToday()`. -/
def getToday (now : Int) : Today :=
  { year := getFullYear now, month := getMonth now, day := getDate now }

/-- Length of month `m` (0..11) in a year with `l` leap days. -/
def monthLength (m : Int) (l : Int) : Int :=
  if m = 1 then 28 + l
  else if m = 3 ∨ m = 5 ∨ m = 8 ∨ m = 10 then 30
  else 31

/-! ## View state and navigation -/

/-- The `view` field of `calendarState`: `'week'` or `'month'`. -/
inductive View where
  | week
  | month
deriving DecidableEq, Repr

/-- Source: the object `calendarState`. `weekStart` is a Date (local day
number), the other fields are numbers. -/
structure CalendarState where
  view : View
  year : Int
  month : Int
  weekStart : Int
  selectedDay : Int
deriving DecidableEq, Repr

/-- Source: the initialisation of `calendarState` in `renderGoogleCalendar`,
run when the state is still `null`; `now` is the local day number of the
current instant. -/
def initState (now : Int) : CalendarState :=
  let today := getToday now
  { view := View.week
    year := today.year
    month := today.month
    weekStart := getMonday (newDate today.year today.month today.day)
    selectedDay := today.day }

/-- Source: `new Date(year, month, 1).getDay()` in `renderSidebar` and
`renderMonthView`. -/
def firstDay (year month : Int) : Int := getDay (newDate year month 1)

/-- Source: `new Date(year, month + 1, 0).getDate()` in `renderSidebar` and
`renderMonthView`. -/
def daysInMonth (year month : Int) : Int := getDate (newDate year (month + 1) 0)

/-- Source: the number of leading empty cells, `firstDay === 0 ? 6 : firstDay-1`. -/
def leadingBlanks (fd : Int) : Int := if fd = 0 then 6 else fd - 1

/-- Source: the loop `for (let i = 0; i < 42; i++)` of `renderSidebar` and of
`renderMonthView`, with its counter `day`: `n` iterations are left, `i` is
the index of the current cell. A cell is `none` (empty `div`) or the number of
its day. -/
def gridLoop (blanks dim : Int) : Nat → Int → Int → List (Option Int)
  | 0, _, _ => []
  | n + 1, i, day =>
    if i < blanks ∨ day > dim then none :: gridLoop blanks dim n (i + 1) day
    else some day :: gridLoop blanks dim n (i + 1) (day + 1)

/-- The 42 cells of the month grid of `(year, month)`, in document order. -/
def monthCells (year month : Int) : List (Option Int) :=
  gridLoop (leadingBlanks (firstDay year month)) (daysInMonth year month) 42 0 1

/-- A cell of the mini-month grid of the sidebar: an empty `div`, or a
`.mini-day` with its `data-day` and the classes `mini-today`, `mini-selected`. -/
inductive MiniCell where
  | blank
  | day (dataDay : Int) (isToday : Bool) (selected : Bool)
deriving DecidableEq, Repr

/-- The `data-day` of a mini-month cell, if it is a day cell. -/
def MiniCell.dataDay? : MiniCell → Option Int
  | MiniCell.blank => none
  | MiniCell.day n _ _ => some n

/-- Source: the mini-month grid built by `renderSidebar` (the 42 cells after
the seven weekday headings). -/
def renderSidebar (s : CalendarState) (now : Int) : List MiniCell :=
  let today := getToday now
  (monthCells s.year s.month).map fun c =>
    match c with
    | none => MiniCell.blank
    | some day =>
      MiniCell.day day
        (decide (s.year = today.year ∧ s.month = today.month ∧ day = today.day))
        (decide (s.selectedDay = day))

/-- The user actions on the view state. `today` carries the local day number
of the instant of the click, `miniDay` the index (0..41) of the clicked cell
of the mini-month grid. -/
inductive Action where
  | today (now : Int)
  | prev
  | next
  | viewWeek
  | viewMonth
  | miniPrev
  | miniNext
  | miniDay (cell : Nat)
deriving DecidableEq, Repr

/-- Source: the month step of `mini-prev` and of `cal-prev` in month view. -/
def prevMonth (s : CalendarState) : CalendarState :=
  if s.month = 0 then { s with year := s.year - 1, month := 11 }
  else { s with month := s.month - 1 }

/-- Source: the month step of `mini-next` and of `cal-next` in month view. -/
def nextMonth (s : CalendarState) : CalendarState :=
  if s.month = 11 then { s with year := s.year + 1, month := 0 }
  else { s with month := s.month + 1 }

/-- Source: the week branch of `cal-prev` (`delta = -7`) and of `cal-next`
(`delta = 7`). -/
def shiftWeek (s : CalendarState) (delta : Int) : CalendarState :=
  let d := setDate s.weekStart (getDate s.weekStart + delta)
  { s with
    weekStart := getMonday d
    year := getFullYear d
    month := getMonth d
    selectedDay := getDate d }

/-- Source: the `onclick` of a `.mini-day` element. `cell` is the clicked
cell of the grid: only a day cell has the handler, `day` is its `data-day`;
the `year` and `month` of the closure are those of the state the grid was
rendered from. -/
def miniDayClick (s : CalendarState) (cell : Option (Option Int)) : CalendarState :=
  match cell with
  | some (some day) =>
    if s.view = View.week then
      { s with selectedDay := day, weekStart := getMonday (newDate s.year s.month day) }
    else { s with selectedDay := day }
  | _ => s

/-- Source: the `onclick` handlers installed by `renderHeader` and
`renderSidebar`, as a function on the view state. -/
def step (s : CalendarState) : Action → CalendarState
  | Action.today now =>
    let today := getToday now
    { s with
      year := today.year
      month := today.month
      selectedDay := today.day
      weekStart := getMonday (newDate today.year today.month today.day) }
  | Action.prev =>
    if s.view = View.week then shiftWeek s (-7)
    else { prevMonth s with selectedDay := 1 }
  | Action.next =>
    if s.view = View.week then shiftWeek s 7
    else { nextMonth s with selectedDay := 1 }
  | Action.viewWeek =>
    { s with
      view := View.week
      weekStart := getMonday (newDate s.year s.month s.selectedDay) }
  | Action.viewMonth => { s with view := View.month }
  | Action.miniPrev => prevMonth s
  | Action.miniNext => nextMonth s
  | Action.miniDay cell => miniDayClick s ((monthCells s.year s.month).get? cell)

/-- The state after a sequence of actions. -/
def run (s : CalendarState) (acts : List Action) : CalendarState :=
  acts.foldl step s

/-! ## Calendars, events and the rendered grids -/

/-- Source: an entry of `calendarList`. -/
structure CalendarDefinition where
  id : String
  name : String
  color : String
  checked : Bool
deriving DecidableEq, Repr

/-- Source: an entry of `calendarEvents`, with the seven fields the two save
handlers write. -/
structure CalendarEvent where
  id : String
  title : String
  calendar : String
  date : String
  hour : String
  link : String
  desc : String
deriving DecidableEq, Repr

/-- Source: the static initial value of `window.calendarList`. -/
def defaultCalendarList : List CalendarDefinition :=
  [{ id := "default", name := "Default", color := "#00e6ff", checked := true }]

/-- Source: `pad(n)`, `n < 10 ? '0' + n : n`, followed by the conversion to
text of the template string. -/
def pad (n : Int) : String :=
  if n < 10 then "0" ++ toString n else toString n

/-- Decimal digits of `n`, padded with zeros on the left to `width` characters. -/
def zeroPad (width : Nat) (n : Nat) : String :=
  let digits := (toString n).data
  String.mk (List.replicate (width - digits.length) '0' ++ digits)

/-- The year of `Date.prototype.toISOString`: four digits for the years 0 to
9999, a sign and six digits otherwise. -/
def isoYear (y : Int) : String :=
  if 0 ≤ y ∧ y ≤ 9999 then zeroPad 4 y.toNat
  else if y < 0 then "-" ++ zeroPad 6 (-y).toNat
  else "+" ++ zeroPad 6 y.toNat

/-- `Date.prototype.toISOString()` of the Date that is local midnight of day
`d`, in a zone whose `getTimezoneOffset()` is `tz` minutes: the UTC date and
time of that instant. -/
def toISOString (tz : Int) (d : Int) : String :=
  let minutes := d * 1440 + tz
  let utcDay := minutes / 1440
  let minuteOfDay := minutes % 1440
  isoYear (getFullYear utcDay) ++ "-" ++ zeroPad 2 (getMonth utcDay + 1).toNat ++ "-" ++
    zeroPad 2 (getDate utcDay).toNat ++ "T" ++ zeroPad 2 (minuteOfDay / 60).toNat ++ ":" ++
    zeroPad 2 (minuteOfDay % 60).toNat ++ ":00.000Z"

/-- Source: `d.toISOString().slice(0,10)`. -/
def isoDate (tz : Int) (d : Int) : String :=
  String.mk ((toISOString tz d).data.take 10)

/-- An `.event-chip` element: its `data-id`, the text it displays, the link
and the colour of its calendar. -/
structure EventChip where
  dataId : String
  text : String
  link : String
  color : String
deriving DecidableEq, Repr

/-- A `.week-day` element of the week header. -/
structure WeekDay where
  isToday : Bool
  dataDate : String
  label : String
  num : Int
deriving DecidableEq, Repr

/-- A `.week-cell` element: its `data-date`, its `data-hour` and the chips it
contains. -/
structure WeekCell where
  dataDate : String
  dataHour : String
  chips : List EventChip
deriving DecidableEq, Repr

/-- The content of `#calendar-main` in week view: the seven `.week-day`
headings and the `.week-cell` elements in document order (hour by hour, and
Monday to Sunday within an hour). The `.week-hour` labels and the column
overlay carry no event data and are left out. -/
structure WeekView where
  header : List WeekDay
  cells : List WeekCell
deriving DecidableEq, Repr

/-- A `.month-cell` element: a padding cell, which has neither `data-date`
nor a `.month-events` container, or a day cell. -/
inductive MonthCell where
  | blank
  | day (dataDate : String) (isToday : Bool) (num : Int) (events : List EventChip)
deriving DecidableEq, Repr

/-- The content of `#calendar-main` after `renderMain`. -/
inductive MainView where
  | week (v : WeekView)
  | month (cells : List MonthCell)
deriving DecidableEq, Repr

/-- Source: `localStorage`, as far as the calendar uses it: the text stored
under `'calendarEvents'` (`none` when the key is absent) and whether `setItem`
succeeds (it throws when the quota is exceeded or storage is disabled). -/
structure Storage where
  entry : Option String
  writable : Bool
deriving DecidableEq, Repr

/-- The module-level variables of the calendar (`calendarState`,
`calendarList`, `calendarEvents`) and the storage. -/
structure App where
  state : CalendarState
  calendarList : List CalendarDefinition
  calendarEvents : List CalendarEvent
  storage : Storage
deriving DecidableEq, Repr

/-- Source: `weekDays` in `renderWeekView`. -/
def weekDays : List String := ["Mon", "Tue", "Wed", "Thu", "Fri", "Sat", "Sun"]

/-- Source: the array `days` of `renderWeekView`: `start` moved by
`setDate(start.getDate()+i)` for `i = 0..6`. -/
def weekDates (weekStart : Int) : List Int :=
  (List.range 7).map fun (i : Nat) => setDate weekStart (getDate weekStart + (i : Int))

/-- Source: `renderWeekView`. It writes the header and the grid of empty
cells and returns; it does not call `renderEvents`. -/
def renderWeekView (s : CalendarState) (tz now : Int) : WeekView :=
  let days := weekDates s.weekStart
  let today := getToday now
  { header :=
      (days.zip weekDays).map fun (d, label) =>
        { isToday := decide (getFullYear d = today.year ∧ getMonth d = today.month ∧
            getDate d = today.day)
          dataDate := isoDate tz d
          label := label
          num := getDate d }
    cells :=
      (List.range 16).flatMap fun (k : Nat) =>
        days.map fun d =>
          { dataDate := isoDate tz d, dataHour := toString (7 + k), chips := [] } }

/-- Source: `calendarList.filter(c => c.checked).map(c => c.id)`. -/
def activeCals (cals : List CalendarDefinition) : List String :=
  (cals.filter fun c => c.checked).map fun c => c.id

/-- Source: `cal ? cal.color : '#00e6ff'` for
`cal = calendarList.find(c => c.id === ev.calendar)`. -/
def chipColor (cals : List CalendarDefinition) (ev : CalendarEvent) : String :=
  match cals.find? fun c => c.id = ev.calendar with
  | some cal => cal.color
  | none => "#00e6ff"

/-- Source: the chip appended by the week branch of `renderEvents`; it shows
`ev.title || '(No title)'`. -/
def weekChip (cals : List CalendarDefinition) (ev : CalendarEvent) : EventChip :=
  { dataId := ev.id
    text := if ev.title = "" then "(No title)" else ev.title
    link := ev.link
    color := chipColor cals ev }

/-- Source: the chip appended by the month branch of `renderEvents`, as the
record of the texts written into its markup; it shows `ev.title`. The markup
itself is `monthChipMarkup`, and the element the parser makes of it, for
texts that hold no markup, is `chipElement` of this record. -/
def monthChip (cals : List CalendarDefinition) (ev : CalendarEvent) : EventChip :=
  { dataId := ev.id
    text := ev.title
    link := ev.link
    color := chipColor cals ev }

/-- Source: `querySelector` for `.week-cell[data-date=..][data-hour=..]`
followed by `cell.innerHTML += chip`: the chip goes to the first matching cell
in document order, if there is one. The two attribute values are compared as
texts; a date or hour with a quote or backslash in it, which would break the
selector, is not considered. -/
def addWeekChip (date hour : String) (chip : EventChip) : List WeekCell → List WeekCell
  | [] => []
  | c :: cs =>
    if c.dataDate = date ∧ c.dataHour = hour then { c with chips := c.chips ++ [chip] } :: cs
    else c :: addWeekChip date hour chip cs

/-- Source: `querySelector` for `.month-cell[data-date=..] .month-events`
followed by `cell.innerHTML += chip`, on the structured view: the chip goes
to the first cell with that date. The document, with the markup parsed, is
`addMonthChipDom`; the two agree for texts that hold no markup
(`renderMonthViewDom_eq`). -/
def addMonthChip (date : String) (chip : EventChip) : List MonthCell → List MonthCell
  | [] => []
  | MonthCell.blank :: cs => MonthCell.blank :: addMonthChip date chip cs
  | MonthCell.day dataDate isToday num events :: cs =>
    if dataDate = date then MonthCell.day dataDate isToday num (events ++ [chip]) :: cs
    else MonthCell.day dataDate isToday num events :: addMonthChip date chip cs

/-- Source: `renderEvents('week', ...)`: the cells are cleared, then every
event of a checked calendar is put into the cell matching its date and hour. -/
def renderEventsWeek (cals : List CalendarDefinition) (events : List CalendarEvent)
    (cells : List WeekCell) : List WeekCell :=
  events.foldl
    (fun acc ev =>
      if ev.calendar ∈ activeCals cals then addWeekChip ev.date ev.hour (weekChip cals ev) acc
      else acc)
    (cells.map fun c => { c with chips := [] })

/-- Source: `renderEvents('month', ...)`. -/
def renderEventsMonth (cals : List CalendarDefinition) (events : List CalendarEvent)
    (cells : List MonthCell) : List MonthCell :=
  events.foldl
    (fun acc ev =>
      if ev.calendar ∈ activeCals cals then addMonthChip ev.date (monthChip cals ev) acc
      else acc)
    (cells.map fun c =>
      match c with
      | MonthCell.blank => MonthCell.blank
      | MonthCell.day dataDate isToday num _ => MonthCell.day dataDate isToday num [])

/-- Source: `renderMonthView`: the 42 cells, then `renderEvents('month', ...)`. -/
def renderMonthView (app : App) (now : Int) : List MonthCell :=
  let year := app.state.year
  let month := app.state.month
  let today := getToday now
  renderEventsMonth app.calendarList app.calendarEvents
    ((monthCells year month).map fun c =>
      match c with
      | none => MonthCell.blank
      | some day =>
        MonthCell.day (toString year ++ "-" ++ pad (month + 1) ++ "-" ++ pad day)
          (decide (year = today.year ∧ month = today.month ∧ day = today.day)) day [])

/-- Source: `renderMain`. -/
def renderMain (app : App) (tz now : Int) : MainView :=
  if app.state.view = View.week then MainView.week (renderWeekView app.state tz now)
  else MainView.month (renderMonthView app now)

/-! ## Persistence -/

/-- Lower-case hexadecimal digit. -/
def hexDigit (n : Nat) : Char :=
  if n < 10 then Char.ofNat (48 + n) else Char.ofNat (87 + n)

/-- `QuoteJSONString` of ECMA-262 on one character. -/
def jsonEscape (c : Char) : List Char :=
  if c = '\"' then ['\\', '\"']
  else if c = '\\' then ['\\', '\\']
  else if c.toNat = 8 then ['\\', 'b']
  else if c.toNat = 9 then ['\\', 't']
  else if c.toNat = 10 then ['\\', 'n']
  else if c.toNat = 12 then ['\\', 'f']
  else if c.toNat = 13 then ['\\', 'r']
  else if c.toNat < 32 then ['\\', 'u', '0', '0', hexDigit (c.toNat / 16), hexDigit (c.toNat % 16)]
  else [c]

/-- `JSON.stringify` of a string. -/
def jsonQuote (s : String) : String :=
  String.mk ('\"' :: (s.data.flatMap jsonEscape ++ ['\"']))

/-- `JSON.stringify` of an event record, the keys in the order in which both
save handlers create them. -/
def stringifyEvent (ev : CalendarEvent) : String :=
  "\x7b\"id\":" ++ jsonQuote ev.id ++ ",\"title\":" ++ jsonQuote ev.title ++
    ",\"calendar\":" ++ jsonQuote ev.calendar ++ ",\"date\":" ++ jsonQuote ev.date ++
    ",\"hour\":" ++ jsonQuote ev.hour ++ ",\"link\":" ++ jsonQuote ev.link ++
    ",\"desc\":" ++ jsonQuote ev.desc ++ "\x7d"

/-- Source: `JSON.stringify(calendarEvents)`. -/
def stringifyEvents (events : List CalendarEvent) : String :=
  "[" ++ ",".intercalate (events.map stringifyEvent) ++ "]"

/-- Source: `saveCalendarEvents`: `setItem` inside `try`, with an empty `catch`. -/
def saveCalendarEvents (app : App) : App :=
  if app.storage.writable then
    { app with storage := { app.storage with entry := some (stringifyEvents app.calendarEvents) } }
  else app

/-- Source: `loadCalendarEvents`. `parse` is `JSON.parse` on texts denoting an
array of event records; `none` is a thrown `SyntaxError`. An absent key and
the empty text are falsy and give the empty array. -/
def loadCalendarEvents (parse : String → Option (List CalendarEvent)) (app : App) : App :=
  match app.storage.entry with
  | none => { app with calendarEvents := [] }
  | some data =>
    if data = "" then { app with calendarEvents := [] }
    else
      match parse data with
      | some events => { app with calendarEvents := events }
      | none => { app with calendarEvents := [] }

/-- Source: `renderGoogleCalendar`, once the state exists and with the
calendar elements present: the events are read back from storage, then the
sidebar, the header and the main grid are rebuilt from the variables. -/
def renderGoogleCalendar (parse : String → Option (List CalendarEvent)) (app : App) : App :=
  loadCalendarEvents parse app

/-! ## Quick adder -/

/-- The characters removed by `String.prototype.trim`: `WhiteSpace` and
`LineTerminator` of ECMA-262. -/
def isJsWhiteSpace (c : Char) : Bool :=
  let n := c.toNat
  n = 9 || n = 10 || n = 11 || n = 12 || n = 13 || n = 32 || n = 160 || n = 5760 ||
    (8192 ≤ n && n ≤ 8202) || n = 8232 || n = 8233 || n = 8239 || n = 8287 || n = 12288 ||
    n = 65279

/-- `String.prototype.trim`. -/
def jsTrim (s : String) : String :=
  String.mk ((s.data.dropWhile isJsWhiteSpace).reverse.dropWhile isJsWhiteSpace).reverse

/-- The values of the fields of the quick adder when Save is pressed. -/
structure QuickInput where
  title : String
  date : String
  hour : String
  link : String
  desc : String
deriving DecidableEq, Repr

/-- What a handler leaves behind: the variables and storage, the message of
`alert` if it was called, and whether the popup or modal was closed. -/
structure Outcome where
  app : App
  alert : Option String
  closed : Bool
deriving DecidableEq, Repr

/-- Source: `(calendarList.find(c => c.checked) || calendarList[0]).id`;
`none` when the list is empty and the property access throws. -/
def quickCalendarId (cals : List CalendarDefinition) : Option String :=
  match cals.find? fun c => c.checked with
  | some c => some c.id
  | none => cals.head?.map fun c => c.id

/-- Source: the identity `'ev'+Date.now()`; `ms` is the value of `Date.now()`. -/
def newEventId (ms : Nat) : String := "ev" ++ toString ms

/-- Source: the `#quick-save` click handler of `openQuickEventAdder`. -/
def quickSave (parse : String → Option (List CalendarEvent)) (ms : Nat) (app : App)
    (inp : QuickInput) : Outcome :=
  let title := jsTrim inp.title
  let dateVal := inp.date
  let hourVal := inp.hour
  let link := jsTrim inp.link
  let desc := jsTrim inp.desc
  if title = "" ∨ dateVal = "" then
    { app := app, alert := some "Title and date are required.", closed := false }
  else
    match quickCalendarId app.calendarList with
    | none => { app := app, alert := none, closed := false }
    | some calId =>
      let ev : CalendarEvent :=
        { id := newEventId ms, title := title, calendar := calId, date := dateVal,
          hour := hourVal, link := link, desc := desc }
      let pushed := { app with calendarEvents := app.calendarEvents ++ [ev] }
      { app := renderGoogleCalendar parse (saveCalendarEvents pushed), alert := none,
        closed := true }

/-! ## Event modal -/

/-- The values of the six fields of `#event-form`. -/
structure EventForm where
  title : String
  calendar : String
  date : String
  hour : String
  link : String
  desc : String
deriving DecidableEq, Repr

/-- The closure variables `editing` and `ev` of `openEventModal`, shared by
its two handlers. `ev` is a reference to an element of `calendarEvents`,
kept as the position of that element; the array is the one the modal was
opened on. -/
structure EventModal where
  form : EventForm
  deleteShown : Bool
  heading : String
  editing : Bool
  ev : Option Nat
deriving DecidableEq, Repr

/-- The first argument `openEventModal` receives: nothing, a string, or
another value (the sidebar button installs `openEventModal` itself as click
handler, so it receives the click event). -/
inductive DateArg where
  | undefined
  | str (s : String)
  | other
deriving DecidableEq, Repr

/-- Value of a decimal digit string, `none` if a character is not a digit. -/
def digitsValue (cs : List Char) : Option Nat :=
  cs.foldl
    (fun acc c =>
      match acc with
      | none => none
      | some n => if c.isDigit then some (10 * n + (c.toNat - 48)) else none)
    (some 0)

/-- The test `/^\d{4}-\d{2}-\d{2}$/` of `openEventModal` and of the click
handler of the main grid. A `$` also matches before a final line feed only
with the `m` flag, which is not set. -/
def matchesDatePattern (s : String) : Bool :=
  match s.data with
  | [y1, y2, y3, y4, d1, m1, m2, d2, a1, a2] =>
    y1.isDigit && y2.isDigit && y3.isDigit && y4.isDigit && d1 = '-' && m1.isDigit &&
      m2.isDigit && d2 = '-' && a1.isDigit && a2.isDigit
  | _ => false

/-- A valid date string of HTML: a year of four or more digits greater than
zero, `-`, a month 01..12, `-`, a day of that month. -/
def isValidDateString (s : String) : Bool :=
  let cs := s.data
  let n := cs.length
  if n < 10 then false
  else
    let ys := cs.take (n - 6)
    let rest := cs.drop (n - 6)
    match rest with
    | [d1, m1, m2, d2, a1, a2] =>
      match digitsValue ys, digitsValue [m1, m2], digitsValue [a1, a2] with
      | some y, some m, some a =>
        d1 = '-' && d2 = '-' && decide (0 < y) && decide (1 ≤ m) && decide (m ≤ 12) &&
          decide (1 ≤ a) && decide ((a : Int) ≤ monthLength ((m : Int) - 1) (leapDays (y : Int)))
      | _, _, _ => false
    | _ => false

/-- Assignment to the `value` of an `input type="date"`: the value
sanitisation of HTML keeps a valid date string and replaces anything else by
the empty string. -/
def setDateInput (v : String) : String :=
  if isValidDateString v then v else ""

/-- Assignment to the `value` of a `select`: the option with that value gets
selected; when there is none, no option is selected and `value` reads `""`. -/
def setSelect (options : List String) (v : String) : String :=
  if v ∈ options then v else ""

/-- Assignment to the `value` of an `input type="text"`: line breaks are
stripped. -/
def setTextInput (v : String) : String :=
  String.mk (v.data.filter fun c => c ≠ '\n' ∧ c ≠ '\r')

/-- Assignment to the `value` of an `input type="url"`: line breaks are
stripped, then leading and trailing ASCII whitespace. -/
def setUrlInput (v : String) : String :=
  let ws : Char → Bool := fun c => c = ' ' ∨ c = '\t' ∨ c.toNat = 12
  String.mk
    (((v.data.filter fun c => c ≠ '\n' ∧ c ≠ '\r').dropWhile ws).reverse.dropWhile ws).reverse

/-- Reading the `value` of a `textarea` after an assignment: every line break
(CR LF, CR) is normalised to LF. -/
def normalizeNewlines : List Char → List Char
  | '\r' :: '\n' :: cs => '\n' :: normalizeNewlines cs
  | '\r' :: cs => '\n' :: normalizeNewlines cs
  | c :: cs => c :: normalizeNewlines cs
  | [] => []

/-- Assignment to the `value` of a `textarea`. -/
def setTextArea (v : String) : String := String.mk (normalizeNewlines v.data)

/-- Source: the options of `#event-hour` and `#quick-hour`: `""`, then
`"7"` to `"22"`. -/
def hourOptions : List String :=
  "" :: (List.range 16).map fun (i : Nat) => toString (7 + i)

/-- Source: `calendarEvents.find(e => e.id === eventId)`: the first element
with that id, together with its position (the reference kept in `ev`). -/
def findRef (eventId : String) : List CalendarEvent → Option (Nat × CalendarEvent)
  | [] => none
  | e :: es =>
    if e.id = eventId then some (0, e)
    else (findRef eventId es).map fun r => (r.1 + 1, r.2)

/-- Source: the `else` branch of `openEventModal`, a fresh form for a new
event; `none` when `calendarList[0].id` throws on an empty list. -/
def openCreateMode (cals : List CalendarDefinition) (date : DateArg) (hour : Option String) :
    Option EventModal :=
  match cals.head? with
  | none => none
  | some c0 =>
    some
      { form :=
          { title := ""
            calendar := setSelect (cals.map fun c => c.id) c0.id
            date :=
              match date with
              | DateArg.str d => if matchesDatePattern d then setDateInput d else ""
              | _ => ""
            hour := setSelect hourOptions (hour.getD "")
            link := ""
            desc := "" }
        deleteShown := false
        heading := "New Event"
        editing := false
        ev := none }

/-- Source: the branch `if (ev)` of `openEventModal`: the form is filled from
the event found at position `i`, the Delete button is shown. -/
def openEditMode (cals : List CalendarDefinition) (i : Nat) (ev : CalendarEvent) : EventModal :=
  { form :=
      { title := setTextInput ev.title
        calendar := setSelect (cals.map fun c => c.id) ev.calendar
        date := setDateInput ev.date
        hour := setSelect hourOptions ev.hour
        link := setUrlInput ev.link
        desc := setTextArea ev.desc }
    deleteShown := true
    heading := "Edit Event"
    editing := true
    ev := some i }

/-- Source: `openEventModal(date, hour, eventId)` up to the installation of
the handlers. `prev` is what the reused form and modal showed before; refilling
the two `select`s selects their first option. An `eventId` that is absent or
empty is falsy and opens the modal for a new event. -/
def openEventModal (cals : List CalendarDefinition) (events : List CalendarEvent)
    (prev : EventModal) (date : DateArg) (hour : Option String) (eventId : Option String) :
    Option EventModal :=
  let calOptions := cals.map fun c => c.id
  match eventId with
  | some id =>
    if id ≠ "" then
      match findRef id events with
      | some (i, ev) => some (openEditMode cals i ev)
      | none =>
        some
          { form := { prev.form with calendar := calOptions.head?.getD "", hour := "" }
            deleteShown := prev.deleteShown
            heading := prev.heading
            editing := false
            ev := none }
    else openCreateMode cals date hour
  | none => openCreateMode cals date hour

/-- The array after the element at position `i` was changed in place by `f`. -/
def updateAt (f : CalendarEvent → CalendarEvent) : List CalendarEvent → Nat → List CalendarEvent
  | [], _ => []
  | e :: es, 0 => f e :: es
  | e :: es, i + 1 => e :: updateAt f es i

/-- Source: the assignments `ev.title = title.value; ...` of `form.onsubmit`:
the referenced element is changed in place, its `id` stays. -/
def applyEdit (form : EventForm) (ev : CalendarEvent) : CalendarEvent :=
  { ev with
    title := form.title
    calendar := form.calendar
    date := form.date
    hour := form.hour
    link := form.link
    desc := form.desc }

/-- Source: the object pushed by `form.onsubmit` for a new event: the id
`'ev'+Date.now()` and the values of the form as they are. -/
def formEvent (ms : Nat) (form : EventForm) : CalendarEvent :=
  { id := newEventId ms, title := form.title, calendar := form.calendar, date := form.date,
    hour := form.hour, link := form.link, desc := form.desc }

/-- Source: `form.onsubmit` of `openEventModal`; `form` holds the values of
the fields when the event fires, `ms` is `Date.now()`. The handler does not
inspect the values; which forms reach it is decided by the browser, see
`submitEventForm`. -/
def formOnSubmit (parse : String → Option (List CalendarEvent)) (ms : Nat) (app : App)
    (modal : EventModal) (form : EventForm) : Outcome :=
  let events :=
    if modal.editing then
      match modal.ev with
      | some i => updateAt (applyEdit form) app.calendarEvents i
      | none => app.calendarEvents
    else
      app.calendarEvents ++ [formEvent ms form]
  { app := renderGoogleCalendar parse (saveCalendarEvents { app with calendarEvents := events })
    alert := none
    closed := true }

/-- Source: `delBtn.onclick` of `openEventModal`. -/
def deleteOnClick (parse : String → Option (List CalendarEvent)) (app : App)
    (modal : EventModal) : Outcome :=
  match modal.editing, modal.ev.bind fun i => app.calendarEvents.get? i with
  | true, some ev =>
    let events := app.calendarEvents.filter fun e => e.id ≠ ev.id
    { app := renderGoogleCalendar parse (saveCalendarEvents { app with calendarEvents := events })
      alert := none
      closed := true }
  | _, _ => { app := app, alert := none, closed := false }

/-- The restriction of `JSON.parse` to the serialisations of the listed
collections: a text that `JSON.stringify` produces for one of them is parsed
back to it, any other text is rejected. -/
def parseTable (known : List (List CalendarEvent)) (text : String) :
    Option (List CalendarEvent) :=
  known.find? fun events => stringifyEvents events = text

/-- The event of the example of the specification: title "Standup", date
"2024-03-04", hour "9", in the default calendar. -/
def standupEvent : CalendarEvent :=
  { id := "ev1709542800000", title := "Standup", calendar := "default", date := "2024-03-04",
    hour := "9", link := "", desc := "" }

/-- The calendar in week view on the week of Monday 2024-03-04 (day 19786),
holding the Standup event. -/
def standupApp : App :=
  { state := { view := View.week, year := 2024, month := 2, weekStart := 19786, selectedDay := 4 }
    calendarList := defaultCalendarList
    calendarEvents := [standupEvent]
    storage := { entry := some (stringifyEvents [standupEvent]), writable := true } }

/-- A modal that has not been opened before: empty fields. -/
def freshModal : EventModal :=
  { form := { title := "", calendar := "", date := "", hour := "", link := "", desc := "" }
    deleteShown := false
    heading := "New Event"
    editing := false
    ev := none }

/-- The event the quick adder is expected to create from its input at time
`ms`, for the calendar list `cals`. -/
def quickEvent (ms : Nat) (cals : List CalendarDefinition) (inp : QuickInput) : CalendarEvent :=
  { id := newEventId ms
    title := jsTrim inp.title
    calendar := (quickCalendarId cals).getD ""
    date := inp.date
    hour := inp.hour
    link := jsTrim inp.link
    desc := jsTrim inp.desc }

/-- The collection in which the first event with id `eventId` has its title,
calendar, date, hour, link and desc replaced by the values of the form, and
everything else is as before. -/
def editedEvents (eventId : String) (form : EventForm) : List CalendarEvent → List CalendarEvent
  | [] => []
  | e :: es =>
    if e.id = eventId then applyEdit form e :: es else e :: editedEvents eventId form es

/-- The calendar with an empty collection and nothing stored. -/
def emptyApp : App :=
  { standupApp with calendarEvents := [], storage := { entry := none, writable := true } }

/-- A form whose six fields are empty. -/
def emptyForm : EventForm :=
  { title := "", calendar := "", date := "", hour := "", link := "", desc := "" }

/-- The chips inside the first week-view cell carrying the given `data-date`
and `data-hour`; `none` when the view has no such cell. -/
def weekCellChips (v : MainView) (date hour : String) : Option (List EventChip) :=
  match v with
  | MainView.week w =>
    (w.cells.find? fun c => c.dataDate = date ∧ c.dataHour = hour).map fun c => c.chips
  | MainView.month _ => none

/-! ## Month view: expected content -/

/-- The `data-date` of a month cell; a padding cell has none. -/
def monthCellDate : MonthCell → Option String
  | MonthCell.blank => none
  | MonthCell.day dataDate _ _ _ => some dataDate

/-- The chips inside a month cell; a padding cell has no container for them. -/
def monthCellChips : MonthCell → List EventChip
  | MonthCell.blank => []
  | MonthCell.day _ _ _ events => events

/-- The chips the month view is expected to show in the cell of date `date`:
one chip per event of that date whose calendar is checked, in the order of
the collection. -/
def expectedMonthChips (cals : List CalendarDefinition) (events : List CalendarEvent)
    (date : String) : List EventChip :=
  (events.filter fun ev =>
    decide (∃ c ∈ cals, c.checked = true ∧ c.id = ev.calendar) && decide (ev.date = date)).map
    (monthChip cals)

/-- Source: the `data-date` written by `renderMonthView` for the day `day`:
`year-pad(month+1)-pad(day)`. -/
def monthDataDate (year month day : Int) : String :=
  toString year ++ "-" ++ pad (month + 1) ++ "-" ++ pad day

/-- A month cell with its chips replaced. -/
def MonthCell.withChips (chips : String → List EventChip) : MonthCell → MonthCell
  | MonthCell.blank => MonthCell.blank
  | MonthCell.day dataDate isToday num _ => MonthCell.day dataDate isToday num (chips dataDate)

/-! ## Calendar list of the sidebar -/

/-- A checkbox of the `.calendar-list` of the sidebar: its `data-cal` and
whether it is rendered checked. -/
structure CalendarCheckbox where
  dataCal : String
  checked : Bool
  color : String
  name : String
deriving DecidableEq, Repr

/-- Source: the loop `for (const cal of calendarList)` of `renderSidebar`. -/
def renderCalendarList (cals : List CalendarDefinition) : List CalendarCheckbox :=
  cals.map fun cal =>
    { dataCal := cal.id, checked := cal.checked, color := cal.color, name := cal.name }

/-- Source: `const cal = calendarList.find(c => c.id === cb.dataset.cal);
if (cal) cal.checked = cb.checked;`: the first calendar with that id gets the
state of the checkbox. -/
def setChecked (dataCal : String) (checked : Bool) :
    List CalendarDefinition → List CalendarDefinition
  | [] => []
  | c :: cs =>
    if c.id = dataCal then { c with checked := checked } :: cs
    else c :: setChecked dataCal checked cs

/-- Source: `cb.onchange` of a calendar checkbox; `checked` is the state of
the checkbox after the click. -/
def calendarCheckboxChange (parse : String → Option (List CalendarEvent)) (app : App)
    (dataCal : String) (checked : Bool) : App :=
  renderGoogleCalendar parse { app with calendarList := setChecked dataCal checked app.calendarList }

/-- The user clicks the `i`-th checkbox of the calendar list: the browser
inverts its rendered state and fires `onchange`. -/
def toggleCheckbox (parse : String → Option (List CalendarEvent)) (app : App) (i : Nat) : App :=
  match (renderCalendarList app.calendarList).get? i with
  | some cb => calendarCheckboxChange parse app cb.dataCal (!cb.checked)
  | none => app

/-! ## Stored text as JavaScript values -/

/-- The values `JSON.parse` returns. A number is kept as the decimal it was
written as, `mantissa * 10 ^ exponent`; the fields of an object are in the
order of the text. -/
inductive JsValue where
  | null
  | bool (b : Bool)
  | num (mantissa : Int) (exponent : Int)
  | str (s : String)
  | arr (items : List JsValue)
  | obj (fields : List (String × JsValue))

/-- `Array.isArray`. -/
def JsValue.isArray : JsValue → Bool
  | JsValue.arr _ => true
  | _ => false

/-- Whether the value is the empty array. -/
def JsValue.isEmptyArray : JsValue → Bool
  | JsValue.arr [] => true
  | _ => false

/-- Whether the value is `null`. -/
def JsValue.isNull : JsValue → Bool
  | JsValue.null => true
  | _ => false

/-- JSON white space. -/
def isJsonSpace (c : Char) : Bool :=
  c = ' ' || c = '\t' || c = '\n' || c = '\r'

/-- Value of a hexadecimal digit. -/
def hexValue (c : Char) : Option Nat :=
  if c.isDigit then some (c.toNat - 48)
  else if 'a'.toNat ≤ c.toNat ∧ c.toNat ≤ 'f'.toNat then some (c.toNat - 87)
  else if 'A'.toNat ≤ c.toNat ∧ c.toNat ≤ 'F'.toNat then some (c.toNat - 55)
  else none

/-- The UTF-16 code units of a character. -/
def utf16Units (c : Char) : List Nat :=
  if c.toNat < 65536 then [c.toNat]
  else [55296 + (c.toNat - 65536) / 1024, 56320 + (c.toNat - 65536) % 1024]

/-- The characters of a sequence of UTF-16 code units; a surrogate that has
no partner is shown as U+FFFD. -/
def utf16Chars : List Nat → List Char
  | [] => []
  | [u] => [if 55296 ≤ u ∧ u < 57344 then Char.ofNat 65533 else Char.ofNat u]
  | u :: v :: rest =>
    if 55296 ≤ u ∧ u < 56320 ∧ 56320 ≤ v ∧ v < 57344 then
      Char.ofNat (65536 + (u - 55296) * 1024 + (v - 56320)) :: utf16Chars rest
    else if 55296 ≤ u ∧ u < 57344 then Char.ofNat 65533 :: utf16Chars (v :: rest)
    else Char.ofNat u :: utf16Chars (v :: rest)

/-- The body of a JSON string after its opening quote: the code units read so
far, then the rest of the text after the closing quote. -/
def parseJsonString : List Char → List Nat → Option (String × List Char)
  | [], _ => none
  | '\"' :: rest, acc => some (String.mk (utf16Chars acc), rest)
  | '\\' :: 'u' :: a :: b :: c :: d :: rest, acc =>
    match hexValue a, hexValue b, hexValue c, hexValue d with
    | some x, some y, some z, some w =>
      parseJsonString rest (acc ++ [((x * 16 + y) * 16 + z) * 16 + w])
    | _, _, _, _ => none
  | '\\' :: e :: rest, acc =>
    if e = '\"' then parseJsonString rest (acc ++ [34])
    else if e = '\\' then parseJsonString rest (acc ++ [92])
    else if e = '/' then parseJsonString rest (acc ++ [47])
    else if e = 'b' then parseJsonString rest (acc ++ [8])
    else if e = 'f' then parseJsonString rest (acc ++ [12])
    else if e = 'n' then parseJsonString rest (acc ++ [10])
    else if e = 'r' then parseJsonString rest (acc ++ [13])
    else if e = 't' then parseJsonString rest (acc ++ [9])
    else none
  | c :: rest, acc =>
    if c.toNat < 32 ∨ c = '\\' then none else parseJsonString rest (acc ++ utf16Units c)

/-- The longest prefix of decimal digits and the rest. -/
def spanDigits : List Char → List Char × List Char
  | [] => ([], [])
  | c :: cs =>
    if c.isDigit then ((spanDigits cs).1.cons c, (spanDigits cs).2) else ([], c :: cs)

/-- Value of a list of decimal digits. -/
def digitsNat (ds : List Char) : Nat :=
  ds.foldl (fun n c => 10 * n + (c.toNat - 48)) 0

/-- A JSON number at the start of the text: `-`? digits (`.` digits)?
(`e` sign? digits)?, the integer part without a leading zero. -/
def parseJsonNumber (cs : List Char) : Option (JsValue × List Char) :=
  let (neg, cs1) :=
    match cs with
    | '-' :: r => (true, r)
    | _ => (false, cs)
  let (ints, cs2) := spanDigits cs1
  if ints = [] ∨ (ints.head? = some '0' ∧ ints.length ≠ 1) then none
  else
    let fracPart : Option (List Char × List Char) :=
      match cs2 with
      | '.' :: r =>
        let (fs, r2) := spanDigits r
        if fs = [] then none else some (fs, r2)
      | _ => some ([], cs2)
    match fracPart with
    | none => none
    | some (fracs, cs3) =>
      let expPart : Option (Int × List Char) :=
        match cs3 with
        | e :: r =>
          if e = 'e' ∨ e = 'E' then
            let (eneg, r1) :=
              match r with
              | '-' :: r0 => (true, r0)
              | '+' :: r0 => (false, r0)
              | _ => (false, r)
            let (es, r2) := spanDigits r1
            if es = [] then none
            else some (if eneg then -(digitsNat es : Int) else (digitsNat es : Int), r2)
          else some (0, cs3)
        | [] => some (0, cs3)
      match expPart with
      | none => none
      | some (ex, cs4) =>
        let m : Int := (digitsNat (ints ++ fracs) : Int)
        some (JsValue.num (if neg then -m else m) (ex - (fracs.length : Int)), cs4)

/-- The text without its leading JSON white space. -/
def skipJsonSpace (cs : List Char) : List Char := cs.dropWhile isJsonSpace

mutual

/-- A JSON value at the start of the text, with the rest of the text. The
first argument bounds the number of nested calls; the length of the text is
enough. -/
def parseJsonValue : Nat → List Char → Option (JsValue × List Char)
  | 0, _ => none
  | fuel + 1, cs =>
    match skipJsonSpace cs with
    | 'n' :: 'u' :: 'l' :: 'l' :: rest => some (JsValue.null, rest)
    | 't' :: 'r' :: 'u' :: 'e' :: rest => some (JsValue.bool true, rest)
    | 'f' :: 'a' :: 'l' :: 's' :: 'e' :: rest => some (JsValue.bool false, rest)
    | '\"' :: rest =>
      match parseJsonString rest [] with
      | some (s, rest2) => some (JsValue.str s, rest2)
      | none => none
    | '[' :: rest =>
      match skipJsonSpace rest with
      | ']' :: rest2 => some (JsValue.arr [], rest2)
      | _ => parseJsonElements fuel rest []
    | '\x7b' :: rest =>
      match skipJsonSpace rest with
      | '\x7d' :: rest2 => some (JsValue.obj [], rest2)
      | _ => parseJsonMembers fuel rest []
    | other => parseJsonNumber other

/-- The elements of an array after `[` or `,`, up to the closing `]`. -/
def parseJsonElements : Nat → List Char → List JsValue → Option (JsValue × List Char)
  | 0, _, _ => none
  | fuel + 1, cs, acc =>
    match parseJsonValue fuel cs with
    | none => none
    | some (v, rest) =>
      match skipJsonSpace rest with
      | ',' :: rest2 => parseJsonElements fuel rest2 (acc ++ [v])
      | ']' :: rest2 => some (JsValue.arr (acc ++ [v]), rest2)
      | _ => none

/-- The members of an object after the opening brace or `,`, up to the
closing brace. -/
def parseJsonMembers : Nat → List Char → List (String × JsValue) → Option (JsValue × List Char)
  | 0, _, _ => none
  | fuel + 1, cs, acc =>
    match skipJsonSpace cs with
    | '\"' :: rest =>
      match parseJsonString rest [] with
      | none => none
      | some (key, rest2) =>
        match skipJsonSpace rest2 with
        | ':' :: rest3 =>
          match parseJsonValue fuel rest3 with
          | none => none
          | some (v, rest4) =>
            match skipJsonSpace rest4 with
            | ',' :: rest5 => parseJsonMembers fuel rest5 (acc ++ [(key, v)])
            | '\x7d' :: rest5 => some (JsValue.obj (acc ++ [(key, v)]), rest5)
            | _ => none
        | _ => none
    | _ => none

end

/-- `JSON.parse(text)`; `none` is a thrown `SyntaxError`. -/
def jsonParse (text : String) : Option JsValue :=
  match parseJsonValue (2 * text.data.length + 2) text.data with
  | some (v, rest) => if skipJsonSpace rest = [] then some v else none
  | none => none

/-- Source: `loadCalendarEvents`, on whatever the stored text denotes: the
value assigned to `calendarEvents`. -/
def loadCalendarEventsRaw (entry : Option String) : JsValue :=
  match entry with
  | none => JsValue.arr []
  | some data =>
    if data = "" then JsValue.arr []
    else
      match jsonParse data with
      | some v => v
      | none => JsValue.arr []

/-- Source: the loop `for (const ev of calendarEvents)` of `renderEvents` with
its first statement, which reads `ev.calendar`: whether it throws a
`TypeError`. A value that is neither an array nor a string is not iterable;
reading a property of an element that is `null` throws. -/
def renderEventsThrows : JsValue → Bool
  | JsValue.arr items => items.any JsValue.isNull
  | JsValue.str _ => false
  | _ => true

/-- Source: `renderMain` on the value of `calendarEvents`: whether drawing the
chips throws. Only the month view calls `renderEvents`. -/
def renderMainThrows (view : View) (events : JsValue) : Bool :=
  match view with
  | View.week => false
  | View.month => renderEventsThrows events

/-! ## Clicks on the main grid and the quick adder -/

/-- An element inside `#calendar-main` as the click handler reads it: its
classes, its `data-date`, `data-day` and `data-hour` attributes (`none` when
absent) and its text. -/
structure GridElement where
  classes : List String
  dataDate : Option String
  dataDay : Option String
  dataHour : Option String
  textContent : String
deriving DecidableEq, Repr

/-- `a || b` on values that are a string or `undefined`: the empty string and
`undefined` are falsy. -/
def orElse (a b : Option String) : Option String :=
  match a with
  | some s => if s = "" then b else some s
  | none => b

/-- Source: `target.textContent.match(/(\d{2})/)`: the first two adjacent
digits of the text. -/
def firstTwoDigits : List Char → Option String
  | a :: b :: rest =>
    if a.isDigit ∧ b.isDigit then some (String.mk [a, b]) else firstTwoDigits (b :: rest)
  | _ => none

/-- Source: `getDateHourFromCell(target)`; the date is a string or
`undefined`, the hour a string. -/
def getDateHourFromCell (s : CalendarState) (target : GridElement) : Option String × String :=
  if "week-cell" ∈ target.classes ∨ "month-cell" ∈ target.classes then
    (orElse target.dataDate target.dataDay, (orElse target.dataHour (some "")).getD "")
  else if "week-day" ∈ target.classes then
    (orElse target.dataDate target.dataDay, "")
  else if "week-hour" ∈ target.classes then
    (some (toString s.year ++ "-" ++ pad (s.month + 1) ++ "-" ++ pad s.selectedDay),
      (orElse target.dataHour
        (some ((firstTwoDigits target.textContent.data).getD ""))).getD "")
  else (some "", "")

/-- The quick-adder popup: the arguments `date` and `hour` it was opened with
(they stay in the closures of its handlers), its position, and the current
values of its fields. -/
structure QuickAdder where
  date : Option String
  hour : String
  left : Int
  top : Int
  fields : QuickInput
deriving DecidableEq, Repr

/-- Source: `openQuickEventAdder(date, hour, mouseX, mouseY)` up to the
installation of the handlers: a popup replaces the one that may exist, its
date field is set to `date || ''` and its hour select to `hour || ''`. -/
def openQuickEventAdder (date : Option String) (hour : String) (mouseX mouseY : Int) :
    QuickAdder :=
  { date := date
    hour := hour
    left := mouseX + 10
    top := mouseY - 10
    fields :=
      { title := ""
        date := setDateInput ((orElse date (some "")).getD "")
        hour := setSelect hourOptions hour
        link := ""
        desc := "" } }

/-- The calendar as the user sees it: the variables, the quick adder that may
be open, the event modal (one element, reused) with whether it is shown, and
the lines written with `console.error`. -/
structure CalendarUi where
  app : App
  quickAdder : Option QuickAdder
  modal : EventModal
  modalShown : Bool
  errors : List String
deriving DecidableEq, Repr

/-- Source: the loop of `main.onclick` that walks up from `e.target`: whether
an element stops it. -/
def isCalendarTarget (el : GridElement) : Bool :=
  "week-cell" ∈ el.classes || "month-cell" ∈ el.classes || "week-day" ∈ el.classes ||
    "week-hour" ∈ el.classes

/-- Source: `main.onclick` installed by `delegateCalendarClicks`. `path` is
`e.target` followed by its ancestors inside `#calendar-main`. -/
def calendarMainClick (ui : CalendarUi) (path : List GridElement) (mouseX mouseY : Int) :
    CalendarUi :=
  match path.find? isCalendarTarget with
  | none => ui
  | some target =>
    match getDateHourFromCell ui.app.state target with
    | (some date, hour) =>
      if matchesDatePattern date then
        { ui with quickAdder := some (openQuickEventAdder (some date) hour mouseX mouseY) }
      else
        { ui with errors := ui.errors ++ ["Invalid date extracted from calendar cell:"] }
    | (none, _) =>
      { ui with errors := ui.errors ++ ["Invalid date extracted from calendar cell:"] }

/-- The user changes fields of the open quick adder. -/
def editQuickAdder (ui : CalendarUi) (fields : QuickInput) : CalendarUi :=
  { ui with quickAdder := ui.quickAdder.map fun q => { q with fields := fields } }

/-- Source: the `#quick-more` click handler: the popup is removed and
`openEventModal(date, hour)` is called with the arguments the popup was opened
with. When `openEventModal` throws, the modal stays as it was. -/
def quickMore (ui : CalendarUi) : CalendarUi :=
  match ui.quickAdder with
  | none => ui
  | some q =>
    let dateArg := match q.date with
      | some d => DateArg.str d
      | none => DateArg.undefined
    match openEventModal ui.app.calendarList ui.app.calendarEvents ui.modal dateArg (some q.hour)
        none with
    | some m => { ui with quickAdder := none, modal := m, modalShown := true }
    | none => { ui with quickAdder := none }

/-- The calendar showing the Standup week, nothing open. -/
def standupUi : CalendarUi :=
  { app := standupApp, quickAdder := none, modal := freshModal, modalShown := false, errors := [] }

/-- The `.week-cell` of Monday 2024-03-04, hour 9. -/
def standupCell : GridElement :=
  { classes := ["week-cell"], dataDate := some "2024-03-04", dataDay := none,
    dataHour := some "9", textContent := "" }

/-- A padding cell of the month grid: `<div class="month-cell"></div>`. -/
def paddingCell : GridElement :=
  { classes := ["month-cell"], dataDate := none, dataDay := none, dataHour := none,
    textContent := "" }

end Calendar

/-! # Data overlay loader

The embedding of `showDataPoints`. The map is the part of the Mapbox map the
function works on: the layers and sources it has added. A `fetch` that has been
started and not yet settled is an entry of `pending`; its completion is an
event of its own, so the handlers of several activations can interleave in any
order. -/

namespace Overlay

/-- A number as the JSON text writes it, `mantissa * 10 ^ exponent`. -/
structure Decimal where
  mantissa : Int
  exponent : Int
deriving DecidableEq, Repr

/-- The `location` of a record; a missing `lng` or `lat` reads `undefined`. -/
structure Location where
  lng : Option Decimal
  lat : Option Decimal
deriving DecidableEq, Repr

/-- A record of a dataset file: `{name, coordinates | location: {lat, lng},
type?, description?}`; `none` is an absent property. -/
structure PointRecord where
  name : Option String
  coordinates : Option (List Decimal)
  location : Option Location
  type : Option String
  description : Option String
deriving DecidableEq, Repr

/-- The JSON of a dataset file: a flat array of records, or an object mapping
categories to arrays of records, the categories in the order in which
`Object.values` enumerates them. -/
inductive Dataset where
  | flat (records : List PointRecord)
  | mapping (categories : List (String × List PointRecord))
deriving DecidableEq, Repr

/-- A Point feature of the GeoJSON built by `showDataPoints`: the coordinates
of its geometry and its three properties; `none` is `undefined`. -/
structure Feature where
  coordinates : List (Option Decimal)
  name : Option String
  type : Option String
  description : Option String
deriving DecidableEq, Repr

/-- A value converted to text by a template string. -/
def templateText (v : Option String) : String :=
  match v with
  | some s => s
  | none => "undefined"

/-- `a || b` for a string or `undefined` on the left and a string on the right. -/
def orDefault (a : Option String) (b : String) : String :=
  match a with
  | some s => if s = "" then b else s
  | none => b

/-- Source: the callback of `data.map` in the array branch of
`showDataPoints`. -/
def flatFeature (dataType : String) (point : PointRecord) : Feature :=
  { coordinates :=
      match point.coordinates with
      | some cs => cs.map some
      | none => [point.location.bind fun l => l.lng, point.location.bind fun l => l.lat]
    name := point.name
    type := some (orDefault point.type dataType)
    description :=
      some (orDefault point.description (templateText point.name ++ " (" ++ dataType ++ ")")) }

/-- Source: the callback of `.map` in the object branch of `showDataPoints`;
`none` is the `TypeError` of `point.location.lng` on a record without
`location`. -/
def mappingFeature (point : PointRecord) : Option Feature :=
  match point.location with
  | none => none
  | some l =>
    some { coordinates := [l.lng, l.lat], name := point.name, type := point.type,
           description := point.description }

/-- The features of a list of records of the object branch; `none` as soon as
one record throws. -/
def mappingFeatures : List PointRecord → Option (List Feature)
  | [] => some []
  | p :: ps =>
    match mappingFeature p, mappingFeatures ps with
    | some f, some fs => some (f :: fs)
    | _, _ => none

/-- Source: the `features` of `geojson` in `showDataPoints`:
`Array.isArray(data) ? data.map(...) : Object.values(data).flat().map(...)`. -/
def buildFeatures (dataType : String) : Dataset → Option (List Feature)
  | Dataset.flat records => some (records.map (flatFeature dataType))
  | Dataset.mapping categories => mappingFeatures (categories.flatMap fun c => c.2)

/-- A call of the map API made by `showDataPoints`. -/
inductive MapCall where
  | removeLayer (id : String)
  | removeSource (id : String)
  | addSource (id : String)
  | addLayer (id : String)
  | setData (id : String)
deriving DecidableEq, Repr

/-- The map and the variables of the loader: the layers and the sources (with
their data) that are on the map, `activeLayer`, the data types of the fetches
in flight (oldest first), and the calls made so far. -/
structure OverlayState where
  layers : List String
  sources : List (String × List Feature)
  activeLayer : Option String
  pending : List String
  calls : List MapCall
deriving DecidableEq, Repr

/-- The state at page load: nothing installed, `activeLayer = null`. -/
def OverlayState.init : OverlayState :=
  { layers := [], sources := [], activeLayer := none, pending := [], calls := [] }

/-- Source: the synchronous part of `showDataPoints(dataType)`: the layer and
source named by `activeLayer` are removed when they exist, then the fetch is
started. -/
def showDataPoints (st : OverlayState) (dataType : String) : OverlayState :=
  let st1 : OverlayState :=
    match st.activeLayer with
    | some a =>
      let st2 : OverlayState :=
        if a ∈ st.layers then
          { st with layers := st.layers.filter (fun l => l ≠ a)
                    calls := st.calls ++ [MapCall.removeLayer a] }
        else st
      if a ∈ st2.sources.map (fun s => s.1) then
        { st2 with sources := st2.sources.filter (fun s => s.1 ≠ a)
                   calls := st2.calls ++ [MapCall.removeSource a] }
      else st2
    | none => st
  { st1 with pending := st1.pending ++ [dataType] }

/-- Source: the `.then(data => ...)` callback of `showDataPoints` for the data
type `dataType`, run with the parsed response. When building the features
throws, the `.catch` logs the error and nothing changes. -/
def onData (st : OverlayState) (dataType : String) (data : Dataset) : OverlayState :=
  match buildFeatures dataType data with
  | none => st
  | some features =>
    let layerId := dataType ++ "-points"
    if layerId ∈ st.sources.map (fun s => s.1) then
      { st with activeLayer := some layerId
                sources := st.sources.map (fun s => if s.1 = layerId then (s.1, features) else s)
                calls := st.calls ++ [MapCall.setData layerId] }
    else
      { st with activeLayer := some layerId
                sources := st.sources ++ [(layerId, features)]
                layers := st.layers ++ [layerId]
                calls := st.calls ++ [MapCall.addSource layerId, MapCall.addLayer layerId] }

/-- What can happen to the loader: `showDataPoints` is called, or the `k`-th
fetch in flight settles, with the parsed data or with a failure. -/
inductive OverlayEvent where
  | activate (dataType : String)
  | settle (k : Nat) (response : Option Dataset)
deriving DecidableEq, Repr

/-- One event. -/
def overlayStep (st : OverlayState) : OverlayEvent → OverlayState
  | OverlayEvent.activate dataType => showDataPoints st dataType
  | OverlayEvent.settle k response =>
    match st.pending.get? k with
    | none => st
    | some dataType =>
      let st1 : OverlayState := { st with pending := st.pending.eraseIdx k }
      match response with
      | some data => onData st1 dataType data
      | none => st1

/-- The state after a sequence of events from page load. -/
def overlayRun (events : List OverlayEvent) : OverlayState :=
  events.foldl overlayStep OverlayState.init

/-- A record with a name and a location only. -/
def namedPoint (name : String) (lng lat : Decimal) : PointRecord :=
  { name := some name, coordinates := none, location := some { lng := some lng, lat := some lat },
    type := none, description := none }

/-- A ports file with one port. -/
def portsData : Dataset :=
  Dataset.flat [namedPoint "Rotterdam" { mantissa := 45, exponent := -1 }
    { mantissa := 519, exponent := -1 }]

/-- An oil-fields file with one category holding one field. -/
def oilData : Dataset :=
  Dataset.mapping [("fields", [namedPoint "Ghawar" { mantissa := 493, exponent := -1 }
    { mantissa := 255, exponent := -1 }])]

end Overlay

/-! # Leadership chart

The embedding of `renderLeaderBubbleMap`. The members of a dataset are
JavaScript objects which the function changes: it appends to their `children`
and writes their `_x` and `_y`. The dataset is therefore a heap, the list
`data.members`, and a reference to a member is its position in that list;
what a call leaves in the heap is what the next call on the same dataset
finds. Coordinates are doubles, kept as the rationals they denote, and the
arithmetic of the layout is double arithmetic. Keys that name a property of
`Object.prototype` are outside the embedding. -/

namespace OrgChart

/-- A member of `data.members`: `id`, `parent` (absent is `none`), and the
properties the renderer adds, `children` (references to members), `_x` and
`_y`. -/
structure Member where
  id : String
  parent : Option String
  children : Option (List Nat)
  x : Option ℚ
  y : Option ℚ
deriving DecidableEq

/-- Source: `!n.parent`, true of an absent and of an empty parent. -/
def isRoot (m : Member) : Bool :=
  match m.parent with
  | none => true
  | some p => decide (p = "")

/-- Source: `byId = Object.fromEntries(nodes.map(n => [n.id, n]))` read at
`byId[key]`: the last member with that id, `none` when there is none. -/
def byId (nodes : List Member) (key : String) : Option Nat :=
  ((List.range nodes.length).filter fun i =>
    match nodes.get? i with
    | some m => decide (m.id = key)
    | none => false).getLast?

/-- Source: `node.children || []`. -/
def childrenOf (heap : List Member) (node : Nat) : List Nat :=
  match heap.get? node with
  | some m => m.children.getD []
  | none => []

/-- Source: `p.children = p.children || []; p.children.push(n)`. -/
def pushChild (heap : List Member) (p n : Nat) : List Member :=
  heap.modify (fun q => { q with children := some (q.children.getD [] ++ [n]) }) p

/-- The heap and the list `tree` while the members are linked. -/
structure TreeBuild where
  heap : List Member
  tree : List Nat
deriving DecidableEq

/-- What a call throws, with the heap it leaves behind: the `TypeError` of
`byId[n.parent].children` on a parent that no member has as its id, and the
`RangeError` of a recursion that exceeds the stack. -/
inductive Thrown where
  | typeError (heap : List Member)
  | rangeError (heap : List Member)
deriving DecidableEq

/-- Source: the body of `nodes.forEach(n => ...)` that builds the tree, for the
member at position `n`. -/
def link (nodes : List Member) (st : TreeBuild) (n : Nat) : Except Thrown TreeBuild :=
  match st.heap.get? n with
  | none => Except.ok st
  | some m =>
    if isRoot m then Except.ok { st with tree := st.tree ++ [n] }
    else
      match byId nodes (m.parent.getD "") with
      | none => Except.error (Thrown.typeError st.heap)
      | some p => Except.ok { st with heap := pushChild st.heap p n }

/-- Source: `tree = []; nodes.forEach(n => ...)`. -/
def buildTree (nodes : List Member) : Except Thrown TreeBuild :=
  (List.range nodes.length).foldlM (link nodes) { heap := nodes, tree := [] }

/-- Source: `levels[depth] = levels[depth] || []; levels[depth].push(node)`.
A hole of the array reads as the empty level. -/
def pushLevel : List (List Nat) → Nat → Nat → List (List Nat)
  | [], 0, node => [[node]]
  | [], depth + 1, node => [] :: pushLevel [] depth node
  | level :: rest, 0, node => (level ++ [node]) :: rest
  | level :: rest, depth + 1, node => level :: pushLevel rest depth node

/-- Source: `traverse(node, depth)`. The fuel bounds the depth of the
recursion; `none` is a recursion that does not return. -/
def traverse (heap : List Member) :
    Nat → List (List Nat) → Nat → Nat → Option (List (List Nat))
  | 0, _, _, _ => none
  | fuel + 1, levels, node, depth =>
    (childrenOf heap node).foldlM
      (fun acc child => traverse heap fuel acc child (depth + 1))
      (pushLevel levels depth node)

/-- Source: `tree.forEach(root => traverse(root, 0))` from `levels = []`. -/
def traverseRoots (heap : List Member) (fuel : Nat) (tree : List Nat) :
    Option (List (List Nat)) :=
  tree.foldlM (fun acc root => traverse heap fuel acc root 0) []

/-! ## Double arithmetic

A JavaScript number is a double (IEEE 754 binary64). It is kept as the
rational it denotes, and an arithmetic operation gives the double nearest to
its exact result, the one with the even significand when two are equally
near. -/

/-- Number of binary digits of `n`, counted with at most `fuel` halvings. -/
def binaryDigits : Nat → Nat → Nat
  | 0, _ => 0
  | fuel + 1, n => if n = 0 then 0 else binaryDigits fuel (n / 2) + 1

/-- `⌊log2 (a / b)⌋` for positive `a` and `b`: the difference of the digit
counts, or one less. -/
def floorLog2 (a b : Nat) : Int :=
  let k : Int := (binaryDigits a a : Int) - (binaryDigits b b : Int)
  if b * 2 ^ k.toNat ≤ a * 2 ^ (-k).toNat then k else k - 1

/-- The integer nearest to `n / d`, the even one of two that are equally near. -/
def roundHalfEven (n d : Nat) : Nat :=
  if 2 * (n % d) < d then n / d
  else if d < 2 * (n % d) then n / d + 1
  else if n / d % 2 = 0 then n / d
  else n / d + 1

/-- The double nearest to `a / b` for positive `a` and `b`: a significand of
53 binary digits times `2^e`, the exponent `e` of the last place being
`⌊log2 (a / b)⌋ - 52` and not below -1074 (subnormal numbers). Results of
`2^1024` and more, which are `Infinity`, do not occur in the layout, whose
numbers are below `2^53`. -/
def roundPos (a b : Nat) : ℚ :=
  let e : Int := max (floorLog2 a b - 52) (-1074)
  mkRat ((roundHalfEven (a * 2 ^ (-e).toNat) (b * 2 ^ e.toNat) * 2 ^ e.toNat : Nat) : Int)
    (2 ^ (-e).toNat)

/-- The double nearest to the rational `q`. -/
def roundDouble (q : ℚ) : ℚ :=
  if 0 < q.num then roundPos q.num.toNat q.den
  else if q.num < 0 then -roundPos (-q.num).toNat q.den
  else 0

/-- `a / b` on doubles. -/
def fdiv (a b : ℚ) : ℚ := roundDouble (a / b)

/-- `a * b` on doubles. -/
def fmul (a b : ℚ) : ℚ := roundDouble (a * b)

/-- `a + b` on doubles. -/
def fadd (a b : ℚ) : ℚ := roundDouble (a + b)

/-- Source: `node._x = ...; node._y = ...`. -/
def setPosition (heap : List Member) (node : Nat) (x y : ℚ) : List Member :=
  heap.modify (fun q => { q with x := some x, y := some y }) node

/-- Source: `level.forEach((node, j) => ...)` from position `j` on, with
`gap = width / (level.length+1)` and the level number `i`:
`node._x = gap*(j+1)`, `node._y = y + i*levelGap` with `y = 60` and
`levelGap = 110`, in double arithmetic. -/
def layoutLevel (gap : ℚ) (i : Nat) : List Nat → Nat → List Member → List Member
  | [], _, heap => heap
  | node :: rest, j, heap =>
    layoutLevel gap i rest (j + 1)
      (setPosition heap node (fmul gap (fadd (j : ℚ) 1)) (fadd 60 (fmul (i : ℚ) 110)))

/-- Source: `levels.forEach((level, i) => ...)` from level `i` on, with
`width = 420` and `gap = width / (level.length+1)`. -/
def layout : List (List Nat) → Nat → List Member → List Member
  | [], _, heap => heap
  | level :: rest, i, heap =>
    layout rest (i + 1) (layoutLevel (fdiv 420 (fadd (level.length : ℚ) 1)) i level 0 heap)

/-- The levels of a rendering and the heap after it. -/
structure Chart where
  levels : List (List Nat)
  members : List Member
deriving DecidableEq

/-- Source: `renderLeaderBubbleMap(data)`, the tree, the levels and the
positions. -/
def renderLeaderBubbleMap (fuel : Nat) (nodes : List Member) : Except Thrown Chart :=
  match buildTree nodes with
  | Except.error thrown => Except.error thrown
  | Except.ok built =>
    match traverseRoots built.heap fuel built.tree with
    | none => Except.error (Thrown.rangeError built.heap)
    | some levels => Except.ok { levels := levels, members := layout levels 0 built.heap }

/-- Source: `leaderButton.onclick` pressed again for the same country: the
cached `leadershipData[countryCode]` is rendered again, as the first call
left it. -/
def renderAgain (fuel : Nat) (nodes : List Member) : Except Thrown Chart :=
  match renderLeaderBubbleMap fuel nodes with
  | Except.error thrown => Except.error thrown
  | Except.ok chart => renderLeaderBubbleMap fuel chart.members

/-- The position `(_x, _y)` of the member at position `node`. -/
def positionOf (heap : List Member) (node : Nat) : Option (Option ℚ × Option ℚ) :=
  (heap.get? node).map fun m => (m.x, m.y)

/-- The level on which `node` stands, the first one if it stands on several. -/
def levelOf (levels : List (List Nat)) (node : Nat) : Option Nat :=
  (List.range levels.length).find? fun d => decide (node ∈ levels.getD d [])

/-- A member as `leadership.json` gives it. -/
def member (id : String) (parent : Option String) : Member :=
  { id := id, parent := parent, children := none, x := none, y := none }

/-- A dataset with one root and two children. -/
def troika : List Member :=
  [member "chair" none, member "deputy" (some "chair"), member "secretary" (some "chair")]

/-- A dataset with one root and eight children. -/
def octet : List Member :=
  member "chair" none ::
    (List.range 8).map fun (k : Nat) => member ("member" ++ toString (k + 1)) (some "chair")

/-- The parent of the member at position `n` as `byId[n.parent]` finds it;
a member without one stands for itself. -/
def parentOf (nodes : List Member) (n : Nat) : Nat :=
  match nodes.get? n with
  | some m => (byId nodes (m.parent.getD "")).getD n
  | none => n

/-- A dataset forms a forest with the depths `depth`: a member without a
parent has depth 0, and the parent of any other member is the id of a member,
which is one level higher. -/
def isForest (nodes : List Member) (depth : Nat → Nat) : Bool :=
  (List.range nodes.length).all fun n =>
    match nodes.get? n with
    | none => true
    | some m =>
      if isRoot m then decide (depth n = 0)
      else
        match byId nodes (m.parent.getD "") with
        | none => false
        | some p => decide (depth n = depth p + 1)

/-- Source: `r="32"` of the `circle` of a member. -/
def glyphRadius : ℚ := 32

/-- The facts about the linked heap on which the traversal rests, for the
members `good` that it can reach: a child is a member that can be reached,
one level below its parent, and has one parent; no member is twice a child of
the same parent; the depths are below `bound`. -/
structure Linked (heap : List Member) (good : Nat → Prop) (depth up : Nat → Nat)
    (size bound : Nat) : Prop where
  child : ∀ k c, good k → c ∈ childrenOf heap k →
    good c ∧ c < size ∧ depth c = depth k + 1 ∧ up c = k
  nodup : ∀ k, (childrenOf heap k).Nodup
  below : ∀ v, good v → v < size → depth v < bound

/-- What a traversal adds to the levels: the members of `visited`, in that
order, each on the level of its depth. -/
def Visits (depth : Nat → Nat) (levels after : List (List Nat)) (visited : List Nat) : Prop :=
  ∀ e, after.getD e [] = levels.getD e [] ++ visited.filter fun v => decide (depth v = e)

/-- Whether the member at position `n` has no parent (`!n.parent`). -/
def rootAt (nodes : List Member) (n : Nat) : Bool :=
  match nodes.get? n with
  | some m => isRoot m
  | none => false

/-- The member at position `k` is reached by the traversal at depth `d`: a
member of `tree` at depth 0, a child of a member reached at depth `d` at
depth `d + 1`. -/
inductive Reach (heap : List Member) (tree : List Nat) : Nat → Nat → Prop where
  | root (r : Nat) : r ∈ tree → Reach heap tree 0 r
  | child (d k c : Nat) : Reach heap tree d k → c ∈ childrenOf heap k → Reach heap tree (d + 1) c

/-- The length of the parent chain of the member at position `n`: the number
of steps `byId[n.parent]` from it to a member without parent, followed for at
most `fuel` members; `none` when the chain does not end within them. -/
def parentChain (nodes : List Member) : Nat → Nat → Option Nat
  | 0, _ => none
  | fuel + 1, n =>
    match nodes.get? n with
    | none => none
    | some m =>
      if isRoot m then some 0
      else
        match byId nodes (m.parent.getD "") with
        | none => none
        | some p => (parentChain nodes fuel p).map fun d => d + 1

/-- A dataset with a root, its child, and two members that name each other as
parent. -/
def loopedPair : List Member :=
  [member "chair" none, member "deputy" (some "chair"), member "left" (some "right"),
    member "right" (some "left")]

/-- What the tree build leaves: a child is a member with a parent, and stands
in the `children` of the member `byId` finds under that parent, once; `tree`
holds the members without parent, each once. -/
structure TreeFacts (nodes heap : List Member) (tree : List Nat) : Prop where
  child : ∀ k c, c ∈ childrenOf heap k →
    c < nodes.length ∧ rootAt nodes c = false ∧ parentOf nodes c = k
  nodup : ∀ k, (childrenOf heap k).Nodup
  treeNodup : tree.Nodup
  roots : ∀ r ∈ tree, r < nodes.length ∧ rootAt nodes r = true
  allRoots : ∀ n, n < nodes.length → rootAt nodes n = true → n ∈ tree
  allKids : ∀ n, n < nodes.length → rootAt nodes n = false →
    n ∈ childrenOf heap (parentOf nodes n)

end OrgChart

namespace Calendar

/-- The year, month and day that a text of the form `YYYY-MM-DD` denotes:
the values of its three digit groups. -/
def parseDataDate (s : String) : Option (Nat × Nat × Nat) :=
  match s.data with
  | [y1, y2, y3, y4, _, m1, m2, _, a1, a2] =>
    match digitsValue [y1, y2, y3, y4], digitsValue [m1, m2], digitsValue [a1, a2] with
    | some y, some m, some a => some (y, m, a)
    | _, _, _ => none
  | _ => none

/-- A `.month-cell` element of the month grid as the click handler reads it:
the class `month-cell` (and `month-today`), the `data-date` of a day cell, no
`data-day` and no `data-hour`. -/
def monthCellElement : MonthCell → GridElement
  | MonthCell.blank =>
    { classes := ["month-cell"], dataDate := none, dataDay := none, dataHour := none,
      textContent := "" }
  | MonthCell.day dataDate isToday num _ =>
    { classes := if isToday then ["month-cell", "month-today"] else ["month-cell"]
      dataDate := some dataDate, dataDay := none, dataHour := none
      textContent := toString num }

/-- Source: the position computed by `showEventOverlay`: `rectLeft` and
`rectBottom` are `rect.left` and `rect.bottom` of the anchor, the result is
`(left, top)`. Numbers are exact rationals. -/
def overlayPosition (rectLeft rectBottom scrollX scrollY innerWidth innerHeight : ℚ) : ℚ × ℚ :=
  let top := scrollY + rectBottom + 6
  let left := scrollX + rectLeft
  let left := if left + 260 > innerWidth then innerWidth - 270 else left
  let top := if top + 180 > innerHeight then innerHeight - 190 else top
  (left, top)

/-- A `.week-cell` element of the week grid as the click handler reads it. -/
def weekCellElement (c : WeekCell) : GridElement :=
  { classes := ["week-cell"], dataDate := some c.dataDate, dataDay := none,
    dataHour := some c.dataHour, textContent := "" }

end Calendar

/-! # Country selection

The embedding of the handlers that select a country and clear the selection:
the click on a country, the Info item of the context menu
(`showCountryInfoSidebar`), the click on the map outside every country, and
the `mousedown` outside the info sidebar. -/

namespace Selection

/-- The variables and the part of the page the four handlers work on:
`lastSelectedCountry`, whether the layer `country-highlight-border` exists,
the ISO3 code its filter compares `iso_3166_1_alpha_3` with (the empty text
matches no country), whether `#info-sidebar` has the class `visible`, and
whether `countryInfo` has been loaded. -/
structure SelectionState where
  lastSelectedCountry : Option String
  highlightLayer : Bool
  highlightFilter : String
  sidebarVisible : Bool
  countryInfoLoaded : Bool
deriving DecidableEq, Repr

/-- The state after the map has loaded: nothing selected, the filter of the
highlight layer as `addLayer` set it, `['==', 'iso_3166_1_alpha_3', '']`. -/
def SelectionState.init : SelectionState :=
  { lastSelectedCountry := none, highlightLayer := true, highlightFilter := "",
    sidebarVisible := false, countryInfoLoaded := true }

/-- The events the handlers react to. `countryClick` is a click on the
country with that ISO3 code, `contextInfo` the Info item of the context menu
opened on it, `backgroundClick` a click on the map that hits no country,
`mousedownOutside` a `mousedown` whose target is neither inside the sidebar
nor a `.context-item`. -/
inductive SelectionEvent where
  | countryClick (iso3 : String)
  | contextInfo (iso3 : String)
  | backgroundClick
  | mousedownOutside
deriving DecidableEq, Repr

/-- Source: `map.setFilter('country-highlight-border', ['==', ['get',
'iso_3166_1_alpha_3'], iso3])`; on a layer that does not exist the map
reports an error and changes nothing. -/
def setHighlight (st : SelectionState) (iso3 : String) : SelectionState :=
  if st.highlightLayer then { st with highlightFilter := iso3 } else st

/-- Source: the handlers `map.on('click', 'country-click-area', ...)`,
`showCountryInfoSidebar`, `map.on('click', ...)` and
`document.addEventListener('mousedown', ...)`. A click on a country also runs
the general click handler, which finds a feature and does nothing. -/
def selectionStep (st : SelectionState) : SelectionEvent → SelectionState
  | SelectionEvent.countryClick iso3 =>
    if st.countryInfoLoaded then
      { setHighlight { st with lastSelectedCountry := some iso3 } iso3 with
        sidebarVisible := false }
    else st
  | SelectionEvent.contextInfo iso3 =>
    { setHighlight { st with lastSelectedCountry := some iso3 } iso3 with
      sidebarVisible := true }
  | SelectionEvent.backgroundClick =>
    setHighlight { st with sidebarVisible := false, lastSelectedCountry := none } ""
  | SelectionEvent.mousedownOutside =>
    if st.sidebarVisible then { st with sidebarVisible := false, lastSelectedCountry := none }
    else st

/-- The state after a sequence of events, from the loaded map. -/
def selectionRun (events : List SelectionEvent) : SelectionState :=
  events.foldl selectionStep SelectionState.init

end Selection

/-! # Command box

The embedding of the `keydown` handler of `#command-input` for the Enter key.
The object `dataTypes` is read with `dataTypes[cmd]`, which also finds the
properties every object inherits from `Object.prototype`. -/

namespace Overlay

/-- Source: `availableCommands`. -/
def availableCommands : List String :=
  ["/ports", "/nuclear", "/oil", "/pipelines", "/powerlines", "/refineries", "/industrial",
    "/trade", "/satellite", "/satellite-off", "/flat", "/globe", "/projects"]

/-- Source: the own properties of `dataTypes` in `setupCommandHandlers`. -/
def dataTypes : List (String × String) :=
  [("/ports", "ports"), ("/nuclear", "nuclear"), ("/oil", "oil_fields"),
    ("/pipelines", "pipelines"), ("/powerlines", "powerlines"), ("/refineries", "refineries"),
    ("/industrial", "industrial_zones"), ("/trade", "trade_zones")]

/-- The names of the properties of `Object.prototype` (ECMA-262, with its
Annex B). Each holds a function or, for `__proto__`, the prototype object:
a truthy value. -/
def objectPrototypeKeys : List String :=
  ["constructor", "__defineGetter__", "__defineSetter__", "hasOwnProperty", "__lookupGetter__",
    "__lookupSetter__", "isPrototypeOf", "propertyIsEnumerable", "toString", "valueOf",
    "__proto__", "toLocaleString"]

/-- The value of `dataTypes[cmd]` when it is not `undefined`: the text of an
own property, or the value inherited under that name. -/
inductive PropertyValue where
  | own (dataType : String)
  | inherited (key : String)
deriving DecidableEq, Repr

/-- Source: `dataTypes[cmd]`; `none` is `undefined`. -/
def lookupDataType (cmd : String) : Option PropertyValue :=
  match dataTypes.lookup cmd with
  | some dataType => some (PropertyValue.own dataType)
  | none => if cmd ∈ objectPrototypeKeys then some (PropertyValue.inherited cmd) else none

/-- The text `${dataType}` that `showDataPoints` puts into the file name and
the layer id; `nativeText` gives the text the engine produces for an inherited
value (for `constructor`, the source text of the function `Object`). -/
def PropertyValue.text (nativeText : String → String) : PropertyValue → String
  | PropertyValue.own dataType => dataType
  | PropertyValue.inherited key => nativeText key

/-- `String.prototype.toLowerCase` on ASCII letters. A character outside ASCII
is kept; none of them has a lower-case form made of the letters that occur in
the commands and in the lower-case property names, so the dispatch on the
result is not affected. -/
def toLowerCase (s : String) : String := String.mk (s.data.map Char.toLower)

/-- The calls of the command handler other than `showDataPoints`. -/
inductive CommandCall where
  | setStyle (url : String)
  | setProjection (name : String)
  | setMinZoom
  | setMaxBounds
  | openProjectsSidebar
deriving DecidableEq, Repr

/-- The command box and what its handler acts on: the text of the input, the
overlay state of the map, and the other calls made so far. -/
structure CommandState where
  input : String
  overlay : OverlayState
  calls : List CommandCall
deriving DecidableEq, Repr

/-- Source: the `keydown` handler of `#command-input` for `e.key === 'Enter'`. -/
def commandEnter (nativeText : String → String) (st : CommandState) : CommandState :=
  let cmd := toLowerCase (Calendar.jsTrim st.input)
  let st1 : CommandState := { st with input := "" }
  if cmd = "/satellite" then
    { st1 with calls := st1.calls ++ [CommandCall.setStyle "mapbox://styles/mapbox/satellite-v9"] }
  else if cmd = "/satellite-off" then
    { st1 with calls := st1.calls ++ [CommandCall.setStyle "mapbox://styles/mapbox/dark-v11"] }
  else if cmd = "/flat" then
    { st1 with calls := st1.calls ++
        [CommandCall.setProjection "mercator", CommandCall.setMinZoom, CommandCall.setMaxBounds] }
  else if cmd = "/globe" then
    { st1 with calls := st1.calls ++ [CommandCall.setProjection "globe"] }
  else if cmd = "/projects" then
    { st1 with calls := st1.calls ++ [CommandCall.openProjectsSidebar] }
  else
    match lookupDataType cmd with
    | some v => { st1 with overlay := showDataPoints st1.overlay (v.text nativeText) }
    | none => st1

/-- The command box holding `text`, with the ports overlay installed. -/
def portsShown (text : String) : CommandState :=
  { input := text
    overlay := overlayRun [OverlayEvent.activate "ports", OverlayEvent.settle 0 (some portsData)]
    calls := [] }

end Overlay

namespace Calendar

/-! ## The calendar as a transition system -/

/-- What the user can do in the calendar. `openCalendar` is the calendar
widget or the F2 key, `nav` a button of the header or of the mini month,
`toggle` a checkbox of the calendar list, `sidebarCreate` and `fab` the two
create buttons, `mainClick` a click in the main grid, the `quick...` actions
belong to the quick adder, the `modal...` actions to the event modal
(`modalDelete` is its Delete button), `chipClick` is a click on an event
chip. -/
inductive UiAction where
  | openCalendar
  | nav (a : Action)
  | toggle (dataCal : String) (checked : Bool)
  | sidebarCreate
  | fab
  | mainClick (path : List GridElement) (mouseX mouseY : Int)
  | quickEdit (fields : QuickInput)
  | quickClose
  | quickMore
  | quickSave (ms : Nat)
  | modalEdit (form : EventForm)
  | modalClose
  | modalSubmit (ms : Nat)
  | modalDelete
  | chipClick (dataId : String)
deriving DecidableEq, Repr

/-- Source: a call `openEventModal(date, hour)` without an event id, made by
a click handler. When `openEventModal` throws, the modal stays as it was. -/
def openModalForNew (ui : CalendarUi) (date : DateArg) (hour : Option String) : CalendarUi :=
  match openEventModal ui.app.calendarList ui.app.calendarEvents ui.modal date hour none with
  | some m => { ui with modal := m, modalShown := true }
  | none => ui

/-- Source: the handlers of the calendar, one per action.
`sidebarCreateBtn.onclick = openEventModal` passes the click event as `date`,
`calendarFab.onclick = () => openEventModal()` passes nothing, `#quick-more`
calls `openEventModal(date, hour)`: no caller passes an event id. The handlers
of the modal can only fire while it is shown. A click on a chip shows the
read-only overlay, which is outside this state. -/
def uiStep (parse : String → Option (List CalendarEvent)) (ui : CalendarUi) :
    UiAction → CalendarUi
  | UiAction.openCalendar => { ui with app := renderGoogleCalendar parse ui.app }
  | UiAction.nav a =>
    { ui with app := renderGoogleCalendar parse { ui.app with state := step ui.app.state a } }
  | UiAction.toggle dataCal checked =>
    { ui with app := calendarCheckboxChange parse ui.app dataCal checked }
  | UiAction.sidebarCreate => openModalForNew ui DateArg.other none
  | UiAction.fab => openModalForNew ui DateArg.undefined none
  | UiAction.mainClick path mouseX mouseY => calendarMainClick ui path mouseX mouseY
  | UiAction.quickEdit fields => editQuickAdder ui fields
  | UiAction.quickClose => { ui with quickAdder := none }
  | UiAction.quickMore => quickMore ui
  | UiAction.quickSave ms =>
    match ui.quickAdder with
    | none => ui
    | some q =>
      let out := quickSave parse ms ui.app q.fields
      { ui with app := out.app, quickAdder := if out.closed then none else some q }
  | UiAction.modalEdit form =>
    if ui.modalShown then { ui with modal := { ui.modal with form := form } } else ui
  | UiAction.modalClose => { ui with modalShown := false }
  | UiAction.modalSubmit ms =>
    if ui.modalShown then
      { ui with app := (formOnSubmit parse ms ui.app ui.modal ui.modal.form).app
                modalShown := false }
    else ui
  | UiAction.modalDelete =>
    if ui.modalShown then
      let out := deleteOnClick parse ui.app ui.modal
      { ui with app := out.app, modalShown := if out.closed then false else ui.modalShown }
    else ui
  | UiAction.chipClick _ => ui

/-- The calendar after a sequence of actions. -/
def uiRun (parse : String → Option (List CalendarEvent)) (ui : CalendarUi)
    (actions : List UiAction) : CalendarUi :=
  actions.foldl (uiStep parse) ui

/-- The event that a save action pushes when it saves: the one of the quick
adder for `quickSave`, the one of the form for `modalSubmit`. -/
def pushedBy (ui : CalendarUi) : UiAction → Option CalendarEvent
  | UiAction.quickSave ms =>
    ui.quickAdder.map fun q => quickEvent ms ui.app.calendarList q.fields
  | UiAction.modalSubmit ms => if ui.modalShown then some (formEvent ms ui.modal.form) else none
  | _ => none

/-- Whether `JSON.parse` gives back the collection that the action would
serialise. -/
def roundTrips (parse : String → Option (List CalendarEvent)) (ui : CalendarUi)
    (a : UiAction) : Bool :=
  match pushedBy ui a with
  | none => true
  | some e =>
    decide (parse (stringifyEvents (ui.app.calendarEvents ++ [e])) =
      some (ui.app.calendarEvents ++ [e]))

/-- Whether `JSON.parse` gives back every collection serialised along the run
of `actions` from `ui`. -/
def roundTripsAlong (parse : String → Option (List CalendarEvent)) :
    CalendarUi → List UiAction → Bool
  | _, [] => true
  | ui, a :: rest => roundTrips parse ui a && roundTripsAlong parse (uiStep parse ui a) rest

/-- The variables hold what the storage holds: a render changes nothing. -/
def Synced (parse : String → Option (List CalendarEvent)) (ui : CalendarUi) : Prop :=
  renderGoogleCalendar parse ui.app = ui.app

/-- The table of `JSON.parse` for the run of the example: the Standup
collection and the two collections that the run saves. -/
def growParse : String → Option (List CalendarEvent) :=
  parseTable
    [[standupEvent],
      [standupEvent,
        { id := "ev1709542800001", title := "Review", calendar := "default",
          date := "2024-03-04", hour := "9", link := "", desc := "" }],
      [standupEvent,
        { id := "ev1709542800001", title := "Review", calendar := "default",
          date := "2024-03-04", hour := "9", link := "", desc := "" },
        { id := "ev1709542800002", title := "Retro", calendar := "default",
          date := "2024-03-08", hour := "10", link := "", desc := "" }]]

/-- A run of the calendar: a click on the cell of Monday 9:00, a title typed
into the quick adder, Save, the next week, the floating create button, the
form filled in, Save, and a click on the Delete button of the modal. -/
def growActions : List UiAction :=
  [UiAction.mainClick [standupCell] 100 200,
    UiAction.quickEdit
      { title := "Review", date := "2024-03-04", hour := "9", link := "", desc := "" },
    UiAction.quickSave 1709542800001,
    UiAction.nav Action.next,
    UiAction.fab,
    UiAction.modalEdit
      { title := "Retro", calendar := "default", date := "2024-03-08", hour := "10", link := "",
        desc := "" },
    UiAction.modalSubmit 1709542800002,
    UiAction.fab,
    UiAction.modalDelete]

end Calendar

namespace Calendar

/-! ## Submission of the event form -/

/-- Constraint validation of `#event-form`, which the browser runs when Save
(the `type="submit"` button) is pressed or Enter is typed in a field, before
it fires `submit`; the form has no `novalidate`. `#event-title` and
`#event-date` are `required`, so their value must not be empty, and the value
of an `input type="date"` is a valid date string or empty. `#event-link` is
`type="url"`: its value is empty or an absolute URL, `validUrl` being the URL
parser of the browser. -/
def formValid (validUrl : String → Bool) (form : EventForm) : Bool :=
  decide (form.title ≠ "") && isValidDateString form.date &&
    (decide (form.link = "") || validUrl form.link)

/-- Source: Save pressed in the event modal. The `submit` event fires, and
`form.onsubmit` runs, only on a form that passes the validation; otherwise the
browser points at the first invalid field and nothing else happens. -/
def submitEventForm (validUrl : String → Bool) (parse : String → Option (List CalendarEvent))
    (ms : Nat) (app : App) (modal : EventModal) (form : EventForm) : Outcome :=
  if formValid validUrl form then formOnSubmit parse ms app modal form
  else { app := app, alert := none, closed := false }

/-- The Standup calendar with a storage that rejects writes: `setItem` throws,
as it does when the quota is exceeded. -/
def fullStorageApp : App :=
  { standupApp with storage := { standupApp.storage with writable := false } }

/-- The form of the modal filled with "Retro" on 2024-03-04 at 10. -/
def retroForm : EventForm :=
  { title := "Retro", calendar := "default", date := "2024-03-04", hour := "10", link := "",
    desc := "" }

end Calendar

namespace Calendar

/-! ## Month view: the markup of the chips

`renderEvents` adds a chip with `cell.innerHTML += markup`, the texts of the
event interpolated into the markup as they are. What the document then holds
is what the HTML parser makes of that markup. The parser is embedded for the
markup the calendar writes: the tokenizer states of tags and attributes, and
the tree construction ("in body") for `div`, `span` and `a` elements and
text. Character references (`&`), comments and declarations (`<!`, `<?`),
other elements, NUL and carriage return are outside the embedding: on them
the parser gives `none`. Of the tree, the text content and the elements of
class `event-chip` are kept. -/

/-- An element of class `event-chip` in the document: its attributes in
source order and its text content. -/
structure ChipElement where
  attrs : List (String × String)
  text : String
deriving DecidableEq, Repr

/-- The value of the attribute `name` of a chip element. -/
def ChipElement.attr (chip : ChipElement) (name : String) : Option String :=
  (chip.attrs.find? fun p => p.1 = name).map fun p => p.2

/-- An element on the stack of open elements: its tag name, its attributes,
and what its content holds so far, the text of all its descendants and the
`event-chip` elements among them in document order. The last entry of the
stack stands for the container the markup is parsed into. -/
structure OpenElement where
  name : List Char
  attrs : List (List Char × List Char)
  text : List Char
  chips : List ChipElement
deriving DecidableEq, Repr

/-- A tag token while the tokenizer reads it: start or end tag, its name and
the attributes completed so far. -/
structure TagToken where
  isEnd : Bool
  name : List Char
  attrs : List (List Char × List Char)
deriving DecidableEq, Repr

/-- The states of the HTML tokenizer that the markup of a tag passes through;
the attribute states carry the name, and the value, of the attribute being
read. -/
inductive TokState where
  | data
  | tagOpen
  | endTagOpen
  | tagName (tag : TagToken)
  | beforeAttrName (tag : TagToken)
  | attrName (tag : TagToken) (name : List Char)
  | afterAttrName (tag : TagToken) (name : List Char)
  | beforeAttrValue (tag : TagToken) (name : List Char)
  | attrValueDq (tag : TagToken) (name value : List Char)
  | attrValueSq (tag : TagToken) (name value : List Char)
  | attrValueUnq (tag : TagToken) (name value : List Char)
  | afterAttrValueQ (tag : TagToken)
  | selfClosing (tag : TagToken)
deriving DecidableEq, Repr

/-- The tokenizer state and the stack of open elements, innermost first. -/
structure ParserState where
  tok : TokState
  stack : List OpenElement
deriving DecidableEq, Repr

/-- The white space of the tokenizer: tab, line feed, form feed, space. -/
def isTagSpace (c : Char) : Bool :=
  c = '\t' || c = '\n' || c.toNat = 12 || c = ' '

/-- The tokens of a `class` attribute: its value split at white space. -/
def classTokens : List Char → List Char → List (List Char)
  | cur, [] => if cur = [] then [] else [cur]
  | cur, c :: cs =>
    if isTagSpace c || c = '\r' then
      (if cur = [] then [] else [cur]) ++ classTokens [] cs
    else classTokens (cur ++ [c]) cs

/-- Whether the attributes give the element the class `cls`, the class
names compared exactly (a document in no-quirks mode). -/
def hasClass (cls : List Char) (attrs : List (List Char × List Char)) : Bool :=
  match attrs.find? fun p => p.1 = "class".toList with
  | some p => (classTokens [] p.2).contains cls
  | none => false

/-- A completed attribute is added to the tag unless the tag has an attribute
of that name already (the later one is dropped). -/
def addAttr (tag : TagToken) (name value : List Char) : TagToken :=
  if tag.attrs.any fun p => p.1 = name then tag
  else { tag with attrs := tag.attrs ++ [(name, value)] }

/-- A character token in the insertion mode "in body": the character is
appended to the text of the current node. -/
def insertChar (c : Char) : List OpenElement → Option (List OpenElement)
  | [] => none
  | f :: rest => some ({ f with text := f.text ++ [c] } :: rest)

/-- The current node is popped off the stack: its text is appended to the
text of its parent, and the element itself, if it has the class `event-chip`,
followed by the chips inside it, to the chips of its parent. -/
def closeTop : List OpenElement → List OpenElement
  | f :: p :: rest =>
    { p with
      text := p.text ++ f.text
      chips := p.chips ++
        ((if hasClass "event-chip".toList f.attrs then
            [{ attrs := f.attrs.map fun q => (String.mk q.1, String.mk q.2),
               text := String.mk f.text }]
          else []) ++ f.chips) } :: rest
  | stack => stack

/-- The current node and the `n` nodes below it are popped. -/
def popNodes : Nat → List OpenElement → List OpenElement
  | 0, stack => stack
  | n + 1, stack => popNodes n (closeTop stack)

/-- The elements opened by the markup: the stack without the container. -/
def openedElements (stack : List OpenElement) : List OpenElement :=
  stack.dropLast

/-- A start tag token in the insertion mode "in body". A `div` and a `span`
are inserted as the last child of the current node and become the current
node; so is an `a`, a formatting element, when no `a` is open. Other
elements, a second `a` inside an open one, and an element of class
`month-events`, which the selector of `renderEvents` could take for the
container of a cell, are outside the embedding. -/
def startTag (name : List Char) (attrs : List (List Char × List Char))
    (stack : List OpenElement) : Option (List OpenElement) :=
  if hasClass "month-events".toList attrs then none
  else if name = "div".toList ∨ name = "span".toList then
    some ({ name := name, attrs := attrs, text := [], chips := [] } :: stack)
  else if name = "a".toList then
    if (openedElements stack).any fun f => f.name = "a".toList then none
    else some ({ name := name, attrs := attrs, text := [], chips := [] } :: stack)
  else none

/-- An end tag token in the insertion mode "in body".
`</div>`: ignored when no `div` is open; otherwise the nodes are popped up to
and including the innermost open `div`.
`</span>` (any other end tag): the stack is searched from the current node;
at a `span` the nodes are popped up to and including it; at a `div`, a
special element, or at the container the token is ignored.
`</a>` (adoption agency algorithm): ignored when no `a` is open; when no
`div` is open inside the innermost `a`, the nodes are popped up to and
including that `a`.
Popping an `a` by another end tag, or an `a` with a `div` open inside it,
leaves a formatting element to be reconstructed and is outside the embedding,
as are the end tags of other elements. -/
def endTag (name : List Char) (stack : List OpenElement) : Option (List OpenElement) :=
  let opened := openedElements stack
  if name = "div".toList then
    match opened.findIdx? fun f => f.name = "div".toList with
    | none => some stack
    | some i =>
      if (opened.take i).any fun f => f.name = "a".toList then none
      else some (popNodes (i + 1) stack)
  else if name = "span".toList then
    match opened.findIdx? fun f => f.name = "span".toList ∨ f.name = "div".toList with
    | none => some stack
    | some i =>
      if (opened.get? i).any fun f => f.name = "div".toList then some stack
      else if (opened.take i).any fun f => f.name = "a".toList then none
      else some (popNodes (i + 1) stack)
  else if name = "a".toList then
    match opened.findIdx? fun f => f.name = "a".toList with
    | none => some stack
    | some i =>
      if (opened.take i).any fun f => f.name = "div".toList then none
      else some (popNodes (i + 1) stack)
  else none

/-- A completed tag token is handed to the tree construction; the tokenizer
returns to the data state. The attributes of an end tag are ignored. -/
def emitTag (tag : TagToken) (stack : List OpenElement) : Option ParserState :=
  (if tag.isEnd then endTag tag.name stack else startTag tag.name tag.attrs stack).map
    fun s => { tok := TokState.data, stack := s }

/-- The data state of the tokenizer on the character `c`. -/
def dataStep (c : Char) (stack : List OpenElement) : Option ParserState :=
  if c = '<' then some { tok := TokState.tagOpen, stack := stack }
  else if c = '&' then none
  else (insertChar c stack).map fun s => { tok := TokState.data, stack := s }

/-- The HTML tokenizer on one character, each token handed to the tree
construction as it is completed. Where the standard reconsumes the character
in another state, the step of that state is taken at once. -/
def parseStep (st : ParserState) (c : Char) : Option ParserState :=
  if c.toNat = 0 ∨ c = '\r' then none
  else
    match st.tok with
    | TokState.data => dataStep c st.stack
    | TokState.tagOpen =>
      if c = '!' ∨ c = '?' then none
      else if c = '/' then some { st with tok := TokState.endTagOpen }
      else if c.isAlpha then
        some { st with tok := TokState.tagName { isEnd := false, name := [c.toLower], attrs := [] } }
      else (insertChar '<' st.stack).bind fun s => dataStep c s
    | TokState.endTagOpen =>
      if c.isAlpha then
        some { st with tok := TokState.tagName { isEnd := true, name := [c.toLower], attrs := [] } }
      else if c = '>' then some { st with tok := TokState.data }
      else none
    | TokState.tagName tag =>
      if isTagSpace c then some { st with tok := TokState.beforeAttrName tag }
      else if c = '/' then some { st with tok := TokState.selfClosing tag }
      else if c = '>' then emitTag tag st.stack
      else some { st with tok := TokState.tagName { tag with name := tag.name ++ [c.toLower] } }
    | TokState.beforeAttrName tag =>
      if isTagSpace c then some st
      else if c = '/' then some { st with tok := TokState.selfClosing tag }
      else if c = '>' then emitTag tag st.stack
      else some { st with tok := TokState.attrName tag [c.toLower] }
    | TokState.attrName tag name =>
      if isTagSpace c then some { st with tok := TokState.afterAttrName tag name }
      else if c = '/' then some { st with tok := TokState.selfClosing (addAttr tag name []) }
      else if c = '>' then emitTag (addAttr tag name []) st.stack
      else if c = '=' then some { st with tok := TokState.beforeAttrValue tag name }
      else some { st with tok := TokState.attrName tag (name ++ [c.toLower]) }
    | TokState.afterAttrName tag name =>
      if isTagSpace c then some st
      else if c = '/' then some { st with tok := TokState.selfClosing (addAttr tag name []) }
      else if c = '=' then some { st with tok := TokState.beforeAttrValue tag name }
      else if c = '>' then emitTag (addAttr tag name []) st.stack
      else some { st with tok := TokState.attrName (addAttr tag name []) [c.toLower] }
    | TokState.beforeAttrValue tag name =>
      if isTagSpace c then some st
      else if c = '"' then some { st with tok := TokState.attrValueDq tag name [] }
      else if c = '\'' then some { st with tok := TokState.attrValueSq tag name [] }
      else if c = '>' then emitTag (addAttr tag name []) st.stack
      else if c = '&' then none
      else some { st with tok := TokState.attrValueUnq tag name [c] }
    | TokState.attrValueDq tag name value =>
      if c = '"' then some { st with tok := TokState.afterAttrValueQ (addAttr tag name value) }
      else if c = '&' then none
      else some { st with tok := TokState.attrValueDq tag name (value ++ [c]) }
    | TokState.attrValueSq tag name value =>
      if c = '\'' then some { st with tok := TokState.afterAttrValueQ (addAttr tag name value) }
      else if c = '&' then none
      else some { st with tok := TokState.attrValueSq tag name (value ++ [c]) }
    | TokState.attrValueUnq tag name value =>
      if isTagSpace c then some { st with tok := TokState.beforeAttrName (addAttr tag name value) }
      else if c = '&' then none
      else if c = '>' then emitTag (addAttr tag name value) st.stack
      else some { st with tok := TokState.attrValueUnq tag name (value ++ [c]) }
    | TokState.afterAttrValueQ tag =>
      if isTagSpace c then some { st with tok := TokState.beforeAttrName tag }
      else if c = '/' then some { st with tok := TokState.selfClosing tag }
      else if c = '>' then emitTag tag st.stack
      else some { st with tok := TokState.attrName tag [c.toLower] }
    | TokState.selfClosing tag =>
      if c = '>' then emitTag tag st.stack
      else if isTagSpace c then some { st with tok := TokState.beforeAttrName tag }
      else if c = '/' then some st
      else some { st with tok := TokState.attrName tag [c.toLower] }

/-- What a container holds: its text content and the `event-chip` elements
inside it, in document order. -/
structure Content where
  text : String
  chips : List ChipElement
deriving DecidableEq, Repr

/-- The empty container. -/
def Content.empty : Content := { text := "", chips := [] }

/-- The end of the markup in the data state: every open element is popped.
The end of the markup inside a tag is outside the embedding. -/
def parseEnd (st : ParserState) : Option Content :=
  match st.tok with
  | TokState.data =>
    match popNodes (st.stack.length - 1) st.stack with
    | [base] => some { text := String.mk base.text, chips := base.chips }
    | _ => none
  | _ => none

/-- The HTML fragment parser on `markup`, parsed into an empty container:
what the container then holds. -/
def parseMarkup (markup : String) : Option Content :=
  (markup.toList.foldlM parseStep
    { tok := TokState.data, stack := [{ name := [], attrs := [], text := [], chips := [] }] }).bind
    parseEnd

/-- Source: the markup of a chip in the month branch of `renderEvents`, a
template literal with `cal ? cal.color : '#00e6ff'`, `ev.id`,
`ev.link ? ev.link : ''` and `ev.title` interpolated as they are, and the
link anchor when `ev.link` is not empty. -/
def monthChipMarkup (cals : List CalendarDefinition) (ev : CalendarEvent) : String :=
  "<div class=\"event-chip\" style=\"background:" ++ chipColor cals ev ++
    "20;position:relative;display:flex;align-items:center;\" data-id=\"" ++ ev.id ++
    "\" title=\"" ++ (if ev.link ≠ "" then ev.link else "") ++
    "\">\n            <span style=\"display:inline-block;width:6px;height:80%;background:" ++
    chipColor cals ev ++
    ";border-radius:3px;margin-right:7px;\"></span>\n            <span style=\"flex:1;\">" ++
    ev.title ++
    (if ev.link ≠ "" then
      "<a href=\"" ++ ev.link ++
        "\" target=\"_blank\" style=\"margin-left:6px;color:#fff;text-decoration:none;\" title=\"Open link\">🔗</a>"
    else "") ++
    "</span>\n          </div>"

/-- The value of the CSS string `"..."` of an attribute selector written with
the text `s` between the quotes, for a text without the characters that end
or escape a CSS string (`"`, `\`, line feed, form feed, carriage return,
NUL): the text itself. Other texts are outside the embedding. -/
def cssStringValue (s : String) : Option String :=
  if s.toList.all fun c =>
      c ≠ '"' ∧ c ≠ '\\' ∧ c ≠ '\n' ∧ c ≠ '\r' ∧ c.toNat ≠ 12 ∧ c.toNat ≠ 0 then some s
  else none

/-- A `.month-cell` element of the document: a padding cell, or a day cell
with its `data-date` and what its `.month-events` container holds. -/
inductive MonthCellDom where
  | blank
  | day (dataDate : String) (isToday : Bool) (num : Int) (events : Content)
deriving DecidableEq, Repr

/-- Source: `cell.innerHTML += markup` on a `.month-events` container: the
children of the container are serialised, `markup` is appended and the whole
is parsed again. The serialisation of children that the parser built from
`div`, `span` and `a` elements and text parses back to these children, so the
children stay and those parsed from `markup` follow them. -/
def appendMarkup (old : Content) (markup : String) : Option Content :=
  (parseMarkup markup).map fun added =>
    { text := old.text ++ added.text, chips := old.chips ++ added.chips }

/-- The first day cell whose `data-date` is `date` gets `markup` appended to
its container; without such a cell nothing changes. -/
def appendToCell (date markup : String) : List MonthCellDom → Option (List MonthCellDom)
  | [] => some []
  | MonthCellDom.blank :: cs => (appendToCell date markup cs).map fun r => MonthCellDom.blank :: r
  | MonthCellDom.day dataDate isToday num events :: cs =>
    if dataDate = date then
      (appendMarkup events markup).map fun r => MonthCellDom.day dataDate isToday num r :: cs
    else (appendToCell date markup cs).map fun r => MonthCellDom.day dataDate isToday num events :: r

/-- Source: `querySelector` for `.month-cell[data-date="${ev.date}"]
.month-events` followed by `cell.innerHTML += markup`, for one event. -/
def addMonthChipDom (cals : List CalendarDefinition) (ev : CalendarEvent)
    (cells : List MonthCellDom) : Option (List MonthCellDom) :=
  (cssStringValue ev.date).bind fun date => appendToCell date (monthChipMarkup cals ev) cells

/-- Source: `renderEvents('month', ...)` on the document: the containers are
emptied, then every event of a checked calendar, in the order of the
collection, has its markup appended to the container of its date. -/
def renderEventsMonthDom (cals : List CalendarDefinition) (events : List CalendarEvent)
    (cells : List MonthCellDom) : Option (List MonthCellDom) :=
  events.foldlM
    (fun acc ev => if ev.calendar ∈ activeCals cals then addMonthChipDom cals ev acc else some acc)
    (cells.map fun c =>
      match c with
      | MonthCellDom.blank => MonthCellDom.blank
      | MonthCellDom.day dataDate isToday num _ =>
        MonthCellDom.day dataDate isToday num Content.empty)

/-- Source: `renderMonthView`, the document it leaves: the 42 cells, then
`renderEvents('month', ...)`. -/
def renderMonthViewDom (app : App) (now : Int) : Option (List MonthCellDom) :=
  let year := app.state.year
  let month := app.state.month
  let today := getToday now
  renderEventsMonthDom app.calendarList app.calendarEvents
    ((monthCells year month).map fun c =>
      match c with
      | none => MonthCellDom.blank
      | some day =>
        MonthCellDom.day (toString year ++ "-" ++ pad (month + 1) ++ "-" ++ pad day)
          (decide (year = today.year ∧ month = today.month ∧ day = today.day)) day
          Content.empty)

/-- The `data-date` of a cell of the document; a padding cell has none. -/
def MonthCellDom.date : MonthCellDom → Option String
  | MonthCellDom.blank => none
  | MonthCellDom.day dataDate _ _ _ => some dataDate

/-- The `event-chip` elements inside a cell of the document. -/
def MonthCellDom.chips : MonthCellDom → List ChipElement
  | MonthCellDom.blank => []
  | MonthCellDom.day _ _ _ events => events.chips

/-- A text that the data state of the tokenizer takes as text: no `<`, no
`&`, no NUL and no carriage return. -/
def isPlainText (s : String) : Bool :=
  s.toList.all fun c => c ≠ '<' ∧ c ≠ '&' ∧ c.toNat ≠ 0 ∧ c ≠ '\r'

/-- A text that a double-quoted attribute value takes as it is: no `"`, no
`&`, no NUL and no carriage return. -/
def isPlainValue (s : String) : Bool :=
  s.toList.all fun c => c ≠ '"' ∧ c ≠ '&' ∧ c.toNat ≠ 0 ∧ c ≠ '\r'

/-- A date text: digits and hyphens, as in `YYYY-MM-DD`. -/
def isDateText (s : String) : Bool :=
  s.toList.all fun c => c.isDigit ∨ c = '-'

/-- The Standup event with a title that holds the markup of a chip. -/
def markupTitleEvent : CalendarEvent :=
  { standupEvent with title := "<div class=\"event-chip\">x</div>" }

/-- The Standup event with a link that closes the attribute and the tag and
holds the markup of a chip. -/
def markupLinkEvent : CalendarEvent :=
  { standupEvent with link := "\"><div class=\"event-chip\"></div><span x=\"" }

/-- The container the markup of a chip is parsed into. -/
def emptyContainer : OpenElement := { name := [], attrs := [], text := [], chips := [] }

/-- The chip element the markup of an event is expected to give. -/
def chipFrame (color id link : List Char) (text : List Char) : OpenElement :=
  { name := "div".toList
    attrs :=
      [("class".toList, "event-chip".toList),
       ("style".toList,
        "background:".toList ++ (color ++
          "20;position:relative;display:flex;align-items:center;".toList)),
       ("data-id".toList, id), ("title".toList, link)]
    text := text
    chips := [] }

/-- The `span` that shows the title, holding `text`. -/
def titleFrame (text : List Char) : OpenElement :=
  { name := "span".toList, attrs := [("style".toList, "flex:1;".toList)], text := text,
    chips := [] }

/-- The element that the markup of a chip gives when its texts hold no
markup: the attributes of the `div` and its text content. -/
def chipElement (chip : EventChip) : ChipElement :=
  { attrs :=
      [("class", "event-chip"),
       ("style",
        "background:" ++ chip.color ++ "20;position:relative;display:flex;align-items:center;"),
       ("data-id", chip.dataId), ("title", chip.link)]
    text :=
      "\n            \n            " ++ chip.text ++ (if chip.link ≠ "" then "🔗" else "") ++
        "\n          " }

/-- What a container holds after the markup of the chips was appended, one
after the other. -/
def contentOf (chips : List EventChip) : Content :=
  { text := chips.foldl (fun acc c => acc ++ (chipElement c).text) ""
    chips := chips.map chipElement }

/-- The cell of the document for a cell whose chips hold no markup. -/
def MonthCell.toDom : MonthCell → MonthCellDom
  | MonthCell.blank => MonthCellDom.blank
  | MonthCell.day dataDate isToday num events =>
    MonthCellDom.day dataDate isToday num (contentOf events)

/-- The markup of a chip as a list of characters, with a link anchor. -/
def chipMarkupLinked (color id link title : List Char) : List Char :=
  "<div class=\"event-chip\" style=\"".toList ++
      (("background:".toList ++ (color ++
        "20;position:relative;display:flex;align-items:center;".toList)) ++
      ("\" data-id=\"".toList ++
      (id ++
      ("\" title=\"".toList ++
      (link ++
      ("\">".toList ++
      ("\n            ".toList ++
      ("<span style=\"".toList ++
      (("display:inline-block;width:6px;height:80%;background:".toList ++ (color ++
        ";border-radius:3px;margin-right:7px;".toList)) ++
      ("\">".toList ++
      ("</span>".toList ++
      ("\n            ".toList ++
      ("<span style=\"flex:1;\">".toList ++
      (title ++
      ("<a href=\"".toList ++ (link ++
        ("\" target=\"_blank\" style=\"margin-left:6px;color:#fff;text-decoration:none;\" title=\"Open link\">🔗</a>".toList ++
          ("</span>".toList ++ ("\n          ".toList ++ "</div>".toList)))))))))))))))))))

/-- The markup of a chip as a list of characters, without a link anchor. -/
def chipMarkupPlain (color id link title : List Char) : List Char :=
  "<div class=\"event-chip\" style=\"".toList ++
      (("background:".toList ++ (color ++
        "20;position:relative;display:flex;align-items:center;".toList)) ++
      ("\" data-id=\"".toList ++
      (id ++
      ("\" title=\"".toList ++
      (link ++
      ("\">".toList ++
      ("\n            ".toList ++
      ("<span style=\"".toList ++
      (("display:inline-block;width:6px;height:80%;background:".toList ++ (color ++
        ";border-radius:3px;margin-right:7px;".toList)) ++
      ("\">".toList ++
      ("</span>".toList ++
      ("\n            ".toList ++
      ("<span style=\"flex:1;\">".toList ++
      (title ++
      ("</span>".toList ++ ("\n          ".toList ++ "</div>".toList))))))))))))))))

/-- The state of the parser after the markup of a chip whose title span
holds `text`. -/
def chipParsed (color id link text : List Char) : ParserState :=
  { tok := TokState.data
    stack :=
      [{ name := [], attrs := []
         text := ("\n            \n            ".toList ++ text) ++ "\n          ".toList
         chips :=
           [{ attrs :=
                [("class", "event-chip"),
                 ("style", String.mk ("background:".toList ++ (color ++
                    "20;position:relative;display:flex;align-items:center;".toList))),
                 ("data-id", String.mk id), ("title", String.mk link)]
              text := String.mk
                (("\n            \n            ".toList ++ text) ++
                  "\n          ".toList) }] }] }

/-- The calendar in month view on March 2024 holding the events `events`. -/
def marchApp (events : List CalendarEvent) : App :=
  { standupApp with
    state := { standupApp.state with view := View.month }
    calendarEvents := events }

/-- The chips of the cells of the document that carry the date `date`: of
each chip its `data-id` and its text content. -/
def chipsOn (date : String) (cells : List MonthCellDom) :
    List (List (Option String × String)) :=
  (cells.filter fun cell => cell.date = some date).map fun cell =>
    cell.chips.map fun chip => (chip.attr "data-id", chip.text)

end Calendar

namespace Calendar

set_option maxRecDepth 1000000

/-! ## Lemmas on the day arithmetic -/

theorem yearEstimate_bounds (d : Int) :
    dayFromYear (1970 + (400 * d) / 146097 - 1) ≤ d ∧
      d < dayFromYear (1970 + (400 * d) / 146097 + 2) := by
  unfold dayFromYear
  omega

theorem yearFromDay_spec (d : Int) :
    dayFromYear (yearFromDay d) ≤ d ∧ d < dayFromYear (yearFromDay d + 1) := by
  have h := yearEstimate_bounds d
  unfold yearFromDay
  simp only
  split_ifs with h1 h2
  · refine ⟨h1, ?_⟩
    have e : 1970 + 400 * d / 146097 + 1 + 1 = 1970 + 400 * d / 146097 + 2 := by ring
    rw [e]; exact h.2
  · refine ⟨h.1, ?_⟩
    have e : 1970 + 400 * d / 146097 - 1 + 1 = 1970 + 400 * d / 146097 := by ring
    rw [e]; exact h2
  · exact ⟨by omega, by omega⟩

theorem daysInYear_eq (y : Int) : daysInYear y = 365 + leapDays y := by
  unfold leapDays
  by_cases h : daysInYear y = 366
  · rw [if_pos h, h]; rfl
  · rw [if_neg h]
    unfold daysInYear at h ⊢
    split_ifs at h ⊢ <;> first | rfl | exact absurd rfl h

theorem leapDays_cases (y : Int) : leapDays y = 0 ∨ leapDays y = 1 := by
  unfold leapDays
  by_cases h : daysInYear y = 366
  · rw [if_pos h]; exact Or.inr rfl
  · rw [if_neg h]; exact Or.inl rfl

theorem dayFromYear_succ (y : Int) : dayFromYear (y + 1) = dayFromYear y + daysInYear y := by
  unfold dayFromYear daysInYear
  split_ifs <;> omega

theorem dayFromYear_lt (a b : Int) (h : a < b) : dayFromYear a < dayFromYear b := by
  unfold dayFromYear
  omega

theorem dayFromYear_mono (a b : Int) (h : a ≤ b) : dayFromYear a ≤ dayFromYear b := by
  rcases eq_or_lt_of_le h with h | h
  · rw [h]
  · exact le_of_lt (dayFromYear_lt a b h)

theorem yearFromDay_unique (y d : Int) (h1 : dayFromYear y ≤ d) (h2 : d < dayFromYear (y + 1)) :
    yearFromDay d = y := by
  have hs := yearFromDay_spec d
  by_contra hne
  rcases lt_or_gt_of_ne hne with hlt | hgt
  · have := dayFromYear_mono (yearFromDay d + 1) y (by omega)
    omega
  · have := dayFromYear_mono (y + 1) (yearFromDay d) (by omega)
    omega

theorem dayWithinYear_bounds (d : Int) :
    0 ≤ dayWithinYear d ∧ dayWithinYear d < 365 + leapDays (yearFromDay d) := by
  have h := yearFromDay_spec d
  have h2 := dayFromYear_succ (yearFromDay d)
  have h3 := daysInYear_eq (yearFromDay d)
  unfold dayWithinYear
  omega

theorem monthOfYearDay_cases (w l m : Int) (hm : monthOfYearDay w l = m) :
    (w < 31 ∧ m = 0) ∨
    (31 ≤ w ∧ w < 59 + l ∧ m = 1) ∨
    (59 + l ≤ w ∧ w < 90 + l ∧ m = 2) ∨
    (90 + l ≤ w ∧ w < 120 + l ∧ m = 3) ∨
    (120 + l ≤ w ∧ w < 151 + l ∧ m = 4) ∨
    (151 + l ≤ w ∧ w < 181 + l ∧ m = 5) ∨
    (181 + l ≤ w ∧ w < 212 + l ∧ m = 6) ∨
    (212 + l ≤ w ∧ w < 243 + l ∧ m = 7) ∨
    (243 + l ≤ w ∧ w < 273 + l ∧ m = 8) ∨
    (273 + l ≤ w ∧ w < 304 + l ∧ m = 9) ∨
    (304 + l ≤ w ∧ w < 334 + l ∧ m = 10) ∨
    (334 + l ≤ w ∧ m = 11) := by
  delta monthOfYearDay at hm
  by_cases c0 : w < 31
  · rw [if_pos c0] at hm; left; exact ⟨c0, hm.symm⟩
  rw [if_neg c0] at hm
  by_cases c1 : w < 59 + l
  · rw [if_pos c1] at hm; right; left; exact ⟨not_lt.mp c0, c1, hm.symm⟩
  rw [if_neg c1] at hm
  by_cases c2 : w < 90 + l
  · rw [if_pos c2] at hm; right; right; left; exact ⟨not_lt.mp c1, c2, hm.symm⟩
  rw [if_neg c2] at hm
  by_cases c3 : w < 120 + l
  · rw [if_pos c3] at hm; right; right; right; left; exact ⟨not_lt.mp c2, c3, hm.symm⟩
  rw [if_neg c3] at hm
  by_cases c4 : w < 151 + l
  · rw [if_pos c4] at hm; right; right; right; right; left; exact ⟨not_lt.mp c3, c4, hm.symm⟩
  rw [if_neg c4] at hm
  by_cases c5 : w < 181 + l
  · rw [if_pos c5] at hm; right; right; right; right; right; left; exact ⟨not_lt.mp c4, c5, hm.symm⟩
  rw [if_neg c5] at hm
  by_cases c6 : w < 212 + l
  · rw [if_pos c6] at hm; right; right; right; right; right; right; left; exact ⟨not_lt.mp c5, c6, hm.symm⟩
  rw [if_neg c6] at hm
  by_cases c7 : w < 243 + l
  · rw [if_pos c7] at hm; right; right; right; right; right; right; right; left; exact ⟨not_lt.mp c6, c7, hm.symm⟩
  rw [if_neg c7] at hm
  by_cases c8 : w < 273 + l
  · rw [if_pos c8] at hm; right; right; right; right; right; right; right; right; left; exact ⟨not_lt.mp c7, c8, hm.symm⟩
  rw [if_neg c8] at hm
  by_cases c9 : w < 304 + l
  · rw [if_pos c9] at hm; right; right; right; right; right; right; right; right; right; left; exact ⟨not_lt.mp c8, c9, hm.symm⟩
  rw [if_neg c9] at hm
  by_cases c10 : w < 334 + l
  · rw [if_pos c10] at hm; right; right; right; right; right; right; right; right; right; right; left; exact ⟨not_lt.mp c9, c10, hm.symm⟩
  rw [if_neg c10] at hm
  right; right; right; right; right; right; right; right; right; right; right; exact ⟨not_lt.mp c10, hm.symm⟩

theorem monthOfYearDay_spec (w l : Int) (h0 : 0 ≤ w) (h1 : w < 365 + l) :
    0 ≤ monthOfYearDay w l ∧ monthOfYearDay w l ≤ 11 ∧
      monthStart (monthOfYearDay w l) l ≤ w ∧
      w < monthStart (monthOfYearDay w l) l + monthLength (monthOfYearDay w l) l := by
  generalize hm : monthOfYearDay w l = m
  rcases monthOfYearDay_cases w l m hm with ⟨_, hk⟩ | ⟨_, _, hk⟩ | ⟨_, _, hk⟩ | ⟨_, _, hk⟩ |
    ⟨_, _, hk⟩ | ⟨_, _, hk⟩ | ⟨_, _, hk⟩ | ⟨_, _, hk⟩ | ⟨_, _, hk⟩ | ⟨_, _, hk⟩ | ⟨_, _, hk⟩ | ⟨_, hk⟩
  all_goals (subst hk; simp only [monthStart, monthLength]; norm_num; omega)

/-- The month of a day within the year is determined by the interval it lies in. -/
theorem monthOfYearDay_unique (w l m : Int) (hl : l = 0 ∨ l = 1) (hm0 : 0 ≤ m) (hm1 : m ≤ 11)
    (h0 : monthStart m l ≤ w) (h1 : w < monthStart m l + monthLength m l) :
    monthOfYearDay w l = m := by
  generalize hk : monthOfYearDay w l = k
  have hc := monthOfYearDay_cases w l k hk
  have hm : m = 0 ∨ m = 1 ∨ m = 2 ∨ m = 3 ∨ m = 4 ∨ m = 5 ∨ m = 6 ∨ m = 7 ∨ m = 8 ∨ m = 9 ∨
      m = 10 ∨ m = 11 := by omega
  rcases hm with h | h | h | h | h | h | h | h | h | h | h | h
  all_goals
    subst h
    simp only [monthStart, monthLength] at h0 h1
    norm_num at h0 h1
    rcases hc with ⟨_, e⟩ | ⟨_, _, e⟩ | ⟨_, _, e⟩ | ⟨_, _, e⟩ | ⟨_, _, e⟩ | ⟨_, _, e⟩ |
      ⟨_, _, e⟩ | ⟨_, _, e⟩ | ⟨_, _, e⟩ | ⟨_, _, e⟩ | ⟨_, _, e⟩ | ⟨_, e⟩
    all_goals omega

theorem getMonth_bounds (d : Int) : 0 ≤ getMonth d ∧ getMonth d ≤ 11 := by
  have h := dayWithinYear_bounds d
  have := monthOfYearDay_spec (dayWithinYear d) (leapDays (yearFromDay d)) h.1 h.2
  exact ⟨this.1, this.2.1⟩

theorem monthLength_bounds (m l : Int) (hl : l = 0 ∨ l = 1) :
    28 ≤ monthLength m l ∧ monthLength m l ≤ 31 := by
  unfold monthLength
  split_ifs <;> omega

theorem getDate_bounds (d : Int) :
    1 ≤ getDate d ∧ getDate d ≤ monthLength (getMonth d) (leapDays (yearFromDay d)) := by
  have h := dayWithinYear_bounds d
  have := monthOfYearDay_spec (dayWithinYear d) (leapDays (yearFromDay d)) h.1 h.2
  unfold getDate getMonth
  omega

theorem getDate_le (d : Int) : getDate d ≤ 31 := by
  have h := getDate_bounds d
  have := monthLength_bounds (getMonth d) (leapDays (yearFromDay d)) (leapDays_cases _)
  omega

theorem setDate_eq (d k : Int) : setDate d k = d - getDate d + k := by
  have hm := getMonth_bounds d
  unfold setDate makeDay getDate dayWithinYear
  have h1 : getMonth d / 12 = 0 := by omega
  have h2 : getMonth d % 12 = getMonth d := by omega
  simp only [h1, h2, add_zero]
  ring

theorem getMonday_eq (d : Int) :
    getMonday d = d - getDay d + (if getDay d = 0 then -6 else 1) := by
  unfold getMonday
  simp only [setDate_eq]
  ring

theorem getDay_bounds (d : Int) : 0 ≤ getDay d ∧ getDay d ≤ 6 := by
  unfold getDay
  omega

theorem getDay_getMonday (d : Int) : getDay (getMonday d) = 1 := by
  rw [getMonday_eq]
  unfold getDay
  split_ifs <;> omega

/-- The civil date of the day `MakeDay` builds from a month in range and a
day of that month. -/
theorem civil_makeDay (y m k : Int) (hm0 : 0 ≤ m) (hm1 : m ≤ 11) (hk0 : 1 ≤ k)
    (hk1 : k ≤ monthLength m (leapDays y)) :
    getFullYear (makeDay y m k) = y ∧ getMonth (makeDay y m k) = m ∧
      getDate (makeDay y m k) = k := by
  have hl := leapDays_cases y
  have hd1 : m / 12 = 0 := by omega
  have hd2 : m % 12 = m := by omega
  have hday : makeDay y m k = dayFromYear y + monthStart m (leapDays y) + k - 1 := by
    unfold makeDay
    simp only [hd1, hd2, add_zero]
  have hms : 0 ≤ monthStart m (leapDays y) ∧
      monthStart m (leapDays y) + monthLength m (leapDays y) ≤ 365 + leapDays y := by
    have hmc : m = 0 ∨ m = 1 ∨ m = 2 ∨ m = 3 ∨ m = 4 ∨ m = 5 ∨ m = 6 ∨ m = 7 ∨ m = 8 ∨ m = 9 ∨
        m = 10 ∨ m = 11 := by omega
    rcases hmc with h | h | h | h | h | h | h | h | h | h | h | h
    all_goals (subst h; simp only [monthStart, monthLength]; norm_num; omega)
  have hy : yearFromDay (makeDay y m k) = y := by
    apply yearFromDay_unique
    · rw [hday]; omega
    · rw [hday, dayFromYear_succ, daysInYear_eq]; omega
  have hw : dayWithinYear (makeDay y m k) = monthStart m (leapDays y) + k - 1 := by
    unfold dayWithinYear
    rw [hy, hday]; ring
  have hmo : getMonth (makeDay y m k) = m := by
    unfold getMonth
    rw [hy, hw]
    exact monthOfYearDay_unique _ _ _ hl hm0 hm1 (by omega) (by omega)
  refine ⟨hy, hmo, ?_⟩
  unfold getDate
  rw [hmo, hy, hw]; ring

theorem monthStart_succ (m l : Int) (hm0 : 0 ≤ m) (hm1 : m ≤ 10) :
    monthStart (m + 1) l = monthStart m l + monthLength m l := by
  have hmc : m = 0 ∨ m = 1 ∨ m = 2 ∨ m = 3 ∨ m = 4 ∨ m = 5 ∨ m = 6 ∨ m = 7 ∨ m = 8 ∨ m = 9 ∨
      m = 10 := by omega
  rcases hmc with h | h | h | h | h | h | h | h | h | h | h
  all_goals (subst h; simp only [monthStart, monthLength]; norm_num; try omega)

/-- The day before the first of the following month is the last day of the
month: `new Date(year, month + 1, 0)`. -/
theorem newDate_succ_zero (year month : Int) :
    newDate year (month + 1) 0 =
      makeDay (fullYear year + month / 12) (month % 12)
        (monthLength (month % 12) (leapDays (fullYear year + month / 12))) := by
  have hr0 : 0 ≤ month % 12 := by omega
  have hr1 : month % 12 ≤ 11 := by omega
  have e1 : month % 12 / 12 = 0 := by omega
  have e2 : month % 12 % 12 = month % 12 := by omega
  unfold newDate makeDay
  simp only [e1, e2, add_zero]
  by_cases h : month % 12 = 11
  · have a1 : (month + 1) / 12 = month / 12 + 1 := by omega
    have a2 : (month + 1) % 12 = 0 := by omega
    rw [a1, a2, h]
    have hs := dayFromYear_succ (fullYear year + month / 12)
    have hd := daysInYear_eq (fullYear year + month / 12)
    have e3 : fullYear year + (month / 12 + 1) = fullYear year + month / 12 + 1 := by ring
    rw [e3, hs, hd]
    simp only [monthStart, monthLength]
    norm_num
    ring
  · have a1 : (month + 1) / 12 = month / 12 := by omega
    have a2 : (month + 1) % 12 = month % 12 + 1 := by omega
    rw [a1, a2, monthStart_succ _ _ hr0 (by omega)]
    ring

/-- `new Date(year, month, 1)` is the first day of month `month % 12` of the
year `fullYear year + month / 12`. -/
theorem newDate_first (year month : Int) :
    getFullYear (newDate year month 1) = fullYear year + month / 12 ∧
      getMonth (newDate year month 1) = month % 12 ∧ getDate (newDate year month 1) = 1 := by
  have hr0 : 0 ≤ month % 12 := by omega
  have hr1 : month % 12 ≤ 11 := by omega
  have e1 : month % 12 / 12 = 0 := by omega
  have e2 : month % 12 % 12 = month % 12 := by omega
  have hb := monthLength_bounds (month % 12) (leapDays (fullYear year + month / 12))
    (leapDays_cases _)
  have e : newDate year month 1 = makeDay (fullYear year + month / 12) (month % 12) 1 := by
    unfold newDate makeDay
    simp only [e1, e2, add_zero]
  rw [e]
  exact civil_makeDay _ _ _ hr0 hr1 (le_refl _) (by omega)

/-- The value `daysInMonth` of the source is the length of the month. -/
theorem daysInMonth_eq (year month : Int) :
    daysInMonth year month =
      monthLength (month % 12) (leapDays (fullYear year + month / 12)) := by
  unfold daysInMonth
  rw [newDate_succ_zero]
  have hl := leapDays_cases (fullYear year + month / 12)
  have hb := monthLength_bounds (month % 12) (leapDays (fullYear year + month / 12)) hl
  exact (civil_makeDay _ _ _ (by omega) (by omega) (by omega) (le_refl _)).2.2

theorem daysInMonth_bounds (year month : Int) :
    28 ≤ daysInMonth year month ∧ daysInMonth year month ≤ 31 := by
  rw [daysInMonth_eq]
  exact monthLength_bounds _ _ (leapDays_cases _)

theorem leadingBlanks_eq (fd : Int) (h0 : 0 ≤ fd) (h1 : fd ≤ 6) :
    leadingBlanks fd = (fd + 6) % 7 := by
  unfold leadingBlanks
  split_ifs <;> omega

/-! ## Lemmas on the grid loop -/

theorem gridLoop_succ (b D : Int) (n : Nat) (i day : Int) :
    gridLoop b D (n + 1) i day =
      if i < b ∨ day > D then none :: gridLoop b D n (i + 1) day
      else some day :: gridLoop b D n (i + 1) (day + 1) := rfl

theorem gridLoop_length (b D : Int) : ∀ (n : Nat) (i day : Int),
    (gridLoop b D n i day).length = n := by
  intro n
  induction n with
  | zero => intro i day; rfl
  | succ n ih =>
    intro i day
    rw [gridLoop_succ]
    split_ifs <;> simp [ih]

theorem gridLoop_blank (b D : Int) : ∀ (k n : Nat) (i day : Int), i + k ≤ b →
    gridLoop b D (k + n) i day = List.replicate k none ++ gridLoop b D n (i + k) day := by
  intro k
  induction k with
  | zero => intro n i day _; simp
  | succ k ih =>
    intro n i day h
    have e : k + 1 + n = (k + n) + 1 := by omega
    rw [e, gridLoop_succ]
    have hc : i < b ∨ day > D := Or.inl (by push_cast at h; omega)
    rw [if_pos hc, ih n (i + 1) day (by push_cast at h; omega)]
    have e2 : i + 1 + (k : Int) = i + ((k + 1 : Nat) : Int) := by push_cast; ring
    rw [e2]
    rfl

theorem gridLoop_days (b D : Int) : ∀ (k n : Nat) (i day : Int), b ≤ i → day + k ≤ D + 1 →
    gridLoop b D (k + n) i day =
      (List.range k).map (fun (j : Nat) => some (day + (j : Int))) ++
        gridLoop b D n (i + k) (day + k) := by
  intro k
  induction k with
  | zero => intro n i day _ _; simp
  | succ k ih =>
    intro n i day hb h
    have e : k + 1 + n = (k + n) + 1 := by omega
    rw [e, gridLoop_succ]
    have hc : ¬ (i < b ∨ day > D) := by push_cast at h; omega
    rw [if_neg hc, ih n (i + 1) (day + 1) (by omega) (by push_cast at h; omega)]
    have e2 : i + 1 + (k : Int) = i + ((k + 1 : Nat) : Int) := by push_cast; ring
    have e3 : day + 1 + (k : Int) = day + ((k + 1 : Nat) : Int) := by push_cast; ring
    rw [e2, e3, List.range_succ_eq_map]
    simp only [List.map_cons, List.map_map, List.cons_append, Nat.cast_zero, add_zero]
    congr 2
    apply List.map_congr_left
    intro j _
    simp only [Function.comp, Nat.cast_succ]
    congr 1
    ring

theorem gridLoop_rest (b D : Int) : ∀ (n : Nat) (i day : Int), D < day →
    gridLoop b D n i day = List.replicate n none := by
  intro n
  induction n with
  | zero => intro i day _; rfl
  | succ n ih =>
    intro i day h
    rw [gridLoop_succ, if_pos (Or.inr h), ih (i + 1) day h]
    rfl

/-- The grid loop writes `b` empty cells, the days 1..`d` and empty cells up
to the end. -/
theorem gridLoop_layout (b d : Nat) (h : b + d ≤ 42) :
    gridLoop b d 42 0 1 =
      List.replicate b none ++ (List.range d).map (fun (k : Nat) => some ((k : Int) + 1)) ++
        List.replicate (42 - b - d) none := by
  have e : 42 = b + (d + (42 - b - d)) := by omega
  conv_lhs => rw [e]
  rw [gridLoop_blank _ _ b _ 0 1 (by omega), gridLoop_days _ _ d _ _ 1 (by omega) (by omega),
    gridLoop_rest _ _ _ _ _ (by omega)]
  simp only [List.append_assoc]
  congr 2
  apply List.map_congr_left
  intro j _
  congr 1
  ring

theorem monthCells_layout (year month : Int) :
    monthCells year month =
      List.replicate ((firstDay year month + 6) % 7).toNat none ++
        (List.range (daysInMonth year month).toNat).map (fun (k : Nat) => some ((k : Int) + 1)) ++
        List.replicate (42 - ((firstDay year month + 6) % 7).toNat -
          (daysInMonth year month).toNat) none := by
  have hf := getDay_bounds (newDate year month 1)
  have hd := daysInMonth_bounds year month
  have hb := leadingBlanks_eq (firstDay year month) hf.1 hf.2
  have hfd : firstDay year month = getDay (newDate year month 1) := rfl
  have h1 : leadingBlanks (firstDay year month) =
      (((firstDay year month + 6) % 7).toNat : Int) := by
    rw [hb]; omega
  have h2 : daysInMonth year month = ((daysInMonth year month).toNat : Int) := by omega
  unfold monthCells
  rw [h1]
  conv_lhs => rw [h2]
  exact gridLoop_layout _ _ (by omega)

/-! ## View state: lemmas -/

theorem prevMonth_weekStart (s : CalendarState) : (prevMonth s).weekStart = s.weekStart := by
  unfold prevMonth
  by_cases h : s.month = 0
  · rw [if_pos h]
  · rw [if_neg h]

theorem nextMonth_weekStart (s : CalendarState) : (nextMonth s).weekStart = s.weekStart := by
  unfold nextMonth
  by_cases h : s.month = 11
  · rw [if_pos h]
  · rw [if_neg h]

theorem step_prev_week (s : CalendarState) (h : s.view = View.week) :
    step s Action.prev = shiftWeek s (-7) := if_pos h

theorem step_next_week (s : CalendarState) (h : s.view = View.week) :
    step s Action.next = shiftWeek s 7 := if_pos h

theorem step_prev_month (s : CalendarState) (h : ¬ s.view = View.week) :
    step s Action.prev = { prevMonth s with selectedDay := 1 } := if_neg h

theorem step_next_month (s : CalendarState) (h : ¬ s.view = View.week) :
    step s Action.next = { nextMonth s with selectedDay := 1 } := if_neg h

theorem miniDayClick_weekStart_monday (s : CalendarState) (cell : Option (Option Int))
    (h : getDay s.weekStart = 1) : getDay (miniDayClick s cell).weekStart = 1 := by
  rcases cell with _ | _ | day
  · exact h
  · exact h
  · by_cases hv : s.view = View.week
    · have e : miniDayClick s (some (some day)) =
          { s with selectedDay := day, weekStart := getMonday (newDate s.year s.month day) } :=
        if_pos hv
      rw [e]; exact getDay_getMonday _
    · have e : miniDayClick s (some (some day)) = { s with selectedDay := day } := if_neg hv
      rw [e]; exact h

theorem step_weekStart_monday (s : CalendarState) (a : Action) (h : getDay s.weekStart = 1) :
    getDay (step s a).weekStart = 1 := by
  cases a with
  | today now => exact getDay_getMonday _
  | prev =>
    by_cases hv : s.view = View.week
    · rw [step_prev_week s hv]; exact getDay_getMonday _
    · rw [step_prev_month s hv]
      show getDay (prevMonth s).weekStart = 1
      rw [prevMonth_weekStart]; exact h
  | next =>
    by_cases hv : s.view = View.week
    · rw [step_next_week s hv]; exact getDay_getMonday _
    · rw [step_next_month s hv]
      show getDay (nextMonth s).weekStart = 1
      rw [nextMonth_weekStart]; exact h
  | viewWeek => exact getDay_getMonday _
  | viewMonth => exact h
  | miniPrev =>
    show getDay (prevMonth s).weekStart = 1
    rw [prevMonth_weekStart]; exact h
  | miniNext =>
    show getDay (nextMonth s).weekStart = 1
    rw [nextMonth_weekStart]; exact h
  | miniDay cell => exact miniDayClick_weekStart_monday s _ h

theorem run_weekStart_monday (acts : List Action) : ∀ s : CalendarState,
    getDay s.weekStart = 1 → getDay (run s acts).weekStart = 1 := by
  induction acts with
  | nil => intro s h; exact h
  | cons a acts ih =>
    intro s h
    exact ih (step s a) (step_weekStart_monday s a h)

theorem initState_weekStart_monday (now : Int) : getDay (initState now).weekStart = 1 :=
  getDay_getMonday _

theorem getMonday_of_monday (d : Int) (h : getDay d = 1) : getMonday d = d := by
  rw [getMonday_eq, h]
  norm_num

theorem setDate_getDate_add (d k : Int) : setDate d (getDate d + k) = d + k := by
  rw [setDate_eq]; ring

theorem shiftWeek_weekStart (s : CalendarState) (k : Int) (h : getDay s.weekStart = 1)
    (hk : k % 7 = 0) : (shiftWeek s k).weekStart = s.weekStart + k := by
  show getMonday (setDate s.weekStart (getDate s.weekStart + k)) = s.weekStart + k
  rw [setDate_getDate_add]
  apply getMonday_of_monday
  unfold getDay at h ⊢
  omega

/-- From a Monday, a week forward and a week back lead to the same Monday. -/
theorem shiftWeek_next_prev (s : CalendarState) (h : getDay s.weekStart = 1) :
    (shiftWeek (shiftWeek s 7) (-7)).weekStart = s.weekStart := by
  have h1 := shiftWeek_weekStart s 7 h (by norm_num)
  have h2 : getDay (shiftWeek s 7).weekStart = 1 := by
    rw [h1]; unfold getDay at h ⊢; omega
  rw [shiftWeek_weekStart _ (-7) h2 (by norm_num), h1]
  ring

/-! ## Claims on the grids and the view state -/

/-- C2: for every year and month of the view state, the mini-month grid
built by `renderSidebar` has 42 cells; they are `(firstDay + 6) % 7` empty
cells (the weekday of the 1st counted from Monday = 0), then the day cells
numbered 1, 2, ..., `daysInMonth` in consecutive positions, then empty cells;
so exactly `daysInMonth` cells are day cells. `daysInMonth` is the length of
the month (28 to 31) and `firstDay` the weekday of its first day, the month
being the one the `Date` constructor builds from `(year, month)`. -/
theorem miniMonth_grid_layout (s : CalendarState) (now : Int) :
    (renderSidebar s now).length = 42 ∧
      (renderSidebar s now).map MiniCell.dataDay? =
        List.replicate ((getDay (newDate s.year s.month 1) + 6) % 7).toNat none ++
          (List.range (daysInMonth s.year s.month).toNat).map
            (fun (k : Nat) => some ((k : Int) + 1)) ++
          List.replicate (42 - ((getDay (newDate s.year s.month 1) + 6) % 7).toNat -
            (daysInMonth s.year s.month).toNat) none ∧
      (((renderSidebar s now).filter fun c => c.dataDay?.isSome).length : Int) =
        daysInMonth s.year s.month ∧
      daysInMonth s.year s.month =
        monthLength (s.month % 12) (leapDays (fullYear s.year + s.month / 12)) ∧
      28 ≤ daysInMonth s.year s.month ∧ daysInMonth s.year s.month ≤ 31 ∧
      getFullYear (newDate s.year s.month 1) = fullYear s.year + s.month / 12 ∧
      getMonth (newDate s.year s.month 1) = s.month % 12 ∧
      getDate (newDate s.year s.month 1) = 1 := by
  have hmap : (renderSidebar s now).map MiniCell.dataDay? = monthCells s.year s.month := by
    unfold renderSidebar
    simp only [List.map_map]
    conv_rhs => rw [← List.map_id (monthCells s.year s.month)]
    apply List.map_congr_left
    intro c _
    cases c <;> rfl
  have hlay := monthCells_layout s.year s.month
  have hb := daysInMonth_bounds s.year s.month
  have hlen : (renderSidebar s now).length = 42 := by
    unfold renderSidebar monthCells
    rw [List.length_map, gridLoop_length]
  have hfd : firstDay s.year s.month = getDay (newDate s.year s.month 1) := rfl
  rw [hfd] at hlay
  refine ⟨hlen, by rw [hmap, hlay], ?_, daysInMonth_eq _ _, hb.1, hb.2, newDate_first _ _⟩
  have hcount : ((renderSidebar s now).filter fun c => c.dataDay?.isSome).length =
      (((renderSidebar s now).map MiniCell.dataDay?).filter Option.isSome).length := by
    rw [List.filter_map, List.length_map]
    rfl
  rw [hcount, hmap, hlay]
  simp only [List.filter_append, List.length_append, List.filter_replicate, Option.isSome_none,
    Bool.false_eq_true, if_false, List.length_nil, zero_add, add_zero]
  rw [List.filter_eq_self.mpr, List.length_map, List.length_range]
  · omega
  · intro a ha
    rw [List.mem_map] at ha
    obtain ⟨k, _, rfl⟩ := ha
    rfl

/-- C3, evaluation at the failing input: today is 2024-01-31 and the user
presses the mini-month `next` arrow once. The state then shows February 2024,
which has 29 days, with `selectedDay` still 31. -/
theorem miniNext_keeps_selectedDay :
    getToday 19753 = { year := 2024, month := 0, day := 31 } ∧
      run (initState 19753) [Action.miniNext] =
        { view := View.week, year := 2024, month := 1, weekStart := 19751, selectedDay := 31 } ∧
      daysInMonth 2024 1 = 29 ∧
      ¬ ((run (initState 19753) [Action.miniNext]).selectedDay ≤
        daysInMonth (run (initState 19753) [Action.miniNext]).year
          (run (initState 19753) [Action.miniNext]).month) := by
  decide

/-- C4: in every state reached from the initial state (built from any
current day `now`) by any sequence of the actions today, prev, next,
view-week, view-month, mini-prev, mini-next and mini-day, `weekStart` is a
Monday (`getDay` is 1). -/
theorem weekStart_always_monday (now : Int) (acts : List Action) :
    getDay (run (initState now) acts).weekStart = 1 :=
  run_weekStart_monday acts _ (initState_weekStart_monday now)

/-- C5: in every state the calendar can be in while in week view (reached
from the initial state by any actions), `next` followed by `prev` yields a
state whose `weekStart` is the original one. -/
theorem week_next_then_prev (now : Int) (acts : List Action)
    (hview : (run (initState now) acts).view = View.week) :
    (step (step (run (initState now) acts) Action.next) Action.prev).weekStart =
      (run (initState now) acts).weekStart := by
  have hm := run_weekStart_monday acts _ (initState_weekStart_monday now)
  have h2 : (shiftWeek (run (initState now) acts) 7).view = View.week := hview
  rw [step_next_week _ hview, step_prev_week _ h2]
  exact shiftWeek_next_prev _ hm

/-- C5, witness: the initial state of 2024-01-31 and the state after a
mini-next and a view-week click are in week view. -/
theorem week_next_then_prev_witness :
    (step (step (run (initState 19753) [Action.miniNext, Action.viewWeek]) Action.next)
        Action.prev).weekStart =
      (run (initState 19753) [Action.miniNext, Action.viewWeek]).weekStart :=
  week_next_then_prev 19753 [Action.miniNext, Action.viewWeek] (by decide)

/-! ## Persistence and handlers: lemmas -/

theorem stringifyEvents_ne_empty (events : List CalendarEvent) : stringifyEvents events ≠ "" := by
  intro h
  have hd := congrArg String.data h
  unfold stringifyEvents at hd
  simp only [String.data_append] at hd
  exact absurd hd (by simp)

/-- Saving and re-rendering with a writable storage, when `JSON.parse` returns
the collection that was serialised: the variables are unchanged and the
storage holds the serialisation. -/
theorem render_after_save (parse : String → Option (List CalendarEvent)) (st : CalendarState)
    (cals : List CalendarDefinition) (events : List CalendarEvent) (sto : Storage)
    (hw : sto.writable = true) (hp : parse (stringifyEvents events) = some events) :
    renderGoogleCalendar parse
        (saveCalendarEvents
          { state := st, calendarList := cals, calendarEvents := events, storage := sto }) =
      { state := st, calendarList := cals, calendarEvents := events,
        storage := { entry := some (stringifyEvents events), writable := sto.writable } } := by
  unfold renderGoogleCalendar saveCalendarEvents
  rw [if_pos hw]
  unfold loadCalendarEvents
  simp only [if_neg (stringifyEvents_ne_empty _), hp]

theorem dropWhile_all {α : Type} (p : α → Bool) (l : List α) (h : ∀ a ∈ l, p a = true) :
    l.dropWhile p = [] := by
  induction l with
  | nil => rfl
  | cons a l ih =>
    rw [List.dropWhile_cons, if_pos (h a (List.mem_cons_self a l))]
    exact ih fun b hb => h b (List.mem_cons_of_mem a hb)

theorem jsTrim_blank (s : String) (h : ∀ c ∈ s.data, isJsWhiteSpace c = true) :
    jsTrim s = "" := by
  unfold jsTrim
  rw [dropWhile_all _ _ h]
  rfl

theorem quickCalendarId_isSome (cals : List CalendarDefinition) (h : cals ≠ []) :
    ∃ calId, quickCalendarId cals = some calId := by
  unfold quickCalendarId
  cases hf : cals.find? fun c => c.checked with
  | some c => exact ⟨c.id, rfl⟩
  | none =>
    cases cals with
    | nil => exact absurd rfl h
    | cons c cs => exact ⟨c.id, rfl⟩

theorem findRef_spec (eventId : String) : ∀ events : List CalendarEvent,
    (∃ e ∈ events, e.id = eventId) →
      ∃ pre ev post, events = pre ++ ev :: post ∧ (∀ e ∈ pre, e.id ≠ eventId) ∧
        ev.id = eventId ∧ findRef eventId events = some (pre.length, ev) := by
  intro events
  induction events with
  | nil => rintro ⟨e, he, _⟩; exact absurd he (List.not_mem_nil e)
  | cons a es ih =>
    intro hex
    by_cases ha : a.id = eventId
    · refine ⟨[], a, es, rfl, ?_, ha, ?_⟩
      · intro e he; exact absurd he (List.not_mem_nil e)
      · unfold findRef; rw [if_pos ha]; rfl
    · have hex2 : ∃ e ∈ es, e.id = eventId := by
        obtain ⟨e, he, hid⟩ := hex
        rcases List.mem_cons.mp he with h | h
        · exact absurd (h ▸ hid) ha
        · exact ⟨e, h, hid⟩
      obtain ⟨pre, ev, post, heq, hpre, hev, hfind⟩ := ih hex2
      refine ⟨a :: pre, ev, post, by rw [heq]; rfl, ?_, hev, ?_⟩
      · intro e he
        rcases List.mem_cons.mp he with h | h
        · rw [h]; exact ha
        · exact hpre e h
      · unfold findRef; rw [if_neg ha, hfind]; rfl

theorem updateAt_append (f : CalendarEvent → CalendarEvent) (ev : CalendarEvent)
    (post : List CalendarEvent) : ∀ pre : List CalendarEvent,
    updateAt f (pre ++ ev :: post) pre.length = pre ++ f ev :: post := by
  intro pre
  induction pre with
  | nil => rfl
  | cons a pre ih =>
    show a :: updateAt f (pre ++ ev :: post) pre.length = a :: (pre ++ f ev :: post)
    rw [ih]

/-! ## Claims on events -/

/-- C1, evaluation at the failing input: the event "Standup" of 2024-03-04,
hour 9, is created with the quick adder on the empty calendar, which gives
the collection of `standupApp`, and the calendar is rendered in week view for
the week of Monday 2024-03-04 (UTC, `tz = 0`). `renderMain` produces the cell
with `data-date` "2024-03-04" and `data-hour` "9", and the cell holds no
chip. `renderEvents('week', ...)` applied to the same cells would put exactly
the Standup chip there, but `renderWeekView` never calls it. -/
theorem weekView_standup_chip_missing :
    getToday 19786 = { year := 2024, month := 2, day := 4 } ∧ getDay 19786 = 1 ∧
      (quickSave (parseTable [[standupEvent]]) 1709542800000 emptyApp
        { title := "Standup", date := "2024-03-04", hour := "9", link := "",
          desc := "" }).app = standupApp ∧
      weekCellChips (renderMain standupApp 0 19786) "2024-03-04" "9" = some [] ∧
      ((renderEventsWeek standupApp.calendarList standupApp.calendarEvents
          (renderWeekView standupApp.state 0 19786).cells).find?
        fun c => c.dataDate = "2024-03-04" ∧ c.dataHour = "9").map (fun c => c.chips) =
        some [{ dataId := "ev1709542800000", text := "Standup", link := "", color := "#00e6ff" }] := by
  decide

/-- C6: when the title of the quick adder is empty or consists of white
space only, Save shows the alert and returns: the event collection, the
storage and every other variable are unchanged, no event is created and no
default title is substituted. -/
theorem quickSave_blank_title_rejected (parse : String → Option (List CalendarEvent)) (ms : Nat)
    (app : App) (inp : QuickInput) (h : ∀ c ∈ inp.title.data, isJsWhiteSpace c = true) :
    quickSave parse ms app inp =
      { app := app, alert := some "Title and date are required.", closed := false } := by
  unfold quickSave
  simp only [jsTrim_blank inp.title h, true_or, if_true]

/-- C6, witness: a title of two spaces and a tab on the Standup calendar. -/
theorem quickSave_blank_title_rejected_witness :
    quickSave (parseTable []) 5 standupApp
        { title := "  \t", date := "2024-03-04", hour := "9", link := "", desc := "" } =
      { app := standupApp, alert := some "Title and date are required.", closed := false } :=
  quickSave_blank_title_rejected (parseTable []) 5 standupApp
    { title := "  \t", date := "2024-03-04", hour := "9", link := "", desc := "" } (by decide)

theorem editedEvents_append (eventId : String) (form : EventForm) (ev : CalendarEvent)
    (post : List CalendarEvent) (hev : ev.id = eventId) : ∀ pre : List CalendarEvent,
    (∀ e ∈ pre, e.id ≠ eventId) →
      editedEvents eventId form (pre ++ ev :: post) = pre ++ applyEdit form ev :: post := by
  intro pre
  induction pre with
  | nil => intro _; show editedEvents eventId form (ev :: post) = _; unfold editedEvents; rw [if_pos hev]; rfl
  | cons a pre ih =>
    intro h
    show editedEvents eventId form (a :: (pre ++ ev :: post)) = a :: (pre ++ applyEdit form ev :: post)
    unfold editedEvents
    rw [if_neg (h a (List.mem_cons_self a pre)), ih fun e he => h e (List.mem_cons_of_mem a he)]

/-- Opening the modal with the non-empty id of a stored event puts it in edit
mode, `ev` referring to the first event with that id. -/
theorem openEventModal_edit (cals : List CalendarDefinition) (events : List CalendarEvent)
    (prev : EventModal) (date : DateArg) (hour : Option String) (eventId : String)
    (hid : eventId ≠ "") (hmem : ∃ e ∈ events, e.id = eventId) :
    ∃ modal pre ev post,
      openEventModal cals events prev date hour (some eventId) = some modal ∧
        modal.editing = true ∧ modal.ev = some pre.length ∧ events = pre ++ ev :: post ∧
        (∀ e ∈ pre, e.id ≠ eventId) ∧ ev.id = eventId := by
  obtain ⟨pre, ev, post, heq, hpre, hev, hfind⟩ := findRef_spec eventId events hmem
  refine ⟨openEditMode cals pre.length ev, pre, ev, post, ?_, rfl, rfl, heq, hpre, hev⟩
  unfold openEventModal
  simp only [hfind, if_pos hid]

/-- C7: the event modal requires a title and a valid date. When Save is
pressed on a form whose title is empty, or whose date is empty or not a valid
date, the browser does not fire `submit`: the handler does not run, no event
is added, the collection and the storage are as before and the modal stays
open. This holds in create mode and in edit mode. A form that passes the
validation does reach the handler. -/
theorem modal_submit_requires_title_and_date (validUrl : String → Bool)
    (parse : String → Option (List CalendarEvent)) (ms : Nat) (app : App) (modal : EventModal)
    (form : EventForm)
    (h : form.title = "" ∨ form.date = "" ∨ isValidDateString form.date = false) :
    submitEventForm validUrl parse ms app modal form =
        { app := app, alert := none, closed := false } ∧
      (submitEventForm validUrl parse ms app modal form).app.calendarEvents =
        app.calendarEvents ∧
      (submitEventForm validUrl parse ms app modal form).app.storage = app.storage ∧
      (∀ filled : EventForm, formValid validUrl filled = true →
        submitEventForm validUrl parse ms app modal filled =
          formOnSubmit parse ms app modal filled) := by
  have hv : formValid validUrl form = false := by
    unfold formValid
    rcases h with h | h | h
    · simp [h]
    · have : isValidDateString form.date = false := by rw [h]; decide
      simp [this]
    · simp [h]
  have hout : submitEventForm validUrl parse ms app modal form =
      { app := app, alert := none, closed := false } := by
    unfold submitEventForm
    rw [hv]
    rfl
  refine ⟨hout, by rw [hout], by rw [hout], ?_⟩
  intro filled hf
  unfold submitEventForm
  rw [hf]
  rfl

/-- C7, witness: the modal opened by the floating button on the Standup
calendar, and Save pressed on the form as it stands, title and date empty. -/
theorem modal_submit_requires_title_and_date_witness :
    openEventModal standupApp.calendarList standupApp.calendarEvents freshModal DateArg.undefined
        none none =
      some { form := { title := "", calendar := "default", date := "", hour := "", link := "",
                       desc := "" }
             deleteShown := false, heading := "New Event", editing := false, ev := none } ∧
    (submitEventForm (fun _ => true) (parseTable [[standupEvent]]) 5 standupApp
        { freshModal with form := { emptyForm with calendar := "default" } }
        { emptyForm with calendar := "default" }).app.calendarEvents = [standupEvent] :=
  ⟨by decide,
    (modal_submit_requires_title_and_date (fun _ => true) (parseTable [[standupEvent]]) 5
      standupApp { freshModal with form := { emptyForm with calendar := "default" } }
      { emptyForm with calendar := "default" } (Or.inl (by decide))).2.1⟩

/-- C8, counterexample: "Retro" on 2024-03-05 at 10 is saved with the quick
adder while the storage rejects the write. `saveCalendarEvents` swallows the
error, the re-rendering reads the collection back from storage, and the
collection is the stored one: the new event is not in it, and the stored text
is the former one. No alert is shown and the popup is closed. -/
theorem quickSave_lost_when_write_rejected :
    fullStorageApp.calendarEvents = [standupEvent] ∧
      quickSave (parseTable [[standupEvent]]) 1709629200000 fullStorageApp
          { title := "Retro", date := "2024-03-05", hour := "10", link := "", desc := "" } =
        { app := fullStorageApp, alert := none, closed := true } := by
  decide

/-- C8, amended: with a title that is not empty after trimming, a date that
is not empty, and a storage that accepts the write, Save of the quick adder
appends exactly one event at the end of the collection: its id is
`'ev'+Date.now()`, its title, link and description are the trimmed inputs,
its date and hour the entered ones (the hour may be empty), its calendar the
first checked calendar or else the first calendar (the calendar list is not
empty). The events that existed before keep their positions and values, the
length grows by one, and the text stored under `'calendarEvents'` is the
serialisation of the new collection (`JSON.parse` returns what
`JSON.stringify` wrote). -/
theorem quickSave_appends_event (parse : String → Option (List CalendarEvent)) (ms : Nat)
    (app : App) (inp : QuickInput) (ht : jsTrim inp.title ≠ "") (hd : inp.date ≠ "")
    (hc : app.calendarList ≠ []) (hw : app.storage.writable = true)
    (hp : parse (stringifyEvents (app.calendarEvents ++ [quickEvent ms app.calendarList inp])) =
      some (app.calendarEvents ++ [quickEvent ms app.calendarList inp])) :
    (quickSave parse ms app inp).app.calendarEvents =
        app.calendarEvents ++ [quickEvent ms app.calendarList inp] ∧
      (quickSave parse ms app inp).app.calendarEvents.length = app.calendarEvents.length + 1 ∧
      (quickSave parse ms app inp).app.calendarEvents.take app.calendarEvents.length =
        app.calendarEvents ∧
      (quickSave parse ms app inp).app.storage.entry =
        some (stringifyEvents (quickSave parse ms app inp).app.calendarEvents) ∧
      (quickEvent ms app.calendarList inp).id = "ev" ++ toString ms ∧
      (quickEvent ms app.calendarList inp).title = jsTrim inp.title ∧
      (quickEvent ms app.calendarList inp).date = inp.date ∧
      (quickEvent ms app.calendarList inp).hour = inp.hour ∧
      (quickEvent ms app.calendarList inp).link = jsTrim inp.link ∧
      (quickEvent ms app.calendarList inp).desc = jsTrim inp.desc ∧
      quickCalendarId app.calendarList = some (quickEvent ms app.calendarList inp).calendar ∧
      (quickSave parse ms app inp).alert = none := by
  obtain ⟨calId, hcal⟩ := quickCalendarId_isSome app.calendarList hc
  have hev : quickEvent ms app.calendarList inp =
      { id := newEventId ms, title := jsTrim inp.title, calendar := calId, date := inp.date,
        hour := inp.hour, link := jsTrim inp.link, desc := jsTrim inp.desc } := by
    unfold quickEvent; rw [hcal]; rfl
  have hcond : ¬ (jsTrim inp.title = "" ∨ inp.date = "") := by
    intro h; rcases h with h | h
    · exact ht h
    · exact hd h
  have hout : quickSave parse ms app inp =
      { app := { app with
          calendarEvents := app.calendarEvents ++ [quickEvent ms app.calendarList inp]
          storage := { app.storage with
            entry := some (stringifyEvents
              (app.calendarEvents ++ [quickEvent ms app.calendarList inp])) } }
        alert := none
        closed := true } := by
    unfold quickSave
    simp only [if_neg hcond, hcal]
    rw [← hev, render_after_save parse _ _ _ _ hw hp]
  rw [hout]
  refine ⟨rfl, by simp, by simp, rfl, rfl, rfl, rfl, rfl, rfl, rfl, ?_, rfl⟩
  rw [hev, hcal]

/-- C8, witness: " Standup " on 2024-03-04 at 9 entered on the empty calendar. -/
theorem quickSave_appends_event_witness :
    (quickSave (parseTable [[standupEvent]]) 1709542800000 emptyApp
        { title := " Standup ", date := "2024-03-04", hour := "9", link := "",
          desc := "" }).app.calendarEvents = [standupEvent] :=
  (quickSave_appends_event (parseTable [[standupEvent]]) 1709542800000 emptyApp
    { title := " Standup ", date := "2024-03-04", hour := "9", link := "", desc := "" }
    (by decide) (by decide) (by decide) (by decide) (by decide)).1

/-- C9, counterexample: the modal is opened on the Standup event and Delete
is pressed while the storage rejects the write. The filtered collection is
not stored, the re-rendering reads the stored collection back, and the event
is in the collection as before. -/
theorem delete_undone_when_write_rejected :
    (openEventModal fullStorageApp.calendarList fullStorageApp.calendarEvents freshModal
        DateArg.undefined none (some "ev1709542800000")).map
        (fun modal =>
          (modal.editing, modal.ev,
            deleteOnClick (parseTable [[standupEvent]]) fullStorageApp modal)) =
      some (true, some 0, { app := fullStorageApp, alert := none, closed := true }) ∧
    fullStorageApp.calendarEvents = [standupEvent] := by
  decide

/-- C9, amended: when the Delete handler of the modal runs in edit mode for
the event `ev` of the collection and the storage accepts the write, the
collection becomes the former one without the events whose id is `ev.id`: no
event with that id remains, and the events with another id are the same as
before, in the same order. The new collection is what is stored (`JSON.parse`
returns what `JSON.stringify` wrote). -/
theorem delete_removes_by_id (parse : String → Option (List CalendarEvent)) (app : App)
    (modal : EventModal) (i : Nat) (ev : CalendarEvent) (hedit : modal.editing = true)
    (href : modal.ev = some i) (hget : app.calendarEvents.get? i = some ev)
    (hw : app.storage.writable = true)
    (hp : parse (stringifyEvents (app.calendarEvents.filter fun e => e.id ≠ ev.id)) =
      some (app.calendarEvents.filter fun e => e.id ≠ ev.id)) :
    (deleteOnClick parse app modal).app.calendarEvents =
        (app.calendarEvents.filter fun e => e.id ≠ ev.id) ∧
      (∀ e ∈ (deleteOnClick parse app modal).app.calendarEvents, e.id ≠ ev.id) ∧
      ((deleteOnClick parse app modal).app.calendarEvents.filter fun e => e.id ≠ ev.id) =
        (app.calendarEvents.filter fun e => e.id ≠ ev.id) ∧
      (deleteOnClick parse app modal).app.storage.entry =
        some (stringifyEvents (app.calendarEvents.filter fun e => e.id ≠ ev.id)) := by
  have hout : deleteOnClick parse app modal =
      { app := { app with
          calendarEvents := app.calendarEvents.filter fun e => e.id ≠ ev.id
          storage := { app.storage with
            entry := some (stringifyEvents (app.calendarEvents.filter fun e => e.id ≠ ev.id)) } }
        alert := none
        closed := true } := by
    unfold deleteOnClick
    simp only [hedit, href, Option.some_bind, hget]
    rw [render_after_save parse _ _ _ _ hw hp]
  rw [hout]
  refine ⟨rfl, ?_, ?_, rfl⟩
  · intro e he
    have := (List.mem_filter.mp he).2
    simpa using this
  · simp only [List.filter_filter, Bool.and_self]

/-- C9, witness: the modal opened on the Standup event (it is then in edit
mode, referring to position 0) and Delete pressed. -/
theorem delete_removes_by_id_witness :
    openEventModal standupApp.calendarList standupApp.calendarEvents freshModal DateArg.undefined
        none (some "ev1709542800000") =
      some { form := { title := "Standup", calendar := "default", date := "2024-03-04",
                       hour := "9", link := "", desc := "" }
             deleteShown := true, heading := "Edit Event", editing := true, ev := some 0 } ∧
    (deleteOnClick (parseTable [[]]) standupApp
        { freshModal with editing := true, ev := some 0 }).app.calendarEvents = [] :=
  ⟨by decide,
    (delete_removes_by_id (parseTable [[]]) standupApp { freshModal with editing := true, ev := some 0 }
      0 standupEvent (by decide) (by decide) (by decide) (by decide) (by decide)).1⟩

/-- C10, counterexample: the modal is opened with the id of the Standup
event, the form is changed to "Retro" at 10 and submitted while the storage
rejects the write. The changed collection is not stored, the re-rendering
reads the stored collection back, and the event has the title "Standup" and
the hour 9 as before: nothing is replaced and nothing is persisted. -/
theorem edit_lost_when_write_rejected :
    (openEventModal fullStorageApp.calendarList fullStorageApp.calendarEvents freshModal
        DateArg.undefined none (some "ev1709542800000")).map
        (fun modal =>
          (modal.editing, modal.ev, formValid (fun _ => true) retroForm,
            submitEventForm (fun _ => true) (parseTable [[standupEvent]]) 3 fullStorageApp modal
              retroForm)) =
      some (true, some 0, true, { app := fullStorageApp, alert := none, closed := true }) ∧
    fullStorageApp.calendarEvents = [standupEvent] := by
  decide

/-- C10, amended: when `openEventModal` is called with the id of an event of
the collection (an id is `'ev'+Date.now()`, never empty), the modal is in
edit mode, and when the form is submitted and the storage accepts the write,
the matching event, the one `find` returns, is changed in place: the
collection keeps its length and order, that event keeps its id and gets the
title, calendar, date, hour, link and desc of the form, every other event is
unchanged, and the new collection is what is stored (`JSON.parse` returns
what `JSON.stringify` wrote). -/
theorem edit_replaces_in_place (parse : String → Option (List CalendarEvent)) (ms : Nat)
    (app : App) (prev : EventModal) (date : DateArg) (hour : Option String) (eventId : String)
    (form : EventForm) (hid : eventId ≠ "") (hmem : ∃ e ∈ app.calendarEvents, e.id = eventId)
    (hw : app.storage.writable = true)
    (hp : parse (stringifyEvents (editedEvents eventId form app.calendarEvents)) =
      some (editedEvents eventId form app.calendarEvents)) :
    ∃ modal pre ev post,
      openEventModal app.calendarList app.calendarEvents prev date hour (some eventId) =
          some modal ∧
        modal.editing = true ∧ app.calendarEvents = pre ++ ev :: post ∧
        (∀ e ∈ pre, e.id ≠ eventId) ∧ ev.id = eventId ∧
        (formOnSubmit parse ms app modal form).app.calendarEvents =
          pre ++ applyEdit form ev :: post ∧
        (formOnSubmit parse ms app modal form).app.calendarEvents.length =
          app.calendarEvents.length ∧
        applyEdit form ev =
          { id := ev.id, title := form.title, calendar := form.calendar, date := form.date,
            hour := form.hour, link := form.link, desc := form.desc } ∧
        (formOnSubmit parse ms app modal form).app.storage.entry =
          some (stringifyEvents (pre ++ applyEdit form ev :: post)) := by
  obtain ⟨modal, pre, ev, post, hopen, hedit, href, heq, hpre, hev⟩ :=
    openEventModal_edit app.calendarList app.calendarEvents prev date hour eventId hid hmem
  have hed : editedEvents eventId form app.calendarEvents = pre ++ applyEdit form ev :: post := by
    rw [heq]; exact editedEvents_append eventId form ev post hev pre hpre
  have hup : updateAt (applyEdit form) app.calendarEvents pre.length =
      pre ++ applyEdit form ev :: post := by
    rw [heq]; exact updateAt_append _ ev post pre
  rw [hed] at hp
  have hout : formOnSubmit parse ms app modal form =
      { app := { app with
          calendarEvents := pre ++ applyEdit form ev :: post
          storage := { app.storage with
            entry := some (stringifyEvents (pre ++ applyEdit form ev :: post)) } }
        alert := none
        closed := true } := by
    unfold formOnSubmit
    simp only [hedit, href, if_true, hup]
    rw [render_after_save parse _ _ _ _ hw hp]
  refine ⟨modal, pre, ev, post, hopen, hedit, heq, hpre, hev, ?_, ?_, rfl, ?_⟩
  · rw [hout]
  · rw [hout, heq]; simp
  · rw [hout]

/-- C10, witness: the Standup event edited to "Retro" at hour 10. -/
theorem edit_replaces_in_place_witness :
    ∃ modal pre ev post,
      openEventModal standupApp.calendarList standupApp.calendarEvents freshModal
          DateArg.undefined none (some "ev1709542800000") = some modal ∧
        modal.editing = true ∧ standupApp.calendarEvents = pre ++ ev :: post ∧
        (∀ e ∈ pre, e.id ≠ "ev1709542800000") ∧ ev.id = "ev1709542800000" ∧
        (formOnSubmit
            (parseTable [[{ standupEvent with title := "Retro", hour := "10" }]]) 3 standupApp
            modal
            { title := "Retro", calendar := "default", date := "2024-03-04", hour := "10",
              link := "", desc := "" }).app.calendarEvents =
          pre ++ applyEdit
            { title := "Retro", calendar := "default", date := "2024-03-04", hour := "10",
              link := "", desc := "" } ev :: post ∧
        (formOnSubmit
            (parseTable [[{ standupEvent with title := "Retro", hour := "10" }]]) 3 standupApp
            modal
            { title := "Retro", calendar := "default", date := "2024-03-04", hour := "10",
              link := "", desc := "" }).app.calendarEvents.length =
          standupApp.calendarEvents.length ∧
        applyEdit
            { title := "Retro", calendar := "default", date := "2024-03-04", hour := "10",
              link := "", desc := "" } ev =
          { id := ev.id, title := "Retro", calendar := "default", date := "2024-03-04",
            hour := "10", link := "", desc := "" } ∧
        (formOnSubmit
            (parseTable [[{ standupEvent with title := "Retro", hour := "10" }]]) 3 standupApp
            modal
            { title := "Retro", calendar := "default", date := "2024-03-04", hour := "10",
              link := "", desc := "" }).app.storage.entry =
          some (stringifyEvents (pre ++ applyEdit
            { title := "Retro", calendar := "default", date := "2024-03-04", hour := "10",
              link := "", desc := "" } ev :: post)) :=
  edit_replaces_in_place (parseTable [[{ standupEvent with title := "Retro", hour := "10" }]]) 3
    standupApp freshModal DateArg.undefined none "ev1709542800000"
    { title := "Retro", calendar := "default", date := "2024-03-04", hour := "10", link := "",
      desc := "" }
    (by decide) ⟨standupEvent, by decide, by decide⟩ (by decide) (by decide)

/-! ## Month view: lemmas and claim -/

theorem mem_activeCals (cals : List CalendarDefinition) (id : String) :
    id ∈ activeCals cals ↔ ∃ c ∈ cals, c.checked = true ∧ c.id = id := by
  unfold activeCals
  simp only [List.mem_map, List.mem_filter]
  constructor
  · rintro ⟨c, ⟨hc, hch⟩, hid⟩; exact ⟨c, hc, hch, hid⟩
  · rintro ⟨c, hc, hch, hid⟩; exact ⟨c, ⟨hc, hch⟩, hid⟩

theorem expectedMonthChips_append (cals : List CalendarDefinition) (done : List CalendarEvent)
    (ev : CalendarEvent) (date : String) :
    expectedMonthChips cals (done ++ [ev]) date =
      expectedMonthChips cals done date ++
        (if ev.calendar ∈ activeCals cals ∧ ev.date = date then [monthChip cals ev] else []) := by
  unfold expectedMonthChips
  rw [List.filter_append, List.map_append]
  congr 1
  by_cases h : ev.calendar ∈ activeCals cals ∧ ev.date = date
  · rw [if_pos h]
    have h1 : (∃ c ∈ cals, c.checked = true ∧ c.id = ev.calendar) := (mem_activeCals _ _).mp h.1
    simp [List.filter, h1, h.2]
  · rw [if_neg h]
    have h1 : ¬ ((∃ c ∈ cals, c.checked = true ∧ c.id = ev.calendar) ∧ ev.date = date) := by
      intro hh; exact h ⟨(mem_activeCals _ _).mpr hh.1, hh.2⟩
    have h2 : (decide (∃ c ∈ cals, c.checked = true ∧ c.id = ev.calendar) &&
        decide (ev.date = date)) = false := by
      rw [Bool.and_eq_false_iff]
      by_cases ha : (∃ c ∈ cals, c.checked = true ∧ c.id = ev.calendar)
      · right; exact decide_eq_false (fun hd => h1 ⟨ha, hd⟩)
      · left; exact decide_eq_false ha
    simp [List.filter, h2]

/-- Appending to the cell of an event leaves the cells of other dates as they are. -/
theorem withChips_congr (f g : String → List EventChip) : ∀ cells : List MonthCell,
    (∀ d, some d ∈ cells.map monthCellDate → f d = g d) →
      cells.map (MonthCell.withChips f) = cells.map (MonthCell.withChips g) := by
  intro cells h
  apply List.map_congr_left
  intro c hc
  cases c with
  | blank => rfl
  | day D t n e =>
    have : some D ∈ cells.map monthCellDate := List.mem_map.mpr ⟨_, hc, rfl⟩
    show MonthCell.day D t n (f D) = MonthCell.day D t n (g D)
    rw [h D this]

theorem addMonthChip_withChips (date : String) (chip : EventChip) (f : String → List EventChip) :
    ∀ cells : List MonthCell, (cells.filterMap monthCellDate).Nodup →
      addMonthChip date chip (cells.map (MonthCell.withChips f)) =
        cells.map (MonthCell.withChips fun d => f d ++ (if date = d then [chip] else [])) := by
  intro cells
  induction cells with
  | nil => intro _; rfl
  | cons c cs ih =>
    intro hnd
    cases c with
    | blank =>
      have hnd2 : (cs.filterMap monthCellDate).Nodup := by simpa [monthCellDate] using hnd
      show MonthCell.blank :: addMonthChip date chip (cs.map (MonthCell.withChips f)) = _
      rw [ih hnd2]
      rfl
    | day D t n e =>
      have hnd2 : D ∉ cs.filterMap monthCellDate ∧ (cs.filterMap monthCellDate).Nodup := by
        simpa [monthCellDate] using hnd
      by_cases hD : D = date
      · have e1 : addMonthChip date chip ((MonthCell.day D t n e :: cs).map (MonthCell.withChips f))
            = MonthCell.day D t n (f D ++ [chip]) :: cs.map (MonthCell.withChips f) := by
          show (if D = date then _ else _) = _
          rw [if_pos hD]
        rw [e1]
        show _ = MonthCell.day D t n (f D ++ (if date = D then [chip] else [])) :: _
        rw [if_pos hD.symm]
        congr 1
        apply withChips_congr
        intro d hd
        have hne : date ≠ d := by
          intro hdd
          apply hnd2.1
          rw [hD, hdd]
          rw [List.mem_map] at hd
          obtain ⟨c, hc, hcd⟩ := hd
          exact List.mem_filterMap.mpr ⟨c, hc, hcd⟩
        rw [if_neg hne, List.append_nil]
      · have e1 : addMonthChip date chip ((MonthCell.day D t n e :: cs).map (MonthCell.withChips f))
            = MonthCell.day D t n (f D) :: addMonthChip date chip (cs.map (MonthCell.withChips f)) := by
          show (if D = date then _ else _) = _
          rw [if_neg hD]
        rw [e1, ih hnd2.2]
        show _ = MonthCell.day D t n (f D ++ (if date = D then [chip] else [])) :: _
        rw [if_neg (fun h => hD h.symm), List.append_nil]

theorem renderEventsMonth_fold (cals : List CalendarDefinition) (cells : List MonthCell)
    (hnd : (cells.filterMap monthCellDate).Nodup) : ∀ (rest done : List CalendarEvent),
    rest.foldl
        (fun acc ev =>
          if ev.calendar ∈ activeCals cals then addMonthChip ev.date (monthChip cals ev) acc
          else acc)
        (cells.map (MonthCell.withChips (expectedMonthChips cals done))) =
      cells.map (MonthCell.withChips (expectedMonthChips cals (done ++ rest))) := by
  intro rest
  induction rest with
  | nil => intro done; simp
  | cons ev rest ih =>
    intro done
    rw [List.foldl_cons]
    have hstep : (if ev.calendar ∈ activeCals cals then
          addMonthChip ev.date (monthChip cals ev)
            (cells.map (MonthCell.withChips (expectedMonthChips cals done)))
        else cells.map (MonthCell.withChips (expectedMonthChips cals done))) =
        cells.map (MonthCell.withChips (expectedMonthChips cals (done ++ [ev]))) := by
      by_cases ha : ev.calendar ∈ activeCals cals
      · rw [if_pos ha, addMonthChip_withChips _ _ _ _ hnd]
        apply withChips_congr
        intro d _
        rw [expectedMonthChips_append]
        congr 1
        by_cases hd : ev.date = d
        · rw [if_pos hd, if_pos ⟨ha, hd⟩]
        · rw [if_neg hd, if_neg (fun h => hd h.2)]
      · rw [if_neg ha]
        apply withChips_congr
        intro d _
        rw [expectedMonthChips_append, if_neg (fun h => ha h.1), List.append_nil]
    rw [hstep, ih (done ++ [ev])]
    simp

/-- The month branch of `renderEvents` on cells with pairwise different dates:
every day cell gets the chips of the events of its date on checked calendars. -/
theorem renderEventsMonth_eq (cals : List CalendarDefinition) (events : List CalendarEvent)
    (cells : List MonthCell) (hnd : (cells.filterMap monthCellDate).Nodup) :
    renderEventsMonth cals events cells =
      cells.map (MonthCell.withChips (expectedMonthChips cals events)) := by
  unfold renderEventsMonth
  have key : ∀ init : List MonthCell,
      init = cells.map (MonthCell.withChips (expectedMonthChips cals [])) →
      events.foldl
          (fun acc ev =>
            if ev.calendar ∈ activeCals cals then addMonthChip ev.date (monthChip cals ev) acc
            else acc) init =
        cells.map (MonthCell.withChips (expectedMonthChips cals events)) := by
    intro init hinit
    rw [hinit, renderEventsMonth_fold cals cells hnd events []]
    simp
  apply key
  apply List.map_congr_left
  intro c _
  cases c <;> rfl
theorem pad_injOn_days : ∀ a ∈ List.range 31, ∀ b ∈ List.range 31,
    pad ((a : Int) + 1) = pad ((b : Int) + 1) → a = b := by
  decide

theorem string_append_left_cancel (p s t : String) (h : p ++ s = p ++ t) : s = t := by
  have hd := congrArg String.data h
  simp only [String.data_append] at hd
  exact String.ext (List.append_cancel_left hd)

theorem monthDataDate_injOn (year month : Int) (a b : Nat) (ha : a < 31) (hb : b < 31)
    (h : monthDataDate year month ((a : Int) + 1) = monthDataDate year month ((b : Int) + 1)) :
    a = b := by
  unfold monthDataDate at h
  exact pad_injOn_days a (List.mem_range.mpr ha) b (List.mem_range.mpr hb)
    (string_append_left_cancel _ _ _ h)

/-- The day cells `renderMonthView` writes before the events are placed. -/
theorem monthCells_dates_nodup (year month : Int) (f : Int → MonthCell)
    (hf : ∀ day, monthCellDate (f day) = some (monthDataDate year month day)) :
    (((monthCells year month).map fun c =>
        match c with
        | none => MonthCell.blank
        | some day => f day).filterMap monthCellDate).Nodup := by
  have hb := daysInMonth_bounds year month
  rw [monthCells_layout]
  simp only [List.map_append, List.filterMap_append, List.map_replicate, List.map_map]
  have h1 : ∀ n, (List.replicate n MonthCell.blank).filterMap monthCellDate = [] := by
    intro n
    induction n with
    | zero => rfl
    | succ n ih => rw [List.replicate_succ, List.filterMap_cons]; simp [monthCellDate, ih]
  rw [h1, h1, List.nil_append, List.append_nil, List.filterMap_map]
  have h2 : (List.range (daysInMonth year month).toNat).filterMap
      (monthCellDate ∘ ((fun c : Option Int =>
        match c with
        | none => MonthCell.blank
        | some day => f day) ∘ fun (k : Nat) => some ((k : Int) + 1))) =
      (List.range (daysInMonth year month).toNat).map
        (fun (k : Nat) => monthDataDate year month ((k : Int) + 1)) := by
    rw [← List.filterMap_eq_map]
    apply List.filterMap_congr
    intro k _
    simp only [Function.comp, hf]
  rw [h2]
  apply List.Nodup.map_on _ (List.nodup_range _)
  intro a ha b hb2 hab
  rw [List.mem_range] at ha hb2
  exact monthDataDate_injOn year month a b (by omega) (by omega) hab

/-- The structured month view, in which a chip is the record of the texts
written into its markup: the cells are the 42 cells of the month grid, a day
cell carries the date `year-pad(month+1)-pad(day)`, and the chips of the day
cell of date D are those of the events whose date is D and whose calendar id
is the id of a checked calendar, one chip per event, in the order of the
collection; a padding cell has no chip. -/
theorem monthView_structured (app : App) (now : Int) :
    (renderMonthView app now).map monthCellDate =
        (monthCells app.state.year app.state.month).map
          (Option.map (monthDataDate app.state.year app.state.month)) ∧
      (renderMonthView app now).map monthCellChips =
        (monthCells app.state.year app.state.month).map (fun c =>
          c.elim []
            (fun day => expectedMonthChips app.calendarList app.calendarEvents
              (monthDataDate app.state.year app.state.month day))) ∧
      expectedMonthChips app.calendarList app.calendarEvents =
        (fun date =>
          (app.calendarEvents.filter fun ev =>
            decide (∃ c ∈ app.calendarList, c.checked = true ∧ c.id = ev.calendar) &&
              decide (ev.date = date)).map (monthChip app.calendarList)) := by
  have hnd := monthCells_dates_nodup app.state.year app.state.month
    (fun day => MonthCell.day (monthDataDate app.state.year app.state.month day)
      (decide (app.state.year = (getToday now).year ∧ app.state.month = (getToday now).month ∧
        day = (getToday now).day)) day [])
    (fun _ => rfl)
  have hrender : renderMonthView app now =
      ((monthCells app.state.year app.state.month).map fun c =>
        match c with
        | none => MonthCell.blank
        | some day => MonthCell.day (monthDataDate app.state.year app.state.month day)
            (decide (app.state.year = (getToday now).year ∧
              app.state.month = (getToday now).month ∧ day = (getToday now).day)) day []).map
        (MonthCell.withChips (expectedMonthChips app.calendarList app.calendarEvents)) := by
    rw [← renderEventsMonth_eq _ _ _ hnd]
    rfl
  refine ⟨?_, ?_, rfl⟩
  · rw [hrender, List.map_map, List.map_map]
    apply List.map_congr_left
    intro c _
    cases c <;> rfl
  · rw [hrender, List.map_map, List.map_map]
    apply List.map_congr_left
    intro c _
    cases c <;> rfl

/-! ## Calendar toggle: lemmas and claim -/

theorem loadCalendarEvents_fields (parse : String → Option (List CalendarEvent)) (app : App) :
    (loadCalendarEvents parse app).state = app.state ∧
      (loadCalendarEvents parse app).calendarList = app.calendarList ∧
      (loadCalendarEvents parse app).storage = app.storage := by
  unfold loadCalendarEvents
  cases app.storage.entry with
  | none => exact ⟨rfl, rfl, rfl⟩
  | some data =>
    simp only
    by_cases h : data = ""
    · rw [if_pos h]; exact ⟨rfl, rfl, rfl⟩
    · rw [if_neg h]
      cases parse data <;> exact ⟨rfl, rfl, rfl⟩

/-- What `loadCalendarEvents` reads depends on the storage only. -/
theorem loadCalendarEvents_events (parse : String → Option (List CalendarEvent)) (a b : App)
    (h : a.storage = b.storage) :
    (loadCalendarEvents parse a).calendarEvents = (loadCalendarEvents parse b).calendarEvents := by
  unfold loadCalendarEvents
  rw [h]
  cases b.storage.entry with
  | none => rfl
  | some data =>
    simp only
    by_cases hd : data = ""
    · rw [if_pos hd, if_pos hd]
    · rw [if_neg hd, if_neg hd]
      cases parse data <;> rfl

theorem app_ext (a b : App) (h1 : a.state = b.state) (h2 : a.calendarList = b.calendarList)
    (h3 : a.calendarEvents = b.calendarEvents) (h4 : a.storage = b.storage) : a = b := by
  cases a; cases b
  simp only at h1 h2 h3 h4
  rw [h1, h2, h3, h4]

/-- After a render, changing the calendar list and rendering again gives the
same state with the new list. -/
theorem render_with_list (parse : String → Option (List CalendarEvent)) (app0 : App)
    (cals : List CalendarDefinition) :
    renderGoogleCalendar parse
        { renderGoogleCalendar parse app0 with calendarList := cals } =
      { renderGoogleCalendar parse app0 with calendarList := cals } := by
  unfold renderGoogleCalendar
  have hf := loadCalendarEvents_fields parse
    { loadCalendarEvents parse app0 with calendarList := cals }
  have hf0 := loadCalendarEvents_fields parse app0
  apply app_ext
  · exact hf.1
  · exact hf.2.1
  · have := loadCalendarEvents_events parse
      { loadCalendarEvents parse app0 with calendarList := cals } app0 hf0.2.2
    exact this
  · exact hf.2.2

theorem setChecked_eq_set (b : Bool) : ∀ (cals : List CalendarDefinition) (i : Nat)
    (c : CalendarDefinition), cals.get? i = some c → (cals.map fun x => x.id).Nodup →
    setChecked c.id b cals = cals.set i { c with checked := b } := by
  intro cals
  induction cals with
  | nil => intro i c h _; exact absurd h (by simp)
  | cons a cs ih =>
    intro i c hget hnd
    rw [List.map_cons, List.nodup_cons] at hnd
    cases i with
    | zero =>
      have hac : a = c := by simpa using hget
      subst hac
      show (if a.id = a.id then _ else _) = _
      rw [if_pos rfl]
      rfl
    | succ i =>
      have hget2 : cs.get? i = some c := by simpa using hget
      have hne : a.id ≠ c.id := by
        intro h
        apply hnd.1
        rw [h]
        exact List.mem_map.mpr ⟨c, List.get?_mem hget2, rfl⟩
      show (if a.id = c.id then _ else _) = _
      rw [if_neg hne, ih i c hget2 hnd.2]
      rfl

theorem toggleCheckbox_eq (parse : String → Option (List CalendarEvent)) (app0 : App)
    (cals : List CalendarDefinition) (i : Nat) (c : CalendarDefinition)
    (hget : cals.get? i = some c) (hnd : (cals.map fun x => x.id).Nodup) :
    toggleCheckbox parse { renderGoogleCalendar parse app0 with calendarList := cals } i =
      { renderGoogleCalendar parse app0 with
        calendarList := cals.set i { c with checked := !c.checked } } := by
  have hcb : (renderCalendarList cals).get? i =
      some { dataCal := c.id, checked := c.checked, color := c.color, name := c.name } := by
    unfold renderCalendarList
    rw [List.get?_eq_getElem?, List.getElem?_map, ← List.get?_eq_getElem?, hget]
    rfl
  unfold toggleCheckbox
  simp only [hcb]
  unfold calendarCheckboxChange
  simp only
  rw [setChecked_eq_set _ cals i c hget hnd, render_with_list]

/-- C12: in a state left by a render, the user unchecks a checked calendar
(the ids of the calendar list being pairwise different) and checks it again.
The event collection is the same after each of the two clicks, the calendar is
hidden in between (its id is not among the active ones), and after the second
click the calendar list and the whole state are the original ones, so the
main grid and the sidebar are rendered as before the first click. -/
theorem toggle_off_then_on (parse : String → Option (List CalendarEvent)) (app0 : App) (i : Nat)
    (c : CalendarDefinition) (tz now : Int)
    (hget : app0.calendarList.get? i = some c) (hon : c.checked = true)
    (hids : (app0.calendarList.map fun x => x.id).Nodup) :
    (toggleCheckbox parse (renderGoogleCalendar parse app0) i).calendarEvents =
        (renderGoogleCalendar parse app0).calendarEvents ∧
      c.id ∉ activeCals (toggleCheckbox parse (renderGoogleCalendar parse app0) i).calendarList ∧
      (toggleCheckbox parse (toggleCheckbox parse (renderGoogleCalendar parse app0) i)
          i).calendarEvents = (renderGoogleCalendar parse app0).calendarEvents ∧
      (toggleCheckbox parse (toggleCheckbox parse (renderGoogleCalendar parse app0) i)
          i).calendarList = (renderGoogleCalendar parse app0).calendarList ∧
      toggleCheckbox parse (toggleCheckbox parse (renderGoogleCalendar parse app0) i) i =
        renderGoogleCalendar parse app0 ∧
      renderMain (toggleCheckbox parse (toggleCheckbox parse (renderGoogleCalendar parse app0) i) i)
          tz now = renderMain (renderGoogleCalendar parse app0) tz now ∧
      renderCalendarList
          (toggleCheckbox parse (toggleCheckbox parse (renderGoogleCalendar parse app0) i)
            i).calendarList = renderCalendarList (renderGoogleCalendar parse app0).calendarList := by
  have hl : (renderGoogleCalendar parse app0).calendarList = app0.calendarList :=
    (loadCalendarEvents_fields parse app0).2.1
  have hself : renderGoogleCalendar parse app0 =
      { renderGoogleCalendar parse app0 with calendarList := app0.calendarList } := by
    apply app_ext <;> first | rfl | exact hl
  have hoff : toggleCheckbox parse (renderGoogleCalendar parse app0) i =
      { renderGoogleCalendar parse app0 with
        calendarList := app0.calendarList.set i { c with checked := false } } := by
    conv_lhs => rw [hself]
    rw [toggleCheckbox_eq parse app0 _ i c hget hids, hon]
    rfl
  have hlen : i < app0.calendarList.length := by
    rw [List.get?_eq_getElem?] at hget
    exact (List.getElem?_eq_some_iff.mp hget).1
  have hget2 : (app0.calendarList.set i { c with checked := false }).get? i =
      some { c with checked := false } := by
    rw [List.get?_eq_getElem?, List.getElem?_set_self hlen]
  have hids2 : ((app0.calendarList.set i { c with checked := false }).map fun x => x.id).Nodup := by
    have e : ((app0.calendarList.set i { c with checked := false }).map fun x => x.id) =
        app0.calendarList.map fun x => x.id := by
      rw [List.map_set]
      apply List.ext_getElem?
      intro n
      by_cases hn : n = i
      · subst hn
        rw [List.getElem?_set_self (by simpa using hlen), List.getElem?_map,
          ← List.get?_eq_getElem?, hget]
        rfl
      · rw [List.getElem?_set_ne (fun h => hn h.symm)]
    rw [e]; exact hids
  have hon2 : toggleCheckbox parse (toggleCheckbox parse (renderGoogleCalendar parse app0) i) i =
      renderGoogleCalendar parse app0 := by
    rw [hoff, toggleCheckbox_eq parse app0 _ i _ hget2 hids2]
    apply app_ext
    · rfl
    · show (app0.calendarList.set i { c with checked := false }).set i
          { c with checked := !false } = (renderGoogleCalendar parse app0).calendarList
      rw [hl, List.set_set]
      have hc : ({ c with checked := !false } : CalendarDefinition) = c := by
        cases c; simp only at hon; simp [hon]
      rw [hc]
      apply List.ext_getElem?
      intro n
      by_cases hn : n = i
      · subst hn
        rw [List.getElem?_set_self hlen, ← List.get?_eq_getElem?, hget]
      · rw [List.getElem?_set_ne (fun h => hn h.symm)]
    · rfl
    · rfl
  refine ⟨by rw [hoff], ?_, by rw [hon2], by rw [hon2], hon2, by rw [hon2], by rw [hon2]⟩
  rw [hoff, mem_activeCals]
  rintro ⟨x, hx, hxc, hxid⟩
  have hxm : x ∈ app0.calendarList.set i { c with checked := false } := hx
  obtain ⟨n, hn⟩ := List.get?_of_mem hxm
  rw [List.get?_eq_getElem?] at hn
  by_cases hni : n = i
  · subst hni
    rw [List.getElem?_set_self hlen] at hn
    rw [← Option.some.inj hn] at hxc
    exact absurd hxc (by simp)
  · rw [List.getElem?_set_ne (fun h => hni h.symm)] at hn
    have hi : app0.calendarList[i]? = some c := by rw [← List.get?_eq_getElem?]; exact hget
    have hn1 := List.getElem?_eq_some_iff.mp hn
    have hi1 := List.getElem?_eq_some_iff.mp hi
    have hnlt : n < (app0.calendarList.map fun x => x.id).length := by simpa using hn1.1
    have hilt : i < (app0.calendarList.map fun x => x.id).length := by simpa using hi1.1
    have h3 : (app0.calendarList.map fun x => x.id)[n] =
        (app0.calendarList.map fun x => x.id)[i] := by
      simp [hn1.2, hi1.2, hxid]
    exact hni ((List.Nodup.getElem_inj_iff hids).mp h3)

/-- C12, witness: the default calendar of the Standup calendar is unchecked
and checked again. -/
theorem toggle_off_then_on_witness :
    toggleCheckbox (parseTable [[standupEvent]])
        (toggleCheckbox (parseTable [[standupEvent]])
          (renderGoogleCalendar (parseTable [[standupEvent]]) standupApp) 0) 0 =
      renderGoogleCalendar (parseTable [[standupEvent]]) standupApp :=
  (toggle_off_then_on (parseTable [[standupEvent]]) standupApp 0
    { id := "default", name := "Default", color := "#00e6ff", checked := true } 0 19786
    (by decide) (by decide) (by decide)).2.2.2.2.1

/-! ## Stored text of the wrong shape -/

/-- C13, evaluation at the failing inputs: when the stored text is valid JSON
that is not an array (`null`, `5`, an object), `JSON.parse` does not throw, so
`loadCalendarEvents` assigns that value to `calendarEvents`: it is not a
list, and in month view the loop of `renderEvents` over it throws. The same
happens for the array `[null]` at its first element. An absent entry, the
empty text and text that is not JSON give the empty array, and the text the
calendar itself wrote gives an array that is rendered without failure. -/
theorem load_keeps_non_array_value :
    (loadCalendarEventsRaw (some "null")).isNull = true ∧
      (loadCalendarEventsRaw (some "null")).isArray = false ∧
      renderMainThrows View.month (loadCalendarEventsRaw (some "null")) = true ∧
      (loadCalendarEventsRaw (some "5")).isArray = false ∧
      renderMainThrows View.month (loadCalendarEventsRaw (some "5")) = true ∧
      (loadCalendarEventsRaw (some "\x7b\"a\":1\x7d")).isArray = false ∧
      renderMainThrows View.month (loadCalendarEventsRaw (some "\x7b\"a\":1\x7d")) = true ∧
      (loadCalendarEventsRaw (some "[null]")).isArray = true ∧
      renderMainThrows View.month (loadCalendarEventsRaw (some "[null]")) = true ∧
      (loadCalendarEventsRaw none).isEmptyArray = true ∧
      (loadCalendarEventsRaw (some "")).isEmptyArray = true ∧
      (loadCalendarEventsRaw (some "[\x7b\"id\":")).isEmptyArray = true ∧
      (loadCalendarEventsRaw (some (stringifyEvents [standupEvent]))).isArray = true ∧
      renderMainThrows View.month
        (loadCalendarEventsRaw (some (stringifyEvents [standupEvent]))) = false := by
  decide

/-! ## Clicks and quick adder: claims -/

theorem calendarMainClick_cases (ui : CalendarUi) (path : List GridElement) (mouseX mouseY : Int) :
    (path.find? isCalendarTarget = none ∧ calendarMainClick ui path mouseX mouseY = ui) ∨
      (∃ target date, path.find? isCalendarTarget = some target ∧
        (getDateHourFromCell ui.app.state target).1 = some date ∧
        matchesDatePattern date = true ∧
        calendarMainClick ui path mouseX mouseY =
          { ui with quickAdder := some (openQuickEventAdder (some date)
              (getDateHourFromCell ui.app.state target).2 mouseX mouseY) }) ∨
      (∃ target, path.find? isCalendarTarget = some target ∧
        (∀ date, (getDateHourFromCell ui.app.state target).1 = some date →
          matchesDatePattern date = false) ∧
        calendarMainClick ui path mouseX mouseY =
          { ui with errors := ui.errors ++ ["Invalid date extracted from calendar cell:"] }) := by
  unfold calendarMainClick
  cases hf : path.find? isCalendarTarget with
  | none => exact Or.inl ⟨rfl, rfl⟩
  | some target =>
    right
    rcases hr : getDateHourFromCell ui.app.state target with ⟨date, hour⟩
    cases date with
    | none =>
      right
      refine ⟨target, rfl, ?_, ?_⟩
      · intro date hd
        rw [hr] at hd
        exact absurd hd (by simp)
      · simp only [hr]
    | some date =>
      by_cases hm : matchesDatePattern date = true
      · left
        refine ⟨target, date, rfl, by rw [hr], hm, ?_⟩
        simp only [hm, if_true, hr]
      · right
        refine ⟨target, rfl, ?_, ?_⟩
        · intro d hd
          rw [hr] at hd
          have : date = d := Option.some.inj hd
          rw [← this]
          simpa using hm
        · simp only [hr, hm, if_false]
          rfl

/-- C14: for every click inside the main grid, the handler leaves the
variables (event collection, view state, calendar list, storage) and the
modal as they are. The quick adder changes only when the click lands in a
cell whose resolved date passes the test for the form YYYY-MM-DD, and it is
then opened with that date and the resolved hour. When the date resolved for
the cell is missing or fails the test, the handler writes the error line and
changes nothing else. A padding cell of the month grid, which carries no date,
is such a case. -/
theorem mainClick_opens_only_valid_date (ui : CalendarUi) (path : List GridElement)
    (mouseX mouseY : Int) :
    (calendarMainClick ui path mouseX mouseY).app = ui.app ∧
      (calendarMainClick ui path mouseX mouseY).modal = ui.modal ∧
      (calendarMainClick ui path mouseX mouseY).modalShown = ui.modalShown ∧
      ((calendarMainClick ui path mouseX mouseY).quickAdder ≠ ui.quickAdder →
        ∃ target date, path.find? isCalendarTarget = some target ∧
          (getDateHourFromCell ui.app.state target).1 = some date ∧
          matchesDatePattern date = true ∧
          (calendarMainClick ui path mouseX mouseY).quickAdder =
            some (openQuickEventAdder (some date) (getDateHourFromCell ui.app.state target).2
              mouseX mouseY) ∧
          (calendarMainClick ui path mouseX mouseY).errors = ui.errors) ∧
      (∀ target, path.find? isCalendarTarget = some target →
        (∀ date, (getDateHourFromCell ui.app.state target).1 = some date →
          matchesDatePattern date = false) →
        calendarMainClick ui path mouseX mouseY =
          { ui with errors := ui.errors ++ ["Invalid date extracted from calendar cell:"] }) ∧
      calendarMainClick ui [paddingCell] mouseX mouseY =
        { ui with errors := ui.errors ++ ["Invalid date extracted from calendar cell:"] } := by
  rcases calendarMainClick_cases ui path mouseX mouseY with
    ⟨_, h⟩ | ⟨target, date, hf, hd, hm, h⟩ | ⟨target, hf, hbad, h⟩
  · refine ⟨by rw [h], by rw [h], by rw [h], ?_, ?_, rfl⟩
    · intro hne; rw [h] at hne; exact absurd rfl hne
    · intro t ht; rename_i hnone; rw [hnone] at ht; exact absurd ht (by simp)
  · refine ⟨by rw [h], by rw [h], by rw [h], ?_, ?_, rfl⟩
    · intro _
      exact ⟨target, date, hf, hd, hm, by rw [h], by rw [h]⟩
    · intro t ht hbad
      rw [hf] at ht
      have : target = t := Option.some.inj ht
      subst this
      have := hbad date hd
      rw [hm] at this
      exact absurd this (by simp)
  · refine ⟨by rw [h], by rw [h], by rw [h], ?_, ?_, rfl⟩
    · intro hne; rw [h] at hne; exact absurd rfl hne
    · intro _ _ _; exact h

/-- C15, evaluation at the failing input: the quick adder is opened by a click
on the cell of 2024-03-04, hour 9; the user changes its date field to
2024-03-05 and its hour to 10 and presses "More options". The modal is
pre-filled with 2024-03-04 and 9, the values of the click, not with the
entered ones: for every state and every content of the fields, the modal that
"More options" opens is the one it opens when the fields were never touched. -/
theorem quickMore_ignores_entered_values :
    (∀ (ui : CalendarUi) (fields : QuickInput),
        (quickMore (editQuickAdder ui fields)).modal = (quickMore ui).modal) ∧
      ((editQuickAdder (calendarMainClick standupUi [standupCell] 100 200)
          { title := "", date := "2024-03-05", hour := "10", link := "", desc := "" }).quickAdder.map
        fun q => (q.fields.date, q.fields.hour)) = some ("2024-03-05", "10") ∧
      (quickMore (editQuickAdder (calendarMainClick standupUi [standupCell] 100 200)
          { title := "", date := "2024-03-05", hour := "10", link := "", desc := "" })).modalShown =
        true ∧
      (quickMore (editQuickAdder (calendarMainClick standupUi [standupCell] 100 200)
          { title := "", date := "2024-03-05", hour := "10", link := "", desc := ""
            })).modal.form.date = "2024-03-04" ∧
      (quickMore (editQuickAdder (calendarMainClick standupUi [standupCell] 100 200)
          { title := "", date := "2024-03-05", hour := "10", link := "", desc := ""
            })).modal.form.hour = "9" := by
  refine ⟨?_, by decide, by decide, by decide, by decide⟩
  intro ui fields
  unfold quickMore editQuickAdder
  cases hq : ui.quickAdder with
  | none => rfl
  | some q => simp only [Option.map_some']

end Calendar

namespace Overlay

set_option maxRecDepth 1000000

/-! ## Overlay loader: lemmas and claims -/

theorem mappingFeatures_of_located : ∀ points : List PointRecord,
    (∀ p ∈ points, p.location ≠ none) →
      ∃ features, mappingFeatures points = some features ∧
        features.length = points.length ∧
        features.map (fun f => f.name) = points.map (fun p => p.name) ∧
        features.map (fun f => f.type) = points.map (fun p => p.type) ∧
        features.map (fun f => f.description) = points.map (fun p => p.description) ∧
        features.map (fun f => f.coordinates) =
          points.map (fun p => [p.location.bind fun l => l.lng, p.location.bind fun l => l.lat]) := by
  intro points
  induction points with
  | nil => intro _; exact ⟨[], rfl, rfl, rfl, rfl, rfl, rfl⟩
  | cons p ps ih =>
    intro h
    obtain ⟨fs, hfs, hlen, hn, ht, hd, hc⟩ := ih fun q hq => h q (List.mem_cons_of_mem p hq)
    have hp := h p (List.mem_cons_self p ps)
    cases hl : p.location with
    | none => exact absurd hl hp
    | some l =>
      refine ⟨{ coordinates := [l.lng, l.lat], name := p.name, type := p.type,
                description := p.description } :: fs, ?_, ?_, ?_, ?_, ?_, ?_⟩
      · show (match mappingFeature p, mappingFeatures ps with
          | some f, some fs => some (f :: fs)
          | _, _ => none) = _
        unfold mappingFeature
        simp only [hl, hfs]
      · simp [hlen]
      · simp [hn]
      · simp [ht]
      · simp [hd]
      · simp [hc, hl]

/-- C16, evaluation at the failing input: "ports" and then "oil_fields" are
activated while the first fetch is still in flight, then the two fetches
resolve in the order in which they were started. Each activation found
`activeLayer` empty and removed nothing, so the map ends with both
`ports-points` and `oil_fields-points`. When the first fetch resolves before
the second activation, only `oil_fields-points` is left. -/
theorem two_overlays_after_interleaved_fetches :
    (overlayRun [OverlayEvent.activate "ports", OverlayEvent.activate "oil_fields",
        OverlayEvent.settle 0 (some portsData), OverlayEvent.settle 0 (some oilData)]).layers =
        ["ports-points", "oil_fields-points"] ∧
      (overlayRun [OverlayEvent.activate "ports", OverlayEvent.activate "oil_fields",
        OverlayEvent.settle 0 (some portsData),
        OverlayEvent.settle 0 (some oilData)]).sources.map (fun s => s.1) =
        ["ports-points", "oil_fields-points"] ∧
      (overlayRun [OverlayEvent.activate "ports", OverlayEvent.activate "oil_fields",
        OverlayEvent.settle 0 (some portsData), OverlayEvent.settle 0 (some oilData)]).pending =
        [] ∧
      (overlayRun [OverlayEvent.activate "ports", OverlayEvent.activate "oil_fields",
        OverlayEvent.settle 1 (some oilData), OverlayEvent.settle 0 (some portsData)]).layers =
        ["oil_fields-points", "ports-points"] ∧
      (overlayRun [OverlayEvent.activate "ports", OverlayEvent.settle 0 (some portsData),
        OverlayEvent.activate "oil_fields", OverlayEvent.settle 0 (some oilData)]).layers =
        ["oil_fields-points"] := by
  decide

/-- C17, evaluation at the failing input: "ports" is activated and its fetch
resolves, so `ports-points` is installed and active; then "ports" is activated
again. The second call removes the layer and the source before it fetches, and
its callback adds both anew: the calls are addSource, addLayer, removeLayer,
removeSource, addSource, addLayer, and `setData` is never called. -/
theorem reactivation_removes_and_recreates :
    (overlayRun [OverlayEvent.activate "ports",
        OverlayEvent.settle 0 (some portsData)]).layers = ["ports-points"] ∧
      (overlayRun [OverlayEvent.activate "ports",
        OverlayEvent.settle 0 (some portsData)]).activeLayer = some "ports-points" ∧
      (overlayRun [OverlayEvent.activate "ports", OverlayEvent.settle 0 (some portsData),
        OverlayEvent.activate "ports"]).layers = [] ∧
      (overlayRun [OverlayEvent.activate "ports", OverlayEvent.settle 0 (some portsData),
        OverlayEvent.activate "ports"]).sources = [] ∧
      (overlayRun [OverlayEvent.activate "ports", OverlayEvent.settle 0 (some portsData),
        OverlayEvent.activate "ports", OverlayEvent.settle 0 (some portsData)]).calls =
        [MapCall.addSource "ports-points", MapCall.addLayer "ports-points",
          MapCall.removeLayer "ports-points", MapCall.removeSource "ports-points",
          MapCall.addSource "ports-points", MapCall.addLayer "ports-points"] ∧
      MapCall.setData "ports-points" ∉
        (overlayRun [OverlayEvent.activate "ports", OverlayEvent.settle 0 (some portsData),
          OverlayEvent.activate "ports", OverlayEvent.settle 0 (some portsData)]).calls := by
  decide

/-- C18, counterexample: the record `{name: "Rotterdam", location: {lat, lng}}`
normalised as the flat list `[r]` of the dataset "ports" gets the type "ports"
and the description "Rotterdam (ports)"; normalised as the mapping `{c: [r]}`
it gets neither. The two features differ. -/
theorem same_record_two_shapes_differ :
    buildFeatures "ports"
        (Dataset.flat [namedPoint "Rotterdam" { mantissa := 45, exponent := -1 }
          { mantissa := 519, exponent := -1 }]) =
      some [{ coordinates := [some { mantissa := 45, exponent := -1 },
                some { mantissa := 519, exponent := -1 }]
              name := some "Rotterdam", type := some "ports",
              description := some "Rotterdam (ports)" }] ∧
    buildFeatures "ports"
        (Dataset.mapping [("c", [namedPoint "Rotterdam" { mantissa := 45, exponent := -1 }
          { mantissa := 519, exponent := -1 }])]) =
      some [{ coordinates := [some { mantissa := 45, exponent := -1 },
                some { mantissa := 519, exponent := -1 }]
              name := some "Rotterdam", type := none, description := none }] ∧
    buildFeatures "ports"
        (Dataset.flat [namedPoint "Rotterdam" { mantissa := 45, exponent := -1 }
          { mantissa := 519, exponent := -1 }]) ≠
      buildFeatures "ports"
        (Dataset.mapping [("c", [namedPoint "Rotterdam" { mantissa := 45, exponent := -1 }
          { mantissa := 519, exponent := -1 }])]) := by
  decide

/-- C18, amended: a flat list of n records yields exactly n Point features in
record order; a mapping of categories to lists of records that all have a
`location` yields as many Point features as the lists hold records in total,
in category order then list order, with the name, type, description and
`[lng, lat]` of each record. The same record `{name, location: {lat, lng}}`
gets the same coordinates `[lng, lat]` and the same name in both shapes; the
flat shape fills in the type with the name of the dataset and the description
with `name (dataset)`, the mapping shape leaves both undefined. -/
theorem normalisation_of_both_shapes (dataType : String) :
    (∀ records : List PointRecord,
      buildFeatures dataType (Dataset.flat records) = some (records.map (flatFeature dataType)) ∧
        (records.map (flatFeature dataType)).length = records.length) ∧
    (∀ categories : List (String × List PointRecord),
      (∀ c ∈ categories, ∀ p ∈ c.2, p.location ≠ none) →
        ∃ features, buildFeatures dataType (Dataset.mapping categories) = some features ∧
          features.length = (categories.map fun c => c.2.length).sum ∧
          features.map (fun f => f.name) = (categories.flatMap fun c => c.2).map (fun p => p.name) ∧
          features.map (fun f => f.type) = (categories.flatMap fun c => c.2).map (fun p => p.type) ∧
          features.map (fun f => f.description) =
            (categories.flatMap fun c => c.2).map (fun p => p.description) ∧
          features.map (fun f => f.coordinates) =
            (categories.flatMap fun c => c.2).map
              (fun p => [p.location.bind fun l => l.lng, p.location.bind fun l => l.lat])) ∧
    (∀ (name category : String) (lng lat : Decimal),
      buildFeatures dataType (Dataset.flat [namedPoint name lng lat]) =
          some [{ coordinates := [some lng, some lat], name := some name, type := some dataType,
                  description := some (name ++ " (" ++ dataType ++ ")") }] ∧
        buildFeatures dataType (Dataset.mapping [(category, [namedPoint name lng lat])]) =
          some [{ coordinates := [some lng, some lat], name := some name, type := none,
                  description := none }]) := by
  refine ⟨fun records => ⟨rfl, by simp⟩, ?_, ?_⟩
  · intro categories h
    have hall : ∀ p ∈ (categories.flatMap fun c => c.2), p.location ≠ none := by
      intro p hp
      rw [List.mem_flatMap] at hp
      obtain ⟨c, hc, hpc⟩ := hp
      exact h c hc p hpc
    obtain ⟨fs, hfs, hlen, hn, ht, hd, hc⟩ := mappingFeatures_of_located _ hall
    refine ⟨fs, hfs, ?_, hn, ht, hd, hc⟩
    rw [hlen, List.flatMap, List.length_flatten, List.map_map]
    rfl
  · intro name category lng lat
    constructor
    · show some [flatFeature dataType (namedPoint name lng lat)] = _
      unfold flatFeature namedPoint orDefault templateText
      rfl
    · rfl

end Overlay

namespace OrgChart

set_option maxRecDepth 1000000

/-! ## Leadership chart: lemmas -/

theorem getD_pushLevel_nil (depth node e : Nat) :
    (pushLevel [] depth node).getD e [] = if e = depth then [node] else [] := by
  induction depth generalizing e with
  | zero =>
    cases e with
    | zero => rfl
    | succ e => simp [pushLevel]
  | succ d ih =>
    cases e with
    | zero => simp [pushLevel]
    | succ e =>
      show (pushLevel [] d node).getD e [] = _
      rw [ih]
      simp

theorem getD_pushLevel (levels : List (List Nat)) (depth node e : Nat) :
    (pushLevel levels depth node).getD e [] =
      levels.getD e [] ++ (if e = depth then [node] else []) := by
  induction levels generalizing depth e with
  | nil => rw [getD_pushLevel_nil]; simp
  | cons level rest ih =>
    cases depth with
    | zero =>
      cases e with
      | zero => simp [pushLevel]
      | succ e => simp [pushLevel]
    | succ d =>
      cases e with
      | zero => simp [pushLevel]
      | succ e =>
        show (pushLevel rest d node).getD e [] = _
        rw [ih]
        simp

theorem traverse_succ (heap : List Member) (fuel : Nat) (levels : List (List Nat))
    (node depth : Nat) :
    traverse heap (fuel + 1) levels node depth =
      (childrenOf heap node).foldlM
        (fun acc child => traverse heap fuel acc child (depth + 1))
        (pushLevel levels depth node) := rfl

theorem traverseEach_of_traverse {heap : List Member} {good : Nat → Prop}
    {depth up : Nat → Nat} {size bound : Nat} (fuel : Nat)
    (hT : ∀ k d levels, good k → k < size → depth k = d → bound ≤ fuel + d →
      ∃ after visited, traverse heap fuel levels k d = some after ∧
        Visits depth levels after visited ∧ visited.Nodup ∧
        (∀ v ∈ visited, good v ∧ v < size ∧ d ≤ depth v ∧ up^[depth v - d] v = k) ∧
        k ∈ visited ∧ (∀ v ∈ visited, ∀ c ∈ childrenOf heap v, c ∈ visited)) :
    ∀ (cs : List Nat) (levels : List (List Nat)) (d : Nat),
      (∀ c ∈ cs, good c ∧ c < size ∧ depth c = d) → cs.Nodup → bound ≤ fuel + d →
      ∃ after visited,
        cs.foldlM (fun acc c => traverse heap fuel acc c d) levels = some after ∧
        Visits depth levels after visited ∧ visited.Nodup ∧
        (∀ v ∈ visited, good v ∧ v < size ∧ d ≤ depth v ∧ up^[depth v - d] v ∈ cs) ∧
        (∀ c ∈ cs, c ∈ visited) ∧ (∀ v ∈ visited, ∀ c ∈ childrenOf heap v, c ∈ visited) := by
  intro cs
  induction cs with
  | nil =>
    intro levels d _ _ _
    refine ⟨levels, [], rfl, ?_, List.nodup_nil, ?_, ?_, ?_⟩
    · intro e; simp
    · intro v hv; cases hv
    · intro c hc; cases hc
    · intro v hv; cases hv
  | cons c cs ih =>
    intro levels d hcs hnd hfuel
    have hc := hcs c (List.mem_cons_self c cs)
    obtain ⟨l1, vis1, ht1, hv1, hn1, ha1, hk1, hcl1⟩ := hT c d levels hc.1 hc.2.1 hc.2.2 hfuel
    have hnd' := List.nodup_cons.mp hnd
    obtain ⟨l2, vis2, ht2, hv2, hn2, ha2, hk2, hcl2⟩ :=
      ih l1 d (fun x hx => hcs x (List.mem_cons_of_mem c hx)) hnd'.2 hfuel
    refine ⟨l2, vis1 ++ vis2, ?_, ?_, ?_, ?_, ?_, ?_⟩
    · rw [List.foldlM_cons, ht1]
      exact ht2
    · intro e
      rw [hv2 e, hv1 e, List.filter_append, List.append_assoc]
    · rw [List.nodup_append]
      refine ⟨hn1, hn2, ?_⟩
      intro v h1 h2
      have e1 := (ha1 v h1).2.2.2
      have e2 := (ha2 v h2).2.2.2
      rw [e1] at e2
      exact hnd'.1 e2
    · intro v hv
      rcases List.mem_append.mp hv with h | h
      · obtain ⟨g, a, b, e⟩ := ha1 v h
        exact ⟨g, a, b, by rw [e]; exact List.mem_cons_self c cs⟩
      · obtain ⟨g, a, b, e⟩ := ha2 v h
        exact ⟨g, a, b, List.mem_cons_of_mem c e⟩
    · intro x hx
      rcases List.mem_cons.mp hx with h | h
      · rw [h]; exact List.mem_append_left _ hk1
      · exact List.mem_append_right _ (hk2 x h)
    · intro v hv x hx
      rcases List.mem_append.mp hv with h | h
      · exact List.mem_append_left _ (hcl1 v h x hx)
      · exact List.mem_append_right _ (hcl2 v h x hx)

theorem traverse_visits {heap : List Member} {good : Nat → Prop} {depth up : Nat → Nat}
    {size bound : Nat} (hL : Linked heap good depth up size bound) :
    ∀ fuel k d levels, good k → k < size → depth k = d → bound ≤ fuel + d →
      ∃ after visited, traverse heap fuel levels k d = some after ∧
        Visits depth levels after visited ∧ visited.Nodup ∧
        (∀ v ∈ visited, good v ∧ v < size ∧ d ≤ depth v ∧ up^[depth v - d] v = k) ∧
        k ∈ visited ∧ (∀ v ∈ visited, ∀ c ∈ childrenOf heap v, c ∈ visited) := by
  intro fuel
  induction fuel with
  | zero =>
    intro k d levels hg hk hd hfuel
    have := hL.below k hg hk
    omega
  | succ fuel ih =>
    intro k d levels hg hk hd hfuel
    obtain ⟨after, vis, ht, hv, hn, ha, hall, hcl⟩ :=
      traverseEach_of_traverse fuel ih (childrenOf heap k) (pushLevel levels d k) (d + 1)
        (fun c hc => ⟨(hL.child k c hg hc).1, (hL.child k c hg hc).2.1,
          by rw [(hL.child k c hg hc).2.2.1, hd]⟩)
        (hL.nodup k) (by omega)
    refine ⟨after, k :: vis, ?_, ?_, ?_, ?_, List.mem_cons_self k vis, ?_⟩
    · rw [traverse_succ]; exact ht
    · intro e
      rw [hv e, getD_pushLevel, List.filter_cons]
      by_cases he : e = d
      · have : depth k = e := by rw [he, hd]
        simp [he, hd]
      · have : ¬ depth k = e := by rw [hd]; exact fun h => he h.symm
        simp [he, this]
    · rw [List.nodup_cons]
      refine ⟨?_, hn⟩
      intro hmem
      have := (ha k hmem).2.2.1
      omega
    · intro v hv'
      rcases List.mem_cons.mp hv' with h | h
      · rw [h, hd]
        exact ⟨hg, hk, le_refl d, by simp⟩
      · obtain ⟨g, a, b, e⟩ := ha v h
        refine ⟨g, a, by omega, ?_⟩
        have hs : depth v - d = (depth v - (d + 1)) + 1 := by omega
        rw [hs, Function.iterate_succ_apply']
        exact (hL.child k _ hg e).2.2.2
    · intro v hv' x hx
      rcases List.mem_cons.mp hv' with h | h
      · rw [h] at hx
        exact List.mem_cons_of_mem k (hall x hx)
      · exact List.mem_cons_of_mem k (hcl v h x hx)

theorem byId_lt {nodes : List Member} {key : String} {p : Nat} (h : byId nodes key = some p) :
    p < nodes.length := by
  have h1 := List.mem_of_getLast?_eq_some h
  exact List.mem_range.mp (List.mem_filter.mp h1).1

theorem childrenOf_pushChild (heap : List Member) (p n k : Nat) (hp : p < heap.length) :
    childrenOf (pushChild heap p n) k =
      if k = p then childrenOf heap p ++ [n] else childrenOf heap k := by
  unfold childrenOf pushChild
  rw [List.get?_eq_getElem?, List.getElem?_modify]
  by_cases hk : k = p
  · subst hk
    rw [if_pos rfl, List.get?_eq_getElem?, List.getElem?_eq_getElem hp]
    simp
  · rw [if_neg hk, List.get?_eq_getElem?]
    have hne : ¬ p = k := fun h => hk h.symm
    cases heap[k]? with
    | none => rfl
    | some m => simp [hne]

theorem parent_pushChild (heap : List Member) (p n k : Nat) :
    ((pushChild heap p n).get? k).map Member.parent = (heap.get? k).map Member.parent := by
  unfold pushChild
  rw [List.get?_eq_getElem?, List.getElem?_modify, List.get?_eq_getElem?]
  cases heap[k]? with
  | none => rfl
  | some m =>
    by_cases h : p = k
    · simp [h]
    · simp [h]

theorem isRoot_congr {a b : Member} (h : a.parent = b.parent) : isRoot a = isRoot b := by
  unfold isRoot
  rw [h]

theorem isForest_spec {nodes : List Member} {depth : Nat → Nat}
    (h : isForest nodes depth = true) (n : Nat) (m : Member) (hm : nodes.get? n = some m) :
    (isRoot m = true ∧ depth n = 0) ∨
      (isRoot m = false ∧ ∃ p, byId nodes (m.parent.getD "") = some p ∧ depth n = depth p + 1) := by
  unfold isForest at h
  rw [List.all_eq_true] at h
  have hn : n < nodes.length := by
    rw [List.get?_eq_getElem?] at hm
    exact (List.getElem?_eq_some_iff.mp hm).1
  have h1 := h n (List.mem_range.mpr hn)
  simp only [hm] at h1
  by_cases hr : isRoot m = true
  · left
    rw [if_pos hr] at h1
    exact ⟨hr, of_decide_eq_true h1⟩
  · right
    rw [if_neg hr] at h1
    refine ⟨by simpa using hr, ?_⟩
    cases hb : byId nodes (m.parent.getD "") with
    | none => rw [hb] at h1; exact absurd h1 (by simp)
    | some p =>
      rw [hb] at h1
      exact ⟨p, rfl, of_decide_eq_true h1⟩

theorem rootAt_eq {nodes : List Member} {n : Nat} {m : Member} (h : nodes.get? n = some m) :
    rootAt nodes n = isRoot m := by
  unfold rootAt
  rw [h]

theorem buildTree_prefix (nodes : List Member)
    (hfresh : ∀ m ∈ nodes, m.children = none)
    (hres : ∀ m ∈ nodes, isRoot m = false → (byId nodes (m.parent.getD "")).isSome = true) :
    ∀ i, i ≤ nodes.length →
      ∃ st, (List.range i).foldlM (link nodes) { heap := nodes, tree := [] } = Except.ok st ∧
        st.heap.length = nodes.length ∧
        (∀ k, (st.heap.get? k).map Member.parent = (nodes.get? k).map Member.parent) ∧
        (∀ k c, c ∈ childrenOf st.heap k →
          c < i ∧ rootAt nodes c = false ∧ parentOf nodes c = k) ∧
        (∀ k, (childrenOf st.heap k).Nodup) ∧
        st.tree.Nodup ∧
        (∀ r ∈ st.tree, r < i ∧ rootAt nodes r = true) ∧
        (∀ n, n < i → rootAt nodes n = true → n ∈ st.tree) ∧
        (∀ n, n < i → rootAt nodes n = false → n ∈ childrenOf st.heap (parentOf nodes n)) := by
  intro i
  induction i with
  | zero =>
    intro _
    have hnone : ∀ k, childrenOf nodes k = [] := by
      intro k
      unfold childrenOf
      cases hk : nodes.get? k with
      | none => rfl
      | some m =>
        have := hfresh m (List.get?_mem hk)
        simp [this]
    refine ⟨{ heap := nodes, tree := [] }, rfl, rfl, fun _ => rfl, ?_, ?_, List.nodup_nil, ?_,
      ?_, ?_⟩
    · intro k c hc
      rw [hnone k] at hc
      cases hc
    · intro k
      rw [hnone k]
      exact List.nodup_nil
    · intro r hr
      cases hr
    · intro n hn
      omega
    · intro n hn
      omega
  | succ i ih =>
    intro hi
    obtain ⟨st, hst, hlen, hpar, hch, hnd, htn, htr, hroots, hkids⟩ := ih (by omega)
    have hiN : i < nodes.length := by omega
    have hiS : i < st.heap.length := by omega
    obtain ⟨m0, hm0⟩ : ∃ m0, nodes.get? i = some m0 :=
      ⟨nodes[i], by rw [List.get?_eq_getElem?, List.getElem?_eq_getElem hiN]⟩
    obtain ⟨m, hm⟩ : ∃ m, st.heap.get? i = some m :=
      ⟨st.heap[i], by rw [List.get?_eq_getElem?, List.getElem?_eq_getElem hiS]⟩
    have hmp : m.parent = m0.parent := by
      have := hpar i
      rw [hm, hm0] at this
      simpa using this
    have hri : rootAt nodes i = isRoot m0 := rootAt_eq hm0
    have hfold : (List.range (i + 1)).foldlM (link nodes) { heap := nodes, tree := [] } =
        link nodes st i := by
      rw [List.range_succ, List.foldlM_append, hst]
      show (link nodes st i >>= fun init => pure init) = _
      simp
    rw [hfold]
    cases hr : isRoot m0 with
    | true =>
      rw [hr] at hri
      have hr' : isRoot m = true := by rw [isRoot_congr hmp]; exact hr
      refine ⟨{ st with tree := st.tree ++ [i] }, ?_, hlen, hpar, ?_, hnd, ?_, ?_, ?_, ?_⟩
      · unfold link
        simp only [hm]
        rw [if_pos hr']
      · intro k c hc
        obtain ⟨a, b⟩ := hch k c hc
        exact ⟨by omega, b⟩
      · rw [List.nodup_append]
        refine ⟨htn, List.nodup_singleton i, ?_⟩
        intro a ha hb
        rw [List.mem_singleton] at hb
        have := (htr a ha).1
        omega
      · intro r hr2
        rcases List.mem_append.mp hr2 with h | h
        · exact ⟨by have := (htr r h).1; omega, (htr r h).2⟩
        · rw [List.mem_singleton] at h
          rw [h]
          exact ⟨by omega, hri⟩
      · intro n hn hdn
        by_cases hni : n = i
        · rw [hni]; exact List.mem_append_right _ (List.mem_singleton_self i)
        · exact List.mem_append_left _ (hroots n (by omega) hdn)
      · intro n hn hdn
        have hni : n ≠ i := fun h => by rw [h, hri] at hdn; cases hdn
        exact hkids n (by omega) hdn
    | false =>
      rw [hr] at hri
      have hr' : isRoot m = false := by rw [isRoot_congr hmp]; exact hr
      obtain ⟨p, hp⟩ : ∃ p, byId nodes (m0.parent.getD "") = some p :=
        Option.isSome_iff_exists.mp (hres m0 (List.get?_mem hm0) hr)
      have hpN : p < st.heap.length := by rw [hlen]; exact byId_lt hp
      have hparent : parentOf nodes i = p := by
        unfold parentOf
        simp only [hm0, hp, Option.getD_some]
      refine ⟨{ st with heap := pushChild st.heap p i }, ?_, ?_, ?_, ?_, ?_, htn, ?_, ?_, ?_⟩
      · unfold link
        simp only [hm]
        rw [hr', hmp, hp]
        rfl
      · show (pushChild st.heap p i).length = _
        unfold pushChild
        rw [List.length_modify]
        exact hlen
      · intro k
        show ((pushChild st.heap p i).get? k).map Member.parent = _
        rw [parent_pushChild]
        exact hpar k
      · intro k c hc
        change c ∈ childrenOf (pushChild st.heap p i) k at hc
        rw [childrenOf_pushChild _ _ _ _ hpN] at hc
        by_cases hk : k = p
        · rw [if_pos hk] at hc
          rcases List.mem_append.mp hc with h | h
          · obtain ⟨a, b⟩ := hch p c h
            rw [hk]
            exact ⟨by omega, b⟩
          · rw [List.mem_singleton] at h
            rw [h, hk]
            exact ⟨by omega, hri, hparent⟩
        · rw [if_neg hk] at hc
          obtain ⟨a, b⟩ := hch k c hc
          exact ⟨by omega, b⟩
      · intro k
        show (childrenOf (pushChild st.heap p i) k).Nodup
        rw [childrenOf_pushChild _ _ _ _ hpN]
        by_cases hk : k = p
        · rw [if_pos hk, List.nodup_append]
          refine ⟨hnd p, List.nodup_singleton i, ?_⟩
          intro a ha hb
          rw [List.mem_singleton] at hb
          have := (hch p a ha).1
          omega
        · rw [if_neg hk]
          exact hnd k
      · intro r hr2
        exact ⟨by have := (htr r hr2).1; omega, (htr r hr2).2⟩
      · intro n hn hdn
        have hni : n ≠ i := fun h => by rw [h, hri] at hdn; cases hdn
        exact hroots n (by omega) hdn
      · intro n hn hdn
        show n ∈ childrenOf (pushChild st.heap p i) (parentOf nodes n)
        rw [childrenOf_pushChild _ _ _ _ hpN]
        by_cases hni : n = i
        · rw [hni, hparent, if_pos rfl]
          exact List.mem_append_right _ (List.mem_singleton_self i)
        · have := hkids n (by omega) hdn
          by_cases hk : parentOf nodes n = p
          · rw [if_pos hk]
            rw [hk] at this
            exact List.mem_append_left _ this
          · rw [if_neg hk]
            exact this

theorem buildTree_spec (nodes : List Member)
    (hfresh : ∀ m ∈ nodes, m.children = none)
    (hres : ∀ m ∈ nodes, isRoot m = false → (byId nodes (m.parent.getD "")).isSome = true) :
    ∃ built, buildTree nodes = Except.ok built ∧
      built.heap.length = nodes.length ∧
      (∀ k c, c ∈ childrenOf built.heap k →
        c < nodes.length ∧ rootAt nodes c = false ∧ parentOf nodes c = k) ∧
      (∀ k, (childrenOf built.heap k).Nodup) ∧
      built.tree.Nodup ∧
      (∀ r ∈ built.tree, r < nodes.length ∧ rootAt nodes r = true) ∧
      (∀ n, n < nodes.length → rootAt nodes n = true → n ∈ built.tree) ∧
      (∀ n, n < nodes.length → rootAt nodes n = false →
        n ∈ childrenOf built.heap (parentOf nodes n)) := by
  obtain ⟨built, hb, hlen, _, hch, hnd, htn, htr, hroots, hkids⟩ :=
    buildTree_prefix nodes hfresh hres nodes.length (le_refl _)
  exact ⟨built, hb, hlen, hch, hnd, htn, htr, hroots, hkids⟩

theorem isForest_resolved {nodes : List Member} {depth : Nat → Nat}
    (h : isForest nodes depth = true) :
    ∀ m ∈ nodes, isRoot m = false → (byId nodes (m.parent.getD "")).isSome = true := by
  intro m hm hr
  obtain ⟨n, hn⟩ := List.get?_of_mem hm
  rcases isForest_spec h n m hn with ⟨h1, _⟩ | ⟨_, p, hp, _⟩
  · rw [hr] at h1; cases h1
  · rw [hp]; rfl

/-! ## Double arithmetic: lemmas -/

theorem binaryDigits_zero (fuel : Nat) : binaryDigits fuel 0 = 0 := by
  cases fuel <;> simp [binaryDigits]

theorem binaryDigits_spec : ∀ fuel n : Nat, n ≤ fuel → 0 < n →
    2 ^ (binaryDigits fuel n - 1) ≤ n ∧ n < 2 ^ binaryDigits fuel n ∧
      1 ≤ binaryDigits fuel n := by
  intro fuel
  induction fuel with
  | zero => intro n h h0; omega
  | succ fuel ih =>
    intro n h h0
    have hn : n ≠ 0 := by omega
    simp only [binaryDigits, if_neg hn]
    rcases Nat.eq_zero_or_pos (n / 2) with h2 | h2
    · rw [h2, binaryDigits_zero]
      have : n = 1 := by omega
      subst this
      simp
    · obtain ⟨l, u, p⟩ := ih (n / 2) (by omega) h2
      refine ⟨?_, ?_, by omega⟩
      · have e : binaryDigits fuel (n / 2) + 1 - 1 = (binaryDigits fuel (n / 2) - 1) + 1 := by
          omega
        rw [e, Nat.pow_succ]
        omega
      · rw [Nat.pow_succ]
        omega

theorem two_zpow_split (k : Int) :
    (2 : ℚ) ^ k = (2 : ℚ) ^ k.toNat / (2 : ℚ) ^ (-k).toNat := by
  rcases le_total 0 k with h | h
  · have h0 : (-k).toNat = 0 := by omega
    rw [h0, pow_zero, div_one]
    conv_lhs => rw [← Int.toNat_of_nonneg h]
    rw [zpow_natCast]
  · have h0 : k.toNat = 0 := by omega
    rw [h0, pow_zero, one_div]
    have hk : k = -((-k).toNat : Int) := by omega
    conv_lhs => rw [hk]
    rw [zpow_neg, zpow_natCast]

theorem floorLog2_spec (a b : Nat) (ha : 0 < a) (hb : 0 < b) :
    (2 : ℚ) ^ floorLog2 a b ≤ (a : ℚ) / b ∧ (a : ℚ) / b < (2 : ℚ) ^ (floorLog2 a b + 1) := by
  obtain ⟨al, au, a1⟩ := binaryDigits_spec a a (le_refl a) ha
  obtain ⟨bl, bu, b1⟩ := binaryDigits_spec b b (le_refl b) hb
  have hbq : (0 : ℚ) < b := by exact_mod_cast hb
  have haq : (0 : ℚ) < a := by exact_mod_cast ha
  have alq : (2 : ℚ) ^ (((binaryDigits a a : Int)) - 1) ≤ a := by
    have : ((binaryDigits a a : Int)) - 1 = ((binaryDigits a a - 1 : Nat) : Int) := by omega
    rw [this, zpow_natCast]
    exact_mod_cast al
  have auq : (a : ℚ) < (2 : ℚ) ^ ((binaryDigits a a : Int)) := by
    rw [zpow_natCast]
    exact_mod_cast au
  have blq : (2 : ℚ) ^ (((binaryDigits b b : Int)) - 1) ≤ b := by
    have : ((binaryDigits b b : Int)) - 1 = ((binaryDigits b b - 1 : Nat) : Int) := by omega
    rw [this, zpow_natCast]
    exact_mod_cast bl
  have buq : (b : ℚ) < (2 : ℚ) ^ ((binaryDigits b b : Int)) := by
    rw [zpow_natCast]
    exact_mod_cast bu
  have h2 : (0 : ℚ) < 2 := by norm_num
  have h2ne : (2 : ℚ) ≠ 0 := by norm_num
  -- the test of the definition
  have htest : ∀ k : Int, (b * 2 ^ k.toNat ≤ a * 2 ^ (-k).toNat) ↔ (2 : ℚ) ^ k ≤ (a : ℚ) / b := by
    intro k
    rw [two_zpow_split k, div_le_div_iff₀ (by positivity) hbq]
    constructor
    · intro h
      have : ((b * 2 ^ k.toNat : Nat) : ℚ) ≤ ((a * 2 ^ (-k).toNat : Nat) : ℚ) := by
        exact_mod_cast h
      push_cast at this
      linarith
    · intro h
      have : ((b * 2 ^ k.toNat : Nat) : ℚ) ≤ ((a * 2 ^ (-k).toNat : Nat) : ℚ) := by
        push_cast
        linarith
      exact_mod_cast this
  -- bounds from the digit counts
  have hlow : (2 : ℚ) ^ ((binaryDigits a a : Int) - (binaryDigits b b : Int) - 1) ≤ (a : ℚ) / b := by
    rw [le_div_iff₀ hbq]
    have e : (2 : ℚ) ^ ((binaryDigits a a : Int) - (binaryDigits b b : Int) - 1) =
        (2 : ℚ) ^ ((binaryDigits a a : Int) - 1) / (2 : ℚ) ^ ((binaryDigits b b : Int)) := by
      rw [← zpow_sub₀ h2ne]
      congr 1
      ring
    rw [e, div_mul_eq_mul_div, div_le_iff₀ (by positivity)]
    have hp : (0 : ℚ) < (2 : ℚ) ^ ((binaryDigits a a : Int) - 1) := by positivity
    calc (2 : ℚ) ^ ((binaryDigits a a : Int) - 1) * b
        ≤ (2 : ℚ) ^ ((binaryDigits a a : Int) - 1) * (2 : ℚ) ^ ((binaryDigits b b : Int)) := by
          apply mul_le_mul_of_nonneg_left (le_of_lt buq) (le_of_lt hp)
      _ ≤ a * (2 : ℚ) ^ ((binaryDigits b b : Int)) := by
          apply mul_le_mul_of_nonneg_right alq (by positivity)
  have hup : (a : ℚ) / b < (2 : ℚ) ^ ((binaryDigits a a : Int) - (binaryDigits b b : Int) + 1) := by
    rw [div_lt_iff₀ hbq]
    have e : (2 : ℚ) ^ ((binaryDigits a a : Int) - (binaryDigits b b : Int) + 1) =
        (2 : ℚ) ^ ((binaryDigits a a : Int)) / (2 : ℚ) ^ ((binaryDigits b b : Int) - 1) := by
      rw [← zpow_sub₀ h2ne]
      congr 1
      ring
    rw [e, div_mul_eq_mul_div, lt_div_iff₀ (by positivity)]
    have hp : (0 : ℚ) < (2 : ℚ) ^ ((binaryDigits b b : Int) - 1) := by positivity
    calc (a : ℚ) * (2 : ℚ) ^ ((binaryDigits b b : Int) - 1)
        < (2 : ℚ) ^ ((binaryDigits a a : Int)) * (2 : ℚ) ^ ((binaryDigits b b : Int) - 1) := by
          apply mul_lt_mul_of_pos_right auq hp
      _ ≤ (2 : ℚ) ^ ((binaryDigits a a : Int)) * b := by
          apply mul_le_mul_of_nonneg_left blq (by positivity)
  unfold floorLog2
  simp only
  by_cases ht : b * 2 ^ ((binaryDigits a a : Int) - (binaryDigits b b : Int)).toNat ≤
      a * 2 ^ (-((binaryDigits a a : Int) - (binaryDigits b b : Int))).toNat
  · rw [if_pos ht]
    exact ⟨(htest _).mp ht, hup⟩
  · rw [if_neg ht]
    refine ⟨hlow, ?_⟩
    have := (htest ((binaryDigits a a : Int) - (binaryDigits b b : Int))).not.mp ht
    rw [sub_add_cancel]
    exact not_le.mp this

theorem roundHalfEven_spec (n d : Nat) (hd : 0 < d) :
    2 * (roundHalfEven n d * d) ≤ 2 * n + d ∧ 2 * n ≤ 2 * (roundHalfEven n d * d) + d := by
  have h1 := Nat.div_add_mod n d
  have h2 := Nat.mod_lt n hd
  have e1 : (n / d + 1) * d = d * (n / d) + d := by ring
  have e0 : n / d * d = d * (n / d) := by ring
  unfold roundHalfEven
  split_ifs <;> first | (rw [e0]; omega) | (rw [e1]; omega)

theorem roundHalfEven_err (n d : Nat) (hd : 0 < d) :
    |(roundHalfEven n d : ℚ) - (n : ℚ) / d| ≤ 1 / 2 := by
  obtain ⟨h1, h2⟩ := roundHalfEven_spec n d hd
  have hdq : (0 : ℚ) < d := by exact_mod_cast hd
  have q1 : (2 : ℚ) * (roundHalfEven n d * d) ≤ 2 * n + d := by exact_mod_cast h1
  have q2 : (2 : ℚ) * n ≤ 2 * (roundHalfEven n d * d) + d := by exact_mod_cast h2
  rw [abs_le]
  constructor
  · have : (n : ℚ) / d ≤ roundHalfEven n d + 1 / 2 := by
      rw [div_le_iff₀ hdq]
      nlinarith
    linarith
  · have : (roundHalfEven n d : ℚ) - 1 / 2 ≤ (n : ℚ) / d := by
      rw [le_div_iff₀ hdq]
      nlinarith
    linarith

theorem roundPos_eq (a b : Nat) :
    roundPos a b =
      (roundHalfEven (a * 2 ^ (-(max (floorLog2 a b - 52) (-1074))).toNat)
        (b * 2 ^ (max (floorLog2 a b - 52) (-1074)).toNat) : ℚ) *
        (2 : ℚ) ^ (max (floorLog2 a b - 52) (-1074)) := by
  unfold roundPos
  simp only
  rw [Rat.mkRat_eq_div, two_zpow_split (max (floorLog2 a b - 52) (-1074))]
  push_cast
  ring

/-- The error of rounding a positive `a / b` that is at least `2^e` for the
exponent `e` of the last place. -/
theorem roundPos_err (a b : Nat) (ha : 0 < a) (hb : 0 < b)
    (hmin : (2 : ℚ) ^ (-1022 : Int) ≤ (a : ℚ) / b) :
    |roundPos a b - (a : ℚ) / b| ≤ (a : ℚ) / b * (2 : ℚ) ^ (-53 : Int) := by
  obtain ⟨hl, hu⟩ := floorLog2_spec a b ha hb
  have h2ne : (2 : ℚ) ≠ 0 := by norm_num
  have hfl : -1022 ≤ floorLog2 a b := by
    by_contra hcon
    have h1 : floorLog2 a b + 1 ≤ -1022 := by omega
    have : (2 : ℚ) ^ (floorLog2 a b + 1) ≤ (2 : ℚ) ^ (-1022 : Int) :=
      zpow_le_zpow_right₀ (by norm_num) h1
    exact absurd (lt_of_lt_of_le hu this) (not_lt.mpr hmin)
  have he : max (floorLog2 a b - 52) (-1074) = floorLog2 a b - 52 := by
    apply max_eq_left
    omega
  rw [roundPos_eq, he]
  set e := floorLog2 a b - 52 with hedef
  set m := roundHalfEven (a * 2 ^ (-e).toNat) (b * 2 ^ e.toNat) with hm
  have hpe : (0 : ℚ) < (2 : ℚ) ^ e := by positivity
  have hd : 0 < b * 2 ^ e.toNat := by positivity
  have herr := roundHalfEven_err (a * 2 ^ (-e).toNat) (b * 2 ^ e.toNat) hd
  rw [← hm] at herr
  have hq : ((a * 2 ^ (-e).toNat : Nat) : ℚ) / ((b * 2 ^ e.toNat : Nat) : ℚ) =
      (a : ℚ) / b / (2 : ℚ) ^ e := by
    rw [two_zpow_split e]
    push_cast
    have hbq : (b : ℚ) ≠ 0 := by exact_mod_cast (Nat.pos_iff_ne_zero.mp hb)
    field_simp
  rw [hq] at herr
  have e1 : (m : ℚ) * (2 : ℚ) ^ e - (a : ℚ) / b =
      ((m : ℚ) - (a : ℚ) / b / (2 : ℚ) ^ e) * (2 : ℚ) ^ e := by
    rw [sub_mul, div_mul_cancel₀ _ (ne_of_gt hpe)]
  rw [e1, abs_mul, abs_of_pos hpe]
  have e2 : (2 : ℚ) ^ e = (2 : ℚ) ^ floorLog2 a b * (2 : ℚ) ^ (-52 : Int) := by
    rw [← zpow_add₀ h2ne]
    congr 1
  have e3 : (2 : ℚ) ^ (-53 : Int) = 1 / 2 * (2 : ℚ) ^ (-52 : Int) := by
    rw [show (-53 : Int) = -1 + -52 by norm_num, zpow_add₀ h2ne]
    norm_num
  have hp52 : (0 : ℚ) < (2 : ℚ) ^ (-52 : Int) := by positivity
  calc |(m : ℚ) - (a : ℚ) / b / (2 : ℚ) ^ e| * (2 : ℚ) ^ e
      ≤ 1 / 2 * (2 : ℚ) ^ e := mul_le_mul_of_nonneg_right herr (le_of_lt hpe)
    _ = (2 : ℚ) ^ floorLog2 a b * (1 / 2 * (2 : ℚ) ^ (-52 : Int)) := by rw [e2]; ring
    _ ≤ (a : ℚ) / b * (1 / 2 * (2 : ℚ) ^ (-52 : Int)) :=
        mul_le_mul_of_nonneg_right hl (by positivity)
    _ = (a : ℚ) / b * (2 : ℚ) ^ (-53 : Int) := by rw [e3]

theorem roundDouble_err (q : ℚ) (hq : (2 : ℚ) ^ (-1022 : Int) ≤ q) :
    |roundDouble q - q| ≤ q * (2 : ℚ) ^ (-53 : Int) := by
  have hpos : (0 : ℚ) < q := lt_of_lt_of_le (by positivity) hq
  have hnum : 0 < q.num := Rat.num_pos.mpr hpos
  have hcast : ((q.num.toNat : Nat) : ℚ) / (q.den : ℚ) = q := by
    have : ((q.num.toNat : Nat) : ℚ) = (q.num : ℚ) := by
      have h := Int.toNat_of_nonneg (le_of_lt hnum)
      exact_mod_cast congrArg (fun z : Int => (z : ℚ)) h
    rw [this]
    exact Rat.num_div_den q
  have := roundPos_err q.num.toNat q.den (by omega) q.den_pos (by rw [hcast]; exact hq)
  rw [hcast] at this
  unfold roundDouble
  rw [if_pos hnum]
  exact this

/-- A natural number below `2^53` is a double. -/
theorem roundDouble_natCast (k : Nat) (hk : k < 2 ^ 53) : roundDouble (k : ℚ) = k := by
  rcases Nat.eq_zero_or_pos k with h0 | hpos
  · subst h0
    unfold roundDouble
    simp
  · have hnum : ((k : ℚ)).num = (k : Int) := Rat.num_natCast k
    have hden : ((k : ℚ)).den = 1 := Rat.den_natCast k
    unfold roundDouble
    rw [hnum, hden, if_pos (by exact_mod_cast hpos), Int.toNat_natCast, roundPos_eq]
    obtain ⟨hl, hu⟩ := floorLog2_spec k 1 hpos (by norm_num)
    have hfl : floorLog2 k 1 ≤ 52 := by
      by_contra hcon
      have h1 : (53 : Int) ≤ floorLog2 k 1 := by omega
      have : (2 : ℚ) ^ (53 : Int) ≤ (2 : ℚ) ^ floorLog2 k 1 :=
        zpow_le_zpow_right₀ (by norm_num) h1
      have hkq : (k : ℚ) < 2 ^ 53 := by exact_mod_cast hk
      have h53 : (2 : ℚ) ^ (53 : Int) = 2 ^ 53 := by norm_num
      simp only [Nat.cast_one, div_one] at hl
      linarith
    set e := max (floorLog2 k 1 - 52) (-1074) with he
    have hle : e ≤ 0 := by
      rw [he]
      apply max_le <;> omega
    have h0 : e.toNat = 0 := by omega
    have hr : roundHalfEven (k * 2 ^ (-e).toNat) (1 * 2 ^ e.toNat) = k * 2 ^ (-e).toNat := by
      rw [h0, pow_zero, Nat.mul_one]
      unfold roundHalfEven
      rw [Nat.mod_one, Nat.div_one, if_pos (by norm_num)]
    rw [hr, two_zpow_split e, h0]
    push_cast
    field_simp

theorem two_roundings (P u p x : ℚ) (hP0 : 0 ≤ P) (hP : P ≤ 420) (hu0 : 0 ≤ u) (hu1 : u ≤ 1)
    (h1 : P * (1 - u) ≤ p) (h2 : p ≤ P * (1 + u)) (h3 : p * (1 - u) ≤ x)
    (h4 : x ≤ p * (1 + u)) : -(420 * (3 * u)) ≤ x - P ∧ x - P ≤ 420 * (3 * u) := by
  have a1 : p * (1 + u) ≤ P * (1 + u) * (1 + u) :=
    mul_le_mul_of_nonneg_right h2 (by linarith)
  have a2 : P * (1 - u) * (1 - u) ≤ p * (1 - u) :=
    mul_le_mul_of_nonneg_right h1 (by linarith)
  have a3 : 0 ≤ P * u := mul_nonneg hP0 hu0
  have a4 : P * u ≤ 420 * u := mul_le_mul_of_nonneg_right hP hu0
  have a5 : P * u * u ≤ P * u * 1 := mul_le_mul_of_nonneg_left hu1 a3
  have a6 : 0 ≤ P * u * u := mul_nonneg a3 hu0
  constructor
  · have : P * (1 - u) * (1 - u) = P - 2 * (P * u) + P * u * u := by ring
    linarith
  · have : P * (1 + u) * (1 + u) = P + 2 * (P * u) + P * u * u := by ring
    linarith

/-- The horizontal position the layout computes for the `t`-th member of a
level of `n` members, `(420/(n+1))*t` in double arithmetic, differs from
`420*t/(n+1)` by at most `2^-42`. -/
theorem layout_x_close (n t : Nat) (hn : n < 2 ^ 32) (ht : 1 ≤ t) (htn : t ≤ n) :
    |fmul (fdiv 420 ((n : ℚ) + 1)) (t : ℚ) - 420 * (t : ℚ) / ((n : ℚ) + 1)| ≤ 1 / 2 ^ 42 := by
  have hu : (2 : ℚ) ^ (-53 : Int) = 1 / 2 ^ 53 := by norm_num
  have hnq : (n : ℚ) + 1 ≤ 2 ^ 32 := by
    have : n + 1 ≤ 2 ^ 32 := by omega
    exact_mod_cast this
  have hn0 : (0 : ℚ) < (n : ℚ) + 1 := by positivity
  have htq : (1 : ℚ) ≤ t := by exact_mod_cast ht
  have htn' : (t : ℚ) ≤ n := by exact_mod_cast htn
  have hmin : (2 : ℚ) ^ (-1022 : Int) ≤ 1 / 2 ^ 33 := by
    have : (2 : ℚ) ^ (-1022 : Int) ≤ (2 : ℚ) ^ (-33 : Int) :=
      zpow_le_zpow_right₀ (by norm_num) (by norm_num)
    have e : (2 : ℚ) ^ (-33 : Int) = 1 / 2 ^ 33 := by norm_num
    rw [e] at this
    exact this
  set G : ℚ := 420 / ((n : ℚ) + 1) with hG
  have hGlow : (1 : ℚ) / 2 ^ 32 ≤ G := by
    rw [hG, div_le_div_iff₀ (by positivity) hn0]
    linarith
  have hGt : G * t ≤ 420 := by
    rw [hG, div_mul_eq_mul_div, div_le_iff₀ hn0]
    nlinarith
  have hGpos : 0 < G := lt_of_lt_of_le (by positivity) hGlow
  have hg := roundDouble_err G (le_trans hmin (le_trans (by norm_num) hGlow))
  rw [hu, abs_le] at hg
  have hgdef : fdiv 420 ((n : ℚ) + 1) = roundDouble G := rfl
  rw [hgdef]
  set g : ℚ := roundDouble G with hgs
  have hglow : (1 : ℚ) / 2 ^ 33 ≤ g := by
    have : G * (1 / 2) ≤ g := by nlinarith [hg.1]
    have h2 : (1 : ℚ) / 2 ^ 33 ≤ G * (1 / 2) := by
      have : (1 : ℚ) / 2 ^ 33 = 1 / 2 ^ 32 * (1 / 2) := by norm_num
      rw [this]
      exact mul_le_mul_of_nonneg_right hGlow (by norm_num)
    linarith
  have hgpos : 0 < g := lt_of_lt_of_le (by positivity) hglow
  have hgt : (1 : ℚ) / 2 ^ 33 ≤ g * t := by nlinarith
  have hx := roundDouble_err (g * t) (le_trans hmin hgt)
  rw [hu, abs_le] at hx
  have hxdef : fmul g (t : ℚ) = roundDouble (g * t) := rfl
  rw [hxdef]
  set x : ℚ := roundDouble (g * t) with hxs
  have e : 420 * (t : ℚ) / ((n : ℚ) + 1) = G * t := by
    rw [hG]
    ring
  rw [e, abs_le]
  have hGt0 : 0 ≤ G * t := by positivity
  have hgtG : g * t ≤ G * t * (1 + 1 / 2 ^ 53) := by
    have : g ≤ G * (1 + 1 / 2 ^ 53) := by linarith [hg.2]
    have := mul_le_mul_of_nonneg_right this (le_trans (by norm_num) htq)
    linarith [mul_right_comm G (1 + 1 / 2 ^ 53 : ℚ) (t : ℚ)]
  have hgtG' : G * t * (1 - 1 / 2 ^ 53) ≤ g * t := by
    have : G * (1 - 1 / 2 ^ 53) ≤ g := by linarith [hg.1]
    have := mul_le_mul_of_nonneg_right this (le_trans (by norm_num) htq)
    linarith [mul_right_comm G (1 - 1 / 2 ^ 53 : ℚ) (t : ℚ)]
  have h := two_roundings (G * t) (1 / 2 ^ 53) (g * t) x hGt0 hGt (by positivity) (by norm_num)
    hgtG' hgtG (by linarith [hx.1]) (by linarith [hx.2])
  have h4 : (420 : ℚ) * (3 * (1 / 2 ^ 53)) ≤ 1 / 2 ^ 42 := by norm_num
  constructor
  · linarith [h.1]
  · linarith [h.2]

theorem length_setPosition (heap : List Member) (n : Nat) (x y : ℚ) :
    (setPosition heap n x y).length = heap.length := by
  unfold setPosition
  rw [List.length_modify]

theorem positionOf_setPosition_self (heap : List Member) (n : Nat) (x y : ℚ)
    (h : n < heap.length) :
    positionOf (setPosition heap n x y) n = some (some x, some y) := by
  unfold positionOf setPosition
  rw [List.get?_eq_getElem?, List.getElem?_modify, List.getElem?_eq_getElem h]
  simp

theorem positionOf_setPosition_ne (heap : List Member) (n k : Nat) (x y : ℚ) (h : k ≠ n) :
    positionOf (setPosition heap n x y) k = positionOf heap k := by
  unfold positionOf setPosition
  rw [List.get?_eq_getElem?, List.getElem?_modify, List.get?_eq_getElem?]
  have hne : ¬ n = k := fun e => h e.symm
  cases heap[k]? with
  | none => rfl
  | some m => simp [hne]

theorem layoutLevel_spec (gap : ℚ) (i : Nat) :
    ∀ (level : List Nat) (j : Nat) (heap : List Member),
      level.Nodup → (∀ v ∈ level, v < heap.length) →
      (layoutLevel gap i level j heap).length = heap.length ∧
      (∀ idx v, level.get? idx = some v →
        positionOf (layoutLevel gap i level j heap) v =
          some (some (fmul gap (fadd ((j + idx : Nat) : ℚ) 1)),
            some (fadd 60 (fmul (i : ℚ) 110)))) ∧
      (∀ k, k ∉ level → positionOf (layoutLevel gap i level j heap) k = positionOf heap k) := by
  intro level
  induction level with
  | nil =>
    intro j heap _ _
    refine ⟨rfl, ?_, fun _ _ => rfl⟩
    intro idx v h
    cases h
  | cons node rest ih =>
    intro j heap hnd hlt
    have hnd' := List.nodup_cons.mp hnd
    have hnode := hlt node (List.mem_cons_self node rest)
    obtain ⟨h1, h2, h3⟩ := ih (j + 1)
      (setPosition heap node (fmul gap (fadd (j : ℚ) 1)) (fadd 60 (fmul (i : ℚ) 110))) hnd'.2
      (fun v hv => by rw [length_setPosition]; exact hlt v (List.mem_cons_of_mem node hv))
    refine ⟨?_, ?_, ?_⟩
    · show (layoutLevel gap i rest (j + 1) _).length = _
      rw [h1, length_setPosition]
    · intro idx v hv
      show positionOf (layoutLevel gap i rest (j + 1) _) v = _
      cases idx with
      | zero =>
        have hvn : v = node := by
          simp at hv
          exact hv.symm
        rw [hvn, h3 node hnd'.1, positionOf_setPosition_self _ _ _ _ hnode]
        simp
      | succ idx =>
        have hv' : rest.get? idx = some v := by simpa using hv
        rw [h2 idx v hv']
        have : j + 1 + idx = j + (idx + 1) := by omega
        rw [this]
    · intro k hk
      show positionOf (layoutLevel gap i rest (j + 1) _) k = _
      have hk1 : k ≠ node := fun e => hk (by rw [e]; exact List.mem_cons_self node rest)
      have hk2 : k ∉ rest := fun e => hk (List.mem_cons_of_mem node e)
      rw [h3 k hk2, positionOf_setPosition_ne _ _ _ _ _ hk1]

theorem layout_spec :
    ∀ (levels : List (List Nat)) (i : Nat) (heap : List Member),
      levels.flatten.Nodup → (∀ v ∈ levels.flatten, v < heap.length) →
      (layout levels i heap).length = heap.length ∧
      (∀ d level, levels.get? d = some level → ∀ idx v, level.get? idx = some v →
        positionOf (layout levels i heap) v =
          some (some (fmul (fdiv 420 (fadd (level.length : ℚ) 1)) (fadd (idx : ℚ) 1)),
            some (fadd 60 (fmul ((i + d : Nat) : ℚ) 110)))) ∧
      (∀ k, k ∉ levels.flatten → positionOf (layout levels i heap) k = positionOf heap k) := by
  intro levels
  induction levels with
  | nil =>
    intro i heap _ _
    refine ⟨rfl, ?_, fun _ _ => rfl⟩
    intro d level h
    cases h
  | cons level rest ih =>
    intro i heap hnd hlt
    rw [List.flatten_cons] at hnd hlt
    obtain ⟨hn1, hn2, hdis⟩ := List.nodup_append.mp hnd
    obtain ⟨a1, a2, a3⟩ := layoutLevel_spec (fdiv 420 (fadd (level.length : ℚ) 1)) i level 0 heap hn1
      (fun v hv => hlt v (List.mem_append_left _ hv))
    obtain ⟨h1, h2, h3⟩ := ih (i + 1)
      (layoutLevel (fdiv 420 (fadd (level.length : ℚ) 1)) i level 0 heap) hn2
      (fun v hv => by rw [a1]; exact hlt v (List.mem_append_right _ hv))
    refine ⟨?_, ?_, ?_⟩
    · show (layout rest (i + 1) _).length = _
      rw [h1, a1]
    · intro d lv hlv idx v hv
      show positionOf (layout rest (i + 1) _) v = _
      cases d with
      | zero =>
        have hl : lv = level := by
          simp at hlv
          exact hlv.symm
        subst hl
        have hvm : v ∈ lv := List.get?_mem hv
        have hvr : v ∉ rest.flatten := fun e => hdis hvm e
        rw [h3 v hvr, a2 idx v hv]
        simp
      | succ d =>
        have hlv' : rest.get? d = some lv := by simpa using hlv
        rw [h2 d lv hlv' idx v hv]
        have : i + 1 + d = i + (d + 1) := by omega
        rw [this]
    · intro k hk
      show positionOf (layout rest (i + 1) _) k = _
      rw [List.flatten_cons] at hk
      have hk1 : k ∉ level := fun e => hk (List.mem_append_left _ e)
      have hk2 : k ∉ rest.flatten := fun e => hk (List.mem_append_right _ e)
      rw [h3 k hk2, a3 k hk1]

theorem levels_eq_of_visits {depth : Nat → Nat} {levels : List (List Nat)} {visited : List Nat}
    (h : Visits depth [] levels visited) :
    levels = (List.range levels.length).map
      fun e => visited.filter fun v => decide (depth v = e) := by
  apply List.ext_getElem?
  intro e
  by_cases he : e < levels.length
  · rw [List.getElem?_map, List.getElem?_range he, List.getElem?_eq_getElem he]
    have := h e
    rw [List.getD_eq_getElem?_getD, List.getElem?_eq_getElem he] at this
    simp at this
    simp [this]
  · rw [List.getElem?_eq_none (by omega), List.getElem?_eq_none (by simp; omega)]

theorem nodup_flatten_byDepth (depth : Nat → Nat) (visited : List Nat) (h : visited.Nodup) :
    ∀ n, (((List.range n).map
      fun e => visited.filter fun v => decide (depth v = e)).flatten).Nodup := by
  intro n
  rw [List.nodup_flatten]
  constructor
  · intro l hl
    obtain ⟨e, _, rfl⟩ := List.mem_map.mp hl
    exact h.filter _
  · rw [List.pairwise_map]
    refine (List.pairwise_lt_range n).imp ?_
    intro a b hab v ha hb
    have e1 := of_decide_eq_true (List.mem_filter.mp ha).2
    have e2 := of_decide_eq_true (List.mem_filter.mp hb).2
    omega

theorem mem_flatten_byDepth {depth : Nat → Nat} {visited : List Nat} {n v : Nat} :
    v ∈ ((List.range n).map
      fun e => visited.filter fun v => decide (depth v = e)).flatten ↔
      v ∈ visited ∧ depth v < n := by
  rw [List.mem_flatten]
  constructor
  · rintro ⟨l, hl, hv⟩
    obtain ⟨e, he, rfl⟩ := List.mem_map.mp hl
    have h1 := List.mem_filter.mp hv
    have := of_decide_eq_true h1.2
    exact ⟨h1.1, by rw [this]; exact List.mem_range.mp he⟩
  · rintro ⟨hv, hd⟩
    exact ⟨_, List.mem_map.mpr ⟨depth v, List.mem_range.mpr hd, rfl⟩,
      List.mem_filter.mpr ⟨hv, decide_eq_true rfl⟩⟩

theorem parentOf_lt {nodes : List Member} {depth : Nat → Nat}
    (hforest : isForest nodes depth = true) {n : Nat} (hn : n < nodes.length)
    (hd : depth n ≠ 0) : parentOf nodes n < nodes.length := by
  have hm0 : nodes.get? n = some nodes[n] := by
    rw [List.get?_eq_getElem?, List.getElem?_eq_getElem hn]
  rcases isForest_spec hforest n _ hm0 with ⟨_, h0⟩ | ⟨_, p, hp, _⟩
  · exact absurd h0 hd
  · unfold parentOf
    simp only [hm0, hp, Option.getD_some]
    exact byId_lt hp

theorem render_forest (nodes : List Member) (depth : Nat → Nat) (fuel : Nat)
    (hfresh : ∀ m ∈ nodes, m.children = none)
    (hforest : isForest nodes depth = true)
    (hfuel : ∀ n, n < nodes.length → depth n < fuel) :
    ∃ chart visited, renderLeaderBubbleMap fuel nodes = Except.ok chart ∧
      Visits depth [] chart.levels visited ∧
      visited.Nodup ∧ (∀ v, v ∈ visited ↔ v < nodes.length) ∧
      chart.levels.flatten.Nodup ∧ (∀ v, v ∈ chart.levels.flatten ↔ v < nodes.length) ∧
      (∀ d level, chart.levels.get? d = some level → ∀ idx v, level.get? idx = some v →
        positionOf chart.members v =
          some (some (fmul (fdiv 420 (fadd (level.length : ℚ) 1)) (fadd (idx : ℚ) 1)),
            some (fadd 60 (fmul ((0 + d : Nat) : ℚ) 110)))) := by
  obtain ⟨built, hb, hlen, hch, hnd, htn, htr, hroots, hkids⟩ :=
    buildTree_spec nodes hfresh (isForest_resolved hforest)
  have hdepthRoot : ∀ n, n < nodes.length → (rootAt nodes n = true ↔ depth n = 0) := by
    intro n hn
    have hm0 : nodes.get? n = some nodes[n] := by
      rw [List.get?_eq_getElem?, List.getElem?_eq_getElem hn]
    rw [rootAt_eq hm0]
    rcases isForest_spec hforest n _ hm0 with ⟨h1, h0⟩ | ⟨h1, p, _, hd⟩
    · exact ⟨fun _ => h0, fun _ => h1⟩
    · rw [h1]
      exact ⟨fun h => (by cases h), fun h => (by omega)⟩
  have hchild : ∀ k c, c ∈ childrenOf built.heap k →
      c < nodes.length ∧ depth c = depth k + 1 ∧ parentOf nodes c = k := by
    intro k c hc
    obtain ⟨hlt, hroot, hpar⟩ := hch k c hc
    have hm0 : nodes.get? c = some nodes[c] := by
      rw [List.get?_eq_getElem?, List.getElem?_eq_getElem hlt]
    rcases isForest_spec hforest c _ hm0 with ⟨h1, _⟩ | ⟨_, p, hp, hd⟩
    · rw [rootAt_eq hm0, h1] at hroot; cases hroot
    · have : parentOf nodes c = p := by
        unfold parentOf
        simp only [hm0, hp, Option.getD_some]
      rw [this] at hpar
      rw [← hpar]
      exact ⟨hlt, hd, this⟩
  have hL : Linked built.heap (fun _ => True) depth (parentOf nodes) nodes.length fuel :=
    { child := fun k c _ hc => ⟨trivial, hchild k c hc⟩
      nodup := hnd
      below := fun v _ hv => hfuel v hv }
  obtain ⟨levels, visited, ht, hv, hvn, hva, hvr, hvc⟩ :=
    traverseEach_of_traverse fuel (traverse_visits hL fuel) built.tree [] 0
      (fun r hr => ⟨trivial, (htr r hr).1, ((hdepthRoot r (htr r hr).1).mp (htr r hr).2)⟩) htn
      (by omega)
  have hall : ∀ d n, depth n = d → n < nodes.length → n ∈ visited := by
    intro d
    induction d with
    | zero =>
      intro n hd hn
      exact hvr n (hroots n hn ((hdepthRoot n hn).mpr hd))
    | succ d ih =>
      intro n hd hn
      have hd0 : depth n ≠ 0 := by omega
      have hnr : rootAt nodes n = false := by
        cases hr : rootAt nodes n with
        | false => rfl
        | true => exact absurd ((hdepthRoot n hn).mp hr) hd0
      have hk := hkids n hn hnr
      have hkd := (hchild _ n hk).2.1
      exact hvc _ (ih _ (by omega) (parentOf_lt hforest hn hd0)) n hk
  have hmem : ∀ v, v ∈ visited ↔ v < nodes.length :=
    fun v => ⟨fun h => (hva v h).2.1, fun h => hall _ v rfl h⟩
  have hdl : ∀ v, v ∈ visited → depth v < levels.length := by
    intro v hv'
    by_contra hcon
    have := hv (depth v)
    rw [List.getD_eq_getElem?_getD, List.getElem?_eq_none (by omega)] at this
    simp at this
    exact this v hv' rfl
  have heq := levels_eq_of_visits hv
  have hfn : levels.flatten.Nodup := by
    rw [heq]
    exact nodup_flatten_byDepth depth visited hvn _
  have hfm : ∀ v, v ∈ levels.flatten ↔ v < nodes.length := by
    intro v
    rw [← hmem v, heq, mem_flatten_byDepth]
    exact ⟨fun h => h.1, fun h => ⟨h, hdl v h⟩⟩
  obtain ⟨_, hpos, _⟩ := layout_spec levels 0 built.heap hfn
    (fun v hv' => by rw [hlen]; exact (hfm v).mp hv')
  refine ⟨{ levels := levels, members := layout levels 0 built.heap }, visited, ?_, hv, hvn,
    hmem, hfn, hfm, hpos⟩
  simp only [renderLeaderBubbleMap, hb, traverseRoots, ht]

/-- C19, evaluation at the failing input: the dataset of one root "chair" and
its two children "deputy" and "secretary", rendered twice in succession. The
first call leaves `children = [deputy, secretary]` on the root and places the
children at x = 140 and x = 280. The second call appends the two children to
that list again, level 1 then holds four entries, and the children end at
x = 252 and x = 336. The depths and the y are the same in both calls. -/
theorem second_rendering_moves_members (fuel : Nat) :
    renderLeaderBubbleMap (fuel + 2) troika = Except.ok
      { levels := [[0], [1, 2]]
        members :=
          [{ id := "chair", parent := none, children := some [1, 2],
             x := some 210, y := some 60 },
           { id := "deputy", parent := some "chair", children := none,
             x := some 140, y := some 170 },
           { id := "secretary", parent := some "chair", children := none,
             x := some 280, y := some 170 }] } ∧
    renderAgain (fuel + 2) troika = Except.ok
      { levels := [[0], [1, 2, 1, 2]]
        members :=
          [{ id := "chair", parent := none, children := some [1, 2, 1, 2],
             x := some 210, y := some 60 },
           { id := "deputy", parent := some "chair", children := none,
             x := some 252, y := some 170 },
           { id := "secretary", parent := some "chair", children := none,
             x := some 336, y := some 170 }] } := by
  constructor
  · with_unfolding_all rfl
  · with_unfolding_all rfl

theorem fadd_natCast_one (k : Nat) (hk : k < 2 ^ 32) : fadd (k : ℚ) 1 = (k : ℚ) + 1 := by
  have h := roundDouble_natCast (k + 1) (by omega)
  unfold fadd
  push_cast at h
  exact h

theorem layout_y_exact (d : Nat) (hd : d < 2 ^ 32) :
    fadd 60 (fmul (d : ℚ) 110) = 60 + 110 * (d : ℚ) := by
  have h1 := roundDouble_natCast (d * 110) (by omega)
  have h2 := roundDouble_natCast (60 + d * 110) (by omega)
  unfold fadd fmul
  push_cast at h1 h2
  rw [h1, h2]
  ring

/-- In a forest the depth of a member is below the number of members. -/
theorem forest_depth_lt {nodes : List Member} {depth : Nat → Nat}
    (hforest : isForest nodes depth = true) {n : Nat} (hn : n < nodes.length) :
    depth n < nodes.length := by
  have hanc : ∀ e k, k < nodes.length → depth k = e → ∀ i, i ≤ e →
      ∃ a, a < nodes.length ∧ depth a = i := by
    intro e
    induction e with
    | zero =>
      intro k hk hd i hi
      exact ⟨k, hk, by omega⟩
    | succ e ih =>
      intro k hk hd i hi
      by_cases h : i = e + 1
      · exact ⟨k, hk, by omega⟩
      · have hm0 : nodes.get? k = some nodes[k] := by
          rw [List.get?_eq_getElem?, List.getElem?_eq_getElem hk]
        rcases isForest_spec hforest k _ hm0 with ⟨_, h0⟩ | ⟨_, p, hp, hdp⟩
        · omega
        · exact ih p (byId_lt hp) (by omega) i (by omega)
  have hex : ∀ i : Fin (depth n + 1), ∃ a : Fin nodes.length, depth a.1 = i.1 := by
    intro i
    obtain ⟨a, ha, hd⟩ := hanc (depth n) n hn rfl i.1 (by have := i.2; omega)
    exact ⟨⟨a, ha⟩, hd⟩
  have hinj : Function.Injective fun i : Fin (depth n + 1) => Classical.choose (hex i) := by
    intro i j hij
    have hi := Classical.choose_spec (hex i)
    have hj := Classical.choose_spec (hex j)
    have hd := congrArg (fun a : Fin nodes.length => depth a.1) hij
    exact Fin.ext (hi.symm.trans (hd.trans hj))
  have := Fintype.card_le_of_injective _ hinj
  simp only [Fintype.card_fin] at this
  omega

/-- C20, counterexample: a root with eight children, rendered for the first
time. Level 1 holds the eight children; the layout computes
`gap = 420/9` and `gap*j` in double arithmetic. The fifth child is at
4104843410363733/2^44 (233.33333333333331...), which is not 420*5/9 and not
the double nearest to 420*5/9 either; the first three children are at
`gap`, `2*gap` and 140, and the distance from the second to the third is not
the distance from the first to the second. Second part: the dataset of one
root and two children rendered a second time from the cache. Level 1 then
holds four entries, the first of them the first child, and that child is at
x = 252 and not at 420*1/5 = 84. -/
theorem level_of_eight_unevenly_spaced :
    (∃ chart, renderLeaderBubbleMap 2 octet = Except.ok chart ∧
      chart.levels = [[0], [1, 2, 3, 4, 5, 6, 7, 8]] ∧
      positionOf chart.members 1 = some (some (6567749456581973 / 2 ^ 47), some 170) ∧
      positionOf chart.members 2 = some (some (6567749456581973 / 2 ^ 46), some 170) ∧
      positionOf chart.members 3 = some (some 140, some 170) ∧
      positionOf chart.members 5 = some (some (4104843410363733 / 2 ^ 44), some 170)) ∧
    (4104843410363733 / 2 ^ 44 : ℚ) ≠ 420 * 5 / 9 ∧
    (4104843410363733 / 2 ^ 44 : ℚ) ≠ roundDouble (420 * 5 / 9) ∧
    (140 - 6567749456581973 / 2 ^ 46 : ℚ) ≠
      6567749456581973 / 2 ^ 46 - 6567749456581973 / 2 ^ 47 ∧
    (∃ chart, renderAgain 2 troika = Except.ok chart ∧
      chart.levels = [[0], [1, 2, 1, 2]] ∧
      positionOf chart.members 1 = some (some 252, some 170) ∧
      (252 : ℚ) ≠ 420 * 1 / 5) := by
  refine ⟨⟨_, rfl, ?_, ?_, ?_, ?_, ?_⟩, ?_, ?_, ?_, ⟨_, rfl, ?_, ?_, ?_⟩⟩
  · with_unfolding_all rfl
  · with_unfolding_all rfl
  · with_unfolding_all rfl
  · with_unfolding_all rfl
  · with_unfolding_all rfl
  · norm_num
  · with_unfolding_all decide
  · norm_num
  · with_unfolding_all rfl
  · with_unfolding_all rfl
  · norm_num

/-- C20, amended: for a dataset as `leadership.json` gives it (no member has
`children` yet; an array, so with fewer than 2^32 members) that forms a forest
with the depths `depth`, and a recursion budget above every depth, the
rendering returns; every member stands on exactly one level; the member at
index `j` (counted from 0) of a level of `n` members at level `d` has depth
`d` and is placed at y = 60 + 110*d and at x = (420/(n+1))*(j+1) as double
arithmetic computes it, which differs from 420*(j+1)/(n+1) by at most 2^-42;
two neighbours of a level have the same y, the later one is to the right, and
their distance differs from 420/(n+1) by at most 2^-41. For the dataset of
one root and two children the levels are `[root]` and `[child, child]`, the
children are at x = 140 and x = 280 with the same y, further apart than the
diameter 64 of a glyph. -/
theorem pyramid_layout (nodes : List Member) (depth : Nat → Nat) (fuel : Nat)
    (hfresh : ∀ m ∈ nodes, m.children = none)
    (hforest : isForest nodes depth = true)
    (hfuel : ∀ n, n < nodes.length → depth n < fuel)
    (hsize : nodes.length < 2 ^ 32) :
    (∃ chart, renderLeaderBubbleMap fuel nodes = Except.ok chart ∧
      chart.levels.flatten.Perm (List.range nodes.length) ∧
      (∀ d level, chart.levels.get? d = some level → ∀ j node, level.get? j = some node →
        depth node = d ∧
        positionOf chart.members node =
          some (some (fmul (fdiv 420 ((level.length : ℚ) + 1)) ((j : ℚ) + 1)),
            some (60 + 110 * (d : ℚ))) ∧
        |fmul (fdiv 420 ((level.length : ℚ) + 1)) ((j : ℚ) + 1) -
            420 * ((j : ℚ) + 1) / ((level.length : ℚ) + 1)| ≤ 1 / 2 ^ 42) ∧
      (∀ d level, chart.levels.get? d = some level →
        ∀ j a b, level.get? j = some a → level.get? (j + 1) = some b →
          ∃ xa xb y, positionOf chart.members a = some (some xa, some y) ∧
            positionOf chart.members b = some (some xb, some y) ∧
            xa < xb ∧ |xb - xa - 420 / ((level.length : ℚ) + 1)| ≤ 1 / 2 ^ 41)) ∧
    (∃ chart, renderLeaderBubbleMap 2 troika = Except.ok chart ∧
      chart.levels = [[0], [1, 2]] ∧
      positionOf chart.members 0 = some (some 210, some 60) ∧
      positionOf chart.members 1 = some (some 140, some 170) ∧
      positionOf chart.members 2 = some (some 280, some 170) ∧
      2 * glyphRadius = 64 ∧ 2 * glyphRadius < 280 - 140) := by
  constructor
  · obtain ⟨chart, visited, hr, hv, _, _, hfn, hfm, hpos⟩ :=
      render_forest nodes depth fuel hfresh hforest hfuel
    have hdepth : ∀ d level, chart.levels.get? d = some level → ∀ node, node ∈ level →
        depth node = d := by
      intro d level hl node hmem
      have hd := hv d
      rw [List.getD_eq_getElem?_getD, ← List.get?_eq_getElem?, hl] at hd
      simp only [Option.getD_some, List.getD_nil, List.nil_append] at hd
      rw [hd] at hmem
      exact of_decide_eq_true (List.mem_filter.mp hmem).2
    have hmemf : ∀ d level, chart.levels.get? d = some level → ∀ node, node ∈ level →
        node < nodes.length := by
      intro d level hl node hmem
      exact (hfm node).mp (List.mem_flatten.mpr ⟨level, List.get?_mem hl, hmem⟩)
    have hlen : ∀ d level, chart.levels.get? d = some level → level.length < 2 ^ 32 := by
      intro d level hl
      have hnd : level.Nodup := (List.nodup_flatten.mp hfn).1 level (List.get?_mem hl)
      have hsub : level ⊆ List.range nodes.length := by
        intro v hvm
        exact List.mem_range.mpr (hmemf d level hl v hvm)
      have := (List.subperm_of_subset hnd hsub).length_le
      rw [List.length_range] at this
      omega
    have hform : ∀ d level, chart.levels.get? d = some level → ∀ j node,
        level.get? j = some node →
        positionOf chart.members node =
          some (some (fmul (fdiv 420 ((level.length : ℚ) + 1)) ((j : ℚ) + 1)),
            some (60 + 110 * (d : ℚ))) := by
      intro d level hl j node hj
      have hmem : node ∈ level := List.get?_mem hj
      have hjl : j < level.length := by
        rw [List.get?_eq_getElem?] at hj
        exact (List.getElem?_eq_some_iff.mp hj).1
      have hn := hlen d level hl
      have hd : d < 2 ^ 32 := by
        have h1 := hdepth d level hl node hmem
        have h2 := forest_depth_lt hforest (hmemf d level hl node hmem)
        omega
      rw [hpos d level hl j node hj, Nat.zero_add, fadd_natCast_one _ hn,
        fadd_natCast_one j (by omega), layout_y_exact d hd]
    have hclose : ∀ d level, chart.levels.get? d = some level → ∀ j node,
        level.get? j = some node →
        |fmul (fdiv 420 ((level.length : ℚ) + 1)) ((j : ℚ) + 1) -
            420 * ((j : ℚ) + 1) / ((level.length : ℚ) + 1)| ≤ 1 / 2 ^ 42 := by
      intro d level hl j node hj
      have hjl : j < level.length := by
        rw [List.get?_eq_getElem?] at hj
        exact (List.getElem?_eq_some_iff.mp hj).1
      have := layout_x_close level.length (j + 1) (hlen d level hl) (by omega) (by omega)
      push_cast at this
      exact this
    refine ⟨chart, hr, ?_, ?_, ?_⟩
    · rw [List.perm_ext_iff_of_nodup hfn (List.nodup_range _)]
      intro v
      rw [hfm v, List.mem_range]
    · intro d level hl j node hj
      exact ⟨hdepth d level hl node (List.get?_mem hj), hform d level hl j node hj,
        hclose d level hl j node hj⟩
    · intro d level hl j a b ha hb
      have ca := abs_le.mp (hclose d level hl j a ha)
      have cb := abs_le.mp (hclose d level hl (j + 1) b hb)
      have hb' := hform d level hl (j + 1) b hb
      push_cast at cb hb'
      have hn := hlen d level hl
      have hnq : (level.length : ℚ) + 1 ≤ 2 ^ 32 := by
        have : level.length + 1 ≤ 2 ^ 32 := by omega
        exact_mod_cast this
      have hn0 : (0 : ℚ) < (level.length : ℚ) + 1 := by positivity
      have hG : (1 : ℚ) / 2 ^ 32 ≤ 420 / ((level.length : ℚ) + 1) := by
        rw [div_le_div_iff₀ (by positivity) hn0]
        linarith
      have hstep : 420 * ((j : ℚ) + 1 + 1) / ((level.length : ℚ) + 1) -
          420 * ((j : ℚ) + 1) / ((level.length : ℚ) + 1) = 420 / ((level.length : ℚ) + 1) := by
        field_simp
        ring
      have h41 : (1 : ℚ) / 2 ^ 41 = 1 / 2 ^ 42 + 1 / 2 ^ 42 := by norm_num
      have h32 : (1 : ℚ) / 2 ^ 41 < 1 / 2 ^ 32 := by norm_num
      refine ⟨_, _, _, hform d level hl j a ha, hb', ?_, ?_⟩
      · linarith [ca.1, ca.2, cb.1, cb.2]
      · rw [abs_le]
        constructor
        · linarith [ca.1, ca.2, cb.1, cb.2]
        · linarith [ca.1, ca.2, cb.1, cb.2]
  · refine ⟨_, rfl, ?_, ?_, ?_, ?_, ?_, ?_⟩
    · with_unfolding_all rfl
    · with_unfolding_all rfl
    · with_unfolding_all rfl
    · with_unfolding_all rfl
    · unfold glyphRadius; norm_num
    · unfold glyphRadius; norm_num

/-- C20 at the dataset of one root and two children, with the depths 0, 1, 1
and the recursion budget 2. -/
theorem pyramid_layout_witness :
    (∀ m ∈ troika, m.children = none) ∧
    isForest troika (fun n => if n = 0 then 0 else 1) = true ∧
    (∀ n, n < troika.length → (fun n => if n = 0 then 0 else 1) n < 2) ∧
    troika.length < 2 ^ 32 ∧
    ((∃ chart, renderLeaderBubbleMap 2 troika = Except.ok chart ∧
      chart.levels.flatten.Perm (List.range troika.length) ∧
      (∀ d level, chart.levels.get? d = some level → ∀ j node, level.get? j = some node →
        (fun n => if n = 0 then 0 else 1) node = d ∧
        positionOf chart.members node =
          some (some (fmul (fdiv 420 ((level.length : ℚ) + 1)) ((j : ℚ) + 1)),
            some (60 + 110 * (d : ℚ))) ∧
        |fmul (fdiv 420 ((level.length : ℚ) + 1)) ((j : ℚ) + 1) -
            420 * ((j : ℚ) + 1) / ((level.length : ℚ) + 1)| ≤ 1 / 2 ^ 42) ∧
      (∀ d level, chart.levels.get? d = some level →
        ∀ j a b, level.get? j = some a → level.get? (j + 1) = some b →
          ∃ xa xb y, positionOf chart.members a = some (some xa, some y) ∧
            positionOf chart.members b = some (some xb, some y) ∧
            xa < xb ∧ |xb - xa - 420 / ((level.length : ℚ) + 1)| ≤ 1 / 2 ^ 41)) ∧
    (∃ chart, renderLeaderBubbleMap 2 troika = Except.ok chart ∧
      chart.levels = [[0], [1, 2]] ∧
      positionOf chart.members 0 = some (some 210, some 60) ∧
      positionOf chart.members 1 = some (some 140, some 170) ∧
      positionOf chart.members 2 = some (some 280, some 170) ∧
      2 * glyphRadius = 64 ∧ 2 * glyphRadius < 280 - 140)) :=
  ⟨by decide, by decide, by decide, by decide,
    pyramid_layout troika (fun n => if n = 0 then 0 else 1) 2 (by decide) (by decide)
      (by decide) (by decide)⟩

/-! ## Termination of the traversal -/

theorem reach_facts {nodes heap : List Member} {tree : List Nat}
    (hF : TreeFacts nodes heap tree) {d k : Nat} (h : Reach heap tree d k) :
    k < nodes.length ∧ (rootAt nodes k = true ↔ d = 0) := by
  cases h with
  | root r hr => exact ⟨(hF.roots k hr).1, fun _ => rfl, fun _ => (hF.roots k hr).2⟩
  | child d k' c hk hc =>
    obtain ⟨hlt, hroot, _⟩ := hF.child k' k hc
    refine ⟨hlt, ?_, ?_⟩
    · intro h; rw [hroot] at h; cases h
    · intro h; omega

theorem reach_unique {nodes heap : List Member} {tree : List Nat}
    (hF : TreeFacts nodes heap tree) :
    ∀ {d k : Nat}, Reach heap tree d k → ∀ {e : Nat}, Reach heap tree e k → d = e := by
  intro d k h
  induction h with
  | root r hr =>
    intro e he
    have h1 := (reach_facts hF he).2
    exact (h1.mp (hF.roots r hr).2).symm
  | child d k' c hk hc ih =>
    intro e he
    cases he with
    | root r hr =>
      have := (hF.child k' c hc).2.1
      rw [(hF.roots c hr).2] at this
      cases this
    | child e' k2 c2 hk2 hc2 =>
      have p1 := (hF.child k' c hc).2.2
      have p2 := (hF.child k2 c hc2).2.2
      have hkk : k2 = k' := by rw [← p1, ← p2]
      rw [hkk] at hk2
      rw [ih hk2]

theorem reach_ancestor {heap : List Member} {tree : List Nat} :
    ∀ {d k : Nat}, Reach heap tree d k → ∀ i, i ≤ d → ∃ a, Reach heap tree i a := by
  intro d k h
  induction h with
  | root r hr =>
    intro i hi
    have : i = 0 := by omega
    rw [this]
    exact ⟨r, Reach.root r hr⟩
  | child d k' c hk hc ih =>
    intro i hi
    by_cases h : i = d + 1
    · rw [h]; exact ⟨c, Reach.child d k' c hk hc⟩
    · exact ih i (by omega)

theorem reach_depth_lt {nodes heap : List Member} {tree : List Nat}
    (hF : TreeFacts nodes heap tree) {d k : Nat} (h : Reach heap tree d k) :
    d < nodes.length := by
  have hanc := reach_ancestor h
  have hex : ∀ i : Fin (d + 1), ∃ a : Fin nodes.length, Reach heap tree i.1 a.1 := by
    intro i
    obtain ⟨a, ha⟩ := hanc i.1 (by have := i.2; omega)
    exact ⟨⟨a, (reach_facts hF ha).1⟩, ha⟩
  have hinj : Function.Injective fun i : Fin (d + 1) => Classical.choose (hex i) := by
    intro i j hij
    have hi := Classical.choose_spec (hex i)
    have hj := Classical.choose_spec (hex j)
    simp only at hij
    rw [hij] at hi
    exact Fin.ext (reach_unique hF hi hj)
  have := Fintype.card_le_of_injective _ hinj
  simp only [Fintype.card_fin] at this
  omega

theorem parentOf_eq {nodes : List Member} {n p : Nat} {m : Member}
    (hm : nodes.get? n = some m) (hp : byId nodes (m.parent.getD "") = some p) :
    parentOf nodes n = p := by
  unfold parentOf
  simp only [hm, hp, Option.getD_some]

theorem parentChain_succ (nodes : List Member) (fuel n : Nat) :
    parentChain nodes (fuel + 1) n =
      match nodes.get? n with
      | none => none
      | some m =>
        if isRoot m then some 0
        else
          match byId nodes (m.parent.getD "") with
          | none => none
          | some p => (parentChain nodes fuel p).map fun d => d + 1 := rfl

theorem reach_parentChain {nodes heap : List Member} {tree : List Nat}
    (hF : TreeFacts nodes heap tree)
    (hres : ∀ m ∈ nodes, isRoot m = false → (byId nodes (m.parent.getD "")).isSome = true) :
    ∀ {d k : Nat}, Reach heap tree d k → ∀ f, d < f → parentChain nodes f k = some d := by
  intro d k h
  induction h with
  | root r hr =>
    intro f hf
    obtain ⟨f', rfl⟩ : ∃ f', f = f' + 1 := ⟨f - 1, by omega⟩
    obtain ⟨hlt, hroot⟩ := hF.roots r hr
    have hm0 : nodes.get? r = some nodes[r] := by
      rw [List.get?_eq_getElem?, List.getElem?_eq_getElem hlt]
    rw [rootAt_eq hm0] at hroot
    rw [parentChain_succ]
    simp only [hm0, hroot, if_true]
  | child d k' c hk hc ih =>
    intro f hf
    obtain ⟨f', rfl⟩ : ∃ f', f = f' + 1 := ⟨f - 1, by omega⟩
    obtain ⟨hlt, hroot, hpar⟩ := hF.child k' c hc
    have hm0 : nodes.get? c = some nodes[c] := by
      rw [List.get?_eq_getElem?, List.getElem?_eq_getElem hlt]
    rw [rootAt_eq hm0] at hroot
    obtain ⟨p, hp⟩ : ∃ p, byId nodes (nodes[c].parent.getD "") = some p :=
      Option.isSome_iff_exists.mp (hres _ (List.get?_mem hm0) hroot)
    have hpk : p = k' := by rw [← parentOf_eq hm0 hp, hpar]
    rw [parentChain_succ]
    simp only [hm0, hroot, hp, hpk, ih f' (by omega)]
    rfl

theorem parentChain_reach {nodes heap : List Member} {tree : List Nat}
    (hF : TreeFacts nodes heap tree) :
    ∀ (f n d : Nat), parentChain nodes f n = some d → Reach heap tree d n := by
  intro f
  induction f with
  | zero => intro n d h; cases h
  | succ f ih =>
    intro n d h
    rw [parentChain_succ] at h
    cases hm : nodes.get? n with
    | none => rw [hm] at h; cases h
    | some m =>
      rw [hm] at h
      simp only at h
      have hn : n < nodes.length := by
        rw [List.get?_eq_getElem?] at hm
        exact (List.getElem?_eq_some_iff.mp hm).1
      cases hr : isRoot m with
      | true =>
        rw [hr] at h
        simp only [if_true] at h
        have hd : d = 0 := (Option.some.inj h).symm
        rw [hd]
        exact Reach.root n (hF.allRoots n hn (by rw [rootAt_eq hm]; exact hr))
      | false =>
        rw [hr] at h
        simp only [Bool.false_eq_true, if_false] at h
        cases hp : byId nodes (m.parent.getD "") with
        | none => rw [hp] at h; cases h
        | some p =>
          rw [hp] at h
          simp only at h
          cases hc : parentChain nodes f p with
          | none => rw [hc] at h; cases h
          | some e =>
            rw [hc] at h
            have hd : d = e + 1 := (Option.some.inj h).symm
            have hkid := hF.allKids n hn (by rw [rootAt_eq hm]; exact hr)
            rw [parentOf_eq hm hp] at hkid
            rw [hd]
            exact Reach.child e p n (ih p e hc) hkid

/-- The rendering of a dataset whose parents all resolve: it returns, and the
levels hold the members the traversal reaches, each once, at its depth. -/
theorem render_resolved (nodes : List Member) (fuel : Nat)
    (hfresh : ∀ m ∈ nodes, m.children = none)
    (hres : ∀ m ∈ nodes, isRoot m = false → (byId nodes (m.parent.getD "")).isSome = true)
    (hfuel : nodes.length < fuel) :
    ∃ (chart : Chart) (built : TreeBuild), renderLeaderBubbleMap fuel nodes = Except.ok chart ∧
      TreeFacts nodes built.heap built.tree ∧
      chart.levels.flatten.Nodup ∧
      (∀ d v, v ∈ chart.levels.getD d [] ↔ Reach built.heap built.tree d v) ∧
      (∀ d level, chart.levels.get? d = some level → ∀ idx v, level.get? idx = some v →
        positionOf chart.members v =
          some (some (fmul (fdiv 420 (fadd (level.length : ℚ) 1)) (fadd (idx : ℚ) 1)),
            some (fadd 60 (fmul ((0 + d : Nat) : ℚ) 110)))) := by
  obtain ⟨built, hb, hlen, hch, hnd, htn, htr, hroots, hkids⟩ :=
    buildTree_spec nodes hfresh hres
  have hF : TreeFacts nodes built.heap built.tree :=
    { child := hch, nodup := hnd, treeNodup := htn, roots := htr, allRoots := hroots,
      allKids := hkids }
  obtain ⟨dep, hdep⟩ : ∃ dep : Nat → Nat,
      ∀ d k, Reach built.heap built.tree d k → dep k = d := by
    classical
    refine ⟨fun k => if h : ∃ d, Reach built.heap built.tree d k then Classical.choose h else 0,
      ?_⟩
    intro d k h
    have hex : ∃ d, Reach built.heap built.tree d k := ⟨d, h⟩
    simp only [dif_pos hex]
    exact reach_unique hF (Classical.choose_spec hex) h
  have hL : Linked built.heap (fun k => ∃ d, Reach built.heap built.tree d k) dep
      (parentOf nodes) nodes.length fuel :=
    { child := by
        intro k c hg hc
        obtain ⟨d, hd⟩ := hg
        have hrc := Reach.child d k c hd hc
        exact ⟨⟨d + 1, hrc⟩, (hch k c hc).1, by rw [hdep _ _ hrc, hdep _ _ hd],
          (hch k c hc).2.2⟩
      nodup := hnd
      below := by
        intro v hg _
        obtain ⟨d, hd⟩ := hg
        rw [hdep _ _ hd]
        have := reach_depth_lt hF hd
        omega }
  obtain ⟨levels, visited, ht, hv, hvn, hva, hvr, hvc⟩ :=
    traverseEach_of_traverse fuel (traverse_visits hL fuel) built.tree [] 0
      (fun r hr => ⟨⟨0, Reach.root r hr⟩, (htr r hr).1, hdep _ _ (Reach.root r hr)⟩) htn
      (by omega)
  have hall : ∀ d k, Reach built.heap built.tree d k → k ∈ visited := by
    intro d k h
    induction h with
    | root r hr => exact hvr r hr
    | child d k' c _ hc ih => exact hvc k' ih c hc
  have hlevel : ∀ d v, v ∈ levels.getD d [] ↔ Reach built.heap built.tree d v := by
    intro d v
    rw [hv d]
    simp only [List.getD_nil, List.nil_append, List.mem_filter, decide_eq_true_eq]
    constructor
    · rintro ⟨hmem, hd⟩
      obtain ⟨e, he⟩ := (hva v hmem).1
      rw [hdep _ _ he] at hd
      rw [← hd]
      exact he
    · intro h
      exact ⟨hall d v h, hdep _ _ h⟩
  have heq := levels_eq_of_visits hv
  have hfn : levels.flatten.Nodup := by
    rw [heq]
    exact nodup_flatten_byDepth dep visited hvn _
  have hfm : ∀ v, v ∈ levels.flatten → v < nodes.length := by
    intro v hvm
    rw [heq, mem_flatten_byDepth] at hvm
    exact (hva v hvm.1).2.1
  obtain ⟨_, hpos, _⟩ := layout_spec levels 0 built.heap hfn
    (fun v hv' => by rw [hlen]; exact hfm v hv')
  refine ⟨{ levels := levels, members := layout levels 0 built.heap }, built, ?_, hF, hfn,
    hlevel, hpos⟩
  simp only [renderLeaderBubbleMap, hb, traverseRoots, ht]

theorem mem_getD_iff (levels : List (List Nat)) (d n : Nat) :
    n ∈ levels.getD d [] ↔ ∃ level, levels.get? d = some level ∧ n ∈ level := by
  rw [List.getD_eq_getElem?_getD, ← List.get?_eq_getElem?]
  cases levels.get? d with
  | none => simp
  | some level => simp

/-- C29: for a dataset as loaded (no member has `children` yet) in which every
non-empty parent is the id of a member, and a recursion budget above the number
of members, the rendering returns: the traversal ends and no error is thrown.
No member stands twice in the levels. A member stands on level `d` exactly
when its parent chain ends after `d` steps at a member without parent, and it
then has a position. When the parent chain of every member ends (the parent
pointers are acyclic), the levels hold every member exactly once and every
member has a position. -/
theorem traversal_terminates (nodes : List Member) (fuel : Nat)
    (hfresh : ∀ m ∈ nodes, m.children = none)
    (hres : ∀ m ∈ nodes, isRoot m = false → (byId nodes (m.parent.getD "")).isSome = true)
    (hfuel : nodes.length < fuel) :
    ∃ chart, renderLeaderBubbleMap fuel nodes = Except.ok chart ∧
      chart.levels.flatten.Nodup ∧
      (∀ n d, (∃ level, chart.levels.get? d = some level ∧ n ∈ level) ↔
        parentChain nodes nodes.length n = some d) ∧
      (∀ n d, parentChain nodes nodes.length n = some d →
        n < nodes.length ∧ ∃ x y, positionOf chart.members n = some (some x, some y)) ∧
      ((∀ n, n < nodes.length → (parentChain nodes nodes.length n).isSome = true) →
        chart.levels.flatten.Perm (List.range nodes.length) ∧
          ∀ n, n < nodes.length →
            ∃ x y, positionOf chart.members n = some (some x, some y)) := by
  obtain ⟨chart, built, hr, hF, hfn, hlevel, hpos⟩ :=
    render_resolved nodes fuel hfresh hres hfuel
  have hiff : ∀ n d, Reach built.heap built.tree d n ↔
      parentChain nodes nodes.length n = some d :=
    fun n d => ⟨fun h => reach_parentChain hF hres h _ (reach_depth_lt hF h),
      fun h => parentChain_reach hF _ n d h⟩
  have hplaced : ∀ n d, parentChain nodes nodes.length n = some d →
      n < nodes.length ∧ ∃ x y, positionOf chart.members n = some (some x, some y) := by
    intro n d h
    have hre := (hiff n d).mpr h
    obtain ⟨level, hl, hmem⟩ := (mem_getD_iff _ _ _).mp ((hlevel d n).mpr hre)
    obtain ⟨idx, hidx⟩ := List.get?_of_mem hmem
    exact ⟨(reach_facts hF hre).1, _, _, hpos d level hl idx n hidx⟩
  refine ⟨chart, hr, hfn, ?_, hplaced, ?_⟩
  · intro n d
    rw [← mem_getD_iff, hlevel, hiff]
  · intro hall
    have hsome : ∀ n, n < nodes.length → ∃ d, parentChain nodes nodes.length n = some d :=
      fun n hn => Option.isSome_iff_exists.mp (hall n hn)
    refine ⟨?_, ?_⟩
    · rw [List.perm_ext_iff_of_nodup hfn (List.nodup_range _)]
      intro v
      rw [List.mem_range]
      constructor
      · intro hv
        obtain ⟨level, hlm, hvm⟩ := List.mem_flatten.mp hv
        obtain ⟨d, hd⟩ := List.get?_of_mem hlm
        have := (hlevel d v).mp ((mem_getD_iff _ _ _).mpr ⟨level, hd, hvm⟩)
        exact (reach_facts hF this).1
      · intro hv
        obtain ⟨d, hd⟩ := hsome v hv
        obtain ⟨level, hl, hmem⟩ :=
          (mem_getD_iff _ _ _).mp ((hlevel d v).mpr ((hiff v d).mpr hd))
        exact List.mem_flatten.mpr ⟨level, List.get?_mem hl, hmem⟩
    · intro n hn
      obtain ⟨d, hd⟩ := hsome n hn
      exact (hplaced n d hd).2

/-- C29 at a dataset with a root, its child and two members that name each
other as parent, with the recursion budget 5: the rendering returns, and the
two members of the cycle stand on no level. -/
theorem traversal_terminates_witness :
    (∀ m ∈ loopedPair, m.children = none) ∧
      (∀ m ∈ loopedPair, isRoot m = false →
        (byId loopedPair (m.parent.getD "")).isSome = true) ∧
      loopedPair.length < 5 ∧
      parentChain loopedPair loopedPair.length 1 = some 1 ∧
      parentChain loopedPair loopedPair.length 2 = none ∧
      ∃ chart, renderLeaderBubbleMap 5 loopedPair = Except.ok chart ∧
        chart.levels.flatten.Nodup :=
  ⟨by decide, by decide, by decide, by decide, by decide,
    (traversal_terminates loopedPair 5 (by decide) (by decide) (by decide)).imp
      fun _ h => ⟨h.1, h.2.1⟩⟩

end OrgChart

namespace Calendar

set_option maxRecDepth 1000000

/-! ## Month navigation and the week of the selected day -/

theorem prevMonth_month_bounds (s : CalendarState) (h0 : 0 ≤ s.month) (h1 : s.month ≤ 11) :
    0 ≤ (prevMonth s).month ∧ (prevMonth s).month ≤ 11 := by
  unfold prevMonth
  by_cases h : s.month = 0
  · rw [if_pos h]
    show (0 : Int) ≤ 11 ∧ (11 : Int) ≤ 11
    omega
  · rw [if_neg h]
    show 0 ≤ s.month - 1 ∧ s.month - 1 ≤ 11
    omega

theorem nextMonth_month_bounds (s : CalendarState) (h0 : 0 ≤ s.month) (h1 : s.month ≤ 11) :
    0 ≤ (nextMonth s).month ∧ (nextMonth s).month ≤ 11 := by
  unfold nextMonth
  by_cases h : s.month = 11
  · rw [if_pos h]
    show (0 : Int) ≤ 0 ∧ (0 : Int) ≤ 11
    omega
  · rw [if_neg h]
    show 0 ≤ s.month + 1 ∧ s.month + 1 ≤ 11
    omega

theorem miniDayClick_month (s : CalendarState) (cell : Option (Option Int)) :
    (miniDayClick s cell).month = s.month ∧ (miniDayClick s cell).year = s.year ∧
      (miniDayClick s cell).view = s.view := by
  rcases cell with _ | _ | day
  · exact ⟨rfl, rfl, rfl⟩
  · exact ⟨rfl, rfl, rfl⟩
  · by_cases hv : s.view = View.week
    · have e : miniDayClick s (some (some day)) =
          { s with selectedDay := day, weekStart := getMonday (newDate s.year s.month day) } :=
        if_pos hv
      rw [e]; exact ⟨rfl, rfl, rfl⟩
    · have e : miniDayClick s (some (some day)) = { s with selectedDay := day } := if_neg hv
      rw [e]; exact ⟨rfl, rfl, rfl⟩

theorem step_month_bounds (s : CalendarState) (a : Action) (h0 : 0 ≤ s.month)
    (h1 : s.month ≤ 11) : 0 ≤ (step s a).month ∧ (step s a).month ≤ 11 := by
  cases a with
  | today now => exact getMonth_bounds _
  | prev =>
    by_cases hv : s.view = View.week
    · rw [step_prev_week s hv]; exact getMonth_bounds _
    · rw [step_prev_month s hv]; exact prevMonth_month_bounds s h0 h1
  | next =>
    by_cases hv : s.view = View.week
    · rw [step_next_week s hv]; exact getMonth_bounds _
    · rw [step_next_month s hv]; exact nextMonth_month_bounds s h0 h1
  | viewWeek => exact ⟨h0, h1⟩
  | viewMonth => exact ⟨h0, h1⟩
  | miniPrev => exact prevMonth_month_bounds s h0 h1
  | miniNext => exact nextMonth_month_bounds s h0 h1
  | miniDay cell =>
    show 0 ≤ (miniDayClick s _).month ∧ (miniDayClick s _).month ≤ 11
    rw [(miniDayClick_month s _).1]; exact ⟨h0, h1⟩

theorem run_month_bounds (acts : List Action) : ∀ s : CalendarState,
    0 ≤ s.month → s.month ≤ 11 → 0 ≤ (run s acts).month ∧ (run s acts).month ≤ 11 := by
  induction acts with
  | nil => intro s h0 h1; exact ⟨h0, h1⟩
  | cons a acts ih =>
    intro s h0 h1
    exact ih (step s a) (step_month_bounds s a h0 h1).1 (step_month_bounds s a h0 h1).2

theorem getMonday_week (d : Int) :
    getDay (getMonday d) = 1 ∧ getMonday d ≤ d ∧ d < getMonday d + 7 := by
  refine ⟨getDay_getMonday d, ?_, ?_⟩
  · rw [getMonday_eq]
    have := getDay_bounds d
    by_cases h : getDay d = 0
    · rw [if_pos h]; omega
    · rw [if_neg h]; omega
  · rw [getMonday_eq]
    have := getDay_bounds d
    by_cases h : getDay d = 0
    · rw [if_pos h]; omega
    · rw [if_neg h]; omega

theorem newDate_civil (year month day : Int) (hm0 : 0 ≤ month) (hm1 : month ≤ 11)
    (hd0 : 1 ≤ day) (hd1 : day ≤ daysInMonth year month) :
    getFullYear (newDate year month day) = fullYear year ∧
      getMonth (newDate year month day) = month ∧ getDate (newDate year month day) = day := by
  have e1 : month / 12 = 0 := by omega
  have e2 : month % 12 = month := by omega
  rw [daysInMonth_eq, e1, e2, add_zero] at hd1
  exact civil_makeDay (fullYear year) month day hm0 hm1 hd0 hd1

theorem monthCells_mem_day (year month : Int) (day : Int)
    (hmem : some day ∈ monthCells year month) :
    1 ≤ day ∧ day ≤ daysInMonth year month := by
  rw [monthCells_layout] at hmem
  have hb := daysInMonth_bounds year month
  rcases List.mem_append.mp hmem with h1 | h1
  · rcases List.mem_append.mp h1 with h2 | h2
    · exact absurd (List.eq_of_mem_replicate h2) (by simp)
    · obtain ⟨k, hk, e⟩ := List.mem_map.mp h2
      have hk' := List.mem_range.mp hk
      have : (k : Int) + 1 = day := Option.some.inj e
      omega
  · exact absurd (List.eq_of_mem_replicate h1) (by simp)

theorem monthCells_day (year month : Int) (cell : Nat) (day : Int)
    (h : (monthCells year month).get? cell = some (some day)) :
    1 ≤ day ∧ day ≤ daysInMonth year month :=
  monthCells_mem_day year month day (List.get?_mem h)

/-- C23: in every state the calendar can be in while in month view (reached
from the initial state by any actions), `next` moves (year, month) to the
following month, December of y becoming January of y+1, and `prev` to the
preceding one, January of y becoming December of y-1. Both set `selectedDay`
to 1, keep the month within 0..11 and leave the view and `weekStart` as they
are, and `next` followed by `prev` gives back the original year and month. -/
theorem month_next_prev (now : Int) (acts : List Action)
    (hview : (run (initState now) acts).view = View.month) :
    (step (run (initState now) acts) Action.next).year =
        (if (run (initState now) acts).month = 11 then (run (initState now) acts).year + 1
          else (run (initState now) acts).year) ∧
      (step (run (initState now) acts) Action.next).month =
        (if (run (initState now) acts).month = 11 then 0
          else (run (initState now) acts).month + 1) ∧
      (step (run (initState now) acts) Action.prev).year =
        (if (run (initState now) acts).month = 0 then (run (initState now) acts).year - 1
          else (run (initState now) acts).year) ∧
      (step (run (initState now) acts) Action.prev).month =
        (if (run (initState now) acts).month = 0 then 11
          else (run (initState now) acts).month - 1) ∧
      (step (run (initState now) acts) Action.next).selectedDay = 1 ∧
      (step (run (initState now) acts) Action.prev).selectedDay = 1 ∧
      (0 ≤ (step (run (initState now) acts) Action.next).month ∧
        (step (run (initState now) acts) Action.next).month ≤ 11) ∧
      (0 ≤ (step (run (initState now) acts) Action.prev).month ∧
        (step (run (initState now) acts) Action.prev).month ≤ 11) ∧
      (step (run (initState now) acts) Action.next).view = View.month ∧
      (step (run (initState now) acts) Action.prev).view = View.month ∧
      (step (run (initState now) acts) Action.next).weekStart =
        (run (initState now) acts).weekStart ∧
      (step (run (initState now) acts) Action.prev).weekStart =
        (run (initState now) acts).weekStart ∧
      (step (step (run (initState now) acts) Action.next) Action.prev).year =
        (run (initState now) acts).year ∧
      (step (step (run (initState now) acts) Action.next) Action.prev).month =
        (run (initState now) acts).month := by
  have hb := run_month_bounds acts (initState now) (getMonth_bounds now).1 (getMonth_bounds now).2
  generalize run (initState now) acts = s at hview hb
  have hv : ¬ s.view = View.week := by rw [hview]; decide
  have hn := step_next_month s hv
  have hp := step_prev_month s hv
  have hv2 : ¬ (step s Action.next).view = View.week := by
    rw [hn]
    show ¬ (nextMonth s).view = View.week
    unfold nextMonth
    by_cases h : s.month = 11
    · rw [if_pos h]; exact hv
    · rw [if_neg h]; exact hv
  rw [step_prev_month _ hv2, hn, hp]
  unfold nextMonth prevMonth
  by_cases h11 : s.month = 11
  · have h0 : ¬ s.month = 0 := by omega
    simp only [if_pos h11, if_neg h0, hview]
    refine ⟨trivial, trivial, trivial, trivial, trivial, trivial, ⟨by decide, by decide⟩, by omega,
      trivial, trivial, trivial, trivial, ?_, ?_⟩
    · simp
    · simp [h11]
  · by_cases h0 : s.month = 0
    · simp only [if_neg h11, if_pos h0, hview]
      refine ⟨trivial, trivial, trivial, trivial, trivial, trivial, by omega,
        ⟨by decide, by decide⟩, trivial, trivial, trivial, trivial, ?_, ?_⟩
      · simp [h0]
      · simp [h0]
    · simp only [if_neg h11, if_neg h0, hview]
      have hne : ¬ s.month + 1 = 0 := by omega
      refine ⟨trivial, trivial, trivial, trivial, trivial, trivial, by omega, by omega,
        trivial, trivial, trivial, trivial, ?_, ?_⟩
      · simp [hne]
      · simp [hne]

/-- C23 at the state reached from 2024-12-15 by a click on Month. -/
theorem month_next_prev_witness :
    (run (initState 20072) [Action.viewMonth]).view = View.month ∧
      (step (run (initState 20072) [Action.viewMonth]) Action.next).year = 2025 ∧
      (step (run (initState 20072) [Action.viewMonth]) Action.next).month = 0 ∧
      (step (step (run (initState 20072) [Action.viewMonth]) Action.next) Action.prev).year =
        (run (initState 20072) [Action.viewMonth]).year :=
  ⟨by decide,
    ((month_next_prev 20072 [Action.viewMonth] (by decide)).1).trans (by decide),
    ((month_next_prev 20072 [Action.viewMonth] (by decide)).2.1).trans (by decide),
    (month_next_prev 20072 [Action.viewMonth] (by decide)).2.2.2.2.2.2.2.2.2.2.2.2.1⟩

/-- C24: with the month in 0..11. When `selectedDay` is a day of (year, month),
the Week button sets `weekStart` to a Monday with
`weekStart <= d < weekStart + 7`, where `d` is the day
`new Date(year, month, selectedDay)`, whose month and day of the month are
`month` and `selectedDay` and whose year is `year` (for the years 0 to 99 the
`Date` constructor reads 1900 + year). A click on a day cell of the mini month
in week view sets `selectedDay` to the day of the cell, keeps `year` and
`month` and sets `weekStart` in the same way from that day; in month view it
sets `selectedDay` and leaves everything else, `weekStart` included, as it
is. -/
theorem weekStart_from_selected_day (s : CalendarState) (hm0 : 0 ≤ s.month)
    (hm1 : s.month ≤ 11) :
    (1 ≤ s.selectedDay → s.selectedDay ≤ daysInMonth s.year s.month →
      step s Action.viewWeek =
          { s with view := View.week
                   weekStart := getMonday (newDate s.year s.month s.selectedDay) } ∧
        getDay (step s Action.viewWeek).weekStart = 1 ∧
        (step s Action.viewWeek).weekStart ≤ newDate s.year s.month s.selectedDay ∧
        newDate s.year s.month s.selectedDay < (step s Action.viewWeek).weekStart + 7 ∧
        getFullYear (newDate s.year s.month s.selectedDay) = fullYear s.year ∧
        getMonth (newDate s.year s.month s.selectedDay) = s.month ∧
        getDate (newDate s.year s.month s.selectedDay) = s.selectedDay) ∧
    (∀ cell day, (monthCells s.year s.month).get? cell = some (some day) →
      (1 ≤ day ∧ day ≤ daysInMonth s.year s.month) ∧
      (s.view = View.week →
        step s (Action.miniDay cell) =
            { s with selectedDay := day
                     weekStart := getMonday (newDate s.year s.month day) } ∧
          getDay (step s (Action.miniDay cell)).weekStart = 1 ∧
          (step s (Action.miniDay cell)).weekStart ≤ newDate s.year s.month day ∧
          newDate s.year s.month day < (step s (Action.miniDay cell)).weekStart + 7 ∧
          getFullYear (newDate s.year s.month day) = fullYear s.year ∧
          getMonth (newDate s.year s.month day) = s.month ∧
          getDate (newDate s.year s.month day) = day) ∧
      (s.view = View.month →
        step s (Action.miniDay cell) = { s with selectedDay := day })) ∧
    (s.year < 0 ∨ 99 < s.year → fullYear s.year = s.year) := by
  refine ⟨?_, ?_, ?_⟩
  · intro h1 h2
    have hw := getMonday_week (newDate s.year s.month s.selectedDay)
    have hc := newDate_civil s.year s.month s.selectedDay hm0 hm1 h1 h2
    exact ⟨rfl, hw.1, hw.2.1, hw.2.2, hc.1, hc.2.1, hc.2.2⟩
  · intro cell day hcell
    have hd := monthCells_day s.year s.month cell day hcell
    refine ⟨hd, ?_, ?_⟩
    · intro hv
      have e : step s (Action.miniDay cell) =
          { s with selectedDay := day
                   weekStart := getMonday (newDate s.year s.month day) } := by
        show miniDayClick s ((monthCells s.year s.month).get? cell) = _
        rw [hcell]
        exact if_pos hv
      have hw := getMonday_week (newDate s.year s.month day)
      have hc := newDate_civil s.year s.month day hm0 hm1 hd.1 hd.2
      rw [e]
      exact ⟨rfl, hw.1, hw.2.1, hw.2.2, hc.1, hc.2.1, hc.2.2⟩
    · intro hv
      show miniDayClick s ((monthCells s.year s.month).get? cell) = _
      rw [hcell]
      have hnw : ¬ s.view = View.week := by rw [hv]; decide
      exact if_neg hnw
  · intro h
    unfold fullYear
    rw [if_neg (by omega)]

/-- C24 at the week-view state of March 2024 with the 4th selected: the cell
of index 10 of the mini month is the 7th. -/
theorem weekStart_from_selected_day_witness :
    (0 : Int) ≤ standupApp.state.month ∧ standupApp.state.month ≤ 11 ∧
      (monthCells standupApp.state.year standupApp.state.month).get? 10 = some (some 7) ∧
      standupApp.state.view = View.week ∧
      (step standupApp.state (Action.miniDay 10)).weekStart ≤ newDate 2024 2 7 ∧
      newDate 2024 2 7 < (step standupApp.state (Action.miniDay 10)).weekStart + 7 :=
  ⟨by decide, by decide, by decide, by decide,
    (((weekStart_from_selected_day standupApp.state (by decide) (by decide)).2.1 10 7
      (by decide)).2.1 (by decide)).2.2.1,
    (((weekStart_from_selected_day standupApp.state (by decide) (by decide)).2.1 10 7
      (by decide)).2.1 (by decide)).2.2.2.1⟩

/-! ## Decimal texts -/

theorem digitChar_spec (m : Nat) (h : m < 10) :
    (Nat.digitChar m).isDigit = true ∧ (Nat.digitChar m).toNat - 48 = m := by
  interval_cases m <;> decide

theorem digitsValue_snoc (cs : List Char) (c : Char) :
    digitsValue (cs ++ [c]) =
      match digitsValue cs with
      | none => none
      | some a => if c.isDigit then some (10 * a + (c.toNat - 48)) else none := by
  unfold digitsValue
  rw [List.foldl_append]
  rfl

theorem toDigitsCore_value (fuel : Nat) : ∀ (n : Nat) (acc : List Char), n < fuel →
    ∃ ds : List Char, Nat.toDigitsCore 10 fuel n acc = ds ++ acc ∧
      (∀ (pre : List Char) (a : Nat), digitsValue pre = some a →
        digitsValue (pre ++ ds) = some (a * 10 ^ ds.length + n)) ∧
      (n < 10 → ds.length = 1) ∧ n < 10 ^ ds.length ∧ (10 ≤ n → 10 ^ (ds.length - 1) ≤ n) := by
  induction fuel with
  | zero => intro n acc h; exact absurd h (Nat.not_lt_zero _)
  | succ fuel ih =>
    intro n acc hn
    by_cases h10 : n / 10 = 0
    · have hlt : n < 10 := by omega
      have hd := digitChar_spec (n % 10) (by omega)
      refine ⟨[Nat.digitChar (n % 10)], ?_, ?_, fun _ => rfl, by simpa using hlt,
        fun h => by omega⟩
      · simp [Nat.toDigitsCore, h10]
      · intro pre a hpre
        rw [digitsValue_snoc, hpre]
        simp only [hd.1, if_true, hd.2, List.length_singleton, pow_one]
        congr 1
        omega
    · have hge : 10 ≤ n := by omega
      obtain ⟨ds, hds, hval, hone, hup, hlow⟩ :=
        ih (n / 10) (Nat.digitChar (n % 10) :: acc) (by omega)
      have hd := digitChar_spec (n % 10) (by omega)
      have hlen : 1 ≤ ds.length := by
        rcases Nat.eq_zero_or_pos ds.length with h | h
        · rw [h] at hup; simp at hup; omega
        · exact h
      refine ⟨ds ++ [Nat.digitChar (n % 10)], ?_, ?_, fun h => by omega, ?_, ?_⟩
      · simp [Nat.toDigitsCore, h10, hds]
      · intro pre a hpre
        rw [← List.append_assoc, digitsValue_snoc, hval pre a hpre]
        simp only [hd.1, if_true, hd.2, List.length_append, List.length_singleton, pow_succ]
        congr 1
        have := Nat.div_add_mod n 10
        ring_nf
        omega
      · rw [List.length_append, List.length_singleton, pow_succ]
        omega
      · intro _
        rw [List.length_append, List.length_singleton, Nat.add_sub_cancel]
        by_cases h100 : n / 10 < 10
        · rw [hone h100]; simpa using hge
        · have := hlow (by omega)
          have e : 10 ^ ds.length = 10 ^ (ds.length - 1) * 10 := by
            rw [← pow_succ]; congr 1; omega
          rw [e]
          omega

theorem toString_nat_data (n : Nat) : (toString n).data = Nat.toDigitsCore 10 (n + 1) n [] := rfl

theorem digitsValue_toString (n : Nat) : digitsValue (toString n).data = some n := by
  obtain ⟨ds, hds, hval, _, _, _⟩ := toDigitsCore_value (n + 1) n [] (by omega)
  rw [toString_nat_data, hds, List.append_nil]
  have := hval [] 0 rfl
  simpa using this

theorem toString_nat_injective (a b : Nat) (h : toString a = toString b) : a = b := by
  have ha := digitsValue_toString a
  rw [h, digitsValue_toString b] at ha
  exact (Option.some.inj ha).symm

theorem toString_nat_length (n : Nat) :
    n < 10 ^ (toString n).data.length ∧ (10 ≤ n → 10 ^ ((toString n).data.length - 1) ≤ n) := by
  obtain ⟨ds, hds, _, _, hup, hlow⟩ := toDigitsCore_value (n + 1) n [] (by omega)
  rw [toString_nat_data, hds, List.append_nil]
  exact ⟨hup, hlow⟩

theorem digitsValue_isDigit : ∀ (cs : List Char) (n : Nat), digitsValue cs = some n →
    ∀ c ∈ cs, c.isDigit = true := by
  intro cs
  induction cs using List.reverseRecOn with
  | nil => intro _ _ c hc; cases hc
  | append_singleton xs x ih =>
    intro n h c hc
    rw [digitsValue_snoc] at h
    cases hxs : digitsValue xs with
    | none => rw [hxs] at h; cases h
    | some a =>
      rw [hxs] at h
      have hx : x.isDigit = true := by
        by_contra hx
        simp [hx] at h
      rcases List.mem_append.mp hc with e | e
      · exact ih a hxs c e
      · rw [List.mem_singleton] at e
        rw [e]; exact hx

theorem toString_four_digits (n : Nat) (h1 : 1000 ≤ n) (h2 : n ≤ 9999) :
    ∃ a b c d : Char, (toString n).data = [a, b, c, d] ∧ a.isDigit = true ∧
      b.isDigit = true ∧ c.isDigit = true ∧ d.isDigit = true ∧
      digitsValue [a, b, c, d] = some n := by
  have hl := toString_nat_length n
  have hv := digitsValue_toString n
  have hlen : (toString n).data.length = 4 := by
    have hu : (toString n).data.length ≤ 4 := by
      by_contra hcon
      have h5 : 5 ≤ (toString n).data.length := by omega
      have := hl.2 (by omega)
      have hp : 10 ^ 4 ≤ 10 ^ ((toString n).data.length - 1) :=
        Nat.pow_le_pow_right (by decide) (by omega)
      omega
    have hd : 4 ≤ (toString n).data.length := by
      by_contra hcon
      have h3 : (toString n).data.length ≤ 3 := by omega
      have hp : 10 ^ (toString n).data.length ≤ 10 ^ 3 :=
        Nat.pow_le_pow_right (by decide) h3
      have := hl.1
      omega
    omega
  match hm : (toString n).data, hlen with
  | [a, b, c, d], _ =>
    rw [hm] at hv
    have hdig := digitsValue_isDigit _ n hv
    exact ⟨a, b, c, d, rfl, hdig a (by simp), hdig b (by simp), hdig c (by simp),
      hdig d (by simp), hv⟩

theorem toString_int_ofNat (n : Nat) : toString ((n : Nat) : Int) = toString n := rfl

theorem pad_two_digits : ∀ k ∈ List.range 31,
    (pad ((k : Int) + 1)).data.length = 2 ∧
      digitsValue (pad ((k : Int) + 1)).data = some (k + 1) := by
  decide

/-! ## Identities and the dates of the month grid -/

theorem deleteOnClick_edit (parse : String → Option (List CalendarEvent)) (app : App)
    (modal : EventModal) (i : Nat) (ev : CalendarEvent) (hedit : modal.editing = true)
    (href : modal.ev = some i) (hget : app.calendarEvents.get? i = some ev)
    (hw : app.storage.writable = true)
    (hp : parse (stringifyEvents (app.calendarEvents.filter fun e => e.id ≠ ev.id)) =
      some (app.calendarEvents.filter fun e => e.id ≠ ev.id)) :
    (deleteOnClick parse app modal).app.calendarEvents =
      (app.calendarEvents.filter fun e => e.id ≠ ev.id) := by
  unfold deleteOnClick
  simp only [hedit, href, Option.some_bind, hget]
  rw [render_after_save parse _ _ _ _ hw hp]

/-- C26: the id of a created event is "ev" followed by the decimal text of
`Date.now()`, in the quick adder and in the modal alike. Creations at
different timestamps get different ids; creations at the same timestamp get
the same id. Delete in a modal that edits the event `ev` keeps exactly the
events whose id differs from that of `ev`, so every event sharing its id goes
with it. In the run shown, two events are saved within the millisecond
1709542800000, the modal is opened on their common id and Delete empties the
collection. -/
theorem event_ids_by_timestamp :
    (∀ ms, newEventId ms = "ev" ++ toString ms) ∧
    (∀ ms (cals : List CalendarDefinition) (inp : QuickInput) (form : EventForm),
      (quickEvent ms cals inp).id = newEventId ms ∧ (formEvent ms form).id = newEventId ms) ∧
    (∀ ms1 ms2, ms1 ≠ ms2 → newEventId ms1 ≠ newEventId ms2) ∧
    (∀ (parse : String → Option (List CalendarEvent)) (app : App) (modal : EventModal)
        (i : Nat) (ev : CalendarEvent),
      modal.editing = true → modal.ev = some i → app.calendarEvents.get? i = some ev →
      app.storage.writable = true →
      parse (stringifyEvents (app.calendarEvents.filter fun e => e.id ≠ ev.id)) =
        some (app.calendarEvents.filter fun e => e.id ≠ ev.id) →
      (deleteOnClick parse app modal).app.calendarEvents =
          (app.calendarEvents.filter fun e => e.id ≠ ev.id) ∧
        ∀ other ∈ app.calendarEvents, other.id = ev.id →
          other ∉ (deleteOnClick parse app modal).app.calendarEvents) ∧
    ((quickSave
        (parseTable [[], [standupEvent], [standupEvent, { standupEvent with title := "Review" }]])
        1709542800000
        (quickSave (parseTable [[], [standupEvent]]) 1709542800000 emptyApp
          { title := "Standup", date := "2024-03-04", hour := "9", link := "", desc := "" }).app
        { title := "Review", date := "2024-03-04", hour := "9", link := "",
          desc := "" }).app.calendarEvents =
      [standupEvent, { standupEvent with title := "Review" }]) ∧
    (openEventModal defaultCalendarList [standupEvent, { standupEvent with title := "Review" }]
        freshModal DateArg.undefined none (some "ev1709542800000")).map
      (fun m => (m.editing, m.ev)) = some (true, some 0) ∧
    (deleteOnClick (parseTable [[]])
        { standupApp with
          calendarEvents := [standupEvent, { standupEvent with title := "Review" }] }
        { freshModal with editing := true, ev := some 0 }).app.calendarEvents = [] ∧
    (deleteOnClick (parseTable [[]])
        { standupApp with
          calendarEvents := [standupEvent, { standupEvent with title := "Review" }] }
        { freshModal with editing := true, ev := some 1 }).app.calendarEvents = [] := by
  refine ⟨fun _ => rfl, fun _ _ _ _ => ⟨rfl, rfl⟩, ?_, ?_, by decide, by decide, by decide,
    by decide⟩
  · intro ms1 ms2 hne h
    unfold newEventId at h
    exact hne (toString_nat_injective _ _ (string_append_left_cancel _ _ _ h))
  · intro parse app modal i ev hedit href hget hw hp
    have h := deleteOnClick_edit parse app modal i ev hedit href hget hw hp
    refine ⟨h, ?_⟩
    intro other _ hid hmem
    rw [h] at hmem
    have := (List.mem_filter.mp hmem).2
    simp [hid] at this

theorem two_chars (s : String) (h : s.data.length = 2) : ∃ a b : Char, s.data = [a, b] := by
  match hm : s.data, h with
  | [a, b], _ => exact ⟨a, b, rfl⟩

theorem monthDataDate_data (year month day : Int) (hy0 : 1000 ≤ year) (hy1 : year ≤ 9999)
    (hm0 : 0 ≤ month) (hm1 : month ≤ 11) (hd0 : 1 ≤ day) (hd1 : day ≤ 31) :
    ∃ y1 y2 y3 y4 m1 m2 a1 a2 : Char,
      (monthDataDate year month day).data = [y1, y2, y3, y4, '-', m1, m2, '-', a1, a2] ∧
      y1.isDigit = true ∧ y2.isDigit = true ∧ y3.isDigit = true ∧ y4.isDigit = true ∧
      m1.isDigit = true ∧ m2.isDigit = true ∧ a1.isDigit = true ∧ a2.isDigit = true ∧
      digitsValue [y1, y2, y3, y4] = some year.toNat ∧
      digitsValue [m1, m2] = some (month + 1).toNat ∧
      digitsValue [a1, a2] = some day.toNat := by
  obtain ⟨n, rfl⟩ : ∃ n : Nat, year = (n : Int) := ⟨year.toNat, by omega⟩
  obtain ⟨k, rfl⟩ : ∃ k : Nat, month = (k : Int) := ⟨month.toNat, by omega⟩
  obtain ⟨j, rfl⟩ : ∃ j : Nat, day = (j : Int) + 1 := ⟨(day - 1).toNat, by omega⟩
  obtain ⟨y1, y2, y3, y4, hy, hy1d, hy2d, hy3d, hy4d, hyv⟩ :=
    toString_four_digits n (by omega) (by omega)
  have hk := pad_two_digits k (List.mem_range.mpr (by omega))
  have hj := pad_two_digits j (List.mem_range.mpr (by omega))
  obtain ⟨m1, m2, hm⟩ := two_chars _ hk.1
  obtain ⟨a1, a2, ha⟩ := two_chars _ hj.1
  have hkv := hk.2
  have hjv := hj.2
  rw [hm] at hkv
  rw [ha] at hjv
  have hmd := digitsValue_isDigit _ _ hkv
  have hjd := digitsValue_isDigit _ _ hjv
  refine ⟨y1, y2, y3, y4, m1, m2, a1, a2, ?_, hy1d, hy2d, hy3d, hy4d, hmd m1 (by simp),
    hmd m2 (by simp), hjd a1 (by simp), hjd a2 (by simp), ?_, ?_, ?_⟩
  · unfold monthDataDate
    simp only [String.data_append, toString_int_ofNat, hy, hm, ha]
    rfl
  · rw [hyv]; simp
  · rw [hkv]
    congr 1
  · rw [hjv]
    congr 1

theorem monthDataDate_valid (year month day : Int) (hy0 : 1000 ≤ year) (hy1 : year ≤ 9999)
    (hm0 : 0 ≤ month) (hm1 : month ≤ 11) (hd0 : 1 ≤ day)
    (hd1 : day ≤ daysInMonth year month) :
    matchesDatePattern (monthDataDate year month day) = true ∧
      parseDataDate (monthDataDate year month day) =
        some (year.toNat, (month + 1).toNat, day.toNat) ∧
      isValidDateString (monthDataDate year month day) = true ∧
      monthDataDate year month day ≠ "" := by
  have hb := daysInMonth_bounds year month
  obtain ⟨y1, y2, y3, y4, m1, m2, a1, a2, hdata, h1, h2, h3, h4, h5, h6, h7, h8, hyv, hmv, hav⟩ :=
    monthDataDate_data year month day hy0 hy1 hm0 hm1 hd0 (by omega)
  refine ⟨?_, ?_, ?_, ?_⟩
  · unfold matchesDatePattern
    rw [hdata]
    simp [h1, h2, h3, h4, h5, h6, h7, h8]
  · unfold parseDataDate
    rw [hdata]
    simp only [hyv, hmv, hav]
  · have hlen : daysInMonth year month =
        monthLength month (leapDays year) := by
      rw [daysInMonth_eq]
      have e1 : month / 12 = 0 := by omega
      have e2 : month % 12 = month := by omega
      have e3 : fullYear year = year := by
        unfold fullYear
        rw [if_neg (by omega)]
      rw [e1, e2, e3, add_zero]
    unfold isValidDateString
    rw [hdata]
    simp only [List.length_cons, List.length_nil, List.take, List.drop, hyv, hmv, hav]
    have c1 : ((month + 1).toNat : Int) - 1 = month := by omega
    have c2 : ((year.toNat : Nat) : Int) = year := by omega
    have c3 : ((day.toNat : Nat) : Int) = day := by omega
    rw [c1, c2, c3, ← hlen]
    simp
    refine ⟨⟨⟨⟨by omega, by omega⟩, by omega⟩, by omega⟩, hd1⟩
  · intro h
    have := congrArg String.data h
    rw [hdata] at this
    simp at this

theorem renderMonthView_cells (app : App) (now : Int) :
    renderMonthView app now =
      ((monthCells app.state.year app.state.month).map fun c =>
        match c with
        | none => MonthCell.blank
        | some day => MonthCell.day (monthDataDate app.state.year app.state.month day)
            (decide (app.state.year = (getToday now).year ∧
              app.state.month = (getToday now).month ∧ day = (getToday now).day)) day []).map
        (MonthCell.withChips (expectedMonthChips app.calendarList app.calendarEvents)) := by
  have hnd := monthCells_dates_nodup app.state.year app.state.month
    (fun day => MonthCell.day (monthDataDate app.state.year app.state.month day)
      (decide (app.state.year = (getToday now).year ∧ app.state.month = (getToday now).month ∧
        day = (getToday now).day)) day [])
    (fun _ => rfl)
  exact renderEventsMonth_eq app.calendarList app.calendarEvents _ hnd

theorem monthCellElement_click (ui : CalendarUi) (date : String) (isToday : Bool) (num : Int)
    (chips : List EventChip) (mouseX mouseY : Int) (hne : date ≠ "")
    (hm : matchesDatePattern date = true) :
    calendarMainClick ui [monthCellElement (MonthCell.day date isToday num chips)]
        mouseX mouseY =
      { ui with quickAdder := some (openQuickEventAdder (some date) "" mouseX mouseY) } := by
  have hcls : "month-cell" ∈
      (monthCellElement (MonthCell.day date isToday num chips)).classes := by
    cases isToday <;> simp [monthCellElement]
  have hfind : [monthCellElement (MonthCell.day date isToday num chips)].find? isCalendarTarget =
      some (monthCellElement (MonthCell.day date isToday num chips)) := by
    have : isCalendarTarget (monthCellElement (MonthCell.day date isToday num chips)) = true := by
      unfold isCalendarTarget
      simp [hcls]
    simp [List.find?, this]
  have hget : getDateHourFromCell ui.app.state
      (monthCellElement (MonthCell.day date isToday num chips)) = (some date, "") := by
    unfold getDateHourFromCell
    rw [if_pos (Or.inr hcls)]
    simp [monthCellElement, orElse, hne]
  unfold calendarMainClick
  simp only [hfind, hget, hm, if_true]

/-- C30: with the displayed year in 1000..9999 and the month in 0..11, every
cell of the month grid that carries a `data-date` is the cell of a day of that
month, and its `data-date` is `year-pad(month+1)-pad(day)`: ten characters
that pass the test for the form YYYY-MM-DD of the click handler, whose digit
groups have the values `year`, `month + 1` and `day`, and that form a valid
date. A click on the cell opens the quick adder with that text as its date
and in its date field. -/
theorem monthCell_dataDate_clickable (app : App) (now : Int) (hy0 : 1000 ≤ app.state.year)
    (hy1 : app.state.year ≤ 9999) (hm0 : 0 ≤ app.state.month) (hm1 : app.state.month ≤ 11) :
    (∀ day : Int, 1 ≤ day → day ≤ daysInMonth app.state.year app.state.month →
      ∃ cell ∈ renderMonthView app now,
        monthCellDate cell =
          some (toString app.state.year ++ "-" ++ pad (app.state.month + 1) ++ "-" ++ pad day)) ∧
    ∀ cell ∈ renderMonthView app now, ∀ date, monthCellDate cell = some date →
      ∃ day : Int, some day ∈ monthCells app.state.year app.state.month ∧
        1 ≤ day ∧ day ≤ daysInMonth app.state.year app.state.month ∧
        date = toString app.state.year ++ "-" ++ pad (app.state.month + 1) ++ "-" ++ pad day ∧
        date.data.length = 10 ∧
        matchesDatePattern date = true ∧
        parseDataDate date =
          some (app.state.year.toNat, (app.state.month + 1).toNat, day.toNat) ∧
        ∀ (ui : CalendarUi) (mouseX mouseY : Int),
          calendarMainClick ui [monthCellElement cell] mouseX mouseY =
              { ui with quickAdder := some (openQuickEventAdder (some date) "" mouseX mouseY) } ∧
            (openQuickEventAdder (some date) "" mouseX mouseY).date = some date ∧
            (openQuickEventAdder (some date) "" mouseX mouseY).fields.date = date := by
  constructor
  · intro day hd0 hd1
    have hmem : some day ∈ monthCells app.state.year app.state.month := by
      rw [monthCells_layout]
      apply List.mem_append_left
      apply List.mem_append_right
      refine List.mem_map.mpr ⟨(day - 1).toNat, List.mem_range.mpr (by omega), ?_⟩
      congr 1
      omega
    refine ⟨MonthCell.withChips (expectedMonthChips app.calendarList app.calendarEvents)
      (MonthCell.day (monthDataDate app.state.year app.state.month day)
        (decide (app.state.year = (getToday now).year ∧
          app.state.month = (getToday now).month ∧ day = (getToday now).day)) day []), ?_, rfl⟩
    rw [renderMonthView_cells, List.map_map]
    exact List.mem_map.mpr ⟨some day, hmem, rfl⟩
  · intro cell hcell date hdate
    rw [renderMonthView_cells, List.map_map] at hcell
    obtain ⟨c, hc, rfl⟩ := List.mem_map.mp hcell
    cases c with
    | none => cases hdate
    | some day =>
      have hd : date = monthDataDate app.state.year app.state.month day :=
        (Option.some.inj hdate).symm
      have hday := monthCells_mem_day _ _ day hc
      have hv := monthDataDate_valid app.state.year app.state.month day hy0 hy1 hm0 hm1
        hday.1 hday.2
      have hb := daysInMonth_bounds app.state.year app.state.month
      obtain ⟨y1, y2, y3, y4, m1, m2, a1, a2, hdata, _⟩ :=
        monthDataDate_data app.state.year app.state.month day hy0 hy1 hm0 hm1 hday.1 (by omega)
      refine ⟨day, hc, hday.1, hday.2, hd, ?_, ?_, ?_, ?_⟩
      · rw [hd, hdata]; rfl
      · rw [hd]; exact hv.1
      · rw [hd]; exact hv.2.1
      · intro ui mouseX mouseY
        rw [hd]
        refine ⟨monthCellElement_click ui _ _ _ _ mouseX mouseY hv.2.2.2 hv.1, rfl, ?_⟩
        show setDateInput ((orElse (some (monthDataDate app.state.year app.state.month day))
          (some "")).getD "") = _
        unfold orElse
        simp only [if_neg hv.2.2.2, Option.getD_some]
        unfold setDateInput
        rw [if_pos hv.2.2.1]

/-- C30 at March 2024 in month view, with the Standup event: the cell of the
4th carries 2024-03-04. -/
theorem monthCell_dataDate_clickable_witness :
    (1000 : Int) ≤ 2024 ∧ (2024 : Int) ≤ 9999 ∧ (0 : Int) ≤ 2 ∧ (2 : Int) ≤ 11 ∧
      ∃ cell ∈ renderMonthView
          { standupApp with state := { standupApp.state with view := View.month } } 19786,
        monthCellDate cell = some "2024-03-04" :=
  ⟨by decide, by decide, by decide, by decide,
    (monthCell_dataDate_clickable
      { standupApp with state := { standupApp.state with view := View.month } } 19786
      (by decide) (by decide) (by decide) (by decide)).1 4 (by decide) (by decide)⟩

/-! ## Event overlay and week columns -/

/-- C25, evaluation at the failing inputs: the overlay never reaches beyond
the right or the bottom edge, but nothing keeps it from the left and the top
edge. For a chip that begins 30 px left of a 1280 x 720 viewport the overlay
is put at left = -30; in a viewport 240 px wide, for a chip at left 10, it is
put at left = -30; in a viewport 150 px high it is put at top = -40. With the
anchor not left of the viewport and a viewport at least 270 px wide and 190 px
high the position is inside. -/
theorem overlay_leaves_viewport :
    (∀ rectLeft rectBottom scrollX scrollY innerWidth innerHeight : ℚ,
      (overlayPosition rectLeft rectBottom scrollX scrollY innerWidth innerHeight).1 + 260 ≤
          innerWidth ∧
        (overlayPosition rectLeft rectBottom scrollX scrollY innerWidth innerHeight).2 + 180 ≤
          innerHeight) ∧
    (∀ rectLeft rectBottom scrollX scrollY innerWidth innerHeight : ℚ,
      0 ≤ scrollX + rectLeft → 0 ≤ scrollY + rectBottom + 6 → 270 ≤ innerWidth →
      190 ≤ innerHeight →
      0 ≤ (overlayPosition rectLeft rectBottom scrollX scrollY innerWidth innerHeight).1 ∧
        0 ≤ (overlayPosition rectLeft rectBottom scrollX scrollY innerWidth innerHeight).2) ∧
    overlayPosition (-30) 100 0 0 1280 720 = (-30, 106) ∧
    overlayPosition 10 100 0 0 240 720 = (-30, 106) ∧
    overlayPosition 10 100 0 0 1280 150 = (10, -40) ∧
    (overlayPosition (-30) 100 0 0 1280 720).1 < 0 ∧
    (overlayPosition 10 100 0 0 240 720).1 < 0 ∧
    (overlayPosition 10 100 0 0 1280 150).2 < 0 := by
  refine ⟨?_, ?_, ?_, ?_, ?_, ?_, ?_, ?_⟩
  · intro rectLeft rectBottom scrollX scrollY innerWidth innerHeight
    unfold overlayPosition
    constructor
    · show (if scrollX + rectLeft + 260 > innerWidth then innerWidth - 270
        else scrollX + rectLeft) + 260 ≤ innerWidth
      by_cases h : scrollX + rectLeft + 260 > innerWidth
      · rw [if_pos h]; linarith
      · rw [if_neg h]; linarith
    · show (if scrollY + rectBottom + 6 + 180 > innerHeight then innerHeight - 190
        else scrollY + rectBottom + 6) + 180 ≤ innerHeight
      by_cases h : scrollY + rectBottom + 6 + 180 > innerHeight
      · rw [if_pos h]; linarith
      · rw [if_neg h]; linarith
  · intro rectLeft rectBottom scrollX scrollY innerWidth innerHeight h1 h2 h3 h4
    unfold overlayPosition
    constructor
    · show 0 ≤ (if scrollX + rectLeft + 260 > innerWidth then innerWidth - 270
        else scrollX + rectLeft)
      by_cases h : scrollX + rectLeft + 260 > innerWidth
      · rw [if_pos h]; linarith
      · rw [if_neg h]; linarith
    · show 0 ≤ (if scrollY + rectBottom + 6 + 180 > innerHeight then innerHeight - 190
        else scrollY + rectBottom + 6)
      by_cases h : scrollY + rectBottom + 6 + 180 > innerHeight
      · rw [if_pos h]; linarith
      · rw [if_neg h]; linarith
  · unfold overlayPosition; norm_num
  · unfold overlayPosition; norm_num
  · unfold overlayPosition; norm_num
  · unfold overlayPosition; norm_num
  · unfold overlayPosition; norm_num
  · unfold overlayPosition; norm_num

/-- C28, evaluation at the failing input: the week of Monday 2024-03-04 in a
zone one hour east of UTC (`getTimezoneOffset()` = -60). Local midnight of a
day is 23:00 UTC of the day before, so `toISOString().slice(0,10)` gives the
date of the day before: the column whose header shows the 4 carries
`data-date` 2024-03-03, and so on for all seven columns; a click on its cell
opens the quick adder for 2024-03-03, the date Save would store. In a zone at
UTC, or five hours west of it, the column of the 4 carries 2024-03-04. -/
theorem weekColumn_date_shifted_east_of_utc :
    (renderWeekView standupApp.state (-60) 19786).header.map (fun h => (h.num, h.dataDate)) =
        [(4, "2024-03-03"), (5, "2024-03-04"), (6, "2024-03-05"), (7, "2024-03-06"),
          (8, "2024-03-07"), (9, "2024-03-08"), (10, "2024-03-09")] ∧
      ((renderWeekView standupApp.state (-60) 19786).cells.take 7).map (fun c => c.dataDate) =
        ["2024-03-03", "2024-03-04", "2024-03-05", "2024-03-06", "2024-03-07", "2024-03-08",
          "2024-03-09"] ∧
      (((renderWeekView standupApp.state (-60) 19786).cells.get? 14).map fun c =>
        (calendarMainClick standupUi [weekCellElement c] 100 200).quickAdder.map fun q =>
          (q.date, q.fields.date, q.fields.hour)) =
        some (some (some "2024-03-03", "2024-03-03", "9")) ∧
      (renderWeekView standupApp.state 0 19786).header.map (fun h => (h.num, h.dataDate)) =
        [(4, "2024-03-04"), (5, "2024-03-05"), (6, "2024-03-06"), (7, "2024-03-07"),
          (8, "2024-03-08"), (9, "2024-03-09"), (10, "2024-03-10")] ∧
      (renderWeekView standupApp.state 300 19786).header.map (fun h => (h.num, h.dataDate)) =
        [(4, "2024-03-04"), (5, "2024-03-05"), (6, "2024-03-06"), (7, "2024-03-07"),
          (8, "2024-03-08"), (9, "2024-03-09"), (10, "2024-03-10")] ∧
      getDay standupApp.state.weekStart = 1 := by
  refine ⟨by decide, by decide, by decide, by decide, by decide, by decide⟩

end Calendar

namespace Selection

set_option maxRecDepth 1000000

/-! ## Country selection: claim -/

theorem selectionStep_invariant (st : SelectionState) (e : SelectionEvent)
    (hne : e ≠ SelectionEvent.mousedownOutside) (hl : st.highlightLayer = true)
    (h : st.lastSelectedCountry = none → st.highlightFilter = "") :
    (selectionStep st e).highlightLayer = true ∧
      ((selectionStep st e).lastSelectedCountry = none →
        (selectionStep st e).highlightFilter = "") := by
  cases e with
  | countryClick iso3 =>
    unfold selectionStep setHighlight
    by_cases hc : st.countryInfoLoaded = true
    · simp [hc, hl]
    · simp only [hc]
      exact ⟨hl, h⟩
  | contextInfo iso3 =>
    unfold selectionStep setHighlight
    simp [hl]
  | backgroundClick =>
    unfold selectionStep setHighlight
    simp [hl]
  | mousedownOutside => exact absurd rfl hne

/-- C21, evaluation at the failing input: Info is chosen for France, then a
`mousedown` lands outside the sidebar (on the command box, say). The
`mousedown` handler hides the sidebar and sets `lastSelectedCountry` to null
and does not touch the map: the filter of `country-highlight-border` still
selects FRA. The click on the map background does reset the filter, and in
every run without such a `mousedown` a null selection comes with the filter
that matches nothing. -/
theorem mousedown_clears_selection_keeps_highlight :
    selectionRun [SelectionEvent.contextInfo "FRA", SelectionEvent.mousedownOutside] =
        { lastSelectedCountry := none, highlightLayer := true, highlightFilter := "FRA",
          sidebarVisible := false, countryInfoLoaded := true } ∧
      selectionRun [SelectionEvent.contextInfo "FRA", SelectionEvent.backgroundClick] =
        { lastSelectedCountry := none, highlightLayer := true, highlightFilter := "",
          sidebarVisible := false, countryInfoLoaded := true } ∧
      (∀ st : SelectionState, st.highlightLayer = true →
        (selectionStep st SelectionEvent.backgroundClick).lastSelectedCountry = none ∧
          (selectionStep st SelectionEvent.backgroundClick).highlightFilter = "") ∧
      (∀ events : List SelectionEvent, SelectionEvent.mousedownOutside ∉ events →
        (selectionRun events).lastSelectedCountry = none →
          (selectionRun events).highlightFilter = "") := by
  refine ⟨by decide, by decide, ?_, ?_⟩
  · intro st hl
    unfold selectionStep setHighlight
    simp [hl]
  · intro events hno
    have key : ∀ (evs : List SelectionEvent) (st : SelectionState),
        SelectionEvent.mousedownOutside ∉ evs → st.highlightLayer = true →
        (st.lastSelectedCountry = none → st.highlightFilter = "") →
        (evs.foldl selectionStep st).highlightLayer = true ∧
          ((evs.foldl selectionStep st).lastSelectedCountry = none →
            (evs.foldl selectionStep st).highlightFilter = "") := by
      intro evs
      induction evs with
      | nil => intro st _ hl h; exact ⟨hl, h⟩
      | cons e es ih =>
        intro st hno hl h
        have hne : e ≠ SelectionEvent.mousedownOutside := by
          intro he
          exact hno (by rw [he]; exact List.mem_cons_self _ _)
        have hstep := selectionStep_invariant st e hne hl h
        exact ih (selectionStep st e) (fun hm => hno (List.mem_cons_of_mem e hm)) hstep.1
          hstep.2
    exact (key events SelectionState.init hno rfl (fun _ => rfl)).2

end Selection

namespace Overlay

set_option maxRecDepth 1000000

/-! ## Command box: claim -/

theorem lookupDataType_none (cmd : String) (h1 : cmd ∉ availableCommands)
    (h2 : cmd ∉ objectPrototypeKeys) : lookupDataType cmd = none := by
  unfold lookupDataType
  have hl : dataTypes.lookup cmd = none := by
    unfold availableCommands at h1
    simp only [List.mem_cons, List.mem_singleton, not_or, List.not_mem_nil, not_false_eq_true,
      and_true] at h1
    obtain ⟨a1, a2, a3, a4, a5, a6, a7, a8, _⟩ := h1
    have hb : ∀ s : String, ¬ cmd = s → (cmd == s) = false := fun s h => by simpa using h
    unfold dataTypes
    simp only [List.lookup, hb _ a1, hb _ a2, hb _ a3, hb _ a4, hb _ a5, hb _ a6, hb _ a7,
      hb _ a8]
  rw [hl]
  simp only [if_neg h2]

/-- C22, evaluation at the failing input: with the ports overlay on the map,
`constructor` is typed into the command box and Enter is pressed. The text is
none of the thirteen commands, but `dataTypes['constructor']` is the function
every object inherits, a truthy value, so `showDataPoints` is called with it:
the ports layer and source are removed and a fetch is started. The same
happens for `__proto__`. A text that is neither a command nor the name of a
property of `Object.prototype` only clears the box. -/
theorem inherited_key_activates_overlay :
    (∀ nativeText : String → String,
      toLowerCase (Calendar.jsTrim "constructor") ∉ availableCommands ∧
        (portsShown "constructor").overlay.layers = ["ports-points"] ∧
        (commandEnter nativeText (portsShown "constructor")).input = "" ∧
        (commandEnter nativeText (portsShown "constructor")).overlay.layers = [] ∧
        (commandEnter nativeText (portsShown "constructor")).overlay.sources = [] ∧
        (commandEnter nativeText (portsShown "constructor")).overlay.pending =
          [nativeText "constructor"] ∧
        (commandEnter nativeText (portsShown "constructor")).overlay.calls =
          [MapCall.addSource "ports-points", MapCall.addLayer "ports-points",
            MapCall.removeLayer "ports-points", MapCall.removeSource "ports-points"] ∧
        toLowerCase (Calendar.jsTrim " __PROTO__ ") ∉ availableCommands ∧
        (commandEnter nativeText (portsShown " __PROTO__ ")).overlay.layers = [] ∧
        (commandEnter nativeText (portsShown " __PROTO__ ")).overlay.pending =
          [nativeText "__proto__"]) ∧
    (∀ (nativeText : String → String) (st : CommandState),
      toLowerCase (Calendar.jsTrim st.input) ∉ availableCommands →
      toLowerCase (Calendar.jsTrim st.input) ∉ objectPrototypeKeys →
      commandEnter nativeText st = { st with input := "" }) := by
  constructor
  · intro nativeText
    have h1 : toLowerCase (Calendar.jsTrim "constructor") = "constructor" := by decide
    have h2 : toLowerCase (Calendar.jsTrim " __PROTO__ ") = "__proto__" := by decide
    have e1 : commandEnter nativeText (portsShown "constructor") =
        { input := ""
          overlay := showDataPoints (portsShown "constructor").overlay (nativeText "constructor")
          calls := [] } := by
      unfold commandEnter
      have hin : (portsShown "constructor").input = "constructor" := rfl
      simp only [hin, h1]
      rfl
    have e2 : commandEnter nativeText (portsShown " __PROTO__ ") =
        { input := ""
          overlay := showDataPoints (portsShown " __PROTO__ ").overlay (nativeText "__proto__")
          calls := [] } := by
      unfold commandEnter
      have hin : (portsShown " __PROTO__ ").input = " __PROTO__ " := rfl
      simp only [hin, h2]
      rfl
    rw [e1, e2, h1, h2]
    refine ⟨by decide, by decide, rfl, ?_, ?_, ?_, ?_, by decide, ?_, ?_⟩
    all_goals rfl
  · intro nativeText st h1 h2
    have hl := lookupDataType_none _ h1 h2
    unfold availableCommands at h1
    simp only [List.mem_cons, List.mem_singleton, not_or, List.not_mem_nil, not_false_eq_true,
      and_true] at h1
    obtain ⟨_, _, _, _, _, _, _, _, a9, a10, a11, a12, a13⟩ := h1
    unfold commandEnter
    simp only [a9, a10, a11, a12, a13, if_false, hl]

end Overlay

namespace Calendar

set_option maxRecDepth 1000000

/-! ## The collection only grows -/

theorem render_of_synced (parse : String → Option (List CalendarEvent)) (app app2 : App)
    (h : renderGoogleCalendar parse app = app) (hs : app2.storage = app.storage)
    (he : app2.calendarEvents = app.calendarEvents) :
    renderGoogleCalendar parse app2 = app2 := by
  unfold renderGoogleCalendar at *
  have hf := loadCalendarEvents_fields parse app2
  apply app_ext
  · exact hf.1
  · exact hf.2.1
  · rw [loadCalendarEvents_events parse app2 app hs, h, he]
  · exact hf.2.2

theorem render_push (parse : String → Option (List CalendarEvent)) (app : App)
    (events : List CalendarEvent) (hw : app.storage.writable = true)
    (hp : parse (stringifyEvents events) = some events) :
    renderGoogleCalendar parse (saveCalendarEvents { app with calendarEvents := events }) =
        { app with
          calendarEvents := events
          storage := { entry := some (stringifyEvents events), writable := true } } ∧
      renderGoogleCalendar parse
          { app with
            calendarEvents := events
            storage := { entry := some (stringifyEvents events), writable := true } } =
        { app with
          calendarEvents := events
          storage := { entry := some (stringifyEvents events), writable := true } } := by
  have h1 := render_after_save parse app.state app.calendarList events app.storage hw hp
  rw [hw] at h1
  refine ⟨h1, ?_⟩
  unfold renderGoogleCalendar loadCalendarEvents
  simp only [if_neg (stringifyEvents_ne_empty _), hp]

theorem openEventModal_none_editing (cals : List CalendarDefinition)
    (events : List CalendarEvent) (prev m : EventModal) (date : DateArg) (hour : Option String)
    (h : openEventModal cals events prev date hour none = some m) :
    m.editing = false ∧ m.ev = none ∧ m.deleteShown = false := by
  unfold openEventModal openCreateMode at h
  simp only at h
  cases hc : cals.head? with
  | none => rw [hc] at h; cases h
  | some c0 =>
    rw [hc] at h
    have := Option.some.inj h
    rw [← this]
    exact ⟨rfl, rfl, rfl⟩

theorem quickMore_app (ui : CalendarUi) : (quickMore ui).app = ui.app := by
  unfold quickMore
  cases ui.quickAdder with
  | none => rfl
  | some q =>
    simp only
    split <;> rfl

theorem quickMore_editing (ui : CalendarUi) (h : ui.modal.editing = false) :
    (quickMore ui).modal.editing = false := by
  unfold quickMore
  cases ui.quickAdder with
  | none => exact h
  | some q =>
    simp only
    split
    · rename_i m ho
      exact (openEventModal_none_editing _ _ _ _ _ _ ho).1
    · exact h

theorem calendarMainClick_app (ui : CalendarUi) (path : List GridElement) (mouseX mouseY : Int) :
    (calendarMainClick ui path mouseX mouseY).app = ui.app ∧
      (calendarMainClick ui path mouseX mouseY).modal = ui.modal := by
  rcases calendarMainClick_cases ui path mouseX mouseY with
    ⟨_, h⟩ | ⟨_, _, _, _, _, h⟩ | ⟨_, _, _, h⟩ <;> rw [h] <;> exact ⟨rfl, rfl⟩

theorem openModalForNew_spec (ui : CalendarUi) (date : DateArg) (hour : Option String)
    (h : ui.modal.editing = false) :
    (openModalForNew ui date hour).app = ui.app ∧
      (openModalForNew ui date hour).modal.editing = false := by
  unfold openModalForNew
  cases ho : openEventModal ui.app.calendarList ui.app.calendarEvents ui.modal date hour none with
  | none => exact ⟨rfl, h⟩
  | some m => exact ⟨rfl, (openEventModal_none_editing _ _ _ _ _ _ ho).1⟩

theorem quickSave_app (parse : String → Option (List CalendarEvent)) (ms : Nat) (app : App)
    (inp : QuickInput) :
    (quickSave parse ms app inp).app = app ∨
      (quickSave parse ms app inp).app =
        renderGoogleCalendar parse
          (saveCalendarEvents
            { app with calendarEvents := app.calendarEvents ++
                [quickEvent ms app.calendarList inp] }) := by
  unfold quickSave
  simp only
  by_cases hblank : jsTrim inp.title = "" ∨ inp.date = ""
  · rw [if_pos hblank]
    exact Or.inl rfl
  · rw [if_neg hblank]
    cases hc : quickCalendarId app.calendarList with
    | none => exact Or.inl rfl
    | some calId =>
      right
      unfold quickEvent
      rw [hc]
      rfl

/-- What an action has to leave behind for the collection to have grown. -/
theorem grows_of (parse : String → Option (List CalendarEvent)) (ui : CalendarUi)
    (a : UiAction) (after : CalendarUi) (app2 : App) (happ : after.app = app2)
    (hsync : renderGoogleCalendar parse app2 = app2) (hw2 : app2.storage.writable = true)
    (hed : after.modal.editing = false)
    (hev : app2.calendarEvents = ui.app.calendarEvents ∨
      ∃ e, pushedBy ui a = some e ∧ app2.calendarEvents = ui.app.calendarEvents ++ [e]) :
    Synced parse after ∧ after.app.storage.writable = true ∧ after.modal.editing = false ∧
      (after.app.calendarEvents = ui.app.calendarEvents ∨
        ∃ e, pushedBy ui a = some e ∧ after.app.calendarEvents = ui.app.calendarEvents ++ [e]) := by
  unfold Synced
  rw [happ]
  exact ⟨hsync, hw2, hed, hev⟩

/-- One action from a state in which the variables hold what the storage
holds, the storage accepts writes and the modal is not editing. -/
theorem uiStep_grows (parse : String → Option (List CalendarEvent)) (ui : CalendarUi)
    (a : UiAction) (hs : Synced parse ui) (hw : ui.app.storage.writable = true)
    (he : ui.modal.editing = false) (hr : roundTrips parse ui a = true) :
    Synced parse (uiStep parse ui a) ∧ (uiStep parse ui a).app.storage.writable = true ∧
      (uiStep parse ui a).modal.editing = false ∧
      ((uiStep parse ui a).app.calendarEvents = ui.app.calendarEvents ∨
        ∃ e, pushedBy ui a = some e ∧
          (uiStep parse ui a).app.calendarEvents = ui.app.calendarEvents ++ [e]) := by
  have hs0 : renderGoogleCalendar parse ui.app = ui.app := hs
  cases a with
  | openCalendar =>
    exact grows_of parse ui _ _ ui.app hs0 hs0 hw he (Or.inl rfl)
  | nav act =>
    have h := render_of_synced parse ui.app { ui.app with state := step ui.app.state act } hs0
      rfl rfl
    exact grows_of parse ui _ _ _ h h hw he (Or.inl rfl)
  | toggle dataCal checked =>
    have h := render_of_synced parse ui.app
      { ui.app with calendarList := setChecked dataCal checked ui.app.calendarList } hs0 rfl rfl
    exact grows_of parse ui _ _ _ h h hw he (Or.inl rfl)
  | sidebarCreate =>
    have h := openModalForNew_spec ui DateArg.other none he
    exact grows_of parse ui _ _ ui.app h.1 hs0 hw h.2 (Or.inl rfl)
  | fab =>
    have h := openModalForNew_spec ui DateArg.undefined none he
    exact grows_of parse ui _ _ ui.app h.1 hs0 hw h.2 (Or.inl rfl)
  | mainClick path mouseX mouseY =>
    have h := calendarMainClick_app ui path mouseX mouseY
    have h2 : (calendarMainClick ui path mouseX mouseY).modal.editing = false := by
      rw [h.2]; exact he
    exact grows_of parse ui _ _ ui.app h.1 hs0 hw h2 (Or.inl rfl)
  | quickEdit fields => exact grows_of parse ui _ _ ui.app rfl hs0 hw he (Or.inl rfl)
  | quickClose => exact grows_of parse ui _ _ ui.app rfl hs0 hw he (Or.inl rfl)
  | quickMore =>
    exact grows_of parse ui _ _ ui.app (quickMore_app ui) hs0 hw (quickMore_editing ui he)
      (Or.inl rfl)
  | quickSave ms =>
    cases hq : ui.quickAdder with
    | none =>
      have e : uiStep parse ui (UiAction.quickSave ms) = ui := by
        unfold uiStep; rw [hq]
      rw [e]
      exact grows_of parse ui _ _ ui.app rfl hs0 hw he (Or.inl rfl)
    | some q =>
      have hpush : pushedBy ui (UiAction.quickSave ms) =
          some (quickEvent ms ui.app.calendarList q.fields) := by
        unfold pushedBy; rw [hq]; rfl
      have hp : parse (stringifyEvents
            (ui.app.calendarEvents ++ [quickEvent ms ui.app.calendarList q.fields])) =
          some (ui.app.calendarEvents ++ [quickEvent ms ui.app.calendarList q.fields]) := by
        unfold roundTrips at hr
        rw [hpush] at hr
        exact of_decide_eq_true hr
      have e : uiStep parse ui (UiAction.quickSave ms) =
          { ui with app := (quickSave parse ms ui.app q.fields).app
                    quickAdder := if (quickSave parse ms ui.app q.fields).closed then none
                      else some q } := by
        unfold uiStep; rw [hq]
      rw [e]
      rcases quickSave_app parse ms ui.app q.fields with h | h
      · exact grows_of parse ui _ _ ui.app h hs0 hw he (Or.inl rfl)
      · have hrp := render_push parse ui.app _ hw hp
        rw [hrp.1] at h
        exact grows_of parse ui _ _ _ h hrp.2 rfl he (Or.inr ⟨_, hpush, rfl⟩)
  | modalEdit form =>
    by_cases hm : ui.modalShown = true
    · have e : uiStep parse ui (UiAction.modalEdit form) =
          { ui with modal := { ui.modal with form := form } } := if_pos hm
      rw [e]
      exact grows_of parse ui _ _ ui.app rfl hs0 hw he (Or.inl rfl)
    · have e : uiStep parse ui (UiAction.modalEdit form) = ui := if_neg hm
      rw [e]
      exact grows_of parse ui _ _ ui.app rfl hs0 hw he (Or.inl rfl)
  | modalClose => exact grows_of parse ui _ _ ui.app rfl hs0 hw he (Or.inl rfl)
  | modalSubmit ms =>
    by_cases hm : ui.modalShown = true
    · have e : uiStep parse ui (UiAction.modalSubmit ms) =
          { ui with app := (formOnSubmit parse ms ui.app ui.modal ui.modal.form).app
                    modalShown := false } := if_pos hm
      have hpush : pushedBy ui (UiAction.modalSubmit ms) = some (formEvent ms ui.modal.form) :=
        if_pos hm
      have hp : parse (stringifyEvents (ui.app.calendarEvents ++ [formEvent ms ui.modal.form])) =
          some (ui.app.calendarEvents ++ [formEvent ms ui.modal.form]) := by
        unfold roundTrips at hr
        rw [hpush] at hr
        exact of_decide_eq_true hr
      have hsub : (formOnSubmit parse ms ui.app ui.modal ui.modal.form).app =
          renderGoogleCalendar parse
            (saveCalendarEvents
              { ui.app with calendarEvents := ui.app.calendarEvents ++
                  [formEvent ms ui.modal.form] }) := by
        unfold formOnSubmit
        simp only [he, Bool.false_eq_true, if_false]
      have hrp := render_push parse ui.app _ hw hp
      rw [hrp.1] at hsub
      rw [e]
      exact grows_of parse ui _ _ _ hsub hrp.2 rfl he (Or.inr ⟨_, hpush, rfl⟩)
    · have e : uiStep parse ui (UiAction.modalSubmit ms) = ui := if_neg hm
      rw [e]
      exact grows_of parse ui _ _ ui.app rfl hs0 hw he (Or.inl rfl)
  | modalDelete =>
    have hd : deleteOnClick parse ui.app ui.modal =
        { app := ui.app, alert := none, closed := false } := by
      unfold deleteOnClick
      rw [he]
    have e : uiStep parse ui UiAction.modalDelete = ui := by
      unfold uiStep
      by_cases hm : ui.modalShown = true
      · simp only [hm, if_true, hd, Bool.false_eq_true, if_false]
        cases ui
        simp only at hm
        rw [hm]
      · simp only [hm, Bool.false_eq_true, if_false]
    rw [e]
    exact grows_of parse ui _ _ ui.app rfl hs0 hw he (Or.inl rfl)
  | chipClick dataId => exact grows_of parse ui _ _ ui.app rfl hs0 hw he (Or.inl rfl)

theorem uiRun_append (parse : String → Option (List CalendarEvent)) (ui : CalendarUi)
    (pre post : List UiAction) :
    uiRun parse ui (pre ++ post) = uiRun parse (uiRun parse ui pre) post := by
  unfold uiRun
  rw [List.foldl_append]

theorem roundTripsAlong_append (parse : String → Option (List CalendarEvent)) :
    ∀ (pre : List UiAction) (ui : CalendarUi) (a : UiAction) (post : List UiAction),
      roundTripsAlong parse ui (pre ++ a :: post) = true →
      roundTripsAlong parse ui pre = true ∧ roundTrips parse (uiRun parse ui pre) a = true := by
  intro pre
  induction pre with
  | nil =>
    intro ui a post h
    have h2 : (roundTrips parse ui a && roundTripsAlong parse (uiStep parse ui a) post) = true := h
    rw [Bool.and_eq_true] at h2
    exact ⟨rfl, h2.1⟩
  | cons b pre ih =>
    intro ui a post h
    have h2 : (roundTrips parse ui b &&
        roundTripsAlong parse (uiStep parse ui b) (pre ++ a :: post)) = true := h
    rw [Bool.and_eq_true] at h2
    have := ih (uiStep parse ui b) a post h2.2
    refine ⟨?_, this.2⟩
    show (roundTrips parse ui b && roundTripsAlong parse (uiStep parse ui b) pre) = true
    rw [Bool.and_eq_true]
    exact ⟨h2.1, this.1⟩

theorem uiRun_grows (parse : String → Option (List CalendarEvent)) :
    ∀ (actions : List UiAction) (ui : CalendarUi), Synced parse ui →
      ui.app.storage.writable = true → ui.modal.editing = false →
      roundTripsAlong parse ui actions = true →
      Synced parse (uiRun parse ui actions) ∧
        (uiRun parse ui actions).app.storage.writable = true ∧
        (uiRun parse ui actions).modal.editing = false ∧
        ∃ added : List CalendarEvent,
          (uiRun parse ui actions).app.calendarEvents = ui.app.calendarEvents ++ added ∧
            added.length ≤ actions.length := by
  intro actions
  induction actions with
  | nil =>
    intro ui hs hw he _
    exact ⟨hs, hw, he, [], by simp [uiRun], le_refl _⟩
  | cons a rest ih =>
    intro ui hs hw he hr
    have h2 : (roundTrips parse ui a && roundTripsAlong parse (uiStep parse ui a) rest) = true :=
      hr
    rw [Bool.and_eq_true] at h2
    obtain ⟨s1, w1, e1, g1⟩ := uiStep_grows parse ui a hs hw he h2.1
    obtain ⟨s2, w2, e2, added, hadd, hlen⟩ := ih (uiStep parse ui a) s1 w1 e1 h2.2
    refine ⟨s2, w2, e2, ?_⟩
    rcases g1 with g | ⟨e, _, g⟩
    · refine ⟨added, ?_, by simp; omega⟩
      show (uiRun parse (uiStep parse ui a) rest).app.calendarEvents = _
      rw [hadd, g]
    · refine ⟨e :: added, ?_, by simp; omega⟩
      show (uiRun parse (uiStep parse ui a) rest).app.calendarEvents = _
      rw [hadd, g, List.append_assoc]
      rfl

/-- C27: the three callers of `openEventModal` pass no event id, so from a
modal that is not editing no action leads to a modal that is editing, and the
Delete handler changes nothing. From a state in which the variables hold what
the storage holds, with a storage that accepts writes and a `JSON.parse` that
gives back the collections serialised along the run, every action of a run
leaves the collection as it is or appends one event at its end (the event of
the quick adder or of the form); after the run the collection is the
original one followed by at most one event per action. -/
theorem collection_only_grows (parse : String → Option (List CalendarEvent)) (ui : CalendarUi)
    (actions : List UiAction) (hs : Synced parse ui) (hw : ui.app.storage.writable = true)
    (he : ui.modal.editing = false) (hr : roundTripsAlong parse ui actions = true) :
    (∀ pre a post, actions = pre ++ a :: post →
      (uiRun parse ui pre).modal.editing = false ∧
        (uiStep parse (uiRun parse ui pre) a).modal.editing = false ∧
        ((uiStep parse (uiRun parse ui pre) a).app.calendarEvents =
            (uiRun parse ui pre).app.calendarEvents ∨
          ∃ e, pushedBy (uiRun parse ui pre) a = some e ∧
            (uiStep parse (uiRun parse ui pre) a).app.calendarEvents =
              (uiRun parse ui pre).app.calendarEvents ++ [e])) ∧
      (uiRun parse ui actions).modal.editing = false ∧
      (∃ added : List CalendarEvent,
        (uiRun parse ui actions).app.calendarEvents = ui.app.calendarEvents ++ added ∧
          added.length ≤ actions.length) ∧
      (∀ (u : CalendarUi) (date : DateArg) (hour : Option String),
        (openModalForNew u date hour).modal.editing = u.modal.editing ∨
          (openModalForNew u date hour).modal.editing = false) ∧
      (∀ u : CalendarUi, u.modal.editing = false →
        uiStep parse u UiAction.modalDelete = u) := by
  have hrun := uiRun_grows parse actions ui hs hw he hr
  refine ⟨?_, hrun.2.2.1, hrun.2.2.2, ?_, ?_⟩
  · intro pre a post hsplit
    rw [hsplit] at hr
    have hpre := roundTripsAlong_append parse pre ui a post hr
    obtain ⟨s1, w1, e1, _⟩ := uiRun_grows parse pre ui hs hw he hpre.1
    obtain ⟨_, _, e2, g⟩ := uiStep_grows parse (uiRun parse ui pre) a s1 w1 e1 hpre.2
    exact ⟨e1, e2, g⟩
  · intro u date hour
    unfold openModalForNew
    cases ho : openEventModal u.app.calendarList u.app.calendarEvents u.modal date hour none with
    | none => exact Or.inl rfl
    | some m => exact Or.inr (openEventModal_none_editing _ _ _ _ _ _ ho).1
  · intro u hu
    have hd : deleteOnClick parse u.app u.modal =
        { app := u.app, alert := none, closed := false } := by
      unfold deleteOnClick
      rw [hu]
    unfold uiStep
    by_cases hm : u.modalShown = true
    · simp only [hm, if_true, hd, Bool.false_eq_true, if_false]
      cases u
      simp only at hm
      rw [hm]
    · simp only [hm, Bool.false_eq_true, if_false]

/-- C27 at the run of the example from the Standup week: two events are
appended, the Delete button removes nothing. -/
theorem collection_only_grows_witness :
    Synced growParse standupUi ∧ standupUi.app.storage.writable = true ∧
      standupUi.modal.editing = false ∧ roundTripsAlong growParse standupUi growActions = true ∧
      (uiRun growParse standupUi growActions).app.calendarEvents.length = 3 ∧
      (uiRun growParse standupUi growActions).modal.editing = false :=
  ⟨by unfold Synced; decide, by decide, by decide, by decide, by decide,
    (collection_only_grows growParse standupUi growActions (by unfold Synced; decide)
      (by decide) (by decide) (by decide)).2.1⟩

end Calendar

namespace Calendar

set_option maxRecDepth 1000000

/-! ## The parser on the markup of a chip -/

theorem parse_text (s : List Char)
    (hs : ∀ c ∈ s, c ≠ '<' ∧ c ≠ '&' ∧ c.toNat ≠ 0 ∧ c ≠ '\r') :
    ∀ (f : OpenElement) (rest : List OpenElement),
      s.foldlM parseStep { tok := TokState.data, stack := f :: rest } =
        some { tok := TokState.data, stack := { f with text := f.text ++ s } :: rest } := by
  induction s with
  | nil => intro f rest; simp
  | cons c s ih =>
    intro f rest
    obtain ⟨h1, h2, h3, h4⟩ := hs c (List.mem_cons_self c s)
    have hstep : parseStep { tok := TokState.data, stack := f :: rest } c =
        some { tok := TokState.data, stack := { f with text := f.text ++ [c] } :: rest } := by
      unfold parseStep
      rw [if_neg (by rintro (h | h); exact h3 h; exact h4 h)]
      simp only [dataStep, if_neg h1, if_neg h2, insertChar, Option.map_some']
    rw [List.foldlM_cons, hstep]
    show List.foldlM parseStep _ s = _
    rw [ih (fun c hc => hs c (List.mem_cons_of_mem _ hc))]
    simp

theorem parse_value (s : List Char)
    (hs : ∀ c ∈ s, c ≠ '"' ∧ c ≠ '&' ∧ c.toNat ≠ 0 ∧ c ≠ '\r') :
    ∀ (tag : TagToken) (name value : List Char) (stack : List OpenElement),
      s.foldlM parseStep { tok := TokState.attrValueDq tag name value, stack := stack } =
        some { tok := TokState.attrValueDq tag name (value ++ s), stack := stack } := by
  induction s with
  | nil => intro tag name value stack; simp
  | cons c s ih =>
    intro tag name value stack
    obtain ⟨h1, h2, h3, h4⟩ := hs c (List.mem_cons_self c s)
    have hstep : parseStep { tok := TokState.attrValueDq tag name value, stack := stack } c =
        some { tok := TokState.attrValueDq tag name (value ++ [c]), stack := stack } := by
      unfold parseStep
      rw [if_neg (by rintro (h | h); exact h3 h; exact h4 h)]
      simp only [if_neg h1, if_neg h2]
    rw [List.foldlM_cons, hstep]
    show List.foldlM parseStep _ s = _
    rw [ih (fun c hc => hs c (List.mem_cons_of_mem _ hc))]
    simp

theorem parse_append (xs ys : List Char) (st st' : ParserState)
    (h : xs.foldlM parseStep st = some st') :
    (xs ++ ys).foldlM parseStep st = ys.foldlM parseStep st' := by
  rw [List.foldlM_append, h]
  rfl

/-- The end of a double-quoted attribute value followed by `>`: the tag is
emitted. -/
theorem seg_close (tag : TagToken) (name value : List Char) (stack : List OpenElement)
    (st' : ParserState) (h : emitTag (addAttr tag name value) stack = some st') :
    "\">".toList.foldlM parseStep
        { tok := TokState.attrValueDq tag name value, stack := stack } = some st' := by
  show ['"', '>'].foldlM parseStep _ = _
  have h1 : parseStep { tok := TokState.attrValueDq tag name value, stack := stack } '"' =
      some { tok := TokState.afterAttrValueQ (addAttr tag name value), stack := stack } := rfl
  have h2 : parseStep { tok := TokState.afterAttrValueQ (addAttr tag name value), stack := stack }
      '>' = emitTag (addAttr tag name value) stack := rfl
  rw [List.foldlM_cons, h1]
  show List.foldlM parseStep _ ['>'] = _
  rw [List.foldlM_cons, h2, h]
  rfl

theorem parse_chip_head (color id link : List Char) (rest : List Char) (base : OpenElement)
    (hcolor : ∀ c ∈ color, c ≠ '"' ∧ c ≠ '&' ∧ c.toNat ≠ 0 ∧ c ≠ '\r')
    (hid : ∀ c ∈ id, c ≠ '"' ∧ c ≠ '&' ∧ c.toNat ≠ 0 ∧ c ≠ '\r')
    (hlink : ∀ c ∈ link, c ≠ '"' ∧ c ≠ '&' ∧ c.toNat ≠ 0 ∧ c ≠ '\r') :
    ("<div class=\"event-chip\" style=\"".toList ++
      (("background:".toList ++ (color ++
          "20;position:relative;display:flex;align-items:center;".toList)) ++
        ("\" data-id=\"".toList ++ (id ++ ("\" title=\"".toList ++ (link ++
          ("\">".toList ++ rest))))))).foldlM parseStep
        { tok := TokState.data, stack := [base] } =
      rest.foldlM parseStep
        { tok := TokState.data, stack := [chipFrame color id link [], base] } := by
  have hstyle : ∀ c ∈ "background:".toList ++ (color ++
      "20;position:relative;display:flex;align-items:center;".toList),
      c ≠ '"' ∧ c ≠ '&' ∧ c.toNat ≠ 0 ∧ c ≠ '\r' := by
    intro c hc
    rcases List.mem_append.mp hc with h | h
    · exact (by decide : ∀ c ∈ "background:".toList,
        c ≠ '"' ∧ c ≠ '&' ∧ c.toNat ≠ 0 ∧ c ≠ '\r') c h
    · rcases List.mem_append.mp h with h | h
      · exact hcolor c h
      · exact (by decide : ∀ c ∈ "20;position:relative;display:flex;align-items:center;".toList,
          c ≠ '"' ∧ c ≠ '&' ∧ c.toNat ≠ 0 ∧ c ≠ '\r') c h
  refine (parse_append _ _ _ _ (?_ : _ = some
    { tok := TokState.attrValueDq
        { isEnd := false, name := "div".toList, attrs := [("class".toList, "event-chip".toList)] }
        "style".toList [], stack := [base] })).trans ?_
  · rfl
  refine (parse_append _ _ _ _ (parse_value _ hstyle _ _ _ _)).trans ?_
  refine (parse_append _ _ _ _ (?_ : _ = some
    { tok := TokState.attrValueDq
        { isEnd := false, name := "div".toList,
          attrs := [("class".toList, "event-chip".toList),
            ("style".toList, [] ++ ("background:".toList ++ (color ++
              "20;position:relative;display:flex;align-items:center;".toList)))] }
        "data-id".toList [], stack := [base] })).trans ?_
  · rfl
  refine (parse_append _ _ _ _ (parse_value _ hid _ _ _ _)).trans ?_
  refine (parse_append _ _ _ _ (?_ : _ = some
    { tok := TokState.attrValueDq
        { isEnd := false, name := "div".toList,
          attrs := [("class".toList, "event-chip".toList),
            ("style".toList, [] ++ ("background:".toList ++ (color ++
              "20;position:relative;display:flex;align-items:center;".toList))),
            ("data-id".toList, [] ++ id)] }
        "title".toList [], stack := [base] })).trans ?_
  · rfl
  refine (parse_append _ _ _ _ (parse_value _ hlink _ _ _ _)).trans ?_
  refine (parse_append _ _ _ _ (seg_close _ _ _ _
    { tok := TokState.data, stack := [chipFrame color id link [], base] } ?_)).trans ?_
  · rfl
  rfl

theorem parse_chip_bar (color id link : List Char) (rest : List Char) (base : OpenElement)
    (hcolor : ∀ c ∈ color, c ≠ '"' ∧ c ≠ '&' ∧ c.toNat ≠ 0 ∧ c ≠ '\r') :
    ("\n            ".toList ++ ("<span style=\"".toList ++
      (("display:inline-block;width:6px;height:80%;background:".toList ++ (color ++
          ";border-radius:3px;margin-right:7px;".toList)) ++
        ("\">".toList ++ ("</span>".toList ++ ("\n            ".toList ++
          ("<span style=\"flex:1;\">".toList ++ rest))))))).foldlM parseStep
        { tok := TokState.data, stack := [chipFrame color id link [], base] } =
      rest.foldlM parseStep
        { tok := TokState.data,
          stack := [titleFrame [],
            chipFrame color id link "\n            \n            ".toList, base] } := by
  have hws : ∀ c ∈ "\n            ".toList, c ≠ '<' ∧ c ≠ '&' ∧ c.toNat ≠ 0 ∧ c ≠ '\r' := by
    decide
  have hstyle : ∀ c ∈ "display:inline-block;width:6px;height:80%;background:".toList ++
      (color ++ ";border-radius:3px;margin-right:7px;".toList),
      c ≠ '"' ∧ c ≠ '&' ∧ c.toNat ≠ 0 ∧ c ≠ '\r' := by
    intro c hc
    rcases List.mem_append.mp hc with h | h
    · exact (by decide : ∀ c ∈ "display:inline-block;width:6px;height:80%;background:".toList,
        c ≠ '"' ∧ c ≠ '&' ∧ c.toNat ≠ 0 ∧ c ≠ '\r') c h
    · rcases List.mem_append.mp h with h | h
      · exact hcolor c h
      · exact (by decide : ∀ c ∈ ";border-radius:3px;margin-right:7px;".toList,
          c ≠ '"' ∧ c ≠ '&' ∧ c.toNat ≠ 0 ∧ c ≠ '\r') c h
  refine (parse_append _ _ _ _ (parse_text _ hws _ _)).trans ?_
  refine (parse_append _ _ _ _ (?_ : _ = some
    { tok := TokState.attrValueDq { isEnd := false, name := "span".toList, attrs := [] }
        "style".toList [],
      stack := [chipFrame color id link "\n            ".toList, base] })).trans ?_
  · rfl
  refine (parse_append _ _ _ _ (parse_value _ hstyle _ _ _ _)).trans ?_
  refine (parse_append _ _ _ _ (seg_close _ _ _ _
    { tok := TokState.data,
      stack := [{ name := "span".toList,
                  attrs := [("style".toList,
                    "display:inline-block;width:6px;height:80%;background:".toList ++ (color ++
                      ";border-radius:3px;margin-right:7px;".toList))],
                  text := [], chips := [] },
        chipFrame color id link "\n            ".toList, base] } ?_)).trans ?_
  · rfl
  refine (parse_append _ _ _ _ (?_ : _ = some
    { tok := TokState.data,
      stack := [chipFrame color id link "\n            ".toList, base] })).trans ?_
  · rfl
  refine (parse_append _ _ _ _ (parse_text _ hws _ _)).trans ?_
  refine (parse_append _ _ _ _ (?_ : _ = some
    { tok := TokState.data,
      stack := [titleFrame [],
        chipFrame color id link "\n            \n            ".toList, base] })).trans ?_
  · rfl
  rfl

theorem parse_chip_anchor (color id link title : List Char) (rest : List Char)
    (base : OpenElement) (pre : List Char)
    (hlink : ∀ c ∈ link, c ≠ '"' ∧ c ≠ '&' ∧ c.toNat ≠ 0 ∧ c ≠ '\r') :
    ("<a href=\"".toList ++ (link ++
      ("\" target=\"_blank\" style=\"margin-left:6px;color:#fff;text-decoration:none;\" title=\"Open link\">🔗</a>".toList ++
        rest))).foldlM parseStep
        { tok := TokState.data,
          stack := [titleFrame title, chipFrame color id link pre, base] } =
      rest.foldlM parseStep
        { tok := TokState.data,
          stack := [titleFrame (title ++ ['🔗']), chipFrame color id link pre, base] } := by
  refine (parse_append _ _ _ _ (?_ : _ = some
    { tok := TokState.attrValueDq { isEnd := false, name := "a".toList, attrs := [] }
        "href".toList [],
      stack := [titleFrame title, chipFrame color id link pre, base] })).trans ?_
  · rfl
  refine (parse_append _ _ _ _ (parse_value _ hlink _ _ _ _)).trans ?_
  refine (parse_append _ _ _ _ (?_ : _ = some
    { tok := TokState.data,
      stack := [titleFrame (title ++ ['🔗']), chipFrame color id link pre, base] })).trans ?_
  · rfl
  rfl

theorem parse_chip_tail (color id link text : List Char) (base : OpenElement) :
    ("</span>".toList ++ ("\n          ".toList ++ "</div>".toList)).foldlM parseStep
        { tok := TokState.data,
          stack := [titleFrame text,
            chipFrame color id link "\n            \n            ".toList, base] } =
      some { tok := TokState.data,
             stack := [{ base with
               text := base.text ++
                 (("\n            \n            ".toList ++ text) ++ "\n          ".toList)
               chips := base.chips ++
                 [{ attrs :=
                      [("class", "event-chip"),
                       ("style", String.mk ("background:".toList ++ (color ++
                          "20;position:relative;display:flex;align-items:center;".toList))),
                       ("data-id", String.mk id), ("title", String.mk link)]
                    text := String.mk
                      (("\n            \n            ".toList ++ text) ++
                        "\n          ".toList) }] }] } := by
  have hws : ∀ c ∈ "\n          ".toList, c ≠ '<' ∧ c ≠ '&' ∧ c.toNat ≠ 0 ∧ c ≠ '\r' := by
    decide
  refine (parse_append _ _ _ _ (?_ : _ = some
    { tok := TokState.data,
      stack := [chipFrame color id link ("\n            \n            ".toList ++ text),
        base] })).trans ?_
  · rfl
  refine (parse_append _ _ _ _ (parse_text _ hws _ _)).trans ?_
  rfl

theorem plain_of_all {p : Char → Bool} {s : String} (h : s.toList.all p = true) :
    ∀ c ∈ s.toList, p c = true := by
  intro c hc
  exact List.all_eq_true.mp h c hc

theorem plainValue_spec {s : String} (h : isPlainValue s = true) :
    ∀ c ∈ s.toList, c ≠ '"' ∧ c ≠ '&' ∧ c.toNat ≠ 0 ∧ c ≠ '\r' := by
  intro c hc
  have := plain_of_all h c hc
  simpa using this

theorem plainText_spec {s : String} (h : isPlainText s = true) :
    ∀ c ∈ s.toList, c ≠ '<' ∧ c ≠ '&' ∧ c.toNat ≠ 0 ∧ c ≠ '\r' := by
  intro c hc
  have := plain_of_all h c hc
  simpa using this

theorem monthChipMarkup_toList (cals : List CalendarDefinition) (ev : CalendarEvent) :
    (monthChipMarkup cals ev).toList =
      if ev.link ≠ "" then
        chipMarkupLinked (chipColor cals ev).toList ev.id.toList ev.link.toList ev.title.toList
      else
        chipMarkupPlain (chipColor cals ev).toList ev.id.toList ev.link.toList
          ev.title.toList := by
  unfold monthChipMarkup chipMarkupLinked chipMarkupPlain
  by_cases h : ev.link ≠ ""
  · simp only [if_pos h, String.toList, String.data_append, List.append_assoc]
    rfl
  · have h' : ev.link = "" := by simpa using h
    simp only [if_neg h, h', String.toList, String.data_append, List.append_assoc]
    rfl

theorem parse_chipMarkupLinked (color id link title : List Char)
    (hcolor : ∀ c ∈ color, c ≠ '"' ∧ c ≠ '&' ∧ c.toNat ≠ 0 ∧ c ≠ '\r')
    (hid : ∀ c ∈ id, c ≠ '"' ∧ c ≠ '&' ∧ c.toNat ≠ 0 ∧ c ≠ '\r')
    (hlink : ∀ c ∈ link, c ≠ '"' ∧ c ≠ '&' ∧ c.toNat ≠ 0 ∧ c ≠ '\r')
    (htitle : ∀ c ∈ title, c ≠ '<' ∧ c ≠ '&' ∧ c.toNat ≠ 0 ∧ c ≠ '\r') :
    (chipMarkupLinked color id link title).foldlM parseStep
        { tok := TokState.data, stack := [emptyContainer] } =
      some (chipParsed color id link (title ++ ['🔗'])) := by
  refine (parse_chip_head color id link _ emptyContainer hcolor hid hlink).trans ?_
  refine (parse_chip_bar color id link _ emptyContainer hcolor).trans ?_
  refine (parse_append _ _ _ _ (parse_text _ htitle _ _)).trans ?_
  refine (parse_chip_anchor color id link ([] ++ title) _ emptyContainer _ hlink).trans ?_
  exact parse_chip_tail color id link _ emptyContainer

theorem parse_chipMarkupPlain (color id link title : List Char)
    (hcolor : ∀ c ∈ color, c ≠ '"' ∧ c ≠ '&' ∧ c.toNat ≠ 0 ∧ c ≠ '\r')
    (hid : ∀ c ∈ id, c ≠ '"' ∧ c ≠ '&' ∧ c.toNat ≠ 0 ∧ c ≠ '\r')
    (hlink : ∀ c ∈ link, c ≠ '"' ∧ c ≠ '&' ∧ c.toNat ≠ 0 ∧ c ≠ '\r')
    (htitle : ∀ c ∈ title, c ≠ '<' ∧ c ≠ '&' ∧ c.toNat ≠ 0 ∧ c ≠ '\r') :
    (chipMarkupPlain color id link title).foldlM parseStep
        { tok := TokState.data, stack := [emptyContainer] } =
      some (chipParsed color id link title) := by
  refine (parse_chip_head color id link _ emptyContainer hcolor hid hlink).trans ?_
  refine (parse_chip_bar color id link _ emptyContainer hcolor).trans ?_
  refine (parse_append _ _ _ _ (parse_text _ htitle _ _)).trans ?_
  exact parse_chip_tail color id link ([] ++ title) emptyContainer

theorem parseEnd_chipParsed (color id link text : List Char) :
    parseEnd (chipParsed color id link text) =
      some { text := String.mk
               (("\n            \n            ".toList ++ text) ++ "\n          ".toList)
             chips :=
               [{ attrs :=
                    [("class", "event-chip"),
                     ("style", String.mk ("background:".toList ++ (color ++
                        "20;position:relative;display:flex;align-items:center;".toList))),
                     ("data-id", String.mk id), ("title", String.mk link)]
                  text := String.mk
                    (("\n            \n            ".toList ++ text) ++
                      "\n          ".toList) }] } := by
  rfl

/-- The markup of the chip of an event whose texts hold no markup is parsed
into one element of class `event-chip`, with the attributes and the text
content of `chipElement`. -/
theorem parse_monthChip (cals : List CalendarDefinition) (ev : CalendarEvent)
    (hcolor : isPlainValue (chipColor cals ev) = true) (hid : isPlainValue ev.id = true)
    (hlink : isPlainValue ev.link = true) (htitle : isPlainText ev.title = true) :
    parseMarkup (monthChipMarkup cals ev) =
      some { text := (chipElement (monthChip cals ev)).text,
             chips := [chipElement (monthChip cals ev)] } := by
  unfold parseMarkup
  rw [monthChipMarkup_toList]
  by_cases h : ev.link ≠ ""
  · rw [if_pos h]
    have := parse_chipMarkupLinked _ _ _ _ (plainValue_spec hcolor) (plainValue_spec hid)
      (plainValue_spec hlink) (plainText_spec htitle)
    unfold emptyContainer at this
    rw [this, Option.some_bind, parseEnd_chipParsed]
    have e1 : String.mk (("\n            \n            ".toList ++ (ev.title.toList ++ ['🔗'])) ++
        "\n          ".toList) = (chipElement (monthChip cals ev)).text := by
      simp only [chipElement, monthChip, if_pos h]
      apply String.ext
      simp only [String.data_append, List.append_assoc, String.toList]
    have e2 : String.mk ("background:".toList ++ ((chipColor cals ev).toList ++
        "20;position:relative;display:flex;align-items:center;".toList)) =
        "background:" ++ chipColor cals ev ++
          "20;position:relative;display:flex;align-items:center;" := by
      apply String.ext
      simp only [String.data_append, List.append_assoc, String.toList]
    rw [e1, e2]
    rfl
  · rw [if_neg h]
    have := parse_chipMarkupPlain _ _ _ _ (plainValue_spec hcolor) (plainValue_spec hid)
      (plainValue_spec hlink) (plainText_spec htitle)
    unfold emptyContainer at this
    rw [this, Option.some_bind, parseEnd_chipParsed]
    have e1 : String.mk (("\n            \n            ".toList ++ ev.title.toList) ++
        "\n          ".toList) = (chipElement (monthChip cals ev)).text := by
      simp only [chipElement, monthChip, if_neg h]
      apply String.ext
      simp only [String.data_append, List.append_assoc, String.toList]
      rfl
    have e2 : String.mk ("background:".toList ++ ((chipColor cals ev).toList ++
        "20;position:relative;display:flex;align-items:center;".toList)) =
        "background:" ++ chipColor cals ev ++
          "20;position:relative;display:flex;align-items:center;" := by
      apply String.ext
      simp only [String.data_append, List.append_assoc, String.toList]
    rw [e1, e2]
    rfl

theorem chipColor_plain (cals : List CalendarDefinition) (ev : CalendarEvent)
    (hcolor : ∀ c ∈ cals, isPlainValue c.color = true) :
    isPlainValue (chipColor cals ev) = true := by
  unfold chipColor
  cases h : cals.find? fun c => c.id = ev.calendar with
  | none => decide
  | some cal => exact hcolor cal (List.mem_of_find?_eq_some h)

theorem cssStringValue_date (d : String) (h : isDateText d = true) :
    cssStringValue d = some d := by
  unfold cssStringValue
  rw [if_pos]
  rw [List.all_eq_true]
  intro c hc
  have hd := plain_of_all h c hc
  have hcases : c.isDigit = true ∨ c = '-' := by simpa using hd
  have hne : ∀ k : Char, k.isDigit = false → k ≠ '-' → c ≠ k := by
    intro k hk1 hk2 hck
    rcases hcases with h1 | h1
    · rw [hck, hk1] at h1; cases h1
    · exact hk2 (hck.symm.trans h1)
  have hnat : ∀ n : Nat, n < 45 → c.toNat ≠ n := by
    intro n hn hcn
    rcases hcases with h1 | h1
    · have : 48 ≤ c.toNat := by
        simp only [Char.isDigit, Bool.and_eq_true, decide_eq_true_eq] at h1
        exact h1.1
      omega
    · rw [h1] at hcn
      have : ('-' : Char).toNat = 45 := rfl
      omega
  have r1 := hne '"' (by decide) (by decide)
  have r2 := hne '\\' (by decide) (by decide)
  have r3 := hne '\n' (by decide) (by decide)
  have r4 := hne '\r' (by decide) (by decide)
  have r5 := hnat 12 (by omega)
  have r6 := hnat 0 (by omega)
  simp [r1, r2, r3, r4, r5, r6]

theorem contentOf_append (chips : List EventChip) (chip : EventChip) :
    contentOf (chips ++ [chip]) =
      { text := (contentOf chips).text ++ (chipElement chip).text,
        chips := (contentOf chips).chips ++ [chipElement chip] } := by
  unfold contentOf
  simp only [List.foldl_append, List.foldl_cons, List.foldl_nil, List.map_append, List.map_cons,
    List.map_nil]

theorem appendToCell_toDom (cals : List CalendarDefinition) (ev : CalendarEvent) (date : String)
    (hparse : parseMarkup (monthChipMarkup cals ev) =
      some { text := (chipElement (monthChip cals ev)).text,
             chips := [chipElement (monthChip cals ev)] }) :
    ∀ cells : List MonthCell,
      appendToCell date (monthChipMarkup cals ev) (cells.map MonthCell.toDom) =
        some ((addMonthChip date (monthChip cals ev) cells).map MonthCell.toDom) := by
  intro cells
  induction cells with
  | nil => rfl
  | cons c cs ih =>
    cases c with
    | blank =>
      show (appendToCell date (monthChipMarkup cals ev) (cs.map MonthCell.toDom)).map _ = _
      rw [ih]
      rfl
    | day D t n events =>
      by_cases hD : D = date
      · have e1 : addMonthChip date (monthChip cals ev) (MonthCell.day D t n events :: cs) =
            MonthCell.day D t n (events ++ [monthChip cals ev]) :: cs := by
          show (if D = date then _ else _) = _
          rw [if_pos hD]
        rw [e1]
        show (if D = date then _ else _) = _
        rw [if_pos hD]
        unfold appendMarkup
        rw [hparse]
        simp only [Option.map_some', List.map_cons, MonthCell.toDom, contentOf_append]
      · have e1 : addMonthChip date (monthChip cals ev) (MonthCell.day D t n events :: cs) =
            MonthCell.day D t n events :: addMonthChip date (monthChip cals ev) cs := by
          show (if D = date then _ else _) = _
          rw [if_neg hD]
        rw [e1]
        show (if D = date then _ else _) = _
        rw [if_neg hD, ih]
        rfl

theorem renderEventsMonthDom_fold (cals : List CalendarDefinition)
    (hcolor : ∀ c ∈ cals, isPlainValue c.color = true) :
    ∀ (events : List CalendarEvent) (acc : List MonthCell),
      (∀ ev ∈ events, isPlainText ev.title = true ∧ isPlainValue ev.link = true ∧
        isPlainValue ev.id = true ∧ isDateText ev.date = true) →
      events.foldlM
          (fun acc ev =>
            if ev.calendar ∈ activeCals cals then addMonthChipDom cals ev acc else some acc)
          (acc.map MonthCell.toDom) =
        some ((events.foldl
          (fun acc ev =>
            if ev.calendar ∈ activeCals cals then addMonthChip ev.date (monthChip cals ev) acc
            else acc) acc).map MonthCell.toDom) := by
  intro events
  induction events with
  | nil => intro acc _; rfl
  | cons ev events ih =>
    intro acc h
    obtain ⟨ht, hl, hi, hd⟩ := h ev (List.mem_cons_self ev events)
    have hrest := fun e he => h e (List.mem_cons_of_mem ev he)
    rw [List.foldlM_cons, List.foldl_cons]
    by_cases ha : ev.calendar ∈ activeCals cals
    · rw [if_pos ha, if_pos ha]
      have hp := parse_monthChip cals ev (chipColor_plain cals ev hcolor) hi hl ht
      have hstep : addMonthChipDom cals ev (acc.map MonthCell.toDom) =
          some ((addMonthChip ev.date (monthChip cals ev) acc).map MonthCell.toDom) := by
        unfold addMonthChipDom
        rw [cssStringValue_date ev.date hd, Option.some_bind]
        exact appendToCell_toDom cals ev ev.date hp acc
      rw [hstep]
      exact ih _ hrest
    · rw [if_neg ha, if_neg ha]
      exact ih _ hrest

/-- For events whose texts hold no markup the document that
`renderMonthView` leaves is the structured month view, each chip being the
element `chipElement` describes. -/
theorem renderMonthViewDom_eq (app : App) (now : Int)
    (hev : ∀ ev ∈ app.calendarEvents, isPlainText ev.title = true ∧
      isPlainValue ev.link = true ∧ isPlainValue ev.id = true ∧ isDateText ev.date = true)
    (hcolor : ∀ c ∈ app.calendarList, isPlainValue c.color = true) :
    renderMonthViewDom app now = some ((renderMonthView app now).map MonthCell.toDom) := by
  unfold renderMonthViewDom renderMonthView renderEventsMonthDom renderEventsMonth
  simp only
  rw [← renderEventsMonthDom_fold app.calendarList hcolor app.calendarEvents _ hev]
  congr 1
  simp only [List.map_map]
  apply List.map_congr_left
  intro c _
  cases c <;> rfl

/-- C11, counterexample: an event is saved with the quick adder under the
title `<div class="event-chip">x</div>`, on 2024-03-04 in the checked default
calendar, and March 2024 is shown in month view. The title is written into
the markup as it is, the parser makes an element of it, and the cell of
2024-03-04 holds two elements of class `event-chip` for the one event: the
chip of the event and, inside it, one without `data-id`. Second part: an
event saved with the link `"><div class="event-chip"></div><span x="`. The
link ends the `title` attribute and the tag, and the cell holds three
elements of class `event-chip` for the one event. -/
theorem markup_in_title_adds_chips :
    (quickSave (parseTable [[markupTitleEvent]]) 1709542800000 emptyApp
        { title := "<div class=\"event-chip\">x</div>", date := "2024-03-04", hour := "9",
          link := "", desc := "" }).app.calendarEvents = [markupTitleEvent] ∧
    (renderMonthViewDom (marchApp [markupTitleEvent]) 19786).map (chipsOn "2024-03-04") =
      some [[(some "ev1709542800000", "\n            \n            x\n          "),
             (none, "x")]] ∧
    (quickSave (parseTable [[markupLinkEvent]]) 1709542800000 emptyApp
        { title := "Standup", date := "2024-03-04", hour := "9",
          link := "\"><div class=\"event-chip\"></div><span x=\"", desc := "" }).app.calendarEvents =
      [markupLinkEvent] ∧
    (renderMonthViewDom (marchApp [markupLinkEvent]) 19786).map (chipsOn "2024-03-04") =
      some [[(some "ev1709542800000", "\n            \n            Standup🔗\n          "),
             (none, ""), (none, "")]] := by
  refine ⟨by decide, by decide, by decide, by decide⟩

/-- C11, amended: in month view, for every calendar list and displayed
(year, month) and every event collection whose titles hold no `<` and no `&`
and whose links hold no `"` and no `&` (the ids, the dates, which are made of
digits and hyphens, and the colours of the calendars hold no such character
either), the document has the 42 cells of the month grid, a day cell carries
the date `year-pad(month+1)-pad(day)`, and the elements of class `event-chip`
inside the day cell of date D are the chips of exactly the events whose date
is D and whose calendar id is the id of a checked calendar, one chip per
event, in the order of the collection: the chip of an event carries the id of
the event as `data-id` and its link as `title`, and its text is the title of
the event, followed by the link mark when the event has a link, between the
white space of the markup. A padding cell has no chip, and an event of a
calendar that is not checked has no chip anywhere. -/
theorem monthView_chips (app : App) (now : Int)
    (htitle : ∀ ev ∈ app.calendarEvents, isPlainText ev.title = true)
    (hlink : ∀ ev ∈ app.calendarEvents, isPlainValue ev.link = true)
    (hid : ∀ ev ∈ app.calendarEvents, isPlainValue ev.id = true)
    (hdate : ∀ ev ∈ app.calendarEvents, isDateText ev.date = true)
    (hcolor : ∀ c ∈ app.calendarList, isPlainValue c.color = true) :
    ∃ cells, renderMonthViewDom app now = some cells ∧
      cells.map MonthCellDom.date =
        (monthCells app.state.year app.state.month).map
          (Option.map (monthDataDate app.state.year app.state.month)) ∧
      cells.map (fun cell => cell.chips.map fun chip =>
          (chip.attr "class", chip.attr "data-id", chip.attr "title", chip.text)) =
        (monthCells app.state.year app.state.month).map (fun c =>
          c.elim []
            (fun day =>
              (app.calendarEvents.filter fun ev =>
                decide (∃ c ∈ app.calendarList, c.checked = true ∧ c.id = ev.calendar) &&
                  decide (ev.date = monthDataDate app.state.year app.state.month day)).map
                fun ev =>
                  (some "event-chip", some ev.id, some ev.link,
                    "\n            \n            " ++ ev.title ++
                      (if ev.link ≠ "" then "🔗" else "") ++ "\n          "))) := by
  obtain ⟨h1, h2, h3⟩ := monthView_structured app now
  refine ⟨_, renderMonthViewDom_eq app now
    (fun ev he => ⟨htitle ev he, hlink ev he, hid ev he, hdate ev he⟩) hcolor, ?_, ?_⟩
  · rw [← h1, List.map_map]
    apply List.map_congr_left
    intro c _
    cases c <;> rfl
  · have e : ((renderMonthView app now).map MonthCell.toDom).map (fun cell =>
        cell.chips.map fun chip =>
          (chip.attr "class", chip.attr "data-id", chip.attr "title", chip.text)) =
        ((renderMonthView app now).map monthCellChips).map (fun chips =>
          chips.map fun chip =>
            (some "event-chip", some chip.dataId, some chip.link,
              "\n            \n            " ++ chip.text ++
                (if chip.link ≠ "" then "🔗" else "") ++ "\n          ")) := by
      rw [List.map_map, List.map_map]
      apply List.map_congr_left
      intro c _
      cases c with
      | blank => rfl
      | day D t n events =>
        show (contentOf events).chips.map _ = events.map _
        unfold contentOf
        simp only [List.map_map]
        apply List.map_congr_left
        intro chip _
        rfl
    rw [e, h2, List.map_map]
    apply List.map_congr_left
    intro c _
    cases c with
    | none => rfl
    | some day =>
      simp only [Function.comp, Option.elim, h3, List.map_map]
      rfl

/-- C11, witness: the Standup calendar in month view on March 2024. -/
theorem monthView_chips_witness :
    ∃ cells, renderMonthViewDom (marchApp [standupEvent]) 19786 = some cells ∧
      cells.map MonthCellDom.date =
        (monthCells 2024 2).map (Option.map (monthDataDate 2024 2)) :=
  (monthView_chips (marchApp [standupEvent]) 19786 (by decide) (by decide) (by decide)
    (by decide) (by decide)).imp fun _ h => ⟨h.1, h.2.1⟩

end Calendar
